import Mathlib

/-!
# EPICS motor record (`motorApp/MotorSrc/motorRecord.cc`, version 5.4)

A shallow embedding of the record-support routines of the motor record and
the properties established about them.

Conventions of the embedding.

* C `double`/`float` fields are exact rationals (`ℚ`); C integer fields are
  `ℤ`; fields that the code only ever tests for zero/non-zero are `Bool`.
* `pmr->mip` is the 16-bit mask of the source, kept as a natural number and
  manipulated with the bitwise operators, exactly as in the C text.
* The `MARK`/`UNMARK` bit-fields `mmap`/`nmap` are records of booleans, one
  per declared bit.
* Device support (`start_trans`/`build_trans`/`end_trans`), `db_post_events`
  and the other calls that leave the record are recorded as a list of
  `Effect`s, in program order.  What device support and links hand back to
  the record is an explicit input (`Env`).
-/

namespace Motor

/-! ## Motion-in-progress bits -/

def MIP_DONE : ℕ := 0x0000
def MIP_JOGF : ℕ := 0x0001
def MIP_JOGR : ℕ := 0x0002
def MIP_JOG_BL1 : ℕ := 0x0004
def MIP_HOMF : ℕ := 0x0008
def MIP_HOMR : ℕ := 0x0010
def MIP_HOME : ℕ := MIP_HOMF ||| MIP_HOMR
def MIP_MOVE : ℕ := 0x0020
def MIP_RETRY : ℕ := 0x0040
def MIP_LOAD_P : ℕ := 0x0080
def MIP_MOVE_BL : ℕ := 0x0100
def MIP_STOP : ℕ := 0x0200
def MIP_DELAY_REQ : ℕ := 0x0400
def MIP_DELAY_ACK : ℕ := 0x0800
def MIP_DELAY : ℕ := MIP_DELAY_REQ ||| MIP_DELAY_ACK
def MIP_JOG_REQ : ℕ := 0x1000
def MIP_JOG_STOP : ℕ := 0x2000
def MIP_JOG_BL2 : ℕ := 0x4000
def MIP_JOG : ℕ := MIP_JOGF ||| MIP_JOGR ||| MIP_JOG_BL1 ||| MIP_JOG_BL2

/-- The C expression `mip & ~bits` stored back into the 16-bit field. -/
def mipClear (mip bits : ℕ) : ℕ := mip &&& (0xFFFF ^^^ bits)

/-- The C truth value of `mip & bits`. -/
def mipHas (mip bits : ℕ) : Bool := (mip &&& bits) != 0

/-! ## Menus and small types -/

inductive motorSPMG where
  | Stop | Pause | Move | Go
  deriving DecidableEq, Repr

inductive motorSTUP where
  | OFF | ON | BUSY
  deriving DecidableEq, Repr

inductive motorDIR where
  | Pos | Neg
  deriving DecidableEq, Repr

inductive menuOmsl where
  | supervisory | closed_loop
  deriving DecidableEq, Repr

inductive LinkType where
  | CONSTANT | PV_LINK | DB_LINK | CA_LINK | VME_IO
  deriving DecidableEq, Repr

inductive RTN_STATUS where
  | OK | ERROR
  deriving DecidableEq, Repr

inductive ProcessReason where
  | NOTHING_DONE | CALLBACK_DATA
  deriving DecidableEq, Repr

/-- Motor commands handed to `build_trans`. -/
inductive motor_cmnd where
  | MOVE_ABS | MOVE_REL | HOME_FOR | HOME_REV | LOAD_POS | SET_VEL_BASE
  | SET_VELOCITY | SET_ACCEL | GO | SET_ENC_RATIO | GET_INFO | STOP_AXIS
  | JOG | SET_PGAIN | SET_IGAIN | SET_DGAIN | ENABLE_TORQUE | DISABL_TORQUE
  | PRIMITIVE | SET_HIGH_LIMIT | SET_LOW_LIMIT | JOG_VELOCITY
  deriving DecidableEq, Repr

/-- One `WRITE_MSG(cmd, parms)`; `parms` is empty for a `NULL` pointer. -/
structure Msg where
  cmd : motor_cmnd
  parms : List ℚ
  deriving DecidableEq, Repr

/-- Fields posted one by one with `db_post_events`. -/
inductive Fld where
  | rdbd | homf | homr | dmov | frac | vmax | smax | vbas | sbas | velo | s
  | sbak | bvel | jvel | hvel | stup
  deriving DecidableEq, Repr

/-- Bits of the controller status word `msta` that the record reads. -/
structure msta_field where
  RA_DIRECTION : Bool := false
  RA_DONE : Bool := false
  RA_PLUS_LS : Bool := false
  RA_HOME : Bool := false
  EA_PRESENT : Bool := false
  EA_HOME : Bool := false
  RA_PROBLEM : Bool := false
  RA_MINUS_LS : Bool := false
  GAIN_SUPPORT : Bool := false
  CNTRL_COMM_ERR : Bool := false
  deriving DecidableEq, Repr

/-- Bit field for `mmap`. -/
structure mmap_field where
  M_VAL : Bool := false
  M_DVAL : Bool := false
  M_HLM : Bool := false
  M_LLM : Bool := false
  M_DMOV : Bool := false
  M_SPMG : Bool := false
  M_RCNT : Bool := false
  M_MRES : Bool := false
  M_ERES : Bool := false
  M_UEIP : Bool := false
  M_URIP : Bool := false
  M_LVIO : Bool := false
  M_RVAL : Bool := false
  M_RLV : Bool := false
  M_OFF : Bool := false
  M_RBV : Bool := false
  M_DHLM : Bool := false
  M_DLLM : Bool := false
  M_DRBV : Bool := false
  M_RDBD : Bool := false
  M_MOVN : Bool := false
  M_HLS : Bool := false
  M_LLS : Bool := false
  M_RRBV : Bool := false
  M_RMP : Bool := false
  M_REP : Bool := false
  M_MSTA : Bool := false
  M_ATHM : Bool := false
  M_TDIR : Bool := false
  M_MIP : Bool := false
  M_DIFF : Bool := false
  M_RDIF : Bool := false
  deriving DecidableEq, Repr

/-- Bit field for `nmap`. -/
structure nmap_field where
  M_S : Bool := false
  M_SBAS : Bool := false
  M_SBAK : Bool := false
  M_SREV : Bool := false
  M_UREV : Bool := false
  M_VELO : Bool := false
  M_VBAS : Bool := false
  M_BVEL : Bool := false
  M_MISS : Bool := false
  M_ACCL : Bool := false
  M_BACC : Bool := false
  M_STUP : Bool := false
  deriving DecidableEq, Repr

/-- Alarm statuses raised by `alarm_sub`. -/
inductive AlarmStat where
  | UDF_ALARM | HIGH_ALARM | LOW_ALARM | COMM_ALARM
  deriving DecidableEq, Repr

/-- Calls that leave the record, in program order. -/
inductive Effect where
  /-- The commands between `INIT_MSG()` and `SEND_MSG()` -/
  | transaction (msgs : List Msg)
  /-- A call of `db_post_events` on one field -/
  | post (f : Fld)
  /-- The call `(*pdset->update_values)(pmr)` -/
  | update_values
  /-- The call `callbackRequestDelayed(..., dly)` -/
  | delayed_callback (dly : ℚ)
  /-- The call `scanOnce(pmr)` -/
  | scan_once
  /-- The call `dbPutLink(&pmr->rlnk, ..., &pmr->rbv, 1)` -/
  | put_rlnk (rbv : ℚ)
  /-- The call `recGblFwdLink(pmr)` -/
  | fwd_link
  /-- The call `recGblGetTimeStamp(pmr)` -/
  | timestamp
  /-- A call of `recGblSetSevr` made by `alarm_sub` -/
  | set_sevr (stat : AlarmStat)
  /-- The call `post_MARKed_fields` made by `monitor`, with the marks it posts -/
  | post_marked (mmap : mmap_field) (nmap : nmap_field)
  deriving DecidableEq, Repr

/-- The command transactions among a list of effects. -/
def transactions : List Effect → List (List Msg)
  | [] => []
  | Effect.transaction m :: es => m :: transactions es
  | _ :: es => transactions es

/-- The fields of `motorRecord` that the record support reads or writes. -/
structure motorRecord where
  -- record housekeeping
  pact : Bool := false
  udf : Bool := false
  mmap : mmap_field := {}
  nmap : nmap_field := {}
  -- drive fields and their last-commanded copies
  val : ℚ := 0
  dval : ℚ := 0
  rval : ℤ := 0
  lval : ℚ := 0
  ldvl : ℚ := 0
  lrvl : ℤ := 0
  rlv : ℚ := 0
  lrlv : ℚ := 0
  twv : ℚ := 0
  twf : Bool := false
  twr : Bool := false
  -- readbacks
  rbv : ℚ := 0
  drbv : ℚ := 0
  rrbv : ℤ := 0
  rmp : ℤ := 0
  rep : ℤ := 0
  diff : ℚ := 0
  rdif : ℤ := 0
  msta : msta_field := {}
  -- motion in progress and control
  mip : ℕ := 0
  spmg : motorSPMG := motorSPMG.Go
  lspg : motorSPMG := motorSPMG.Go
  stop : Bool := false
  stup : motorSTUP := motorSTUP.OFF
  set : Bool := false
  foff : Bool := false
  omsl : menuOmsl := menuOmsl.supervisory
  dol_type : LinkType := LinkType.CONSTANT
  ntm : Bool := false
  ueip : Bool := false
  urip : Bool := false
  jogf : Bool := false
  jogr : Bool := false
  homf : Bool := false
  homr : Bool := false
  -- status
  dmov : Bool := true
  movn : Bool := false
  pp : Bool := false
  hls : Bool := false
  lls : Bool := false
  rhls : Bool := false
  rlls : Bool := false
  lvio : Bool := false
  hlsv : Bool := false
  miss : Bool := false
  athm : Bool := false
  tdir : Bool := false
  cdir : Bool := false
  -- resolution, coordinates, limits
  dir : motorDIR := motorDIR.Pos
  off : ℚ := 0
  mres : ℚ := 1
  eres : ℚ := 1
  rres : ℚ := 1
  res : ℚ := 1
  urev : ℚ := 0
  srev : ℤ := 200
  hlm : ℚ := 0
  llm : ℚ := 0
  dhlm : ℚ := 0
  dllm : ℚ := 0
  -- speeds and accelerations
  velo : ℚ := 0
  vbas : ℚ := 0
  vmax : ℚ := 0
  bvel : ℚ := 0
  hvel : ℚ := 0
  jvel : ℚ := 0
  jar : ℚ := 0
  accl : ℚ := 1
  bacc : ℚ := 1
  s : ℚ := 0
  sbas : ℚ := 0
  sbak : ℚ := 0
  smax : ℚ := 0
  -- backlash, retries, settling
  bdst : ℚ := 0
  frac : ℚ := 1
  rdbd : ℚ := 0
  rcnt : ℤ := 0
  rtry : ℤ := 0
  dly : ℚ := 0
  deriving DecidableEq

/-- What a routine hands back: its return value, the record as it leaves it,
and the calls it made. -/
structure Outcome where
  status : RTN_STATUS
  pmr : motorRecord
  eff : List Effect

/-! ## Numeric helpers -/

/-- The C conversion `(long) x`: truncation toward zero. -/
def toLong (x : ℚ) : ℤ := if 0 ≤ x then ⌊x⌋ else ⌈x⌉

/-- Modelled from the spec: the macro `NINT` comes from `motor.h`, which is
not among the sources; the spec describes the dial-to-raw conversion as
`round(dval / mres)`.  Nearest integer, halves away from zero, computed as
the C idiom `(long)(f > 0 ? f + 0.5 : f - 0.5)`. -/
def NINT (f : ℚ) : ℤ := toLong (if 0 < f then f + 1 / 2 else f - 1 / 2)

/-- The integer value of `dir` used by `do_work`: `dir_positive ? 1 : -1`. -/
def dirSign (d : motorDIR) : ℚ := if d = motorDIR.Pos then 1 else -1

/-- Nearest integer, a tie going to the even neighbour. -/
def roundHalfEven (x : ℚ) : ℤ :=
  if x - ⌊x⌋ < 1 / 2 then ⌊x⌋
  else if x - ⌊x⌋ > 1 / 2 then ⌊x⌋ + 1
  else if ⌊x⌋ % 2 = 0 then ⌊x⌋ else ⌊x⌋ + 1

/-- The value with a significand of `p` bits nearest to `x`, a tie going to
the even significand: the rounding of binary floating-point arithmetic in its
normal range (overflow and subnormal values are left out). -/
def roundToPrecision (p : ℕ) (x : ℚ) : ℚ :=
  if x = 0 then 0
  else
    (roundHalfEven (x / 2 ^ (Int.log 2 |x| - ((p : ℤ) - 1))) : ℚ) *
      2 ^ (Int.log 2 |x| - ((p : ℤ) - 1))

/-- The value a C `float` takes when `x` is stored in it: single precision,
a significand of 24 bits. -/
def toFloat (x : ℚ) : ℚ := roundToPrecision 24 x

/-- The value a C `double` takes when `x` is stored in it: double precision,
a significand of 53 bits. -/
def toDouble (x : ℚ) : ℚ := roundToPrecision 53 x

/-! ## enforceMinRetryDeadband -/

/-- `enforceMinRetryDeadband()`: make `RDBD >= |MRES|`.  The local `min_rdbd`
is declared `float`, so it holds `fabs(pmr->mres)` narrowed to single
precision; that value is compared with `rdbd` and stored in it. -/
def enforceMinRetryDeadband (pmr : motorRecord) : motorRecord × List Effect :=
  let min_rdbd := toFloat |pmr.mres|
  if pmr.rdbd < min_rdbd then
    ({ pmr with rdbd := min_rdbd }, [Effect.post Fld.rdbd])
  else
    (pmr, [])

/-! ## maybeRetry -/

/-- `maybeRetry()`: compare target with actual position; if a retry is
indicated, set the record up so that it happens on return. -/
def maybeRetry (pmr : motorRecord) : motorRecord :=
  if |pmr.diff| > pmr.rdbd ∧ ¬ pmr.hls ∧ ¬ pmr.lls then
    if pmr.rtry = 0 then
      { pmr with mip := pmr.mip &&& MIP_JOG_REQ, mmap.M_MIP := true }
    else
      let pmr := { pmr with rcnt := pmr.rcnt + 1 }
      let pmr :=
        if pmr.rcnt > pmr.rtry then
          { pmr with
            mip := MIP_DONE, mmap.M_MIP := true,
            lval := pmr.val, ldvl := pmr.dval, lrvl := pmr.rval,
            miss := true, nmap.M_MISS := true }
        else
          { pmr with
            dmov := false, mmap.M_DMOV := true,
            mip := MIP_RETRY, mmap.M_MIP := true }
      { pmr with mmap.M_RCNT := true }
  else
    let pmr := { pmr with mip := pmr.mip &&& MIP_JOG_REQ, mmap.M_MIP := true }
    let pmr := if pmr.miss then { pmr with miss := false, nmap.M_MISS := true } else pmr
    if pmr.spmg = motorSPMG.Move then
      { pmr with spmg := motorSPMG.Pause, mmap.M_SPMG := true }
    else pmr

/-! ## Limits and position loading -/

/-- `set_userlimits()`: translate dial-coordinate limits to user-coordinate
limits. -/
def set_userlimits (pmr : motorRecord) : motorRecord :=
  let pmr :=
    if pmr.dir = motorDIR.Pos then
      { pmr with hlm := pmr.dhlm + pmr.off, llm := pmr.dllm + pmr.off }
    else
      { pmr with hlm := -pmr.dllm + pmr.off, llm := -pmr.dhlm + pmr.off }
  { pmr with mmap.M_HLM := true, mmap.M_LLM := true }

/-- `load_pos()`: calculate and load a new raw position into the motor
without moving it. -/
def load_pos (pmr : motorRecord) : motorRecord × List Effect :=
  let newpos := pmr.dval / pmr.mres
  let pmr := { pmr with
    ldvl := pmr.dval, lval := pmr.val, rval := toLong newpos, lrvl := toLong newpos }
  let pmr :=
    if pmr.foff then
      let pmr :=
        if pmr.dir = motorDIR.Pos then { pmr with val := pmr.off + pmr.dval }
        else { pmr with val := pmr.off - pmr.dval }
      { pmr with mmap.M_VAL := true, lval := pmr.val }
    else
      let pmr :=
        if pmr.dir = motorDIR.Pos then { pmr with off := pmr.val - pmr.dval }
        else { pmr with off := pmr.val + pmr.dval }
      set_userlimits { pmr with mmap.M_OFF := true }
  let pmr := { pmr with mip := MIP_LOAD_P, mmap.M_MIP := true, pp := true }
  let pmr := if pmr.dmov = true then { pmr with dmov := false, mmap.M_DMOV := true } else pmr
  (pmr, [Effect.transaction [⟨motor_cmnd.LOAD_POS, [newpos]⟩],
         Effect.transaction [⟨motor_cmnd.GET_INFO, []⟩]])

/-! ## do_work -/

/-- How a section of `do_work` ends: with a `return`, or by falling through to
the next section with the record and the calls made so far. -/
inductive Flow where
  | ret (o : Outcome)
  | next (pmr : motorRecord) (eff : List Effect)

/-- The transaction `INIT_MSG(); WRITE_MSG(STOP_AXIS, NULL); SEND_MSG();`. -/
def stopAxis : Effect := Effect.transaction [⟨motor_cmnd.STOP_AXIS, []⟩]

/-- The transaction `INIT_MSG(); WRITE_MSG(GET_INFO, NULL); SEND_MSG();`. -/
def getInfo : Effect := Effect.transaction [⟨motor_cmnd.GET_INFO, []⟩]

/-- The tail of the stop/pause branch: "Cancel any operations." -/
def do_work_cancel (pmr : motorRecord) : Flow :=
  let r : motorRecord × List Effect :=
    if mipHas pmr.mip MIP_HOMF then ({ pmr with homf := false }, [Effect.post Fld.homf])
    else if mipHas pmr.mip MIP_HOMR then ({ pmr with homr := false }, [Effect.post Fld.homr])
    else (pmr, [])
  Flow.ret ⟨RTN_STATUS.OK, { r.1 with mip := MIP_STOP, mmap.M_MIP := true }, r.2 ++ [stopAxis]⟩

/-- First section of `do_work`: the Stop/Pause/Move/Go switch and the stop
button. -/
def do_work_spmg (stop_or_pause : Bool) (pmr : motorRecord) : Flow :=
  if pmr.spmg ≠ pmr.lspg ∨ pmr.stop ≠ false then
    let stop : Bool := pmr.stop
    let pmr := if pmr.spmg ≠ pmr.lspg then { pmr with lspg := pmr.spmg }
               else { pmr with stop := false }
    if stop_or_pause = true ∨ stop = true then
      if pmr.spmg = motorSPMG.Stop ∨ stop = true then
        if pmr.mip = MIP_DONE ∨ pmr.mip = MIP_STOP ∨ pmr.mip = MIP_RETRY then
          let pmr :=
            if pmr.mip = MIP_RETRY then
              { pmr with mip := MIP_DONE, mmap.M_MIP := true, dmov := true, mmap.M_DMOV := true }
            else pmr
          Flow.ret ⟨RTN_STATUS.OK, pmr, [stopAxis]⟩
        else if pmr.movn then
          do_work_cancel { pmr with pp := true, jogf := false, jogr := false }
        else
          do_work_cancel { pmr with
            val := pmr.rbv, lval := pmr.rbv, mmap.M_VAL := true,
            dval := pmr.drbv, ldvl := pmr.drbv, mmap.M_DVAL := true,
            rval := NINT (pmr.drbv / pmr.mres), lrvl := NINT (pmr.drbv / pmr.mres),
            mmap.M_RVAL := true }
      else
        do_work_cancel pmr
    else if pmr.spmg = motorSPMG.Go then
      if (pmr.jogf ∧ ¬ pmr.hls) ∨ (pmr.jogr ∧ ¬ pmr.lls) then
        Flow.next { pmr with mip := MIP_JOG_REQ, mmap.M_MIP := true } []
      else if pmr.mip = MIP_STOP then
        Flow.next { pmr with mip := MIP_DONE, mmap.M_MIP := true } []
      else Flow.next pmr []
    else
      Flow.next { pmr with mip := MIP_DONE, mmap.M_MIP := true, rcnt := 0, mmap.M_RCNT := true } []
  else Flow.next pmr []

/-- The loop `for (m = 10000000; (m > 1) && (fabs(m / eres) > 1.e6 ||
fabs(m / mres) > 1.e6); m /= 10);` started at `m`; the value of `m` on exit. -/
def encRatioScale (eres mres : ℚ) (m : ℤ) : ℤ :=
  if h : m > 1 ∧ (|(m : ℚ) / eres| > 1000000 ∨ |(m : ℚ) / mres| > 1000000) then
    encRatioScale eres mres (m / 10)
  else m
termination_by m.toNat
decreasing_by
  have := h.1
  omega

/-- "Set the encoder ratio": `res` follows `mres`, the guards against a zero
resolution, and the two components of the ratio sent with `SET_ENC_RATIO`. -/
def do_work_encoder (pmr : motorRecord) : motorRecord × List ℚ :=
  let pmr := if pmr.mmap.M_MRES then { pmr with res := pmr.mres } else pmr
  if pmr.msta.EA_PRESENT ∧ pmr.ueip then
    let pmr := if |pmr.mres| < 1 / 1000000000 then
                 { pmr with mres := 1, mmap.M_MRES := true } else pmr
    let pmr := if pmr.eres = 0 then
                 { pmr with eres := pmr.mres, mmap.M_ERES := true } else pmr
    let m := encRatioScale pmr.eres pmr.mres 10000000
    (pmr, [|(m : ℚ) / pmr.eres|, |(m : ℚ) / pmr.mres|])
  else (pmr, [1, 1])

/-- The transaction carrying `SET_ENC_RATIO`, sent when an encoder is
present. -/
def encRatioEffect (pmr : motorRecord) (ep_mp : List ℚ) : List Effect :=
  if pmr.msta.EA_PRESENT then [Effect.transaction [⟨motor_cmnd.SET_ENC_RATIO, ep_mp⟩]] else []

/-- Second section of `do_work`: changes in motor/encoder resolution and in
`ueip`. -/
def do_work_resolution (pmr : motorRecord) : Flow :=
  if pmr.mmap.M_MRES ∨ pmr.mmap.M_ERES ∨ pmr.mmap.M_UEIP then
    let r := do_work_encoder pmr
    let d := enforceMinRetryDeadband r.1
    let e2 := encRatioEffect pmr r.2
    if d.1.set then
      Flow.ret ⟨RTN_STATUS.OK, { d.1 with pp := true }, d.2 ++ e2 ++ [getInfo]⟩
    else
      Flow.ret ⟨RTN_STATUS.OK, (load_pos d.1).1, d.2 ++ e2 ++ (load_pos d.1).2⟩
  else Flow.next pmr []

/-- What the record receives from outside during one pass: the result of
device support's `update_values` and of the link reads and writes. -/
structure Env where
  /-- Return value of `update_values` -/
  reason : ProcessReason := ProcessReason.NOTHING_DONE
  /-- Raw motor position stored by `update_values` -/
  rmp : ℤ := 0
  /-- Raw encoder position stored by `update_values` -/
  rep : ℤ := 0
  /-- Status word stored by `update_values` -/
  msta : msta_field := {}
  /-- Value read by `dbGetLink(&pmr->dol, ...)`; `none` when the read fails -/
  dol : Option ℚ := none
  /-- Value read by `dbGetLink(&pmr->rdbl, ...)`; `none` when the read fails -/
  rdbl : Option ℚ := none
  /-- Status returned by `dbPutLink(&pmr->rlnk, ...)` -/
  rlnk_status : ℤ := 0

/-- The software travel limits are disabled: `dhlm == dllm && dllm == 0`. -/
def limitsDisabled (pmr : motorRecord) : Prop := pmr.dhlm = pmr.dllm ∧ pmr.dllm = 0

instance (pmr : motorRecord) : Decidable (limitsDisabled pmr) := by
  unfold limitsDisabled
  infer_instance

/-- Home request ("Send motor to home switch ..."), entered when the guard
at the head of the block holds. -/
def do_work_home (stop_or_pause : Bool) (pmr : motorRecord) : Outcome :=
  if stop_or_pause = true then
    ⟨RTN_STATUS.OK, { pmr with dmov := false, mmap.M_DMOV := true }, []⟩
  else if ¬ limitsDisabled pmr ∧
      ((pmr.homf ∧ pmr.dval > pmr.dhlm - pmr.velo) ∨
       (pmr.homr ∧ pmr.dval < pmr.dllm + pmr.velo)) then
    ⟨RTN_STATUS.OK, { pmr with lvio := true, mmap.M_LVIO := true }, []⟩
  else
    let pmr := { pmr with
      mip := if pmr.homf then MIP_HOMF else MIP_HOMR, mmap.M_MIP := true, pp := true }
    if pmr.movn then
      ⟨RTN_STATUS.OK, { pmr with mip := pmr.mip ||| MIP_STOP, mmap.M_MIP := true }, [stopAxis]⟩
    else
      let pmr := if pmr.eres = 0 then { pmr with eres := pmr.mres, mmap.M_ERES := true } else pmr
      let vbase := pmr.vbas / |pmr.mres|
      let hvel := pmr.hvel / |pmr.mres|
      let hpos : ℚ := 0
      ⟨RTN_STATUS.OK,
       { pmr with dmov := false, mmap.M_DMOV := true, rcnt := 0, mmap.M_RCNT := true },
       [Effect.transaction
         [⟨motor_cmnd.SET_VEL_BASE, [vbase]⟩, ⟨motor_cmnd.SET_VELOCITY, [hvel]⟩,
          ⟨if mipHas pmr.mip MIP_HOMF then motor_cmnd.HOME_FOR else motor_cmnd.HOME_REV, [hpos]⟩,
          ⟨motor_cmnd.GO, []⟩]]⟩

/-- Jog start ("Jog motor. Move continuously ..."), entered when the guard at
the head of the block holds. -/
def do_work_jog (dir : ℚ) (pmr : motorRecord) : Outcome :=
  if ¬ limitsDisabled pmr ∧
      ((pmr.jogf ∧ pmr.dval > pmr.dhlm - pmr.velo) ∨
       (pmr.jogr ∧ pmr.dval < pmr.dllm + pmr.velo)) then
    ⟨RTN_STATUS.OK, { pmr with lvio := true, mmap.M_LVIO := true }, []⟩
  else
    let pmr := { pmr with mip := if pmr.jogf then MIP_JOGF else MIP_JOGR, mmap.M_MIP := true }
    if pmr.movn then
      ⟨RTN_STATUS.OK,
       { pmr with pp := true, mip := pmr.mip ||| MIP_STOP, mmap.M_MIP := true }, [stopAxis]⟩
    else
      let jogv := (pmr.jvel * dir) / pmr.mres
      let jacc := pmr.jar / |pmr.mres|
      let pmr := { pmr with dmov := false, mmap.M_DMOV := true, pp := true }
      let r : motorRecord × ℚ :=
        if pmr.jogf then ({ pmr with cdir := true }, jogv)
        else ({ pmr with cdir := false }, -jogv)
      let pmr := if r.1.mres < 0 then { r.1 with cdir := !r.1.cdir } else r.1
      ⟨RTN_STATUS.OK, pmr,
       [Effect.transaction [⟨motor_cmnd.SET_ACCEL, [jacc]⟩, ⟨motor_cmnd.JOG, [r.2]⟩]]⟩

/-- "Tweak motor forward (reverse)": `val` moves by `twv`; the two statements
`if (twf) twf = 0; if (twr) twr = 0;` leave both buttons cleared. -/
def do_work_tweak_tw (pmr : motorRecord) : motorRecord :=
  if pmr.twf ∨ pmr.twr then
    { pmr with val := pmr.val + pmr.twv * (if pmr.twf then 1 else -1),
               twf := false, twr := false }
  else pmr

/-- "New relative value": `rlv` is folded into `val` and cleared. -/
def do_work_tweak_rlv (pmr : motorRecord) : motorRecord :=
  if pmr.rlv ≠ pmr.lrlv then
    { pmr with val := pmr.val + pmr.rlv, rlv := 0, mmap.M_RLV := true, lrlv := 0 }
  else pmr

/-- "New raw value. Propagate to .dval and act later." -/
def do_work_tweak_rval (pmr : motorRecord) : motorRecord :=
  if pmr.rval ≠ pmr.lrvl then { pmr with dval := pmr.rval * pmr.mres } else pmr

/-- Tweaks, relative moves and raw-value writes: the sources of a `.val` or
`.dval` change other than a direct write. -/
def do_work_tweak (pmr : motorRecord) : motorRecord :=
  do_work_tweak_rval (do_work_tweak_rlv (do_work_tweak_tw pmr))

/-- Third section of `do_work`: "Collect .val (User value) changes from all
sources." -/
def do_work_collect (env : Env) (dir : ℚ) (stop_or_pause : Bool) (pmr : motorRecord) : Flow :=
  if pmr.omsl = menuOmsl.closed_loop ∧ pmr.dol_type = LinkType.DB_LINK then
    match env.dol with
    | none => Flow.ret ⟨RTN_STATUS.ERROR, { pmr with udf := true }, []⟩
    | some v => Flow.next { pmr with val := v, udf := false } []
  else if ¬ pmr.lvio ∧
      ((pmr.homf ∧ ¬ mipHas pmr.mip MIP_HOMF ∧ ¬ pmr.hls) ∨
       (pmr.homr ∧ ¬ mipHas pmr.mip MIP_HOMR ∧ ¬ pmr.lls)) then
    Flow.ret (do_work_home stop_or_pause pmr)
  else if ¬ mipHas pmr.mip MIP_JOG ∧ stop_or_pause = false ∧ ¬ pmr.lvio ∧
      mipHas pmr.mip MIP_JOG_REQ then
    Flow.ret (do_work_jog dir pmr)
  else if (pmr.mip &&& MIP_JOG_REQ) = 0 ∧
      (mipHas pmr.mip MIP_JOGF ∨ mipHas pmr.mip MIP_JOGR) then
    Flow.ret ⟨RTN_STATUS.OK,
      { pmr with pp := true,
                 mip := mipClear (pmr.mip ||| MIP_JOG_STOP) (MIP_JOGF ||| MIP_JOGR) },
      [stopAxis]⟩
  else if mipHas pmr.mip (MIP_JOG_STOP ||| MIP_JOG_BL1 ||| MIP_JOG_BL2) then
    Flow.ret ⟨RTN_STATUS.OK, pmr, []⟩
  else Flow.next (do_work_tweak pmr) []

/-- Fourth section of `do_work`: "Collect .dval (Dial value) changes from all
sources": act on a `.val` change directly, or propagate it into `.dval`. -/
def do_work_val (dir : ℚ) (set : Bool) (pmr : motorRecord) : Flow :=
  if pmr.val ≠ pmr.lval then
    let pmr := { pmr with mmap.M_VAL := true }
    if set ∧ ¬ pmr.foff then
      let pmr := { pmr with off := pmr.val - pmr.dval * dir }
      let pmr := { pmr with rbv := pmr.drbv * dir + pmr.off,
                            mmap.M_OFF := true, mmap.M_RBV := true }
      let pmr := set_userlimits pmr
      Flow.ret ⟨RTN_STATUS.OK,
        { pmr with lval := pmr.val, mip := MIP_DONE, mmap.M_MIP := true,
                   dmov := true, mmap.M_DMOV := true }, []⟩
    else
      Flow.next { pmr with dval := (pmr.val - pmr.off) / dir } []
  else Flow.next pmr []

/-- "Record limit violation": the assignment of `lvio` in `do_work` and its
`MARK`. -/
def do_work_lvio (old_lvio : Bool) (pmr : motorRecord) : motorRecord :=
  let viol : Bool := decide
    (pmr.dval > pmr.dhlm ∨ pmr.dval > pmr.dhlm + pmr.bdst ∨
     pmr.dval < pmr.dllm ∨ pmr.dval < pmr.dllm + pmr.bdst)
  let pmr :=
    if limitsDisabled pmr then { pmr with lvio := false }
    else { pmr with lvio := viol }
  if pmr.lvio ≠ old_lvio then { pmr with mmap.M_LVIO := true } else pmr

/-- The roll-back of the drive fields after a limit violation. -/
def do_work_rollback (pmr : motorRecord) : motorRecord :=
  let pmr := { pmr with
    val := pmr.lval, mmap.M_VAL := true, dval := pmr.ldvl, mmap.M_DVAL := true,
    rval := pmr.lrvl, mmap.M_RVAL := true }
  if pmr.mip = MIP_DONE then { pmr with dmov := true, mmap.M_DMOV := true } else pmr

/-- Fifth section of `do_work`: "Record limit violation", the stop/pause
return and the status-update request. -/
def do_work_limit (old_lvio : Bool) (stop_or_pause : Bool) (pmr : motorRecord) : Flow :=
  let pmr := do_work_lvio old_lvio pmr
  if pmr.lvio then
    Flow.ret ⟨RTN_STATUS.OK, do_work_rollback pmr, []⟩
  else if stop_or_pause = true then
    Flow.ret ⟨RTN_STATUS.OK, pmr, []⟩
  else if pmr.stup = motorSTUP.ON then
    Flow.next { pmr with stup := motorSTUP.BUSY, nmap.M_STUP := true } [getInfo]
  else Flow.next pmr []

/-- The "use relative move" indicator: an encoder is present and in use, or
the readback link is in use. -/
def useRel (pmr : motorRecord) : Prop := (pmr.msta.EA_PRESENT ∧ pmr.ueip) ∨ pmr.urip

instance (pmr : motorRecord) : Decidable (useRel pmr) := by
  unfold useRel
  infer_instance

/-- The "preferred direction" indicator of `do_work`: the sign of the move
matches the sign of the backlash distance. -/
def preferredDir (pmr : motorRecord) : Prop :=
  (¬ useRel pmr ∧ (pmr.dval > pmr.ldvl ↔ pmr.bdst > 0)) ∨
  (useRel pmr ∧ (pmr.diff > 0 ↔ pmr.bdst > 0))

instance (pmr : motorRecord) : Decidable (preferredDir pmr) := by
  unfold preferredDir
  infer_instance

/-- Velocity, acceleration and target of the move command built by `do_work`,
and whether the backlash leg is left to `postProcess` (`pp`). -/
structure MoveLeg where
  velocity : ℚ
  accel : ℚ
  position : ℚ
  deferred : Bool

/-- The three-way choice of `do_work` between a direct move, a fractional
backlash move and a move to the backlash point; `pmr` is the record before the
last-commanded copies are updated. -/
def moveLeg (preferred_dir : Bool) (pmr : motorRecord) : MoveLeg :=
  let currpos := pmr.ldvl / pmr.mres
  let newpos := pmr.dval / pmr.mres
  let vel := pmr.velo / |pmr.mres|
  let acc := vel / pmr.accl
  let bpos := (pmr.dval - pmr.bdst) / pmr.mres
  let bvel := pmr.bvel / |pmr.mres|
  let bacc := bvel / pmr.bacc
  let slop := 19 / 20 * pmr.rdbd
  let relpos := pmr.diff / pmr.mres
  let relbpos := ((pmr.dval - pmr.bdst) - pmr.drbv) / pmr.mres
  let mRelPos : ℚ := (NINT relpos : ℚ) + (if relpos > 0 then 1 / 2 else -(1 / 2))
  let mRelBPos : ℚ := (NINT relbpos : ℚ) + (if relbpos > 0 then 1 / 2 else -(1 / 2))
  if |pmr.bdst| < |pmr.mres| ∨
      (preferred_dir = true ∧ pmr.bvel = pmr.velo ∧ pmr.bacc = pmr.accl) then
    ⟨vel, acc,
     if useRel pmr then mRelPos * pmr.frac else currpos + pmr.frac * (newpos - currpos),
     false⟩
  else if |pmr.diff| < slop ∨
      (useRel pmr ∧ (relbpos < 0 ↔ relpos > 0)) ∨
      (¬ useRel pmr ∧ (currpos + slop > bpos ↔ newpos > currpos)) then
    ⟨bvel, bacc,
     if useRel pmr then mRelPos * pmr.frac else currpos + pmr.frac * (newpos - currpos),
     false⟩
  else
    ⟨vel, acc, if useRel pmr then mRelBPos else bpos, true⟩

/-- The transaction of a move: base velocity, velocity, acceleration, the
move itself (relative or absolute) and `GO`. -/
def moveMsgs (pmr : motorRecord) (leg : MoveLeg) : List Msg :=
  [⟨motor_cmnd.SET_VEL_BASE, [pmr.vbas / |pmr.mres|]⟩,
   ⟨motor_cmnd.SET_VELOCITY, [leg.velocity]⟩,
   ⟨motor_cmnd.SET_ACCEL, [leg.accel]⟩,
   ⟨if useRel pmr then motor_cmnd.MOVE_REL else motor_cmnd.MOVE_ABS, [leg.position]⟩,
   ⟨motor_cmnd.GO, []⟩]

/-- The record updates of a move started by `do_work`. -/
def do_work_send_record (leg : MoveLeg) (pmr : motorRecord) : motorRecord :=
  let pmr := { pmr with mip := MIP_MOVE, mmap.M_MIP := true }
  let pmr := if pmr.dmov then { pmr with dmov := false, mmap.M_DMOV := true } else pmr
  let pmr := { pmr with ldvl := pmr.dval, lval := pmr.val, lrvl := pmr.rval }
  let pmr := if leg.deferred then { pmr with pp := true } else pmr
  { pmr with cdir := if pmr.rdif < 0 then false else true }

/-- The move started by `do_work`, entered with MIP `DONE` or `RETRY`;
`preferred_dir` is the indicator computed before the last-commanded copies are
updated. -/
def do_work_send (preferred_dir : Bool) (pmr : motorRecord) : Outcome :=
  ⟨RTN_STATUS.OK, do_work_send_record (moveLeg preferred_dir pmr) pmr,
   [Effect.transaction (moveMsgs pmr (moveLeg preferred_dir pmr))]⟩

/-- Head of the last section of `do_work`: mark `DVAL`, recompute `DIFF` and
`RDIF`. -/
def do_work_diff (pmr : motorRecord) : motorRecord :=
  let pmr := if pmr.dval ≠ pmr.ldvl then { pmr with mmap.M_DVAL := true } else pmr
  let pmr := { pmr with diff := pmr.dval - pmr.drbv, mmap.M_DIFF := true }
  { pmr with rdif := NINT (pmr.diff / pmr.mres), mmap.M_RDIF := true }

/-- "Post new values, recalc .val to reflect the change in .dval": `VAL` and
`RVAL` follow `DVAL`. -/
def do_work_post (dir : ℚ) (pmr : motorRecord) : motorRecord :=
  let pmr := { pmr with val := pmr.dval * dir + pmr.off }
  let pmr := if pmr.val ≠ pmr.lval then { pmr with mmap.M_VAL := true } else pmr
  let pmr := { pmr with rval := NINT (pmr.dval / pmr.mres) }
  if pmr.rval ≠ pmr.lrvl then { pmr with mmap.M_RVAL := true } else pmr

/-- The branch `npos == rpos`: the raw target is the raw readback. -/
def do_work_same (pmr : motorRecord) : Outcome :=
  let pmr :=
    if pmr.dmov = false ∧ (pmr.mip = MIP_DONE ∨ pmr.mip = MIP_RETRY) then
      let pmr := { pmr with dmov := true, mmap.M_DMOV := true }
      if pmr.mip ≠ MIP_DONE then { pmr with mip := MIP_DONE, mmap.M_MIP := true } else pmr
    else pmr
  ⟨RTN_STATUS.OK, { pmr with ldvl := pmr.dval, lval := pmr.val, lrvl := pmr.rval }, []⟩

/-- "reset retry counter if this is not a retry". -/
def do_work_rcnt (pmr : motorRecord) : motorRecord :=
  if (pmr.mip &&& MIP_RETRY) = 0 then { pmr with rcnt := 0, mmap.M_RCNT := true }
  else pmr

/-- The branch `npos != rpos`: reset the retry count for a fresh move, apply
the deadband rule, and start the move if none is in progress. -/
def do_work_dispatch (pmr : motorRecord) : Outcome :=
  let slop := 19 / 20 * pmr.rdbd
  let pmr := do_work_rcnt pmr
  let preferred_dir : Bool := decide (preferredDir pmr)
  if |pmr.diff| < slop ∧ preferred_dir = false then
    if pmr.mip = MIP_DONE then
      ⟨RTN_STATUS.OK,
       { pmr with ldvl := pmr.dval, lval := pmr.val, lrvl := pmr.rval,
                  dmov := true, mmap.M_DMOV := true }, []⟩
    else ⟨RTN_STATUS.OK, pmr, []⟩
  else if pmr.mip = MIP_DONE ∨ pmr.mip = MIP_RETRY then
    do_work_send preferred_dir pmr
  else
    ⟨RTN_STATUS.OK, pmr, []⟩

/-- Last section of `do_work`: "IF DVAL field has changed, OR, NOT done
moving." -/
def do_work_move (dir : ℚ) (set : Bool) (pmr : motorRecord) : Outcome :=
  if pmr.dval ≠ pmr.ldvl ∨ ¬ pmr.dmov then
    let pmr := do_work_diff pmr
    if set then
      ⟨RTN_STATUS.OK, (load_pos pmr).1, (load_pos pmr).2⟩
    else
      let rbvpos := pmr.drbv / pmr.mres
      let newpos := pmr.dval / pmr.mres
      let pmr := do_work_post dir pmr
      if NINT newpos = NINT rbvpos then do_work_same pmr
      else do_work_dispatch pmr
  else
    ⟨RTN_STATUS.OK, pmr, []⟩

/-- Run one section of `do_work` after another: stop at a `return`,
otherwise hand the record on and keep the calls made so far. -/
def Flow.andThen (f : Flow) (k : motorRecord → Flow) : Flow :=
  match f with
  | Flow.ret o => Flow.ret o
  | Flow.next pmr eff =>
    match k pmr with
    | Flow.ret o => Flow.ret { o with eff := eff ++ o.eff }
    | Flow.next pmr2 eff2 => Flow.next pmr2 (eff ++ eff2)

/-- `do_work()`: examine the record and decide what to send to the motor. -/
def do_work (env : Env) (pmr : motorRecord) : Outcome :=
  let dir := dirSign pmr.dir
  let set := pmr.set
  let stop_or_pause : Bool :=
    decide (pmr.spmg = motorSPMG.Stop ∨ pmr.spmg = motorSPMG.Pause)
  let old_lvio := pmr.lvio
  match ((((do_work_spmg stop_or_pause pmr).andThen
            do_work_resolution).andThen
            (do_work_collect env dir stop_or_pause)).andThen
            (do_work_val dir set)).andThen
            (do_work_limit old_lvio stop_or_pause) with
  | Flow.ret o => o
  | Flow.next pmr eff =>
    let o := do_work_move dir set pmr
    { o with eff := eff ++ o.eff }

/-! ## callbackFunc, process_motor_info, postProcess -/

/-- `callbackFunc()`: the settle-delay watchdog fires. -/
def callbackFunc (pmr : motorRecord) : motorRecord × List Effect :=
  if mipHas pmr.mip MIP_DELAY_REQ then
    ({ pmr with mip := mipClear pmr.mip MIP_DELAY_REQ ||| MIP_DELAY_ACK }, [Effect.scan_once])
  else (pmr, [])

/-- First part of `process_motor_info()`: raw, dial and user readback and
the direction bit; `old` is the record on entry. -/
def process_motor_info_position (old : motorRecord) (pmr : motorRecord) : motorRecord :=
  let pmr :=
    if pmr.msta.EA_PRESENT ∧ pmr.ueip then
      { pmr with rrbv := pmr.rep, drbv := pmr.rep * pmr.eres }
    else
      { pmr with rrbv := pmr.rmp, drbv := pmr.rmp * pmr.mres }
  let pmr := { pmr with
    mmap.M_RMP := true, mmap.M_REP := true,
    mmap.M_RRBV := pmr.mmap.M_RRBV || decide (pmr.rrbv ≠ old.rrbv),
    mmap.M_DRBV := pmr.mmap.M_DRBV || decide (pmr.drbv ≠ old.drbv),
    rbv := dirSign pmr.dir * pmr.drbv + pmr.off }
  { pmr with
    mmap.M_RBV := pmr.mmap.M_RBV || decide (pmr.rbv ≠ old.rbv),
    tdir := pmr.msta.RA_DIRECTION,
    mmap.M_TDIR := pmr.mmap.M_TDIR || decide (pmr.msta.RA_DIRECTION ≠ old.tdir) }

/-- Second part of `process_motor_info()`: limit switches, the moving
indicator and the home switch. -/
def process_motor_info_status (old : motorRecord) (pmr : motorRecord) : motorRecord :=
  let pmr := { pmr with rhls := pmr.msta.RA_PLUS_LS && pmr.cdir,
                        rlls := pmr.msta.RA_MINUS_LS && !pmr.cdir }
  let ls_active : Bool := pmr.rhls || pmr.rlls
  let same : Bool := decide ((pmr.dir = motorDIR.Pos) ↔ (pmr.mres ≥ 0))
  let pmr := { pmr with hls := if same then pmr.rhls else pmr.rlls,
                        lls := if same then pmr.rlls else pmr.rhls }
  let pmr := { pmr with
    mmap.M_HLS := pmr.mmap.M_HLS || decide (pmr.hls ≠ old.hls),
    mmap.M_LLS := pmr.mmap.M_LLS || decide (pmr.lls ≠ old.lls),
    movn := if ls_active = true ∨ pmr.msta.RA_DONE ∨ pmr.msta.RA_PROBLEM then false else true }
  let pmr := { pmr with
    mmap.M_MOVN := pmr.mmap.M_MOVN || decide (pmr.movn ≠ old.movn),
    athm := if pmr.msta.EA_PRESENT ∧ pmr.ueip then pmr.msta.EA_HOME else pmr.msta.RA_HOME }
  { pmr with mmap.M_ATHM := pmr.mmap.M_ATHM || decide (pmr.athm ≠ old.athm) }

/-- Third part of `process_motor_info()`: the external readback device. -/
def process_motor_info_link (env : Env) (initcall : Bool) (pmr : motorRecord) : motorRecord :=
  if pmr.urip ∧ initcall = false then
    let old_drbv := pmr.drbv
    match env.rdbl with
    | none => pmr
    | some v =>
      let pmr := { pmr with drbv := v * pmr.rres }
      let pmr := { pmr with rbv := pmr.drbv * dirSign pmr.dir + pmr.off }
      if pmr.drbv ≠ old_drbv then { pmr with mmap.M_DRBV := true, mmap.M_RBV := true }
      else pmr
  else pmr

/-- `process_motor_info()`: derive the readback, limit-switch and moving
fields from the raw values stored by device support.  (`MARK(F)` under a
condition is written as "the mark of `F` or the condition".) -/
def process_motor_info (env : Env) (initcall : Bool) (pmr : motorRecord) : motorRecord :=
  let p := process_motor_info_link env initcall
    (process_motor_info_status pmr (process_motor_info_position pmr pmr))
  let p := { p with diff := p.dval - p.drbv, mmap.M_DIFF := true }
  { p with rdif := NINT (p.diff / p.mres), mmap.M_RDIF := true }

/-- The second backlash leg shared by the `MIP_MOVE` and `MIP_JOG_BL1`
branches of `postProcess`: backlash velocity and acceleration, then a move of
`frac` of the backlash distance. -/
def backlashLeg (pmr : motorRecord) : motorRecord × List Msg :=
  let bvel := pmr.bvel / |pmr.mres|
  let bacc := bvel / pmr.bacc
  let vbase := pmr.vbas / |pmr.mres|
  let bpos := (pmr.dval - pmr.bdst) / pmr.mres
  let relpos := pmr.diff / pmr.mres
  let relbpos := ((pmr.dval - pmr.bdst) - pmr.drbv) / pmr.mres
  let bvel := if bvel ≤ vbase then vbase + 1 else bvel
  if useRel pmr then
    (pmr, [⟨motor_cmnd.SET_VELOCITY, [bvel]⟩, ⟨motor_cmnd.SET_ACCEL, [bacc]⟩,
           ⟨motor_cmnd.MOVE_REL, [(relpos - relbpos) * pmr.frac]⟩])
  else
    let currpos := pmr.dval / pmr.mres
    let newpos := bpos + pmr.frac * (currpos - bpos)
    ({ pmr with rval := NINT newpos },
     [⟨motor_cmnd.SET_VELOCITY, [bvel]⟩, ⟨motor_cmnd.SET_ACCEL, [bacc]⟩,
      ⟨motor_cmnd.MOVE_ABS, [newpos]⟩])

/-- The branch of `postProcess` taken when MIP has `JOG_STOP` or `MOVE`. -/
def postProcess_moved (pmr : motorRecord) : motorRecord × List Effect :=
  let r : motorRecord × List Effect :=
    if |pmr.bdst| > |pmr.mres| then
      let vbase := pmr.vbas / |pmr.mres|
      let vel := pmr.velo / |pmr.mres|
      let bpos := (pmr.dval - pmr.bdst) / pmr.mres
      let relbpos := ((pmr.dval - pmr.bdst) - pmr.drbv) / pmr.mres
      let pmr := { pmr with dmov := false, mmap.M_DMOV := false }
      if mipHas pmr.mip MIP_JOG_STOP then
        let acc := vel / pmr.accl
        let vel := if vel ≤ vbase then vbase + 1 else vel
        ({ pmr with mip := MIP_JOG_BL1, pp := true },
         [Effect.transaction
           [⟨motor_cmnd.SET_VEL_BASE, [vbase]⟩, ⟨motor_cmnd.SET_VELOCITY, [vel]⟩,
            ⟨motor_cmnd.SET_ACCEL, [acc]⟩,
            if useRel pmr then ⟨motor_cmnd.MOVE_REL, [relbpos]⟩
            else ⟨motor_cmnd.MOVE_ABS, [bpos]⟩,
            ⟨motor_cmnd.GO, []⟩]])
      else
        let b := backlashLeg pmr
        ({ b.1 with mip := MIP_MOVE_BL, pp := true },
         [Effect.transaction (b.2 ++ [⟨motor_cmnd.GO, []⟩])])
    else
      let pmr := { pmr with mip := MIP_DONE }
      if (pmr.jogf ∧ ¬ pmr.hls) ∨ (pmr.jogr ∧ ¬ pmr.lls) then
        ({ pmr with mip := pmr.mip ||| MIP_JOG_REQ }, [])
      else (pmr, [])
  ({ r.1 with mip := mipClear (mipClear r.1.mip MIP_JOG_STOP) MIP_MOVE }, r.2)

/-- First step of `postProcess`: `pp` is cleared and, outside closed-loop
mode and the move and backlash phases, the drive fields are made to agree with
the readback. -/
def postProcess_snap (pmr : motorRecord) : motorRecord :=
  if pmr.omsl ≠ menuOmsl.closed_loop ∧ ¬ mipHas pmr.mip MIP_MOVE ∧
      ¬ mipHas pmr.mip MIP_MOVE_BL ∧ ¬ mipHas pmr.mip MIP_JOG_BL1 ∧
      ¬ mipHas pmr.mip MIP_JOG_BL2 then
    { pmr with
      pp := false,
      val := pmr.rbv, dval := pmr.drbv, mmap.M_VAL := true, mmap.M_DVAL := true,
      rval := NINT (pmr.drbv / pmr.mres), mmap.M_RVAL := true,
      diff := 0, mmap.M_DIFF := true, rdif := 0, mmap.M_RDIF := true }
  else { pmr with pp := false }

/-- The branch of `postProcess` taken when MIP has a `HOME` bit ("Home
command"). -/
def postProcess_home (pmr : motorRecord) : motorRecord × List Effect :=
  if mipHas pmr.mip MIP_STOP then
    let vbase := pmr.vbas / |pmr.mres|
    let hpos : ℚ := 0
    let hvel := pmr.hvel / |pmr.mres|
    let pmr := { pmr with
      mip := mipClear pmr.mip MIP_STOP, dmov := false, mmap.M_DMOV := true,
      rcnt := 0, mmap.M_RCNT := true }
    ({ pmr with pp := true },
     [Effect.transaction
       [⟨motor_cmnd.SET_VEL_BASE, [vbase]⟩, ⟨motor_cmnd.SET_VELOCITY, [hvel]⟩,
        ⟨if mipHas pmr.mip MIP_HOMF then motor_cmnd.HOME_FOR else motor_cmnd.HOME_REV,
         [hpos]⟩,
        ⟨motor_cmnd.GO, []⟩]])
  else if mipHas pmr.mip MIP_HOMF then
    ({ pmr with mip := mipClear pmr.mip MIP_HOMF, homf := false }, [Effect.post Fld.homf])
  else if mipHas pmr.mip MIP_HOMR then
    ({ pmr with mip := mipClear pmr.mip MIP_HOMR, homr := false }, [Effect.post Fld.homr])
  else (pmr, [])

/-- The branch of `postProcess` taken when MIP has `JOG_BL1`: the second
backlash leg of a jog. -/
def postProcess_jog_bl1 (pmr : motorRecord) : motorRecord × List Effect :=
  let pmr := { pmr with dmov := false, mmap.M_DMOV := false }
  let b := backlashLeg pmr
  ({ b.1 with mip := MIP_JOG_BL2, pp := true },
   [Effect.transaction (b.2 ++ [⟨motor_cmnd.GO, []⟩])])

/-- The branch of `postProcess` taken when MIP has `JOG_BL2` or `MOVE_BL`:
"Completed backlash part of jog command." -/
def postProcess_done (pmr : motorRecord) : motorRecord × List Effect :=
  let pmr := { pmr with mip := MIP_DONE }
  if (pmr.jogf ∧ ¬ pmr.hls) ∨ (pmr.jogr ∧ ¬ pmr.lls) then
    ({ pmr with mip := pmr.mip ||| MIP_JOG_REQ }, [])
  else (pmr, [])

/-- The `if ... else if` chain of `postProcess` on the MIP bits. -/
def postProcess_branch (pmr : motorRecord) : motorRecord × List Effect :=
  if mipHas pmr.mip MIP_LOAD_P then
    ({ pmr with mip := MIP_DONE }, [])
  else if mipHas pmr.mip MIP_HOME then postProcess_home pmr
  else if mipHas pmr.mip MIP_JOG_STOP ∨ mipHas pmr.mip MIP_MOVE then
    postProcess_moved pmr
  else if mipHas pmr.mip MIP_JOG_BL1 then postProcess_jog_bl1 pmr
  else if mipHas pmr.mip MIP_JOG_BL2 ∨ mipHas pmr.mip MIP_MOVE_BL then postProcess_done pmr
  else (pmr, [])

/-- `postProcess()`: post-process a command or motion after the motor has
stopped. -/
def postProcess (pmr : motorRecord) : motorRecord × List Effect :=
  let r := postProcess_branch (postProcess_snap pmr)
  ({ r.1 with
     lval := r.1.val, ldvl := r.1.dval, lrvl := r.1.rval,
     mip := mipClear r.1.mip MIP_STOP, mmap.M_MIP := true }, r.2)

/-! ## process -/

/-- `alarm_sub()`: raise the alarm severity called for by the record's state. -/
def alarm_sub (pmr : motorRecord) : motorRecord × List Effect :=
  if pmr.udf = true then (pmr, [Effect.set_sevr AlarmStat.UDF_ALARM])
  else if pmr.hlsv ∧ (pmr.hls ∨ pmr.dval > pmr.dhlm) then
    (pmr, [Effect.set_sevr AlarmStat.HIGH_ALARM])
  else if pmr.hlsv ∧ (pmr.lls ∨ pmr.dval < pmr.dllm) then
    (pmr, [Effect.set_sevr AlarmStat.LOW_ALARM])
  else if pmr.msta.CNTRL_COMM_ERR then
    ({ pmr with msta.CNTRL_COMM_ERR := false, mmap.M_MSTA := true },
     [Effect.set_sevr AlarmStat.COMM_ALARM])
  else (pmr, [])

/-- `monitor()`: post the fields marked as changed, then `UNMARK_ALL`. -/
def monitor (pmr : motorRecord) : motorRecord × List Effect :=
  ({ pmr with mmap := {}, nmap := {} }, [Effect.post_marked pmr.mmap pmr.nmap])

/-- Value returned by `process()`, a C `long`, with the record and the calls. -/
structure ProcessOutcome where
  status : ℤ
  pmr : motorRecord
  eff : List Effect

/-- The value `OK` as returned by `process()`. -/
def OK : ℤ := 0

/-- Where the callback part of `process()` leaves: at the label
`process_exit`, or at `enter_do_work` (by falling through or by `goto`). -/
inductive Stage where
  | exit (pmr : motorRecord) (eff : List Effect)
  | work (pmr : motorRecord) (eff : List Effect)

/-- The part of `process()` under "Are we close enough to desired
position?": the settle delay and the retry decision. -/
def process_settle (pmr : motorRecord) (eff : List Effect) : Stage :=
  if pmr.dmov ∧ ¬ (pmr.rhls ∨ pmr.rlls) then
    let mmap_bits := pmr.mmap
    if mipHas pmr.mip MIP_DELAY_ACK ∨ pmr.dly ≤ 0 then
      if mipHas pmr.mip MIP_DELAY_ACK ∧ ¬ mipHas pmr.mip MIP_DELAY_REQ then
        Stage.exit { pmr with mip := pmr.mip ||| MIP_DELAY, dmov := false } (eff ++ [getInfo])
      else if pmr.stup ≠ motorSTUP.ON then
        Stage.work (maybeRetry { pmr with mip := mipClear pmr.mip MIP_DELAY, mmap.M_MIP := true })
          eff
      else Stage.work pmr eff
    else if mmap_bits.M_DMOV ∧ ¬ mipHas pmr.mip MIP_DELAY_REQ then
      Stage.exit
        { pmr with mip := pmr.mip ||| MIP_DELAY_REQ, mmap.M_MIP := true,
                   dmov := false, pact := false }
        (eff ++ [Effect.delayed_callback pmr.dly])
    else Stage.work pmr eff
  else Stage.work pmr eff

/-- The part of `process()` run for a callback from device support (or from
the settle-delay watchdog), after `process_motor_info`. -/
def process_callback (pmr : motorRecord) : Stage :=
  if pmr.movn then
    let sign_rdif : Bool := if pmr.rdif < 0 then false else true
    if pmr.ntm ∧ sign_rdif ≠ pmr.cdir ∧ |pmr.diff| > 2 * (|pmr.bdst| + pmr.rdbd) ∧
        (pmr.mip = MIP_RETRY ∨ pmr.mip = MIP_MOVE) then
      Stage.work { pmr with mip := pmr.mip ||| MIP_STOP, mmap.M_MIP := true } [stopAxis]
    else Stage.work pmr []
  else if pmr.stup ≠ motorSTUP.BUSY then
    let pmr := if pmr.dmov ≠ true then { pmr with dmov := true, mmap.M_DMOV := true } else pmr
    if pmr.mip ≠ MIP_DONE ∧ (pmr.rhls ∨ pmr.rlls) then
      Stage.exit { pmr with pp := true, mip := MIP_DONE, mmap.M_MIP := true } [getInfo]
    else if pmr.pp then
      if pmr.val ≠ pmr.lval then
        Stage.work { pmr with mip := MIP_DONE } []
      else
        process_settle (postProcess pmr).1 (postProcess pmr).2
    else process_settle pmr []
  else Stage.work pmr []

/-- The software-limit check of `process()` at the label `enter_do_work`. -/
def process_lvio (old_lvio : Bool) (pmr : motorRecord) : motorRecord :=
  let jog_viol : Bool := decide
    ((pmr.jogf ∧ pmr.drbv > pmr.dhlm - pmr.velo) ∨
     (pmr.jogr ∧ pmr.drbv < pmr.dllm + pmr.velo))
  let home_viol : Bool := decide
    ((pmr.homf ∧ pmr.drbv > pmr.dhlm - pmr.velo) ∨
     (pmr.homr ∧ pmr.drbv < pmr.dllm + pmr.velo))
  let viol : Bool := decide
    (pmr.drbv > pmr.dhlm + |pmr.mres| ∨ pmr.drbv < pmr.dllm - |pmr.mres|)
  let pmr :=
    if limitsDisabled pmr then { pmr with lvio := false }
    else if mipHas pmr.mip MIP_JOG then { pmr with lvio := jog_viol }
    else if mipHas pmr.mip MIP_HOME then { pmr with lvio := home_viol }
    else { pmr with lvio := viol }
  if pmr.lvio ≠ old_lvio then
    let pmr := { pmr with mmap.M_LVIO := true }
    if pmr.lvio ∧ ¬ pmr.set then
      { pmr with stop := true, jogf := false, jogr := false, homf := false, homr := false }
    else pmr
  else pmr

/-- The code of `process()` from the label `process_exit` on. -/
def process_exit (process_reason : ProcessReason) (status : ℤ) (pmr : motorRecord)
    (eff : List Effect) : ProcessOutcome :=
  let pmr :=
    if process_reason = ProcessReason.CALLBACK_DATA ∧ pmr.stup = motorSTUP.BUSY then
      { pmr with stup := motorSTUP.OFF, nmap.M_STUP := true }
    else pmr
  let a := alarm_sub pmr
  let m := monitor a.1
  ⟨status, { m.1 with pact := false }, eff ++ [Effect.timestamp] ++ a.2 ++ m.2⟩

/-- `process()`: the record's processing routine. -/
def process (env : Env) (pmr : motorRecord) : ProcessOutcome :=
  let old_lvio := pmr.lvio
  let old_msta := pmr.msta
  if pmr.pact then ⟨OK, pmr, []⟩
  else
    let pmr := { pmr with pact := true }
    let pmr := { pmr with rmp := env.rmp, rep := env.rep, msta := env.msta }
    let pmr := if pmr.msta ≠ old_msta then { pmr with mmap.M_MSTA := true } else pmr
    let callback : Bool :=
      decide (env.reason = ProcessReason.CALLBACK_DATA ∨ mipHas pmr.mip MIP_DELAY_ACK)
    let process_reason :=
      if callback then ProcessReason.CALLBACK_DATA else env.reason
    let stage :=
      if callback then process_callback (process_motor_info env false pmr)
      else Stage.work pmr []
    match stage with
    | Stage.exit pmr eff => process_exit process_reason OK pmr (Effect.update_values :: eff)
    | Stage.work pmr eff =>
      let pmr := process_lvio old_lvio pmr
      let w : motorRecord × List Effect :=
        if pmr.stop ∨ pmr.spmg = motorSPMG.Stop ∨ pmr.spmg = motorSPMG.Pause ∨
            process_reason ≠ ProcessReason.CALLBACK_DATA ∨ pmr.dmov ∨
            mipHas pmr.mip MIP_RETRY then
          ((do_work env pmr).pmr, (do_work env pmr).eff)
        else (pmr, [])
      let pmr := w.1
      let fwd : List Effect := if pmr.dmov then [Effect.fwd_link] else []
      process_exit process_reason env.rlnk_status pmr
        (Effect.update_values :: eff ++ w.2 ++ [Effect.put_rlnk pmr.rbv] ++ fwd)

/-! ## Definitions used in the statements -/

/-- Scenario A of the specification: `val = dval = 10`, `mres = 0.001`,
`bdst = 0`, `rdbd = 0.01`, readback on target. -/
def scenarioA : motorRecord :=
  { val := 10, dval := 10, rval := 10000, lval := 10, ldvl := 10, lrvl := 10000,
    mres := 1 / 1000, bdst := 0, rdbd := 1 / 100, drbv := 10, rbv := 10, rrbv := 10000,
    dmov := true, mip := MIP_DONE, spmg := motorSPMG.Go, lspg := motorSPMG.Go }

/-- A record with a queued jog-forward request in closed-loop mode, the target
coming from a database link. -/
def jogClosedLoop : motorRecord :=
  { mip := MIP_JOG_REQ, jogf := true, omsl := menuOmsl.closed_loop,
    dol_type := LinkType.DB_LINK }

/-- The dial target passes the limit check of `do_work`: the software limits
are disabled, or the target lies inside them, also when shifted by the
backlash distance. -/
def targetAllowed (pmr : motorRecord) : Prop :=
  limitsDisabled pmr ∨
  (pmr.dval ≤ pmr.dhlm ∧ pmr.dval ≤ pmr.dhlm + pmr.bdst ∧
   pmr.dllm ≤ pmr.dval ∧ pmr.dllm + pmr.bdst ≤ pmr.dval)

/-- Scenario B of the specification as written: `bdst = -0.05`,
`mres = 0.001`, `bvel = velo`, `bacc = accl`, `frac = 1`, absolute moves, idle
at dial position 0 with last-commanded `dval` 0, new target `dval = 1`. -/
def scenarioB : motorRecord :=
  { dval := 1, ldvl := 0, drbv := 0, mres := 1 / 1000, bdst := -(1 / 20),
    velo := 1, bvel := 1, accl := 1, bacc := 1, frac := 1, rdbd := 1 / 100,
    mip := MIP_DONE, dmov := true }

/-- Scenario B with a retry count left over from earlier moves. -/
def scenarioBRetry (r : ℤ) : motorRecord := { scenarioB with rcnt := r }

/-- The command is a move: `MOVE_ABS` or `MOVE_REL`. -/
def isMove (m : Msg) : Bool :=
  decide (m.cmd = motor_cmnd.MOVE_ABS ∨ m.cmd = motor_cmnd.MOVE_REL)

/-- Some transaction among the effects holds a move command. -/
def emitsMove (eff : List Effect) : Bool :=
  (transactions eff).any (fun t => t.any isMove)

/-- A section of `do_work` sends no move command and, when it falls through,
hands on a record whose MIP does not contain `RETRY`. -/
def Flow.quiet (f : Flow) : Prop :=
  match f with
  | Flow.ret o => emitsMove o.eff = false
  | Flow.next p e => emitsMove e = false ∧ (p.mip &&& MIP_RETRY) = 0

/-- A done-moving record with a queued jog-forward request. -/
def jogQueued : motorRecord :=
  { mip := MIP_JOG_REQ, jogf := true, dmov := true }

/-- Nothing but a change of target is pending for `do_work`: no stop or SPMG
edge, no resolution change, Use mode, no home button, no status-update
request, and the target is not read from a closed-loop database link. -/
def onlyTargetPending (p : motorRecord) : Prop :=
  p.spmg = p.lspg ∧ p.stop = false ∧
  p.mmap.M_MRES = false ∧ p.mmap.M_ERES = false ∧ p.mmap.M_UEIP = false ∧
  p.set = false ∧ p.homf = false ∧ p.homr = false ∧ p.stup ≠ motorSTUP.ON ∧
  ¬ (p.omsl = menuOmsl.closed_loop ∧ p.dol_type = LinkType.DB_LINK)

/-- The record that `do_work_val` hands on in Use mode: a changed `val` is
propagated into `dval`. -/
def do_work_val_use (dir : ℚ) (p : motorRecord) : motorRecord :=
  if p.val ≠ p.lval then { p with mmap.M_VAL := true, dval := (p.val - p.off) / dir } else p

/-- The value of `stop_or_pause` in `do_work`. -/
def stopOrPause (p : motorRecord) : Bool :=
  decide (p.spmg = motorSPMG.Stop ∨ p.spmg = motorSPMG.Pause)

/-- The record reaching the limit test of `do_work` when only a change of
target is pending. -/
def do_work_target (p : motorRecord) : motorRecord :=
  do_work_lvio p.lvio (do_work_val_use (dirSign p.dir) (do_work_tweak p))

/-- The three marks that start the resolution pass of `do_work`. -/
def resMarks (p : motorRecord) : Bool × Bool × Bool :=
  (p.mmap.M_MRES, p.mmap.M_ERES, p.mmap.M_UEIP)

/-- The changes of target have been collected into `dval`: no tweak or
relative move is pending, and `dval` is what a changed `val` or `rval` asks
for. -/
def collected (t : motorRecord) : Prop :=
  t.twf = false ∧ t.twr = false ∧ t.rlv = t.lrlv ∧
  (t.val ≠ t.lval → t.dval = (t.val - t.off) / dirSign t.dir) ∧
  (t.val = t.lval → t.rval ≠ t.lrvl → t.dval = t.rval * t.mres)

/-- The guard of the home block of `do_work`: a home button is down, its
home search is not already in MIP, and its limit switch is off, with no limit
violation recorded. -/
def homeRequested (p : motorRecord) : Prop :=
  ¬ p.lvio = true ∧
  ((p.homf = true ∧ ¬ mipHas p.mip MIP_HOMF = true ∧ ¬ p.hls = true) ∨
   (p.homr = true ∧ ¬ mipHas p.mip MIP_HOMR = true ∧ ¬ p.lls = true))

/-- A record jogging forward whose jog button has been released. -/
def jogReleased : motorRecord :=
  { mip := MIP_JOGF, dmov := false, val := 3, dval := 3, rval := 3000, mres := 1 / 1000 }

/-- A record whose jog has been stopped, with a backlash distance of 0.05
at a resolution of 0.001. -/
def jogStopped : motorRecord :=
  { mip := MIP_JOG_STOP, pp := true, bdst := 1 / 20, mres := 1 / 1000, velo := 1, dval := 3,
    drbv := 3, rbv := 3, val := 3 }

/-- A record at rest off target with retries disabled. -/
def retryDisabled : motorRecord :=
  { diff := 1, rdbd := 1 / 100, rtry := 0, rcnt := 2, mip := MIP_MOVE ||| MIP_JOG_REQ,
    dmov := true, miss := false }

/-- A missed-target record in single-shot mode whose readback has come
within the retry deadband. -/
def onTarget : motorRecord :=
  { diff := 1 / 1000, rdbd := 1 / 100, rtry := 3, rcnt := 2, mip := MIP_MOVE, miss := true,
    spmg := motorSPMG.Move }

/-- A record stopped on request while moving, now at rest at readback 2.5. -/
def stopRequested : motorRecord :=
  { mip := MIP_STOP, pp := true, val := 10, dval := 10, rval := 10000, rbv := 5 / 2,
    drbv := 5 / 2, rrbv := 2500, mres := 1 / 1000, diff := 15 / 2, rdif := 7500 }

/-- `range_check()`: limit a parameter to its valid range; `max = 0` disables
the upper check.  The parameter is passed by value and handed back; `f` names
the field behind `parm_ptr`, posted when the value is rewritten. -/
def range_check (f : Fld) (parm min max : ℚ) : ℚ × List Effect :=
  let parm_val := parm
  let r1 : ℚ × Bool := if parm_val < min then (min, true) else (parm_val, false)
  let r2 : ℚ × Bool := if max ≠ 0 ∧ r1.1 > max then (max, true) else r1
  if r2.2 = true then (r2.1, [Effect.post f]) else (parm, [])

/-- A section of `do_work` returns `OK` having sent the single transaction
`STOP_AXIS`. -/
def Flow.stops (f : Flow) : Prop :=
  match f with
  | Flow.ret o =>
    o.status = RTN_STATUS.OK ∧ transactions o.eff = [[⟨motor_cmnd.STOP_AXIS, []⟩]]
  | Flow.next _ _ => False

/-- A record in mid-move on which the stop button has just been pressed. -/
def stopPressed : motorRecord :=
  { mip := MIP_MOVE, movn := true, dmov := false, stop := true, val := 10, dval := 10,
    rval := 10000, mres := 1 / 1000 }

/-- A record that is done (`MIP = DONE`) while the controller reports motion,
on which the stop button has just been pressed. -/
def stopWhileDone : motorRecord :=
  { mip := MIP_DONE, movn := true, stop := true, pp := false }

/-- A record at rest on which `spmg` has just been changed from `Go` to
`Pause`. -/
def pausePressed : motorRecord :=
  { mip := MIP_DONE, spmg := motorSPMG.Pause, lspg := motorSPMG.Go, mmap := { M_MRES := true },
    homf := true, jogf := true }

/-- The sections of `do_work` that come before the dial limit check. -/
def do_work_before_limit (env : Env) (pmr : motorRecord) : Flow :=
  (((do_work_spmg (stopOrPause pmr) pmr).andThen do_work_resolution).andThen
    (do_work_collect env (dirSign pmr.dir) (stopOrPause pmr))).andThen
    (do_work_val (dirSign pmr.dir) pmr.set)

/-- The test of the dial limit check: the dial target lies beyond a software
limit, directly or when shifted by the backlash distance. -/
def limitViolated (p : motorRecord) : Prop :=
  p.dval > p.dhlm ∨ p.dval > p.dhlm + p.bdst ∨ p.dval < p.dllm ∨ p.dval < p.dllm + p.bdst

/-- The record a section of `do_work` leaves, returned or handed on. -/
def Flow.record (f : Flow) : motorRecord :=
  match f with
  | Flow.ret o => o.pmr
  | Flow.next p _ => p

/-- The calls made by a section of `do_work`. -/
def Flow.calls (f : Flow) : List Effect :=
  match f with
  | Flow.ret o => o.eff
  | Flow.next _ e => e

/-- A section of `do_work` that falls through has made no call. -/
def Flow.silent (f : Flow) : Prop :=
  match f with
  | Flow.ret _ => True
  | Flow.next _ e => e = []

/-- A record with dial limits ±10 whose `dval` has been written to 20, the
last-commanded position being 5. -/
def limitTrip : motorRecord :=
  { dval := 20, ldvl := 5, val := 20, lval := 20, rval := 5000, lrvl := 5000, dhlm := 10,
    dllm := -10, mres := 1 / 1000, mip := MIP_DONE, dmov := false }

/-- `DELAY_REQ` and `DELAY_ACK` are not both set in a MIP value. -/
@[irreducible]
def delayExclusive (mip : ℕ) : Prop :=
  ¬ (mipHas mip MIP_DELAY_REQ = true ∧ mipHas mip MIP_DELAY_ACK = true)

/-- The record a section of `do_work` leaves does not have both delay bits
set. -/
def Flow.exclusive (f : Flow) : Prop := delayExclusive f.record.mip

/-- A record whose settle delay has just been acknowledged by the watchdog:
MIP holds `DELAY_ACK` alone. -/
def delayAcked : motorRecord :=
  { mip := MIP_DELAY_ACK, dmov := false, dly := 1 }

/-- Device support reports the motor stopped (`RA_DONE`). -/
def motorDone : Env := { msta := { RA_DONE := true } }

/-- A record waiting for its settle delay: MIP holds `DELAY_REQ` alone. -/
def delayRequested : motorRecord :=
  { mip := MIP_DELAY_REQ, dmov := false, dly := 1 }

/-- The test of the software-limit check of `process` outside jogs and home
searches: the dial readback is beyond a limit by more than one motor step. -/
def readbackBeyondLimits (p : motorRecord) : Prop :=
  p.drbv > p.dhlm + |p.mres| ∨ p.drbv < p.dllm - |p.mres|

/-- A record jogging forward at dial readback 9.5, with dial limits ±10 and
`velo = 1`. -/
def jogNearLimit : motorRecord :=
  { mip := MIP_JOGF, jogf := true, dhlm := 10, dllm := -10, velo := 1, drbv := 19 / 2,
    dmov := false }

/-- The conversion from user to dial coordinates in the words of the
specification: `userToDial(val, off, dir) = (val - off) / dir`. -/
def userToDial (off dir v : ℚ) : ℚ := (v - off) / dir

/-- The conversion from dial to user coordinates in the words of the
specification: `dialToUser(dval, off, dir) = dval * dir + off`. -/
def dialToUser (off dir d : ℚ) : ℚ := d * dir + off

/-- The `FRAC` case of `special()` on the pass after the field has been
written: "enforce limit". -/
def special_frac (pmr : motorRecord) : motorRecord × List Effect :=
  let r1 : motorRecord × Bool :=
    if pmr.frac < 1 / 10 then ({ pmr with frac := 1 / 10 }, true) else (pmr, false)
  let r2 : motorRecord × Bool :=
    if r1.1.frac > 3 / 2 then ({ r1.1 with frac := 3 / 2 }, true) else r1
  if r2.2 = true then (r2.1, [Effect.post Fld.frac]) else (r2.1, [])

/-- The end of `do_work`: what a section returned, or the outcome of the
last section run on the record handed on, after the calls already made. -/
def Flow.conclude (f : Flow) (dir : ℚ) (set : Bool) : Outcome :=
  match f with
  | Flow.ret o => o
  | Flow.next q eff =>
    { do_work_move dir set q with eff := eff ++ (do_work_move dir set q).eff }

/-- The part of `do_work` that follows the collection of `.val` changes,
applied to the record `p` that this collection hands on; `pmr` is the record
on entry, from which `dir`, `set`, `old_lvio` and `stop_or_pause` are taken. -/
def do_work_after_collect (pmr p : motorRecord) : Outcome :=
  ((do_work_val (dirSign pmr.dir) pmr.set p).andThen
    (do_work_limit pmr.lvio (stopOrPause pmr))).conclude (dirSign pmr.dir) pmr.set

/-- A record in closed-loop mode whose desired value comes from a database
link. -/
def closedLoopLinked : motorRecord :=
  { omsl := menuOmsl.closed_loop, dol_type := LinkType.DB_LINK, val := 3, dval := 3,
    rval := 3000, lval := 3, ldvl := 3, lrvl := 3000, mres := 1 / 1000, mip := MIP_DONE }

/-- The motor resolution used for the encoder ratio: the guard "defend
against divide by zero" replaces a resolution below 1e-9 by 1. -/
def guardedMres (p : motorRecord) : ℚ :=
  if |p.mres| < 1 / 1000000000 then 1 else p.mres

/-- The encoder resolution used for the encoder ratio: a zero `eres` is
replaced by the (guarded) motor resolution. -/
def guardedEres (p : motorRecord) : ℚ :=
  if p.eres = 0 then guardedMres p else p.eres

/-- A record with an encoder in use whose encoder resolution, 1e-7, has just
been changed. -/
def fineEncoder : motorRecord :=
  { msta := { EA_PRESENT := true }, ueip := true, mmap := { M_ERES := true },
    eres := 1 / 10000000, mres := 1 }

/-- A record with an encoder in use and resolutions of 0.001, whose motor
resolution has just been changed. -/
def coarseEncoder : motorRecord :=
  { msta := { EA_PRESENT := true }, ueip := true, mmap := { M_MRES := true },
    eres := 1 / 1000, mres := 1 / 1000 }

/-- The five sections of `do_work` that come before the last one. -/
def do_work_before_move (env : Env) (pmr : motorRecord) : Flow :=
  ((((do_work_spmg (stopOrPause pmr) pmr).andThen do_work_resolution).andThen
    (do_work_collect env (dirSign pmr.dir) (stopOrPause pmr))).andThen
    (do_work_val (dirSign pmr.dir) pmr.set)).andThen
    (do_work_limit pmr.lvio (stopOrPause pmr))

/-- A record whose move has ended short of its target, dial readback 5 for a
target of 10, on which the stop button is pressed. -/
def stopShort : motorRecord :=
  { stop := true, mip := MIP_MOVE, movn := false, dmov := false, val := 10, dval := 10,
    rval := 10000, lval := 10, ldvl := 10, lrvl := 10000, rbv := 5, drbv := 5, rrbv := 5000,
    diff := 5, rdif := 5000, mres := 1 / 1000 }

/-- The position sent with a direct move: the relative target at motor-step
granularity when an encoder or readback link is in use, else `frac` of the way
from the last-commanded to the new raw position. -/
def directPosition (q : motorRecord) : ℚ :=
  if useRel q then
    ((NINT ((q.dval - q.drbv) / q.mres) : ℚ) +
      (if (q.dval - q.drbv) / q.mres > 0 then 1 / 2 else -(1 / 2))) * q.frac
  else q.ldvl / q.mres + q.frac * (q.dval / q.mres - q.ldvl / q.mres)

/-- An idle record at dial position 0 with backlash correction disabled
(`bdst = 0`), resolution 0.001 and a new target `dval = 1`. -/
def directMove : motorRecord :=
  { dval := 1, ldvl := 0, drbv := 0, mres := 1 / 1000, bdst := 0, velo := 1, bvel := 2,
    accl := 1, bacc := 1, frac := 1, rdbd := 1 / 100, mip := MIP_DONE, dmov := true }

/-- The MIP flags that name a primary activity. -/
def primaryFlags : List ℕ :=
  [MIP_JOGF, MIP_JOGR, MIP_JOG_BL1, MIP_JOG_BL2, MIP_JOG_STOP, MIP_HOMF, MIP_HOMR, MIP_MOVE,
   MIP_MOVE_BL, MIP_RETRY, MIP_LOAD_P]

/-- At most one primary activity is set in a MIP value: any two primary flags
found in it are the same flag. -/
def onePrimary (mip : ℕ) : Prop :=
  ∀ a ∈ primaryFlags, ∀ b ∈ primaryFlags, mipHas mip a = true → mipHas mip b = true → a = b

/-- A property of MIP values kept by every assignment to MIP that `do_work`,
`postProcess` and `maybeRetry` make: the constants they store, the masking of
bits, and the jog-stop update. -/
structure MipClosed (P : ℕ → Prop) : Prop where
  done : P MIP_DONE
  stop : P MIP_STOP
  jog_req : P MIP_JOG_REQ
  done_jog_req : P (MIP_DONE ||| MIP_JOG_REQ)
  homf : P MIP_HOMF
  homr : P MIP_HOMR
  homf_stop : P (MIP_HOMF ||| MIP_STOP)
  homr_stop : P (MIP_HOMR ||| MIP_STOP)
  jogf : P MIP_JOGF
  jogr : P MIP_JOGR
  jogf_stop : P (MIP_JOGF ||| MIP_STOP)
  jogr_stop : P (MIP_JOGR ||| MIP_STOP)
  load_p : P MIP_LOAD_P
  move : P MIP_MOVE
  move_bl : P MIP_MOVE_BL
  jog_bl1 : P MIP_JOG_BL1
  jog_bl2 : P MIP_JOG_BL2
  retry : P MIP_RETRY
  mask : ∀ x k, P x → P (x &&& k)
  jog_stop : ∀ x, P x → (mipHas x MIP_JOGF = true ∨ mipHas x MIP_JOGR = true) →
    P (mipClear (x ||| MIP_JOG_STOP) (MIP_JOGF ||| MIP_JOGR))

/-- The record a section of `do_work` leaves has a MIP with property `P`. -/
def Flow.keeps (P : ℕ → Prop) (f : Flow) : Prop := P f.record.mip

/-- A record in mid-move with a stop overlaid and a jog request queued. -/
def movingRecord : motorRecord :=
  { mip := MIP_MOVE ||| MIP_STOP ||| MIP_JOG_REQ, dmov := false, movn := true }

/-- A move in progress whose readback has jumped to the far side of the
target: the distance to go is negative while the axis travels in the positive
direction. -/
def reversing : motorRecord :=
  { movn := true, ntm := true, rdif := -5000, cdir := true, diff := -5, bdst := 0,
    rdbd := 1 / 10, mip := MIP_MOVE, dmov := false }

/-- The stop button pressed in the same pass in which `spmg` changes from `Go`
to `Stop`. -/
def stopOnEdge : motorRecord :=
  { stop := true, spmg := motorSPMG.Stop, lspg := motorSPMG.Go, mip := MIP_MOVE,
    movn := true, dmov := false }

/-- The stop button pressed on a moving axis with `spmg` unchanged. -/
def stopNoEdge : motorRecord :=
  { stop := true, spmg := motorSPMG.Go, lspg := motorSPMG.Go, mip := MIP_MOVE,
    movn := true, dmov := false }

/-- A move in progress on which `spmg` has just been changed from `Go` to
`Pause`. -/
def pauseMoving : motorRecord :=
  { spmg := motorSPMG.Pause, lspg := motorSPMG.Go, mip := MIP_MOVE, movn := false,
    dmov := false, val := 10, dval := 10, rval := 10000, rbv := 5, drbv := 5, rrbv := 5000,
    mres := 1 / 1000 }

/-- A record at rest whose dial target has moved by two motor steps, inside
the retry deadband, against the direction of the backlash distance. -/
def nearTarget : motorRecord :=
  { dval := 1 / 500, ldvl := 0, drbv := 0, mres := 1 / 1000, bdst := -(1 / 20),
    dmov := true, velo := 1, bvel := 1, accl := 1, bacc := 1, frac := 1, rdbd := 1 / 100,
    mip := MIP_DONE, lval := 0, val := 0, off := 0, rval := 0, lrvl := 0 }

/-- A record in Set mode whose new dial value, 0.0016 at a resolution of
0.001, lies between two motor steps. -/
def loadBetweenSteps : motorRecord :=
  { set := true, dval := 1 / 625, ldvl := 0, mres := 1 / 1000, mip := MIP_DONE, dmov := true }

/-- A record at rest with user and dial directions opposed (`dir = Neg`), a
positive resolution and the jog-forward button down. -/
def jogDirNeg : motorRecord :=
  { mip := MIP_JOG_REQ, jogf := true, jvel := 2, jar := 4, mres := 1 / 1000,
    dir := motorDIR.Neg, movn := false }

/-- A record at rest with a backlash distance of exactly one motor step and a
new target against the direction of the backlash distance. -/
def backlashOneStep : motorRecord :=
  { dval := 0, ldvl := 1, drbv := 1, mres := 1 / 1000, bdst := 1 / 1000,
    velo := 1, bvel := 1, accl := 1, bacc := 1, frac := 1, rdbd := 1 / 100,
    mip := MIP_DONE, dmov := true }

/-- "Initialize miscellaneous control fields" in the second pass of
`init_record()`. -/
def init_record_misc (pmr : motorRecord) : motorRecord :=
  let pmr := { pmr with
    dmov := true, mmap.M_DMOV := true, movn := false, mmap.M_MOVN := true,
    lspg := motorSPMG.Go, spmg := motorSPMG.Go, mmap.M_SPMG := true }
  let pmr := { pmr with diff := pmr.dval - pmr.drbv, mmap.M_DIFF := true }
  let pmr := { pmr with rdif := NINT (pmr.diff / pmr.mres), mmap.M_RDIF := true }
  { pmr with lval := pmr.val, ldvl := pmr.dval, lrvl := pmr.rval }

/-- The limit test that closes `init_record()`: `lvio` is initialised to 0 and
set when the limits are in use and the dial readback lies beyond one of
them. -/
def init_record_lvio (pmr : motorRecord) : motorRecord :=
  let pmr := { pmr with lvio := false }
  if pmr.dhlm = pmr.dllm ∧ pmr.dllm = 0 then pmr
  else if pmr.drbv > pmr.dhlm + pmr.mres ∨ pmr.drbv < pmr.dllm - pmr.mres then
    { pmr with lvio := true, mmap.M_LVIO := true }
  else pmr

/-- The end of the second pass of `init_record()`, from "Initialize
miscellaneous control fields" to `return(OK)`; `pmr` is the record as the
statements before it (device support, readback, dial limits) leave it. -/
def init_record_end (pmr : motorRecord) : motorRecord × List Effect :=
  monitor (init_record_lvio (init_record_misc pmr))

/-- A record with a negative motor resolution whose dial readback sits on the
dial high limit. -/
def initNegativeRes : motorRecord :=
  { mres := -(1 / 1000), dhlm := 10, dllm := -10, drbv := 10, rdbd := 1 / 1000 }

/-- Head of `check_speed_and_resolution()`: "SREV (steps/revolution) must be
sane" and "UREV (EGU/revolution) <--> MRES (EGU/step)".  Returns the record
and the local `fabs_urev`. -/
def check_speed_and_resolution_res (pmr : motorRecord) : motorRecord × ℚ :=
  let fabs_urev := |pmr.urev|
  let pmr := if pmr.srev ≤ 0 then { pmr with srev := 200, nmap.M_SREV := true } else pmr
  let pmr :=
    if pmr.urev ≠ 0 then { pmr with mres := pmr.urev / pmr.srev, mmap.M_MRES := true }
    else pmr
  let pmr := if pmr.mres = 0 then { pmr with mres := 1, mmap.M_MRES := true } else pmr
  if pmr.urev ≠ pmr.mres * pmr.srev then
    ({ pmr with urev := pmr.mres * pmr.srev, nmap.M_UREV := true }, |pmr.mres * pmr.srev|)
  else (pmr, fabs_urev)

/-- "SMAX (revolutions/sec) <--> VMAX (EGU/sec)". -/
def check_speed_and_resolution_max (fabs_urev : ℚ) (pmr : motorRecord) :
    motorRecord × List Effect :=
  let pmr :=
    if pmr.smax > 0 then { pmr with vmax := pmr.smax * fabs_urev }
    else if pmr.vmax > 0 then { pmr with smax := pmr.vmax / fabs_urev }
    else { pmr with smax := 0, vmax := 0 }
  (pmr, [Effect.post Fld.vmax, Effect.post Fld.smax])

/-- "SBAS (revolutions/sec) <--> VBAS (EGU/sec)". -/
def check_speed_and_resolution_base (fabs_urev : ℚ) (pmr : motorRecord) :
    motorRecord × List Effect :=
  let r : motorRecord × List Effect :=
    if pmr.sbas ≠ 0 then
      let c := range_check Fld.sbas pmr.sbas 0 pmr.smax
      ({ pmr with sbas := c.1, vbas := c.1 * fabs_urev }, c.2)
    else
      let c := range_check Fld.vbas pmr.vbas 0 pmr.vmax
      ({ pmr with vbas := c.1, sbas := c.1 / fabs_urev }, c.2)
  (r.1, r.2 ++ [Effect.post Fld.vbas, Effect.post Fld.sbas])

/-- "S (revolutions/sec) <--> VELO (EGU/sec)". -/
def check_speed_and_resolution_slew (fabs_urev : ℚ) (pmr : motorRecord) :
    motorRecord × List Effect :=
  let r : motorRecord × List Effect :=
    if pmr.s ≠ 0 then
      let c := range_check Fld.s pmr.s pmr.sbas pmr.smax
      ({ pmr with s := c.1, velo := c.1 * fabs_urev }, c.2)
    else
      let c := range_check Fld.velo pmr.velo pmr.vbas pmr.vmax
      ({ pmr with velo := c.1, s := c.1 / fabs_urev }, c.2)
  (r.1, r.2 ++ [Effect.post Fld.velo, Effect.post Fld.s])

/-- "SBAK (revolutions/sec) <--> BVEL (EGU/sec)". -/
def check_speed_and_resolution_back (fabs_urev : ℚ) (pmr : motorRecord) :
    motorRecord × List Effect :=
  let r : motorRecord × List Effect :=
    if pmr.sbak ≠ 0 then
      let c := range_check Fld.sbak pmr.sbak pmr.sbas pmr.smax
      ({ pmr with sbak := c.1, bvel := c.1 * fabs_urev }, c.2)
    else
      let c := range_check Fld.bvel pmr.bvel pmr.vbas pmr.vmax
      ({ pmr with bvel := c.1, sbak := c.1 / fabs_urev }, c.2)
  (r.1, r.2 ++ [Effect.post Fld.sbak, Effect.post Fld.bvel])

/-- "Sanity check on acceleration time." -/
def check_speed_and_resolution_accl (pmr : motorRecord) : motorRecord :=
  let pmr := if pmr.accl = 0 then { pmr with accl := 1 / 10, nmap.M_ACCL := true } else pmr
  if pmr.bacc = 0 then { pmr with bacc := 1 / 10, nmap.M_BACC := true } else pmr

/-- "Sanity check on jog velocity and acceleration rate" and "Sanity check on
home velocity". -/
def check_speed_and_resolution_jog (pmr : motorRecord) : motorRecord × List Effect :=
  let j : motorRecord × List Effect :=
    if pmr.jvel = 0 then ({ pmr with jvel := pmr.velo }, [])
    else
      let c := range_check Fld.jvel pmr.jvel pmr.vbas pmr.vmax
      ({ pmr with jvel := c.1 }, c.2)
  let pmr := if j.1.jar = 0 then { j.1 with jar := j.1.velo / j.1.accl } else j.1
  let h : motorRecord × List Effect :=
    if pmr.hvel = 0 then ({ pmr with hvel := pmr.vbas }, [])
    else
      let c := range_check Fld.hvel pmr.hvel pmr.vbas pmr.vmax
      ({ pmr with hvel := c.1 }, c.2)
  (h.1, j.2 ++ h.2)

/-- `check_speed_and_resolution()`: reconcile the two ways of specifying
speed and resolution, and make sure things are sane. -/
def check_speed_and_resolution (pmr : motorRecord) : motorRecord × List Effect :=
  let r := check_speed_and_resolution_res pmr
  let a := check_speed_and_resolution_max r.2 r.1
  let b := check_speed_and_resolution_base r.2 a.1
  let c := check_speed_and_resolution_slew r.2 b.1
  let d := check_speed_and_resolution_back r.2 c.1
  let e := check_speed_and_resolution_jog (check_speed_and_resolution_accl d.1)
  (e.1, a.2 ++ b.2 ++ c.2 ++ d.2 ++ e.2)

/-- The assignment `pmr->dval = (pmr->val - pmr->off) / dir` of `do_work` in
C `double` arithmetic: the difference and the quotient are each rounded to a
`double`. -/
def do_work_dval_of_val (off dir val : ℚ) : ℚ := toDouble (toDouble (val - off) / dir)

/-- The assignment `pmr->val = pmr->dval * dir + pmr->off` of `do_work` in C
`double` arithmetic: the product and the sum are each rounded to a
`double`. -/
def do_work_val_of_dval (off dir dval : ℚ) : ℚ := toDouble (toDouble (dval * dir) + off)

/-- The `double` nearest to 0.2. -/
def doubleFifth : ℚ := 3602879701896397 / 18014398509481984

/-- The `double` nearest to 0.1. -/
def doubleTenth : ℚ := 3602879701896397 / 36028797018963968

/-- What the callback part of `process()` leaves of the delay bits, for a
record entered with MIP `entry`: they are not both set, or the part leaves
through the wait for the readback update, entered with `DELAY_ACK`, with
`dmov` cleared and `GET_INFO` sent. -/
def Stage.delayOk (entry : ℕ) (s : Stage) : Prop :=
  match s with
  | Stage.exit r e =>
    delayExclusive r.mip ∨ (mipHas entry MIP_DELAY_ACK = true ∧ r.dmov = false ∧ getInfo ∈ e)
  | Stage.work r _ => delayExclusive r.mip

/-- The closed-loop link of `do_work` is in use: `omsl` is `closed_loop` and
`dol` is a database link. -/
def closedLoopDol (p : motorRecord) : Prop :=
  p.omsl = menuOmsl.closed_loop ∧ p.dol_type = LinkType.DB_LINK

instance (p : motorRecord) : Decidable (closedLoopDol p) := by
  unfold closedLoopDol
  infer_instance

/-- The guard of the "stop jogging" block of `do_work`: `JOG_REQ` is clear
and `JOGF` or `JOGR` is set in MIP. -/
def jogReleasedGuard (p : motorRecord) : Prop :=
  (p.mip &&& MIP_JOG_REQ) = 0 ∧ (mipHas p.mip MIP_JOGF = true ∨ mipHas p.mip MIP_JOGR = true)

instance (p : motorRecord) : Decidable (jogReleasedGuard p) := by
  unfold jogReleasedGuard
  infer_instance

/-- Nothing is pending for the first two sections of `do_work`, and the
record is in Use mode: no SPMG edge, no stop request, none of the marks
`MRES`, `ERES`, `UEIP`. -/
def rested (s : motorRecord) : Prop :=
  s.spmg = s.lspg ∧ s.stop = false ∧ resMarks s = (false, false, false) ∧ s.set = false

/-- The record `u` is what the third section of `do_work` hands on from `s`:
`s` with `val` read from the closed-loop link, or `s` with its tweaks,
relative moves and raw-value writes folded in. -/
def handedOn (env : Env) (s u : motorRecord) : Prop :=
  (closedLoopDol s ∧ ∃ v, env.dol = some v ∧ u = { s with val := v, udf := false }) ∨
  (¬ closedLoopDol s ∧ u = do_work_tweak s)

/-- The fields of the record that no section of `do_work` after the first two
writes in Use mode, with the three marks that start the resolution pass. -/
def setup (p : motorRecord) :=
  (p.spmg, p.lspg, p.stop, resMarks p, p.set, p.omsl, p.dol_type, p.dir, p.off, p.mres,
   p.hls, p.lls, p.homf, p.homr, p.dhlm, p.dllm, p.bdst)

/-- No home button is asserted with its limit switch off. -/
def noHomeButton (p : motorRecord) : Prop :=
  (p.homf = true → p.hls = true) ∧ (p.homr = true → p.lls = true)

/-- No change of target is pending: no tweak, no relative move, and the drive
fields equal their last-commanded copies. -/
def targetIdle (p : motorRecord) : Prop :=
  p.twf = false ∧ p.twr = false ∧ p.rlv = p.lrlv ∧ p.rval = p.lrvl ∧ p.val = p.lval ∧
  p.dval = p.ldvl

/-- The stop button is pending, outside Stop/Pause, with nothing else for the
next call to act on: no home button with its limit switch off (unless the
closed-loop link is in use), no status-update request and, when MIP is `DONE`
or `RETRY`, no closed-loop link and no change of target. -/
def stopCase (p : motorRecord) : Prop :=
  p.stop = true ∧ (closedLoopDol p ∨ noHomeButton p) ∧ p.stup ≠ motorSTUP.ON ∧
  (p.mip = MIP_DONE ∨ p.mip = MIP_RETRY → ¬ closedLoopDol p ∧ targetIdle p)

/-- One home search is requested and is accepted by `do_work`: no stop
request, no closed-loop link, no limit violation recorded, exactly one home
button asserted with its limit switch off and its search not in MIP, the
soft limit not in the way, `eres` nonzero or the motor moving, and no
status-update request. -/
def homeCase (p : motorRecord) : Prop :=
  p.stop = false ∧ ¬ closedLoopDol p ∧ p.lvio = false ∧
  ((p.homf = true ∧ p.homr = false ∧ p.hls = false ∧ mipHas p.mip MIP_HOMF = false) ∨
   (p.homr = true ∧ p.homf = false ∧ p.lls = false ∧ mipHas p.mip MIP_HOMR = false)) ∧
  (limitsDisabled p ∨
    ¬ ((p.homf = true ∧ p.dval > p.dhlm - p.velo) ∨
       (p.homr = true ∧ p.dval < p.dllm + p.velo))) ∧
  (p.movn = true ∨ p.eres ≠ 0) ∧ p.stup ≠ motorSTUP.ON

/-- No stop request and no home request is pending, and no jog is queued: a
change of SPMG to Go or Move, a change of target, a status-update request or
nothing at all.  `JOG_REQ` is clear in MIP and not about to be set by a change
of SPMG to Go with a jog button down, MIP is not `RETRY`, no home button is
asserted with its limit switch off (unless the closed-loop link is in use),
with the closed-loop link `dval = ldvl`, and a status-update request comes
only with a first call that records no limit violation. -/
def targetCase (env : Env) (p : motorRecord) : Prop :=
  p.stop = false ∧ mipHas p.mip MIP_JOG_REQ = false ∧
  ¬ (p.spmg ≠ p.lspg ∧ p.spmg = motorSPMG.Go ∧
     ((p.jogf = true ∧ p.hls = false) ∨ (p.jogr = true ∧ p.lls = false))) ∧
  p.mip ≠ MIP_RETRY ∧ (closedLoopDol p ∨ noHomeButton p) ∧
  (closedLoopDol p → p.dval = p.ldvl) ∧
  (p.stup = motorSTUP.ON → (do_work env p).pmr.lvio = false)

/-- An idle record on which the stop button has been pressed. -/
def stopIdle : motorRecord := { stop := true, mip := MIP_DONE, dmov := true }

/-- An idle record with the home-forward button down, resolutions of 1. -/
def homeForward : motorRecord :=
  { homf := true, mres := 1, eres := 1, mip := MIP_DONE, dmov := true }

/-- An idle record held at Pause with a new dial target. -/
def pausedTarget : motorRecord :=
  { spmg := motorSPMG.Pause, lspg := motorSPMG.Pause, dval := 1, mres := 1, mip := MIP_DONE,
    dmov := true }

/-- An idle record on which `ueip` has just been changed (mark `UEIP`). -/
def ueipChanged : motorRecord :=
  { mmap := { M_UEIP := true }, mres := 1, mip := MIP_DONE, dmov := true }

/-- An idle record in Set mode with a new dial value. -/
def setNewDial : motorRecord :=
  { set := true, dval := 1, mres := 1, mip := MIP_DONE, dmov := true }

/-- An idle record with the stop button pressed and SPMG just changed from Go
to Stop. -/
def stopAndSwitch : motorRecord :=
  { stop := true, spmg := motorSPMG.Stop, lspg := motorSPMG.Go, mip := MIP_DONE, dmov := true }

/-- An idle record with the stop button pressed and a new dial target. -/
def stopAndTarget : motorRecord :=
  { stop := true, dval := 1, mres := 1, velo := 1, accl := 1, mip := MIP_DONE, dmov := true }

/-- An idle record with the stop button pressed and the home-forward button
down. -/
def stopAndHome : motorRecord :=
  { stop := true, homf := true, mres := 1, eres := 1, mip := MIP_DONE, dmov := true }

/-- An idle record with the stop button pressed and a status update
requested. -/
def stopAndStatus : motorRecord :=
  { stop := true, stup := motorSTUP.ON, mip := MIP_DONE, dmov := true }

/-- An idle record with the home-forward button down and a status update
requested. -/
def homeAndStatus : motorRecord :=
  { homf := true, stup := motorSTUP.ON, mres := 1, eres := 1, mip := MIP_DONE, dmov := true }

/-- An idle record with both home buttons down. -/
def homeBoth : motorRecord :=
  { homf := true, homr := true, mres := 1, eres := 1, mip := MIP_DONE, dmov := true }

/-- An idle record with the home-forward button down and a limit violation
left recorded, the dial target being inside the (disabled) limits. -/
def homeAfterViolation : motorRecord :=
  { homf := true, lvio := true, mres := 1, eres := 1, mip := MIP_DONE, dmov := true }

/-- An idle record with the home-forward button down at the high dial limit,
and a new dial target of 10 (last-commanded 0). -/
def homeAtLimit : motorRecord :=
  { homf := true, dhlm := 10, dllm := -10, velo := 1, accl := 1, dval := 10, mres := 1,
    eres := 1, mip := MIP_DONE, dmov := true }

/-- An idle record, not moving, with the home-forward button down and a zero
encoder resolution. -/
def homeZeroEres : motorRecord :=
  { homf := true, mres := 1, eres := 0, movn := false, mip := MIP_DONE, dmov := true }

/-- An idle record with a status update requested and a new dial target of 20
beyond the high dial limit of 10. -/
def statusBeyondLimit : motorRecord :=
  { stup := motorSTUP.ON, dval := 20, dhlm := 10, dllm := -10, mres := 1, mip := MIP_DONE,
    dmov := true }

/-- A done-moving record with MIP `RETRY` whose dial value 0.6 has been
written directly (`val = lval`, `rval = lrvl`), with a retry deadband of 1. -/
def retryHeld : motorRecord :=
  { mip := MIP_RETRY, dmov := true, dval := 3 / 5, off := -(3 / 5), mres := 1, rdbd := 1,
    velo := 1, accl := 1 }

/-- An idle record in closed-loop mode (link value 0, as last commanded) whose
dial value has been written directly to 1, the readback being 1. -/
def linkAndDial : motorRecord :=
  { omsl := menuOmsl.closed_loop, dol_type := LinkType.DB_LINK, dval := 1, drbv := 1, mres := 1,
    velo := 1, accl := 1, mip := MIP_DONE, dmov := true }

/-- An idle record with SPMG just changed from Stop to Go while the
jog-forward button is down. -/
def goWithJog : motorRecord :=
  { spmg := motorSPMG.Go, lspg := motorSPMG.Stop, jogf := true, jvel := 1, jar := 1, mres := 1,
    mip := MIP_DONE, dmov := true }

/-- An idle record in closed-loop mode on which the stop button has been
pressed; the link holds a new value, 1, the last-commanded value being 0. -/
def stopAndLink : motorRecord :=
  { stop := true, omsl := menuOmsl.closed_loop, dol_type := LinkType.DB_LINK, mres := 1,
    velo := 1, accl := 1, mip := MIP_DONE, dmov := true }

/-! ## Properties -/

theorem NINT_intCast (r : ℤ) : NINT (r : ℚ) = r := by
  unfold NINT toLong
  by_cases h : (0 : ℚ) < (r : ℚ)
  · have h1 : (0 : ℚ) ≤ (r : ℚ) + 1 / 2 := by linarith
    rw [if_pos h, if_pos h1, Int.floor_eq_iff]
    constructor <;> linarith
  · have h0 : (r : ℚ) ≤ 0 := le_of_not_lt h
    have h1 : ¬ ((0 : ℚ) ≤ (r : ℚ) - 1 / 2) := by
      intro h2
      linarith
    rw [if_neg h, if_neg h1, Int.ceil_eq_iff]
    constructor <;> linarith

/-- C1: for every resolution `mres ≠ 0` and integer raw position `r`, the dial
value `r * mres` that `do_work` derives from a raw-value write converts back,
through `NINT(dval / mres)`, to `r`. -/
theorem C1_raw_dial_roundtrip (mres : ℚ) (r : ℤ) (h : mres ≠ 0) :
    NINT ((r : ℚ) * mres / mres) = r := by
  rw [mul_div_assoc, div_self h, mul_one]
  exact NINT_intCast r

theorem C1_raw_dial_roundtrip_witness :
    ((1 : ℚ) / 1000 ≠ 0) ∧ NINT (((1000 : ℤ) : ℚ) * (1 / 1000) / (1 / 1000)) = 1000 :=
  ⟨by norm_num, C1_raw_dial_roundtrip (1 / 1000) 1000 (by norm_num)⟩

/-- C5: when `|diff| > rdbd`, both limit switches are off and `rtry ≠ 0`,
`maybeRetry` increases `rcnt` by exactly one; when the new count does not
exceed `rtry` it also clears `dmov` and sets MIP to exactly `RETRY`. -/
theorem C5_maybeRetry_counts (pmr : motorRecord)
    (hd : |pmr.diff| > pmr.rdbd) (hh : pmr.hls = false) (hl : pmr.lls = false)
    (hr : pmr.rtry ≠ 0) :
    (maybeRetry pmr).rcnt = pmr.rcnt + 1 ∧
    (pmr.rcnt + 1 ≤ pmr.rtry →
      (maybeRetry pmr).dmov = false ∧ (maybeRetry pmr).mip = MIP_RETRY) := by
  have hc : |pmr.diff| > pmr.rdbd ∧ ¬ (pmr.hls = true) ∧ ¬ (pmr.lls = true) := by
    simp [hd, hh, hl]
  unfold maybeRetry
  simp only [if_pos hc, if_neg hr]
  by_cases hx : pmr.rcnt + 1 > pmr.rtry
  · simp only [if_pos hx]
    exact ⟨trivial, fun h => absurd hx (not_lt.mpr h)⟩
  · simp only [if_neg hx]
    exact ⟨trivial, fun _ => ⟨trivial, trivial⟩⟩

theorem C5_maybeRetry_counts_witness :
    (maybeRetry { diff := 1, rdbd := 1 / 100, rtry := 3, rcnt := 0 }).rcnt = 0 + 1 ∧
    ((0 : ℤ) + 1 ≤ 3 →
      (maybeRetry { diff := 1, rdbd := 1 / 100, rtry := 3, rcnt := 0 }).dmov = false ∧
      (maybeRetry { diff := 1, rdbd := 1 / 100, rtry := 3, rcnt := 0 }).mip = MIP_RETRY) :=
  C5_maybeRetry_counts { diff := 1, rdbd := 1 / 100, rtry := 3, rcnt := 0 }
    (by norm_num) rfl rfl (by norm_num)

/-- C6: when `|diff| > rdbd`, both limit switches are off, `rtry ≠ 0` and
`rcnt ≥ rtry` on entry, `maybeRetry` sets `miss`, concludes MIP to `DONE`
(so not `RETRY`), and leaves the last-commanded copies equal to the desired
positions. -/
theorem C6_maybeRetry_exhausted (pmr : motorRecord)
    (hd : |pmr.diff| > pmr.rdbd) (hh : pmr.hls = false) (hl : pmr.lls = false)
    (hr : pmr.rtry ≠ 0) (hx : pmr.rcnt ≥ pmr.rtry) :
    (maybeRetry pmr).miss = true ∧ (maybeRetry pmr).mip = MIP_DONE ∧
    (maybeRetry pmr).mip ≠ MIP_RETRY ∧
    (maybeRetry pmr).lval = (maybeRetry pmr).val ∧
    (maybeRetry pmr).ldvl = (maybeRetry pmr).dval ∧
    (maybeRetry pmr).lrvl = (maybeRetry pmr).rval := by
  have hc : |pmr.diff| > pmr.rdbd ∧ ¬ (pmr.hls = true) ∧ ¬ (pmr.lls = true) := by
    simp [hd, hh, hl]
  have hgt : pmr.rcnt + 1 > pmr.rtry := by omega
  unfold maybeRetry
  simp only [if_pos hc, if_neg hr, if_pos hgt]
  refine ⟨trivial, trivial, ?_, trivial, trivial, trivial⟩
  decide

theorem C6_maybeRetry_exhausted_witness :
    (maybeRetry { diff := 1, rdbd := 1 / 100, rtry := 3, rcnt := 3, val := 5 }).miss = true ∧
    (maybeRetry { diff := 1, rdbd := 1 / 100, rtry := 3, rcnt := 3, val := 5 }).mip = MIP_DONE ∧
    (maybeRetry { diff := 1, rdbd := 1 / 100, rtry := 3, rcnt := 3, val := 5 }).mip ≠ MIP_RETRY ∧
    (maybeRetry { diff := 1, rdbd := 1 / 100, rtry := 3, rcnt := 3, val := 5 }).lval =
      (maybeRetry { diff := 1, rdbd := 1 / 100, rtry := 3, rcnt := 3, val := 5 }).val ∧
    (maybeRetry { diff := 1, rdbd := 1 / 100, rtry := 3, rcnt := 3, val := 5 }).ldvl =
      (maybeRetry { diff := 1, rdbd := 1 / 100, rtry := 3, rcnt := 3, val := 5 }).dval ∧
    (maybeRetry { diff := 1, rdbd := 1 / 100, rtry := 3, rcnt := 3, val := 5 }).lrvl =
      (maybeRetry { diff := 1, rdbd := 1 / 100, rtry := 3, rcnt := 3, val := 5 }).rval :=
  C6_maybeRetry_exhausted { diff := 1, rdbd := 1 / 100, rtry := 3, rcnt := 3, val := 5 }
    (by norm_num) rfl rfl (by norm_num) (by norm_num)

/-! ### Stepping through the sections of `do_work` -/

theorem Flow.next_nil_andThen (pmr : motorRecord) (k : motorRecord → Flow) :
    (Flow.next pmr []).andThen k = k pmr := by
  unfold Flow.andThen
  cases h : k pmr <;> simp only [h, List.nil_append]

theorem do_work_spmg_quiet (sp : Bool) (pmr : motorRecord)
    (h1 : pmr.spmg = pmr.lspg) (h2 : pmr.stop = false) :
    do_work_spmg sp pmr = Flow.next pmr [] := by
  unfold do_work_spmg
  simp [h1, h2]

theorem do_work_resolution_quiet (pmr : motorRecord)
    (h1 : pmr.mmap.M_MRES = false) (h2 : pmr.mmap.M_ERES = false)
    (h3 : pmr.mmap.M_UEIP = false) :
    do_work_resolution pmr = Flow.next pmr [] := by
  unfold do_work_resolution
  rw [if_neg]
  rw [h1, h2, h3]
  simp

/-- C3: with `pact` set, `process` returns at once: status `OK`, the record
unchanged in every field, and no call made (device support is not queried and
no command transaction is sent). -/
theorem C3_process_single_flight (env : Env) (pmr : motorRecord) (h : pmr.pact = true) :
    (process env pmr).status = OK ∧ (process env pmr).pmr = pmr ∧
    (process env pmr).eff = [] := by
  unfold process
  simp [h]

theorem C3_process_single_flight_witness :
    (process {} { pact := true, mip := MIP_MOVE, dmov := false }).status = OK ∧
    (process {} { pact := true, mip := MIP_MOVE, dmov := false }).pmr =
      { pact := true, mip := MIP_MOVE, dmov := false } ∧
    (process {} { pact := true, mip := MIP_MOVE, dmov := false }).eff = [] :=
  C3_process_single_flight {} { pact := true, mip := MIP_MOVE, dmov := false } rfl

theorem mipHas_zero (bits : ℕ) : mipHas 0 bits = false := by
  simp [mipHas]

theorem do_work_tweak_quiet (pmr : motorRecord)
    (htwf : pmr.twf = false) (htwr : pmr.twr = false) (hrlv : pmr.rlv = pmr.lrlv)
    (hrval : pmr.rval = pmr.lrvl) : do_work_tweak pmr = pmr := by
  unfold do_work_tweak do_work_tweak_tw
  rw [if_neg (by simp [htwf, htwr])]
  unfold do_work_tweak_rlv
  rw [if_neg (by simp [hrlv])]
  unfold do_work_tweak_rval
  rw [if_neg (by simp [hrval])]

theorem do_work_collect_quiet (env : Env) (dir : ℚ) (sp : Bool) (pmr : motorRecord)
    (hcl : ¬ (pmr.omsl = menuOmsl.closed_loop ∧ pmr.dol_type = LinkType.DB_LINK))
    (hmip : pmr.mip = MIP_DONE)
    (hhomf : pmr.homf = false) (hhomr : pmr.homr = false) :
    do_work_collect env dir sp pmr = Flow.next (do_work_tweak pmr) [] := by
  have hmip0 : pmr.mip = 0 := hmip
  unfold do_work_collect
  rw [if_neg hcl]
  simp [hhomf, hhomr, hmip0, mipHas_zero]

theorem do_work_val_quiet (dir : ℚ) (set : Bool) (pmr : motorRecord)
    (h : pmr.val = pmr.lval) : do_work_val dir set pmr = Flow.next pmr [] := by
  unfold do_work_val
  simp [h]

theorem do_work_lvio_frame (old : Bool) (pmr : motorRecord) :
    ∃ l m, do_work_lvio old pmr = { pmr with lvio := l, mmap := m } := by
  unfold do_work_lvio
  simp only []
  split_ifs <;> exact ⟨_, _, rfl⟩

theorem do_work_move_quiet (dir : ℚ) (set : Bool) (pmr : motorRecord)
    (h1 : pmr.dval = pmr.ldvl) (h2 : pmr.dmov = true) :
    do_work_move dir set pmr = ⟨RTN_STATUS.OK, pmr, []⟩ := by
  unfold do_work_move
  simp [h1, h2]

/-- The outcome of `do_work_limit` followed by `do_work_move` on a record whose
dial target is the last-commanded one and which is done moving: nothing is
sent and `dmov` stays true. -/
theorem do_work_tail_idle (old sp : Bool) (dir : ℚ) (set : Bool) (pmr : motorRecord)
    (hdval : pmr.dval = pmr.ldvl) (hdmov : pmr.dmov = true) (hstup : pmr.stup ≠ motorSTUP.ON) :
    (match do_work_limit old sp pmr with
      | Flow.ret o => o
      | Flow.next p eff =>
        { do_work_move dir set p with eff := eff ++ (do_work_move dir set p).eff }).eff = [] ∧
    (match do_work_limit old sp pmr with
      | Flow.ret o => o
      | Flow.next p eff =>
        { do_work_move dir set p with eff := eff ++ (do_work_move dir set p).eff }).pmr.dmov
      = true := by
  obtain ⟨l, m, h⟩ := do_work_lvio_frame old pmr
  unfold do_work_limit
  simp only [h]
  by_cases hl : l = true
  · simp only [hl, if_true]
    unfold do_work_rollback
    simp only []
    split_ifs <;> simp [hdmov]
  · simp only [hl]
    by_cases hsp : sp = true
    · simp [hsp, hdmov]
    · simp only [hsp, hstup]
      simp [do_work_move_quiet, hdval, hdmov]

/-- C8: an idle record (target equal to the last-commanded target, `dmov`
true, MIP `DONE`, SPMG `Go` unchanged, no stop, home, tweak, relative-move,
status-update or resolution-change request; a closed-loop link, if any,
delivering the present `val` or failing) makes `do_work` send no command and
leaves `dmov` true.  Scenario A is the instance `scenarioA`. -/
theorem C8_idle_no_command (env : Env) (pmr : motorRecord)
    (hval : pmr.val = pmr.lval) (hdval : pmr.dval = pmr.ldvl) (hrval : pmr.rval = pmr.lrvl)
    (hdmov : pmr.dmov = true) (hmip : pmr.mip = MIP_DONE)
    (hspmg : pmr.spmg = motorSPMG.Go) (hlspg : pmr.lspg = motorSPMG.Go)
    (hstop : pmr.stop = false)
    (hm1 : pmr.mmap.M_MRES = false) (hm2 : pmr.mmap.M_ERES = false)
    (hm3 : pmr.mmap.M_UEIP = false)
    (hlink : env.dol = none ∨ env.dol = some pmr.val)
    (hhomf : pmr.homf = false) (hhomr : pmr.homr = false)
    (htwf : pmr.twf = false) (htwr : pmr.twr = false) (hrlv : pmr.rlv = pmr.lrlv)
    (hstup : pmr.stup ≠ motorSTUP.ON) :
    (do_work env pmr).eff = [] ∧ (do_work env pmr).pmr.dmov = true := by
  unfold do_work
  simp only [do_work_spmg_quiet _ pmr (hspmg.trans hlspg.symm) hstop,
    do_work_resolution_quiet pmr hm1 hm2 hm3, Flow.next_nil_andThen]
  by_cases hcl : pmr.omsl = menuOmsl.closed_loop ∧ pmr.dol_type = LinkType.DB_LINK
  · rcases hlink with hl | hl
    · have hc : do_work_collect env (dirSign pmr.dir)
          (decide (pmr.spmg = motorSPMG.Stop ∨ pmr.spmg = motorSPMG.Pause)) pmr =
          Flow.ret ⟨RTN_STATUS.ERROR, { pmr with udf := true }, []⟩ := by
        unfold do_work_collect
        rw [if_pos hcl, hl]
      rw [hc]
      exact ⟨rfl, hdmov⟩
    · have hc : do_work_collect env (dirSign pmr.dir)
          (decide (pmr.spmg = motorSPMG.Stop ∨ pmr.spmg = motorSPMG.Pause)) pmr =
          Flow.next { pmr with val := pmr.val, udf := false } [] := by
        unfold do_work_collect
        rw [if_pos hcl, hl]
      rw [hc, Flow.next_nil_andThen, do_work_val_quiet _ _ _ (by exact hval),
        Flow.next_nil_andThen]
      exact do_work_tail_idle _ _ _ _ _ hdval hdmov hstup
  · rw [do_work_collect_quiet env _ _ pmr hcl hmip hhomf hhomr,
      do_work_tweak_quiet pmr htwf htwr hrlv hrval, Flow.next_nil_andThen,
      do_work_val_quiet _ _ _ hval, Flow.next_nil_andThen]
    exact do_work_tail_idle _ _ _ _ _ hdval hdmov hstup

theorem C8_idle_no_command_witness :
    (do_work {} scenarioA).eff = [] ∧ (do_work {} scenarioA).pmr.dmov = true :=
  C8_idle_no_command {} scenarioA rfl rfl rfl rfl rfl rfl rfl rfl rfl rfl rfl
    (Or.inl rfl) rfl rfl rfl rfl rfl (by decide)

theorem Flow.ret_andThen (o : Outcome) (k : motorRecord → Flow) :
    (Flow.ret o).andThen k = Flow.ret o := rfl

theorem do_work_collect_jog (env : Env) (dir : ℚ) (pmr : motorRecord)
    (hcl : ¬ (pmr.omsl = menuOmsl.closed_loop ∧ pmr.dol_type = LinkType.DB_LINK))
    (hhomf : pmr.homf = false) (hhomr : pmr.homr = false)
    (hreq : mipHas pmr.mip MIP_JOG_REQ = true) (hnojog : mipHas pmr.mip MIP_JOG = false)
    (hlvio : pmr.lvio = false) :
    do_work_collect env dir false pmr = Flow.ret (do_work_jog dir pmr) := by
  unfold do_work_collect
  rw [if_neg hcl]
  simp [hhomf, hhomr, hreq, hnojog, hlvio]

/-- C10 (as amended): a queued jog-forward request on a stopped motor, with SPMG
`Go` unchanged, no stop, resolution change, home request or limit violation,
and the target not taken from a closed-loop database link, makes `do_work`
send exactly the transaction `[SET_ACCEL, JOG]`, set MIP to exactly
`JOG_FORWARD`, clear `dmov` and set `pp`. -/
theorem C10_jog_start (env : Env) (pmr : motorRecord)
    (hreq : mipHas pmr.mip MIP_JOG_REQ = true) (hnojog : mipHas pmr.mip MIP_JOG = false)
    (hjogf : pmr.jogf = true)
    (hspmg : pmr.spmg = motorSPMG.Go) (hlspg : pmr.lspg = motorSPMG.Go)
    (hstop : pmr.stop = false)
    (hm1 : pmr.mmap.M_MRES = false) (hm2 : pmr.mmap.M_ERES = false)
    (hm3 : pmr.mmap.M_UEIP = false)
    (hcl : ¬ (pmr.omsl = menuOmsl.closed_loop ∧ pmr.dol_type = LinkType.DB_LINK))
    (hhomf : pmr.homf = false) (hhomr : pmr.homr = false)
    (hlvio : pmr.lvio = false)
    (hlim : limitsDisabled pmr ∨
      (pmr.dval ≤ pmr.dhlm - pmr.velo ∧ (pmr.jogr = true → pmr.dllm + pmr.velo ≤ pmr.dval)))
    (hmovn : pmr.movn = false) :
    (do_work env pmr).eff =
      [Effect.transaction
        [⟨motor_cmnd.SET_ACCEL, [pmr.jar / |pmr.mres|]⟩,
         ⟨motor_cmnd.JOG, [pmr.jvel * dirSign pmr.dir / pmr.mres]⟩]] ∧
    (do_work env pmr).pmr.mip = MIP_JOGF ∧
    (do_work env pmr).pmr.dmov = false ∧ (do_work env pmr).pmr.pp = true := by
  have hsp : decide (pmr.spmg = motorSPMG.Stop ∨ pmr.spmg = motorSPMG.Pause) = false := by
    simp [hspmg]
  have hguard : ¬ (¬ limitsDisabled pmr ∧
      ((pmr.jogf = true ∧ pmr.dval > pmr.dhlm - pmr.velo) ∨
       (pmr.jogr = true ∧ pmr.dval < pmr.dllm + pmr.velo))) := by
    rintro ⟨h1, h2⟩
    rcases hlim with h | ⟨h3, h4⟩
    · exact h1 h
    · rcases h2 with ⟨_, h5⟩ | ⟨h6, h7⟩
      · exact absurd h5 (not_lt.mpr h3)
      · exact absurd h7 (not_lt.mpr (h4 h6))
  unfold do_work
  simp only [do_work_spmg_quiet _ pmr (hspmg.trans hlspg.symm) hstop,
    do_work_resolution_quiet pmr hm1 hm2 hm3, Flow.next_nil_andThen, hsp]
  rw [do_work_collect_jog env _ pmr hcl hhomf hhomr hreq hnojog hlvio]
  simp only [Flow.ret_andThen]
  unfold do_work_jog
  rw [if_neg hguard]
  simp only [hmovn, hjogf, Bool.false_eq_true, if_false, if_true]
  split_ifs <;> simp

theorem C10_jog_start_witness :
    (do_work {} { mip := MIP_JOG_REQ, jogf := true, jvel := 2, jar := 4, mres := 1 / 1000 }).eff =
      [Effect.transaction
        [⟨motor_cmnd.SET_ACCEL, [4 / |(1 / 1000 : ℚ)|]⟩,
         ⟨motor_cmnd.JOG, [2 * dirSign motorDIR.Pos / (1 / 1000)]⟩]] ∧
    (do_work {} { mip := MIP_JOG_REQ, jogf := true, jvel := 2, jar := 4,
                  mres := 1 / 1000 }).pmr.mip = MIP_JOGF ∧
    (do_work {} { mip := MIP_JOG_REQ, jogf := true, jvel := 2, jar := 4,
                  mres := 1 / 1000 }).pmr.dmov = false ∧
    (do_work {} { mip := MIP_JOG_REQ, jogf := true, jvel := 2, jar := 4,
                  mres := 1 / 1000 }).pmr.pp = true :=
  C10_jog_start {} { mip := MIP_JOG_REQ, jogf := true, jvel := 2, jar := 4, mres := 1 / 1000 }
    rfl rfl rfl rfl rfl rfl rfl rfl rfl (by decide) rfl rfl rfl (Or.inl ⟨rfl, rfl⟩) rfl

/-- C10 (counterexample): in closed-loop mode with the target read from a
database link, a record that meets every condition of the claim (queued jog
request, `jogf`, `hls` off, SPMG `Go` unchanged, nothing else pending, motor
stopped) gets no command from `do_work` and keeps MIP at `JOG_REQ`. -/
theorem C10_closed_loop_counterexample :
    mipHas jogClosedLoop.mip MIP_JOG_REQ = true ∧ mipHas jogClosedLoop.mip MIP_JOG = false ∧
    jogClosedLoop.jogf = true ∧ jogClosedLoop.hls = false ∧
    jogClosedLoop.spmg = motorSPMG.Go ∧ jogClosedLoop.lspg = motorSPMG.Go ∧
    jogClosedLoop.stop = false ∧ jogClosedLoop.homf = false ∧ jogClosedLoop.homr = false ∧
    jogClosedLoop.lvio = false ∧ limitsDisabled jogClosedLoop ∧ jogClosedLoop.movn = false ∧
    (do_work { dol := some 0 } jogClosedLoop).eff = [] ∧
    (do_work { dol := some 0 } jogClosedLoop).pmr.mip = MIP_JOG_REQ ∧
    (do_work { dol := some 0 } jogClosedLoop).pmr.mip ≠ MIP_JOGF := by
  refine ⟨rfl, rfl, rfl, rfl, rfl, rfl, rfl, rfl, rfl, rfl, ⟨rfl, rfl⟩, rfl, rfl, rfl, ?_⟩
  decide

theorem do_work_diff_frame (p : motorRecord) :
    ∃ m, do_work_diff p =
      { p with diff := p.dval - p.drbv, rdif := NINT ((p.dval - p.drbv) / p.mres), mmap := m } := by
  unfold do_work_diff
  simp only []
  split_ifs <;> exact ⟨_, rfl⟩

theorem do_work_post_frame (dir : ℚ) (p : motorRecord) :
    ∃ m, do_work_post dir p =
      { p with val := p.dval * dir + p.off, rval := NINT (p.dval / p.mres), mmap := m } := by
  unfold do_work_post
  simp only []
  split_ifs <;> exact ⟨_, rfl⟩

theorem do_work_send_record_frame (leg : MoveLeg) (p : motorRecord) :
    ∃ m, do_work_send_record leg p =
      { p with mip := MIP_MOVE, dmov := false, ldvl := p.dval, lval := p.val, lrvl := p.rval,
               pp := leg.deferred || p.pp, cdir := decide (¬ p.rdif < 0), mmap := m } := by
  unfold do_work_send_record
  simp only []
  split_ifs <;> simp_all

theorem do_work_rcnt_frame (p : motorRecord) :
    ∃ c m, do_work_rcnt p = { p with rcnt := c, mmap := m } := by
  unfold do_work_rcnt
  split_ifs <;> exact ⟨_, _, rfl⟩

theorem do_work_rcnt_fresh (p : motorRecord) (h : (p.mip &&& MIP_RETRY) = 0) :
    (do_work_rcnt p).rcnt = 0 := by
  unfold do_work_rcnt
  rw [if_pos h]

theorem preferredDir_rcnt (p : motorRecord) : preferredDir (do_work_rcnt p) ↔ preferredDir p := by
  obtain ⟨c, m, h⟩ := do_work_rcnt_frame p
  rw [h]
  exact Iff.rfl

theorem useRel_rcnt (p : motorRecord) : useRel (do_work_rcnt p) ↔ useRel p := by
  obtain ⟨c, m, h⟩ := do_work_rcnt_frame p
  rw [h]
  exact Iff.rfl

theorem moveLeg_direct (pd : Bool) (q : motorRecord)
    (h : |q.bdst| < |q.mres| ∨ (pd = true ∧ q.bvel = q.velo ∧ q.bacc = q.accl))
    (hrel : ¬ useRel q) :
    moveLeg pd q =
      ⟨q.velo / |q.mres|, q.velo / |q.mres| / q.accl,
       q.ldvl / q.mres + q.frac * (q.dval / q.mres - q.ldvl / q.mres), false⟩ := by
  unfold moveLeg
  simp only []
  rw [if_pos h, if_neg hrel]

theorem do_work_send_pp (pd : Bool) (q : motorRecord) :
    (do_work_send pd q).pmr.pp = ((moveLeg pd q).deferred || q.pp) := by
  obtain ⟨m, h⟩ := do_work_send_record_frame (moveLeg pd q) q
  unfold do_work_send
  simp only []
  rw [h]

theorem do_work_dispatch_send (q : motorRecord)
    (hmip : q.mip = MIP_DONE ∨ q.mip = MIP_RETRY)
    (hnd : ¬ (|q.diff| < 19 / 20 * q.rdbd ∧ ¬ preferredDir q)) :
    do_work_dispatch q = do_work_send (decide (preferredDir q)) (do_work_rcnt q) := by
  obtain ⟨c, m, h⟩ := do_work_rcnt_frame q
  have hdiff : (do_work_rcnt q).diff = q.diff := by rw [h]
  have hm : (do_work_rcnt q).mip = q.mip := by rw [h]
  have hd : decide (preferredDir (do_work_rcnt q)) = decide (preferredDir q) := by
    simp only [preferredDir_rcnt]
  unfold do_work_dispatch
  simp only [hdiff, hm, hd, decide_eq_false_iff_not]
  rw [if_neg hnd, if_pos hmip]

theorem do_work_move_go (dir : ℚ) (p : motorRecord)
    (hne : p.dval ≠ p.ldvl ∨ ¬ p.dmov = true)
    (hnpos : NINT (p.dval / p.mres) ≠ NINT (p.drbv / p.mres)) :
    do_work_move dir false p = do_work_dispatch (do_work_post dir (do_work_diff p)) := by
  obtain ⟨m, h⟩ := do_work_diff_frame p
  have h1 : (do_work_diff p).dval = p.dval := by rw [h]
  have h2 : (do_work_diff p).drbv = p.drbv := by rw [h]
  have h3 : (do_work_diff p).mres = p.mres := by rw [h]
  unfold do_work_move
  rw [if_pos hne]
  simp only [Bool.false_eq_true, if_false, h1, h2, h3]
  rw [if_neg hnpos]

theorem do_work_prepared_frame (dir : ℚ) (p : motorRecord) :
    ∃ c m, do_work_rcnt (do_work_post dir (do_work_diff p)) =
      { p with diff := p.dval - p.drbv, rdif := NINT ((p.dval - p.drbv) / p.mres),
               val := p.dval * dir + p.off, rval := NINT (p.dval / p.mres),
               rcnt := c, mmap := m } := by
  obtain ⟨m1, h1⟩ := do_work_diff_frame p
  obtain ⟨m2, h2⟩ := do_work_post_frame dir (do_work_diff p)
  obtain ⟨c, m3, h3⟩ := do_work_rcnt_frame (do_work_post dir (do_work_diff p))
  rw [h3, h2, h1]
  exact ⟨c, m3, rfl⟩

theorem NINT_1000 : NINT ((1 : ℚ) / (1 / 1000)) = 1000 := by
  have h : (1 : ℚ) / (1 / 1000) = ((1000 : ℤ) : ℚ) := by norm_num
  rw [h, NINT_intCast]

theorem NINT_0 : NINT ((0 : ℚ) / (1 / 1000)) = 0 := by
  have h : (0 : ℚ) / (1 / 1000) = ((0 : ℤ) : ℚ) := by norm_num
  rw [h, NINT_intCast]

theorem do_work_lvio_ok (old : Bool) (pmr : motorRecord) (h : targetAllowed pmr) :
    (do_work_lvio old pmr).lvio = false := by
  unfold do_work_lvio
  simp only []
  rcases h with h | ⟨h1, h2, h3, h4⟩
  · rw [if_pos h]
    split_ifs <;> rfl
  · have hv : decide (pmr.dval > pmr.dhlm ∨ pmr.dval > pmr.dhlm + pmr.bdst ∨
        pmr.dval < pmr.dllm ∨ pmr.dval < pmr.dllm + pmr.bdst) = false := by
      rw [decide_eq_false_iff_not]
      rintro (h | h | h | h) <;> linarith
    rw [hv]
    split_ifs <;> rfl

theorem do_work_limit_pass (old sp : Bool) (pmr : motorRecord)
    (hl : (do_work_lvio old pmr).lvio = false) (hsp : sp = false)
    (hstup : pmr.stup ≠ motorSTUP.ON) :
    do_work_limit old sp pmr = Flow.next (do_work_lvio old pmr) [] := by
  obtain ⟨l, m, h⟩ := do_work_lvio_frame old pmr
  have hs : (do_work_lvio old pmr).stup = pmr.stup := by rw [h]
  unfold do_work_limit
  simp only [hl, hsp, hs, Bool.false_eq_true, if_false, if_neg hstup]

/-- With SPMG `Go` unchanged and no stop, resolution change, closed-loop link,
home request, tweak, relative move or raw-value write pending, MIP `DONE`,
`val` unchanged, Use mode and an allowed target, `do_work` comes down to its
last section applied to the record with `lvio` updated. -/
theorem do_work_reach_move (env : Env) (pmr : motorRecord)
    (hspmg : pmr.spmg = motorSPMG.Go) (hlspg : pmr.lspg = motorSPMG.Go)
    (hstop : pmr.stop = false)
    (hm1 : pmr.mmap.M_MRES = false) (hm2 : pmr.mmap.M_ERES = false)
    (hm3 : pmr.mmap.M_UEIP = false)
    (hcl : ¬ (pmr.omsl = menuOmsl.closed_loop ∧ pmr.dol_type = LinkType.DB_LINK))
    (hmip : pmr.mip = MIP_DONE)
    (hhomf : pmr.homf = false) (hhomr : pmr.homr = false)
    (htwf : pmr.twf = false) (htwr : pmr.twr = false) (hrlv : pmr.rlv = pmr.lrlv)
    (hrval : pmr.rval = pmr.lrvl) (hval : pmr.val = pmr.lval)
    (hset : pmr.set = false) (hstup : pmr.stup ≠ motorSTUP.ON)
    (hlim : targetAllowed pmr) :
    do_work env pmr = do_work_move (dirSign pmr.dir) false (do_work_lvio pmr.lvio pmr) := by
  have hsp : decide (pmr.spmg = motorSPMG.Stop ∨ pmr.spmg = motorSPMG.Pause) = false := by
    simp [hspmg]
  unfold do_work
  simp only [do_work_spmg_quiet _ pmr (hspmg.trans hlspg.symm) hstop,
    do_work_resolution_quiet pmr hm1 hm2 hm3, Flow.next_nil_andThen]
  rw [do_work_collect_quiet env _ _ pmr hcl hmip hhomf hhomr,
    do_work_tweak_quiet pmr htwf htwr hrlv hrval, Flow.next_nil_andThen,
    do_work_val_quiet _ _ _ hval, Flow.next_nil_andThen,
    do_work_limit_pass _ _ pmr (do_work_lvio_ok _ pmr hlim) hsp hstup, hset]
  rfl

theorem moveLeg_deferred (pd : Bool) (q : motorRecord)
    (h1 : ¬ (|q.bdst| < |q.mres| ∨ (pd = true ∧ q.bvel = q.velo ∧ q.bacc = q.accl)))
    (h2 : ¬ (|q.diff| < 19 / 20 * q.rdbd ∨
      (useRel q ∧ (((q.dval - q.bdst) - q.drbv) / q.mres < 0 ↔ q.diff / q.mres > 0)) ∨
      (¬ useRel q ∧ (q.ldvl / q.mres + 19 / 20 * q.rdbd > (q.dval - q.bdst) / q.mres ↔
        q.dval / q.mres > q.ldvl / q.mres))))
    (hrel : ¬ useRel q) :
    moveLeg pd q =
      ⟨q.velo / |q.mres|, q.velo / |q.mres| / q.accl, (q.dval - q.bdst) / q.mres, true⟩ := by
  unfold moveLeg
  simp only []
  rw [if_neg h1, if_neg h2, if_neg hrel]

/-- The move command of `do_work`'s last section when the move is sent in
absolute mode: a record with MIP `DONE` or `RETRY` whose raw target differs
from the raw readback and which the deadband rule does not hold back gets
exactly one transaction, built from `moveLeg`, and `pp` is set iff the
backlash leg is deferred. -/
theorem do_work_move_abs (dir : ℚ) (p : motorRecord)
    (hne : p.dval ≠ p.ldvl ∨ ¬ p.dmov = true)
    (hnpos : NINT (p.dval / p.mres) ≠ NINT (p.drbv / p.mres))
    (hmip : p.mip = MIP_DONE ∨ p.mip = MIP_RETRY) (hrel : ¬ useRel p)
    (hnd : ¬ (|p.dval - p.drbv| < 19 / 20 * p.rdbd ∧ ¬ (p.dval > p.ldvl ↔ p.bdst > 0))) :
    ∃ q : motorRecord,
      q.dval = p.dval ∧ q.ldvl = p.ldvl ∧ q.drbv = p.drbv ∧ q.mres = p.mres ∧
      q.bdst = p.bdst ∧ q.bvel = p.bvel ∧ q.velo = p.velo ∧ q.bacc = p.bacc ∧
      q.accl = p.accl ∧ q.frac = p.frac ∧ q.rdbd = p.rdbd ∧ q.diff = p.dval - p.drbv ∧
      ¬ useRel q ∧
      (do_work_move dir false p).eff =
        [Effect.transaction
          [⟨motor_cmnd.SET_VEL_BASE, [p.vbas / |p.mres|]⟩,
           ⟨motor_cmnd.SET_VELOCITY, [(moveLeg (decide (p.dval > p.ldvl ↔ p.bdst > 0)) q).velocity]⟩,
           ⟨motor_cmnd.SET_ACCEL, [(moveLeg (decide (p.dval > p.ldvl ↔ p.bdst > 0)) q).accel]⟩,
           ⟨motor_cmnd.MOVE_ABS, [(moveLeg (decide (p.dval > p.ldvl ↔ p.bdst > 0)) q).position]⟩,
           ⟨motor_cmnd.GO, []⟩]] ∧
      (do_work_move dir false p).pmr.pp =
        ((moveLeg (decide (p.dval > p.ldvl ↔ p.bdst > 0)) q).deferred || p.pp) ∧
      (do_work_move dir false p).pmr.mip = MIP_MOVE ∧
      (do_work_move dir false p).pmr.rcnt = q.rcnt := by
  obtain ⟨m1, h1⟩ := do_work_diff_frame p
  obtain ⟨m2, h2⟩ := do_work_post_frame dir (do_work_diff p)
  obtain ⟨c, m, hq⟩ := do_work_prepared_frame dir p
  obtain ⟨m4, h4⟩ := do_work_send_record_frame
    (moveLeg (decide (preferredDir (do_work_post dir (do_work_diff p))))
      (do_work_rcnt (do_work_post dir (do_work_diff p))))
    (do_work_rcnt (do_work_post dir (do_work_diff p)))
  have hrelq : ¬ useRel (do_work_rcnt (do_work_post dir (do_work_diff p))) := by
    rw [hq]
    exact hrel
  have hpd : preferredDir (do_work_post dir (do_work_diff p)) ↔
      (p.dval > p.ldvl ↔ p.bdst > 0) := by
    rw [h2, h1]
    unfold preferredDir
    constructor
    · rintro (⟨_, h⟩ | ⟨h, _⟩)
      · exact h
      · exact absurd h hrel
    · intro h
      exact Or.inl ⟨hrel, h⟩
  have hmipq : (do_work_post dir (do_work_diff p)).mip = MIP_DONE ∨
      (do_work_post dir (do_work_diff p)).mip = MIP_RETRY := by
    rw [h2, h1]
    exact hmip
  have hndq : ¬ (|(do_work_post dir (do_work_diff p)).diff| <
      19 / 20 * (do_work_post dir (do_work_diff p)).rdbd ∧
      ¬ preferredDir (do_work_post dir (do_work_diff p))) := by
    rw [hpd]
    rw [h2, h1]
    exact hnd
  refine ⟨do_work_rcnt (do_work_post dir (do_work_diff p)), ?_⟩
  rw [do_work_move_go dir p hne hnpos, do_work_dispatch_send _ hmipq hndq]
  simp only [hpd]
  refine ⟨by rw [hq], by rw [hq], by rw [hq], by rw [hq], by rw [hq], by rw [hq], by rw [hq],
    by rw [hq], by rw [hq], by rw [hq], by rw [hq], by rw [hq], hrelq, ?_, ?_, ?_, ?_⟩
  · show [Effect.transaction (moveMsgs _ (moveLeg _ _))] = _
    unfold moveMsgs
    have e1 : (do_work_rcnt (do_work_post dir (do_work_diff p))).vbas = p.vbas := by rw [hq]
    have e2 : (do_work_rcnt (do_work_post dir (do_work_diff p))).mres = p.mres := by rw [hq]
    simp only [if_neg hrelq, e1, e2]
  · have e8 : (do_work_rcnt (do_work_post dir (do_work_diff p))).pp = p.pp := by rw [hq]
    rw [do_work_send_pp, e8]
  · show (do_work_send_record _ _).mip = MIP_MOVE
    simp only [hpd] at h4
    rw [h4]
  · show (do_work_send_record _ _).rcnt = _
    simp only [hpd] at h4
    rw [h4]

/-- C9 (as amended): Scenario B with the backlash distance in the direction of
the move (`bdst = +0.05`, target from dial 0 to `dval = 1`, `mres = 0.001`,
`bvel = velo`, `bacc = accl`, `frac = 1`, absolute moves, MIP `DONE`, nothing
else pending): `do_work` sends exactly one transaction, at slew speed, whose
move command is `MOVE_ABS` to raw position 1000, and does not set `pp`. -/
theorem C9_scenarioB_preferred (env : Env) (pmr : motorRecord)
    (hspmg : pmr.spmg = motorSPMG.Go) (hlspg : pmr.lspg = motorSPMG.Go)
    (hstop : pmr.stop = false)
    (hm1 : pmr.mmap.M_MRES = false) (hm2 : pmr.mmap.M_ERES = false)
    (hm3 : pmr.mmap.M_UEIP = false)
    (hcl : ¬ (pmr.omsl = menuOmsl.closed_loop ∧ pmr.dol_type = LinkType.DB_LINK))
    (hmip : pmr.mip = MIP_DONE)
    (hhomf : pmr.homf = false) (hhomr : pmr.homr = false)
    (htwf : pmr.twf = false) (htwr : pmr.twr = false) (hrlv : pmr.rlv = pmr.lrlv)
    (hrval : pmr.rval = pmr.lrvl) (hval : pmr.val = pmr.lval)
    (hset : pmr.set = false) (hstup : pmr.stup ≠ motorSTUP.ON)
    (hlim : targetAllowed pmr)
    (hdval : pmr.dval = 1) (hldvl : pmr.ldvl = 0) (hdrbv : pmr.drbv = 0)
    (hmres : pmr.mres = 1 / 1000) (hbdst : pmr.bdst = 1 / 20)
    (hbvel : pmr.bvel = pmr.velo) (hbacc : pmr.bacc = pmr.accl) (hfrac : pmr.frac = 1)
    (hrel : ¬ useRel pmr) :
    (do_work env pmr).eff =
      [Effect.transaction
        [⟨motor_cmnd.SET_VEL_BASE, [pmr.vbas / |pmr.mres|]⟩,
         ⟨motor_cmnd.SET_VELOCITY, [pmr.velo / |pmr.mres|]⟩,
         ⟨motor_cmnd.SET_ACCEL, [pmr.velo / |pmr.mres| / pmr.accl]⟩,
         ⟨motor_cmnd.MOVE_ABS, [1000]⟩, ⟨motor_cmnd.GO, []⟩]] ∧
    (do_work env pmr).pmr.pp = pmr.pp := by
  obtain ⟨l, m, h⟩ := do_work_lvio_frame pmr.lvio pmr
  have f1 : (do_work_lvio pmr.lvio pmr).dval = 1 := by rw [h]; exact hdval
  have f2 : (do_work_lvio pmr.lvio pmr).ldvl = 0 := by rw [h]; exact hldvl
  have f3 : (do_work_lvio pmr.lvio pmr).drbv = 0 := by rw [h]; exact hdrbv
  have f4 : (do_work_lvio pmr.lvio pmr).mres = 1 / 1000 := by rw [h]; exact hmres
  have f5 : (do_work_lvio pmr.lvio pmr).bdst = 1 / 20 := by rw [h]; exact hbdst
  have f6 : (do_work_lvio pmr.lvio pmr).mip = MIP_DONE := by rw [h]; exact hmip
  have f7 : ¬ useRel (do_work_lvio pmr.lvio pmr) := by rw [h]; exact hrel
  have f8 : (do_work_lvio pmr.lvio pmr).vbas = pmr.vbas := by rw [h]
  have f9 : (do_work_lvio pmr.lvio pmr).velo = pmr.velo := by rw [h]
  have f10 : (do_work_lvio pmr.lvio pmr).accl = pmr.accl := by rw [h]
  have f11 : (do_work_lvio pmr.lvio pmr).bvel = pmr.bvel := by rw [h]
  have f12 : (do_work_lvio pmr.lvio pmr).bacc = pmr.bacc := by rw [h]
  have f13 : (do_work_lvio pmr.lvio pmr).frac = pmr.frac := by rw [h]
  have f14 : (do_work_lvio pmr.lvio pmr).pp = pmr.pp := by rw [h]
  have hnpos : NINT ((do_work_lvio pmr.lvio pmr).dval / (do_work_lvio pmr.lvio pmr).mres) ≠
      NINT ((do_work_lvio pmr.lvio pmr).drbv / (do_work_lvio pmr.lvio pmr).mres) := by
    rw [f1, f3, f4, NINT_1000, NINT_0]
    norm_num
  have hpd : ((do_work_lvio pmr.lvio pmr).dval > (do_work_lvio pmr.lvio pmr).ldvl ↔
      (do_work_lvio pmr.lvio pmr).bdst > 0) := by
    rw [f1, f2, f5]
    norm_num
  obtain ⟨q, q1, q2, q3, q4, q5, q6, q7, q8, q9, q10, q11, q12, qrel, heff, hpp, _, _⟩ :=
    do_work_move_abs (dirSign pmr.dir) (do_work_lvio pmr.lvio pmr)
      (Or.inl (by rw [f1, f2]; norm_num)) hnpos (Or.inl f6) f7 (fun hh => hh.2 hpd)
  have hleg := moveLeg_direct true q
    (Or.inr ⟨rfl, by rw [q6, q7, f11, f9]; exact hbvel, by rw [q8, q9, f12, f10]; exact hbacc⟩)
    qrel
  simp only [hpd, decide_True] at heff hpp
  rw [hleg] at heff hpp
  rw [do_work_reach_move env pmr hspmg hlspg hstop hm1 hm2 hm3 hcl hmip hhomf hhomr htwf htwr
    hrlv hrval hval hset hstup hlim]
  constructor
  · rw [heff]
    simp only [q1, q2, q4, q7, q9, q10, f1, f2, f4, f8, f9, f10, f13, hfrac, hmres]
    norm_num
  · rw [hpp, f14]
    rfl

theorem C9_scenarioB_preferred_witness :
    (do_work {} { scenarioB with bdst := 1 / 20 }).eff =
      [Effect.transaction
        [⟨motor_cmnd.SET_VEL_BASE, [(0 : ℚ) / |(1 / 1000 : ℚ)|]⟩,
         ⟨motor_cmnd.SET_VELOCITY, [(1 : ℚ) / |(1 / 1000 : ℚ)|]⟩,
         ⟨motor_cmnd.SET_ACCEL, [(1 : ℚ) / |(1 / 1000 : ℚ)| / 1]⟩,
         ⟨motor_cmnd.MOVE_ABS, [1000]⟩, ⟨motor_cmnd.GO, []⟩]] ∧
    (do_work {} { scenarioB with bdst := 1 / 20 }).pmr.pp = false :=
  C9_scenarioB_preferred {} { scenarioB with bdst := 1 / 20 } rfl rfl rfl rfl rfl rfl
    (by decide) rfl rfl rfl rfl rfl rfl rfl rfl rfl (by decide) (Or.inl ⟨rfl, rfl⟩)
    rfl rfl rfl rfl rfl rfl rfl rfl (by decide)

theorem do_work_scenarioB (r : ℤ) :
    (scenarioBRetry r).bdst = -(1 / 20) ∧ (scenarioBRetry r).mres = 1 / 1000 ∧ (scenarioBRetry r).bvel = (scenarioBRetry r).velo ∧
    (scenarioBRetry r).bacc = (scenarioBRetry r).accl ∧ (scenarioBRetry r).frac = 1 ∧ ¬ useRel (scenarioBRetry r) ∧
    (scenarioBRetry r).mip = MIP_DONE ∧ (scenarioBRetry r).drbv = 0 ∧ (scenarioBRetry r).ldvl = 0 ∧ (scenarioBRetry r).dval = 1 ∧
    (do_work {} (scenarioBRetry r)).eff =
      [Effect.transaction
        [⟨motor_cmnd.SET_VEL_BASE, [0]⟩, ⟨motor_cmnd.SET_VELOCITY, [1000]⟩,
         ⟨motor_cmnd.SET_ACCEL, [1000]⟩, ⟨motor_cmnd.MOVE_ABS, [1050]⟩,
         ⟨motor_cmnd.GO, []⟩]] ∧
    (do_work {} (scenarioBRetry r)).pmr.pp = true := by
  have hrelB : ¬ useRel (scenarioBRetry r) := by
    unfold useRel scenarioBRetry scenarioB
    simp
  have a1 : |(1 / 1000 : ℚ)| = 1 / 1000 := abs_of_pos (by norm_num)
  have a2 : |(-(1 / 20) : ℚ)| = 1 / 20 := by
    rw [abs_neg]
    exact abs_of_pos (by norm_num)
  have a3 : |((1 : ℚ) - 0)| = 1 := by norm_num
  refine ⟨rfl, rfl, rfl, rfl, rfl, hrelB, rfl, rfl, rfl, rfl, ?_⟩
  obtain ⟨l, m, h⟩ := do_work_lvio_frame (scenarioBRetry r).lvio (scenarioBRetry r)
  have f1 : (do_work_lvio (scenarioBRetry r).lvio (scenarioBRetry r)).dval = 1 := by rw [h]; rfl
  have f2 : (do_work_lvio (scenarioBRetry r).lvio (scenarioBRetry r)).ldvl = 0 := by rw [h]; rfl
  have f3 : (do_work_lvio (scenarioBRetry r).lvio (scenarioBRetry r)).drbv = 0 := by rw [h]; rfl
  have f4 : (do_work_lvio (scenarioBRetry r).lvio (scenarioBRetry r)).mres = 1 / 1000 := by rw [h]; rfl
  have f5 : (do_work_lvio (scenarioBRetry r).lvio (scenarioBRetry r)).bdst = -(1 / 20) := by rw [h]; rfl
  have f6 : (do_work_lvio (scenarioBRetry r).lvio (scenarioBRetry r)).mip = MIP_DONE := by rw [h]; rfl
  have f7 : ¬ useRel (do_work_lvio (scenarioBRetry r).lvio (scenarioBRetry r)) := by rw [h]; exact hrelB
  have f8 : (do_work_lvio (scenarioBRetry r).lvio (scenarioBRetry r)).vbas = 0 := by rw [h]; rfl
  have f9 : (do_work_lvio (scenarioBRetry r).lvio (scenarioBRetry r)).velo = 1 := by rw [h]; rfl
  have f10 : (do_work_lvio (scenarioBRetry r).lvio (scenarioBRetry r)).accl = 1 := by rw [h]; rfl
  have f11 : (do_work_lvio (scenarioBRetry r).lvio (scenarioBRetry r)).rdbd = 1 / 100 := by rw [h]; rfl
  have f14 : (do_work_lvio (scenarioBRetry r).lvio (scenarioBRetry r)).pp = false := by rw [h]; rfl
  have hnpos : NINT ((do_work_lvio (scenarioBRetry r).lvio (scenarioBRetry r)).dval /
        (do_work_lvio (scenarioBRetry r).lvio (scenarioBRetry r)).mres) ≠
      NINT ((do_work_lvio (scenarioBRetry r).lvio (scenarioBRetry r)).drbv /
        (do_work_lvio (scenarioBRetry r).lvio (scenarioBRetry r)).mres) := by
    rw [f1, f3, f4, NINT_1000, NINT_0]
    norm_num
  have hpd : ¬ ((do_work_lvio (scenarioBRetry r).lvio (scenarioBRetry r)).dval >
        (do_work_lvio (scenarioBRetry r).lvio (scenarioBRetry r)).ldvl ↔
      (do_work_lvio (scenarioBRetry r).lvio (scenarioBRetry r)).bdst > 0) := by
    rw [f1, f2, f5]
    norm_num
  have hfar : ¬ (|(do_work_lvio (scenarioBRetry r).lvio (scenarioBRetry r)).dval -
        (do_work_lvio (scenarioBRetry r).lvio (scenarioBRetry r)).drbv| <
      19 / 20 * (do_work_lvio (scenarioBRetry r).lvio (scenarioBRetry r)).rdbd) := by
    rw [f1, f3, f11, a3]
    norm_num
  obtain ⟨q, q1, q2, q3, q4, q5, q6, q7, q8, q9, q10, q11, q12, qrel, heff, hpp, _, _⟩ :=
    do_work_move_abs (dirSign (scenarioBRetry r).dir) (do_work_lvio (scenarioBRetry r).lvio (scenarioBRetry r))
      (Or.inl (by rw [f1, f2]; norm_num)) hnpos (Or.inl f6) f7 (fun hh => hfar hh.1)
  have hleg := moveLeg_deferred false q
    (by
      rw [q5, q4, f5, f4, a1, a2]
      norm_num)
    (by
      rw [q12, q11, q1, q2, q3, q4, q5, f1, f2, f3, f4, f5, f11, a3]
      norm_num [qrel])
    qrel
  simp only [hpd, decide_False] at heff hpp
  rw [hleg] at heff hpp
  rw [do_work_reach_move {} (scenarioBRetry r) rfl rfl rfl rfl rfl rfl
    (fun hc => menuOmsl.noConfusion hc.1) rfl rfl rfl rfl rfl
    rfl rfl rfl rfl (fun hs => motorSTUP.noConfusion hs) (Or.inl ⟨rfl, rfl⟩)]
  constructor
  · rw [heff]
    simp only [q1, q4, q5, q7, q9, f1, f4, f5, f8, f9, f10, a1]
    norm_num
  · rw [hpp]
    rfl

/-- C9 (counterexample): in Scenario B as written (`bdst = -0.05`, move from
dial 0 to `dval = 1`) the move is against the backlash direction: `do_work`
sends `MOVE_ABS` to the backlash point, raw position 1050, and sets `pp`, so
that the backlash leg follows from `postProcess`. -/
theorem C9_scenarioB_counterexample :
    scenarioB.bdst = -(1 / 20) ∧ scenarioB.mres = 1 / 1000 ∧ scenarioB.bvel = scenarioB.velo ∧
    scenarioB.bacc = scenarioB.accl ∧ scenarioB.frac = 1 ∧ ¬ useRel scenarioB ∧
    scenarioB.mip = MIP_DONE ∧ scenarioB.drbv = 0 ∧ scenarioB.ldvl = 0 ∧ scenarioB.dval = 1 ∧
    (do_work {} scenarioB).eff =
      [Effect.transaction
        [⟨motor_cmnd.SET_VEL_BASE, [0]⟩, ⟨motor_cmnd.SET_VELOCITY, [1000]⟩,
         ⟨motor_cmnd.SET_ACCEL, [1000]⟩, ⟨motor_cmnd.MOVE_ABS, [1050]⟩,
         ⟨motor_cmnd.GO, []⟩]] ∧
    (do_work {} scenarioB).pmr.pp = true :=
  do_work_scenarioB 0

theorem transactions_append (e1 e2 : List Effect) :
    transactions (e1 ++ e2) = transactions e1 ++ transactions e2 := by
  induction e1 with
  | nil => rfl
  | cons a t ih =>
    cases a <;> simp [transactions, ih]

theorem emitsMove_append (e1 e2 : List Effect) :
    emitsMove (e1 ++ e2) = (emitsMove e1 || emitsMove e2) := by
  unfold emitsMove
  rw [transactions_append, List.any_append]

theorem Flow.andThen_next_ret (p : motorRecord) (e : List Effect) (k : motorRecord → Flow)
    (o : Outcome) (h : k p = Flow.ret o) :
    (Flow.next p e).andThen k = Flow.ret { o with eff := e ++ o.eff } := by
  unfold Flow.andThen
  simp only [h]

theorem Flow.andThen_next_next (p : motorRecord) (e : List Effect) (k : motorRecord → Flow)
    (p2 : motorRecord) (e2 : List Effect) (h : k p = Flow.next p2 e2) :
    (Flow.next p e).andThen k = Flow.next p2 (e ++ e2) := by
  unfold Flow.andThen
  simp only [h]

theorem Flow.quiet_andThen (f : Flow) (k : motorRecord → Flow) (hf : f.quiet)
    (hk : ∀ p, (p.mip &&& MIP_RETRY) = 0 → (k p).quiet) : (f.andThen k).quiet := by
  cases f with
  | ret o => exact hf
  | next p e =>
    obtain ⟨h1, h2⟩ := hf
    have h3 := hk p h2
    cases hkp : k p with
    | ret o =>
      rw [hkp] at h3
      rw [Flow.andThen_next_ret p e k o hkp]
      show emitsMove (e ++ o.eff) = false
      have h4 : emitsMove o.eff = false := h3
      rw [emitsMove_append, h1, h4]
      rfl
    | next p2 e2 =>
      rw [hkp] at h3
      rw [Flow.andThen_next_next p e k p2 e2 hkp]
      show emitsMove (e ++ e2) = false ∧ _
      have h4 : emitsMove e2 = false ∧ (p2.mip &&& MIP_RETRY) = 0 := h3
      rw [emitsMove_append, h1, h4.1]
      exact ⟨rfl, h4.2⟩

theorem do_work_cancel_quiet (p : motorRecord) : (do_work_cancel p).quiet := by
  unfold do_work_cancel
  by_cases h1 : mipHas p.mip MIP_HOMF = true
  · simp only [h1, if_true]
    rfl
  · by_cases h2 : mipHas p.mip MIP_HOMR = true
    · simp only [h1, h2, if_true, if_false]
      rfl
    · simp only [h1, h2, if_false]
      rfl

theorem Flow.quiet_next (p : motorRecord) (e : List Effect) (h1 : emitsMove e = false)
    (h2 : (p.mip &&& MIP_RETRY) = 0) : (Flow.next p e).quiet := ⟨h1, h2⟩

theorem Flow.quiet_ret (o : Outcome) (h : emitsMove o.eff = false) : (Flow.ret o).quiet := h

theorem do_work_spmg_retryfree (sp : Bool) (p : motorRecord) (h : (p.mip &&& MIP_RETRY) = 0) :
    (do_work_spmg sp p).quiet := by
  unfold do_work_spmg
  by_cases h1 : p.spmg ≠ p.lspg ∨ p.stop ≠ false
  · rw [if_pos h1]
    simp only []
    split_ifs
    all_goals
      first
      | exact do_work_cancel_quiet _
      | exact Flow.quiet_next _ _ rfl h
      | exact Flow.quiet_next _ _ rfl (show MIP_JOG_REQ &&& MIP_RETRY = 0 by decide)
      | exact Flow.quiet_next _ _ rfl (show MIP_DONE &&& MIP_RETRY = 0 by decide)
      | exact Flow.quiet_ret _ rfl
  · rw [if_neg h1]
    exact Flow.quiet_next _ _ rfl h

theorem enforceMinRetryDeadband_quiet (p : motorRecord) :
    emitsMove (enforceMinRetryDeadband p).2 = false := by
  unfold enforceMinRetryDeadband
  simp only []
  split_ifs <;> rfl

theorem load_pos_quiet (p : motorRecord) : emitsMove (load_pos p).2 = false := by
  unfold load_pos
  rfl

theorem encRatioEffect_quiet (p : motorRecord) (l : List ℚ) :
    emitsMove (encRatioEffect p l) = false := by
  unfold encRatioEffect
  split_ifs <;> rfl

theorem do_work_resolution_retryfree (p : motorRecord) (h : (p.mip &&& MIP_RETRY) = 0) :
    (do_work_resolution p).quiet := by
  unfold do_work_resolution
  by_cases h1 : p.mmap.M_MRES = true ∨ p.mmap.M_ERES = true ∨ p.mmap.M_UEIP = true
  · rw [if_pos h1]
    simp only []
    by_cases hs : (enforceMinRetryDeadband (do_work_encoder p).1).1.set = true
    · rw [if_pos hs]
      apply Flow.quiet_ret
      simp only [emitsMove_append, enforceMinRetryDeadband_quiet, encRatioEffect_quiet,
        Bool.or_false, Bool.false_or]
      rfl
    · rw [if_neg hs]
      apply Flow.quiet_ret
      simp only [emitsMove_append, enforceMinRetryDeadband_quiet, encRatioEffect_quiet,
        load_pos_quiet, Bool.or_false, Bool.false_or]
  · rw [if_neg h1]
    exact Flow.quiet_next _ _ rfl h

theorem do_work_home_quiet (sp : Bool) (p : motorRecord) :
    emitsMove (do_work_home sp p).eff = false := by
  unfold do_work_home
  simp only []
  split_ifs <;> rfl

theorem do_work_jog_quiet (dir : ℚ) (p : motorRecord) :
    emitsMove (do_work_jog dir p).eff = false := by
  unfold do_work_jog
  simp only []
  split_ifs <;> rfl

theorem do_work_tweak_frame (p : motorRecord) :
    ∃ v d r l f1 f2 m, do_work_tweak p =
      { p with val := v, dval := d, rlv := r, lrlv := l, twf := f1, twr := f2, mmap := m } := by
  have h1 : ∃ v f1 f2, do_work_tweak_tw p = { p with val := v, twf := f1, twr := f2 } := by
    unfold do_work_tweak_tw
    split_ifs <;> exact ⟨_, _, _, rfl⟩
  have h2 : ∀ q : motorRecord, ∃ v r l m, do_work_tweak_rlv q =
      { q with val := v, rlv := r, lrlv := l, mmap := m } := by
    intro q
    unfold do_work_tweak_rlv
    split_ifs <;> exact ⟨_, _, _, _, rfl⟩
  have h3 : ∀ q : motorRecord, ∃ d, do_work_tweak_rval q = { q with dval := d } := by
    intro q
    unfold do_work_tweak_rval
    split_ifs <;> exact ⟨_, rfl⟩
  obtain ⟨v1, f1, f2, e1⟩ := h1
  obtain ⟨v2, r, l, m, e2⟩ := h2 (do_work_tweak_tw p)
  obtain ⟨d, e3⟩ := h3 (do_work_tweak_rlv (do_work_tweak_tw p))
  unfold do_work_tweak
  rw [e3, e2, e1]
  exact ⟨_, _, _, _, _, _, _, rfl⟩

theorem do_work_collect_retryfree (env : Env) (dir : ℚ) (sp : Bool) (p : motorRecord)
    (h : (p.mip &&& MIP_RETRY) = 0) : (do_work_collect env dir sp p).quiet := by
  obtain ⟨v, d, r, l, f1, f2, m, ht⟩ := do_work_tweak_frame p
  have hm : ((do_work_tweak p).mip &&& MIP_RETRY) = 0 := by
    rw [ht]
    exact h
  unfold do_work_collect
  split_ifs
  · cases env.dol with
    | none => exact Flow.quiet_ret _ rfl
    | some v => exact Flow.quiet_next _ _ rfl h
  · exact Flow.quiet_ret _ (do_work_home_quiet _ _)
  · exact Flow.quiet_ret _ (do_work_jog_quiet _ _)
  · exact Flow.quiet_ret _ rfl
  · exact Flow.quiet_ret _ rfl
  · exact Flow.quiet_next _ _ rfl hm

theorem do_work_val_retryfree (dir : ℚ) (set : Bool) (p : motorRecord)
    (h : (p.mip &&& MIP_RETRY) = 0) : (do_work_val dir set p).quiet := by
  unfold do_work_val
  simp only []
  split_ifs
  · exact Flow.quiet_ret _ rfl
  · exact Flow.quiet_next _ _ rfl h
  · exact Flow.quiet_next _ _ rfl h

theorem do_work_limit_retryfree (old sp : Bool) (p : motorRecord)
    (h : (p.mip &&& MIP_RETRY) = 0) : (do_work_limit old sp p).quiet := by
  obtain ⟨l, m, hf⟩ := do_work_lvio_frame old p
  have hm : ((do_work_lvio old p).mip &&& MIP_RETRY) = 0 := by
    rw [hf]
    exact h
  unfold do_work_limit
  simp only []
  split_ifs
  · exact Flow.quiet_ret _ rfl
  · exact Flow.quiet_ret _ rfl
  · exact Flow.quiet_next _ _ rfl hm
  · exact Flow.quiet_next _ _ rfl hm

theorem do_work_send_rcnt (pd : Bool) (q : motorRecord) :
    (do_work_send pd q).pmr.rcnt = q.rcnt := by
  obtain ⟨m, h⟩ := do_work_send_record_frame (moveLeg pd q) q
  unfold do_work_send
  simp only []
  rw [h]

theorem do_work_dispatch_fresh (q : motorRecord) (h : (q.mip &&& MIP_RETRY) = 0)
    (hm : emitsMove (do_work_dispatch q).eff = true) : (do_work_dispatch q).pmr.rcnt = 0 := by
  unfold do_work_dispatch at hm ⊢
  simp only [] at hm ⊢
  split_ifs at hm ⊢
  · exact absurd hm Bool.false_ne_true
  · exact absurd hm Bool.false_ne_true
  · rw [do_work_send_rcnt]
    exact do_work_rcnt_fresh q h
  · exact absurd hm Bool.false_ne_true

theorem do_work_same_quiet (q : motorRecord) : emitsMove (do_work_same q).eff = false := by
  unfold do_work_same
  rfl

theorem do_work_move_fresh (dir : ℚ) (set : Bool) (p : motorRecord)
    (h : (p.mip &&& MIP_RETRY) = 0)
    (hm : emitsMove (do_work_move dir set p).eff = true) :
    (do_work_move dir set p).pmr.rcnt = 0 := by
  obtain ⟨m1, h1⟩ := do_work_diff_frame p
  obtain ⟨m2, h2⟩ := do_work_post_frame dir (do_work_diff p)
  have hq : ((do_work_post dir (do_work_diff p)).mip &&& MIP_RETRY) = 0 := by
    rw [h2, h1]
    exact h
  unfold do_work_move at hm ⊢
  simp only [] at hm ⊢
  split_ifs at hm ⊢
  · rw [load_pos_quiet] at hm
    exact absurd hm Bool.false_ne_true
  · rw [do_work_same_quiet] at hm
    exact absurd hm Bool.false_ne_true
  · exact do_work_dispatch_fresh _ hq hm
  · exact absurd hm Bool.false_ne_true

/-- C7: when `do_work` sends a `MOVE_ABS` or `MOVE_REL` command from a record
whose MIP does not contain `RETRY` on entry, `rcnt` is 0 on return. -/
theorem C7_fresh_move_resets_rcnt (env : Env) (pmr : motorRecord)
    (h : (pmr.mip &&& MIP_RETRY) = 0) (hm : emitsMove (do_work env pmr).eff = true) :
    (do_work env pmr).pmr.rcnt = 0 := by
  have hq : (((((do_work_spmg
      (decide (pmr.spmg = motorSPMG.Stop ∨ pmr.spmg = motorSPMG.Pause)) pmr).andThen
      do_work_resolution).andThen
      (do_work_collect env (dirSign pmr.dir)
        (decide (pmr.spmg = motorSPMG.Stop ∨ pmr.spmg = motorSPMG.Pause)))).andThen
      (do_work_val (dirSign pmr.dir) pmr.set)).andThen
      (do_work_limit pmr.lvio
        (decide (pmr.spmg = motorSPMG.Stop ∨ pmr.spmg = motorSPMG.Pause)))).quiet := by
    apply Flow.quiet_andThen
    · apply Flow.quiet_andThen
      · apply Flow.quiet_andThen
        · apply Flow.quiet_andThen
          · exact do_work_spmg_retryfree _ pmr h
          · exact fun p hp => do_work_resolution_retryfree p hp
        · exact fun p hp => do_work_collect_retryfree env _ _ p hp
      · exact fun p hp => do_work_val_retryfree _ _ p hp
    · exact fun p hp => do_work_limit_retryfree _ _ p hp
  unfold do_work at hm ⊢
  simp only [] at hm ⊢
  generalize ((((do_work_spmg
      (decide (pmr.spmg = motorSPMG.Stop ∨ pmr.spmg = motorSPMG.Pause)) pmr).andThen
      do_work_resolution).andThen
      (do_work_collect env (dirSign pmr.dir)
        (decide (pmr.spmg = motorSPMG.Stop ∨ pmr.spmg = motorSPMG.Pause)))).andThen
      (do_work_val (dirSign pmr.dir) pmr.set)).andThen
      (do_work_limit pmr.lvio
        (decide (pmr.spmg = motorSPMG.Stop ∨ pmr.spmg = motorSPMG.Pause))) = f at hq hm ⊢
  cases f with
  | ret o =>
    have h0 : emitsMove o.eff = false := hq
    rw [h0] at hm
    exact absurd hm Bool.false_ne_true
  | next p e =>
    obtain ⟨h1, h2⟩ := hq
    have hm2 : emitsMove (e ++ (do_work_move (dirSign pmr.dir) pmr.set p).eff) = true := hm
    rw [emitsMove_append, h1, Bool.false_or] at hm2
    exact do_work_move_fresh _ _ p h2 hm2

theorem scenarioBRetry_emitsMove (r : ℤ) : emitsMove (do_work {} (scenarioBRetry r)).eff = true := by
  rw [(do_work_scenarioB r).2.2.2.2.2.2.2.2.2.2.1]
  rfl

theorem C7_fresh_move_resets_rcnt_witness :
    ((scenarioBRetry 3).mip &&& MIP_RETRY) = 0 ∧ (scenarioBRetry 3).rcnt = 3 ∧
    (do_work {} (scenarioBRetry 3)).pmr.rcnt = 0 :=
  ⟨by decide, rfl,
   C7_fresh_move_resets_rcnt {} (scenarioBRetry 3) (by decide) (scenarioBRetry_emitsMove 3)⟩

theorem do_work_val_eq_use (dir : ℚ) (p : motorRecord) :
    do_work_val dir false p = Flow.next (do_work_val_use dir p) [] := by
  unfold do_work_val do_work_val_use
  by_cases h : p.val ≠ p.lval
  · rw [if_pos h, if_pos h]
    simp only [Bool.false_eq_true, false_and, if_false]
  · rw [if_neg h, if_neg h]

theorem do_work_collect_pass (env : Env) (dir : ℚ) (sp : Bool) (p : motorRecord)
    (hcl : ¬ (p.omsl = menuOmsl.closed_loop ∧ p.dol_type = LinkType.DB_LINK))
    (hhomf : p.homf = false) (hhomr : p.homr = false)
    (h1 : mipHas p.mip MIP_JOG_REQ = false) (h2 : mipHas p.mip MIP_JOGF = false)
    (h3 : mipHas p.mip MIP_JOGR = false)
    (h4 : mipHas p.mip (MIP_JOG_STOP ||| MIP_JOG_BL1 ||| MIP_JOG_BL2) = false) :
    do_work_collect env dir sp p = Flow.next (do_work_tweak p) [] := by
  unfold do_work_collect
  rw [if_neg hcl]
  simp [hhomf, hhomr, h1, h2, h3, h4]

theorem do_work_val_use_frame (dir : ℚ) (p : motorRecord) :
    ∃ d m, do_work_val_use dir p = { p with dval := d, mmap := m } ∧
      m.M_MRES = p.mmap.M_MRES ∧ m.M_ERES = p.mmap.M_ERES ∧ m.M_UEIP = p.mmap.M_UEIP := by
  unfold do_work_val_use
  split_ifs
  · exact ⟨_, _, rfl, rfl, rfl, rfl⟩
  · exact ⟨_, _, rfl, rfl, rfl, rfl⟩

theorem do_work_tweak_frame_marks (p : motorRecord) :
    ∃ v d r l f1 f2 m, do_work_tweak p =
      { p with val := v, dval := d, rlv := r, lrlv := l, twf := f1, twr := f2, mmap := m } ∧
      m.M_MRES = p.mmap.M_MRES ∧ m.M_ERES = p.mmap.M_ERES ∧ m.M_UEIP = p.mmap.M_UEIP := by
  have h1 : ∃ v f1 f2, do_work_tweak_tw p = { p with val := v, twf := f1, twr := f2 } := by
    unfold do_work_tweak_tw
    split_ifs <;> exact ⟨_, _, _, rfl⟩
  have h2 : ∀ q : motorRecord, ∃ v r l m, do_work_tweak_rlv q =
      { q with val := v, rlv := r, lrlv := l, mmap := m } ∧
      m.M_MRES = q.mmap.M_MRES ∧ m.M_ERES = q.mmap.M_ERES ∧ m.M_UEIP = q.mmap.M_UEIP := by
    intro q
    unfold do_work_tweak_rlv
    split_ifs <;> exact ⟨_, _, _, _, rfl, rfl, rfl, rfl⟩
  have h3 : ∀ q : motorRecord, ∃ d, do_work_tweak_rval q = { q with dval := d } := by
    intro q
    unfold do_work_tweak_rval
    split_ifs <;> exact ⟨_, rfl⟩
  obtain ⟨v1, f1, f2, e1⟩ := h1
  obtain ⟨v2, r, l, m, e2, a1, a2, a3⟩ := h2 (do_work_tweak_tw p)
  obtain ⟨d, e3⟩ := h3 (do_work_tweak_rlv (do_work_tweak_tw p))
  unfold do_work_tweak
  rw [e1] at a1 a2 a3
  rw [e3, e2, e1]
  exact ⟨_, _, _, _, _, _, _, rfl, a1, a2, a3⟩

theorem do_work_lvio_frame_marks (old : Bool) (p : motorRecord) :
    ∃ l m, do_work_lvio old p = { p with lvio := l, mmap := m } ∧
      m.M_MRES = p.mmap.M_MRES ∧ m.M_ERES = p.mmap.M_ERES ∧ m.M_UEIP = p.mmap.M_UEIP := by
  unfold do_work_lvio
  simp only []
  split_ifs <;> exact ⟨_, _, rfl, rfl, rfl, rfl⟩

/-- The fields on which `onlyTargetPending` depends survive the first sections
of `do_work`. -/
theorem do_work_target_frame (p : motorRecord) :
    ∃ v d r l f1 f2 lv m, do_work_target p =
      { p with val := v, dval := d, rlv := r, lrlv := l, twf := f1, twr := f2,
               lvio := lv, mmap := m } ∧
      m.M_MRES = p.mmap.M_MRES ∧ m.M_ERES = p.mmap.M_ERES ∧ m.M_UEIP = p.mmap.M_UEIP := by
  obtain ⟨v, d, r, l, f1, f2, m1, e1, a1, a2, a3⟩ := do_work_tweak_frame_marks p
  obtain ⟨d2, m2, e2, b1, b2, b3⟩ := do_work_val_use_frame (dirSign p.dir) (do_work_tweak p)
  obtain ⟨lv, m3, e3, c1, c2, c3⟩ :=
    do_work_lvio_frame_marks p.lvio (do_work_val_use (dirSign p.dir) (do_work_tweak p))
  unfold do_work_target
  rw [e2] at c1 c2 c3
  rw [e1] at b1 b2 b3
  rw [e3, e2, e1]
  refine ⟨_, _, _, _, _, _, _, _, rfl, ?_, ?_, ?_⟩
  · exact c1.trans (b1.trans a1)
  · exact c2.trans (b2.trans a2)
  · exact c3.trans (b3.trans a3)

theorem onlyTargetPending_target (p : motorRecord) (h : onlyTargetPending p) :
    onlyTargetPending (do_work_target p) := by
  obtain ⟨v, d, r, l, f1, f2, lv, m, e, a1, a2, a3⟩ := do_work_target_frame p
  obtain ⟨h1, h2, h3, h4, h5, h6, h7, h8, h9, h10⟩ := h
  rw [e]
  exact ⟨h1, h2, a1.trans h3, a2.trans h4, a3.trans h5, h6, h7, h8, h9, h10⟩

/-- `do_work` when only a change of target is pending and MIP holds no jog
bit: the limit test, the stop/pause return, then the last section. -/
theorem do_work_eq_target (env : Env) (p : motorRecord) (h : onlyTargetPending p)
    (h1 : mipHas p.mip MIP_JOG_REQ = false) (h2 : mipHas p.mip MIP_JOGF = false)
    (h3 : mipHas p.mip MIP_JOGR = false)
    (h4 : mipHas p.mip (MIP_JOG_STOP ||| MIP_JOG_BL1 ||| MIP_JOG_BL2) = false) :
    do_work env p =
      if (do_work_target p).lvio = true then
        ⟨RTN_STATUS.OK, do_work_rollback (do_work_target p), []⟩
      else if stopOrPause p = true then ⟨RTN_STATUS.OK, do_work_target p, []⟩
      else do_work_move (dirSign p.dir) false (do_work_target p) := by
  obtain ⟨g1, g2, g3, g4, g5, g6, g7, g8, g9, g10⟩ := h
  obtain ⟨v, d, r, l, f1, f2, lv, m, e, _, _, _⟩ := do_work_target_frame p
  have hstup : (do_work_target p).stup ≠ motorSTUP.ON := by
    rw [e]
    exact g9
  have hlim : do_work_limit p.lvio (stopOrPause p)
      (do_work_val_use (dirSign p.dir) (do_work_tweak p)) =
      if (do_work_target p).lvio = true then
        Flow.ret ⟨RTN_STATUS.OK, do_work_rollback (do_work_target p), []⟩
      else if stopOrPause p = true then Flow.ret ⟨RTN_STATUS.OK, do_work_target p, []⟩
      else Flow.next (do_work_target p) [] := by
    unfold do_work_limit
    show (if (do_work_target p).lvio = true then _ else _) = _
    by_cases c1 : (do_work_target p).lvio = true
    · rw [if_pos c1, if_pos c1]
      rfl
    · rw [if_neg c1, if_neg c1]
      by_cases c2 : stopOrPause p = true
      · rw [if_pos c2, if_pos c2]
        rfl
      · rw [if_neg c2, if_neg c2]
        show (if (do_work_target p).stup = motorSTUP.ON then _ else _) = _
        rw [if_neg hstup]
        rfl
  unfold do_work
  simp only [do_work_spmg_quiet _ p g1 g2, do_work_resolution_quiet p g3 g4 g5,
    Flow.next_nil_andThen]
  rw [do_work_collect_pass env _ _ p g10 g7 g8 h1 h2 h3 h4, Flow.next_nil_andThen, g6,
    do_work_val_eq_use, Flow.next_nil_andThen]
  show (match do_work_limit p.lvio (stopOrPause p)
      (do_work_val_use (dirSign p.dir) (do_work_tweak p)) with
    | Flow.ret o => o
    | Flow.next q eff => _) = _
  rw [hlim]
  by_cases c1 : (do_work_target p).lvio = true
  · rw [if_pos c1, if_pos c1]
  · rw [if_neg c1, if_neg c1]
    by_cases c2 : stopOrPause p = true
    · rw [if_pos c2, if_pos c2]
    · rw [if_neg c2, if_neg c2]
      rfl

theorem do_work_dispatch_busy (q : motorRecord) (h : q.mip = MIP_MOVE) :
    (do_work_dispatch q).eff = [] := by
  obtain ⟨c, m, e⟩ := do_work_rcnt_frame q
  have hm : (do_work_rcnt q).mip = MIP_MOVE := by
    rw [e]
    exact h
  have hn1 : ¬ ((do_work_rcnt q).mip = MIP_DONE) := by
    rw [hm]
    decide
  have hn2 : ¬ ((do_work_rcnt q).mip = MIP_DONE ∨ (do_work_rcnt q).mip = MIP_RETRY) := by
    rw [hm]
    decide
  unfold do_work_dispatch
  simp only []
  rw [if_neg hn1, if_neg hn2]
  split_ifs <;> rfl

theorem do_work_move_busy (dir : ℚ) (p : motorRecord) (h : p.mip = MIP_MOVE) :
    (do_work_move dir false p).eff = [] := by
  obtain ⟨m1, h1⟩ := do_work_diff_frame p
  obtain ⟨m2, h2⟩ := do_work_post_frame dir (do_work_diff p)
  have hq : (do_work_post dir (do_work_diff p)).mip = MIP_MOVE := by
    rw [h2, h1]
    exact h
  unfold do_work_move
  simp only [Bool.false_eq_true, if_false]
  split_ifs
  · rfl
  · exact do_work_dispatch_busy _ hq
  · rfl

theorem do_work_silent_moving (env : Env) (s : motorRecord) (h : onlyTargetPending s)
    (hm : s.mip = MIP_MOVE) : (do_work env s).eff = [] := by
  obtain ⟨v, d, r, l, f1, f2, lv, m, e, _, _, _⟩ := do_work_target_frame s
  have hmt : (do_work_target s).mip = MIP_MOVE := by
    rw [e]
    exact hm
  rw [do_work_eq_target env s h (by rw [hm]; decide) (by rw [hm]; decide) (by rw [hm]; decide)
    (by rw [hm]; decide)]
  split_ifs
  · rfl
  · rfl
  · exact do_work_move_busy _ _ hmt

theorem do_work_silent_done (env : Env) (s : motorRecord) (h : onlyTargetPending s)
    (hm : s.mip = MIP_DONE) (hd : s.dmov = true)
    (hs : stopOrPause s = true ∨ (do_work_target s).dval = s.ldvl) :
    (do_work env s).eff = [] := by
  obtain ⟨v, d, r, l, f1, f2, lv, m, e, _, _, _⟩ := do_work_target_frame s
  have e1 : (do_work_target s).ldvl = s.ldvl := by rw [e]
  have e2 : (do_work_target s).dmov = true := by
    rw [e]
    exact hd
  rw [do_work_eq_target env s h (by rw [hm]; decide) (by rw [hm]; decide) (by rw [hm]; decide)
    (by rw [hm]; decide)]
  split_ifs with c1 c2
  · rfl
  · rfl
  · rcases hs with hs | hs
    · exact absurd hs c2
    · rw [do_work_move_quiet _ _ _ (hs.trans e1.symm) e2]

theorem resMarks_diff (p : motorRecord) : resMarks (do_work_diff p) = resMarks p := by
  unfold do_work_diff
  simp only []
  split_ifs <;> rfl

theorem resMarks_post (dir : ℚ) (p : motorRecord) :
    resMarks (do_work_post dir p) = resMarks p := by
  unfold do_work_post
  simp only []
  split_ifs <;> rfl

theorem resMarks_rcnt (p : motorRecord) : resMarks (do_work_rcnt p) = resMarks p := by
  unfold do_work_rcnt
  split_ifs <;> rfl

theorem resMarks_send_record (leg : MoveLeg) (p : motorRecord) :
    resMarks (do_work_send_record leg p) = resMarks p := by
  unfold do_work_send_record
  simp only []
  split_ifs <;> rfl

theorem resMarks_rollback (p : motorRecord) : resMarks (do_work_rollback p) = resMarks p := by
  unfold do_work_rollback
  simp only []
  split_ifs <;> rfl

theorem resMarks_same (p : motorRecord) : resMarks (do_work_same p).pmr = resMarks p := by
  unfold do_work_same
  simp only []
  split_ifs <;> rfl

theorem resMarks_dispatch (p : motorRecord) : resMarks (do_work_dispatch p).pmr = resMarks p := by
  unfold do_work_dispatch
  simp only []
  split_ifs
  · exact resMarks_rcnt p
  · exact resMarks_rcnt p
  · exact (resMarks_send_record _ _).trans (resMarks_rcnt p)
  · exact resMarks_rcnt p

theorem resMarks_move (dir : ℚ) (p : motorRecord) :
    resMarks (do_work_move dir false p).pmr = resMarks p := by
  unfold do_work_move
  simp only [Bool.false_eq_true, if_false]
  split_ifs
  · exact (resMarks_same _).trans ((resMarks_post _ _).trans (resMarks_diff p))
  · exact (resMarks_dispatch _).trans ((resMarks_post _ _).trans (resMarks_diff p))
  · rfl

theorem do_work_dispatch_outcome (q : motorRecord) (hm : q.mip = MIP_DONE) :
    ∃ lv ld lr mi dm rc pp cd m,
      (do_work_dispatch q).pmr =
        { q with lval := lv, ldvl := ld, lrvl := lr, mip := mi, dmov := dm, rcnt := rc,
                 pp := pp, cdir := cd, mmap := m } ∧
      (mi = MIP_MOVE ∨ (mi = MIP_DONE ∧ dm = true ∧ lv = q.val ∧ ld = q.dval ∧ lr = q.rval)) := by
  obtain ⟨c, m, e⟩ := do_work_rcnt_frame q
  obtain ⟨m4, e4⟩ := do_work_send_record_frame
    (moveLeg (decide (preferredDir (do_work_rcnt q))) (do_work_rcnt q)) (do_work_rcnt q)
  have hmr : (do_work_rcnt q).mip = MIP_DONE := by
    rw [e]
    exact hm
  unfold do_work_dispatch
  simp only []
  rw [if_pos hmr, if_pos (Or.inl hmr)]
  by_cases c1 : |(do_work_rcnt q).diff| < 19 / 20 * q.rdbd ∧
      decide (preferredDir (do_work_rcnt q)) = false
  · rw [if_pos c1]
    simp only []
    rw [e]
    exact ⟨_, _, _, _, _, _, _, _, _, rfl, Or.inr ⟨hm, rfl, rfl, rfl, rfl⟩⟩
  · rw [if_neg c1]
    show ∃ lv ld lr mi dm rc pp cd m, do_work_send_record _ _ = _ ∧ _
    rw [e4, e]
    exact ⟨_, _, _, _, _, _, _, _, _, rfl, Or.inl rfl⟩

theorem do_work_same_outcome (q : motorRecord) (hd : q.dmov = true) :
    (do_work_same q).pmr = { q with ldvl := q.dval, lval := q.val, lrvl := q.rval } := by
  have hn : ¬ (q.dmov = false ∧ (q.mip = MIP_DONE ∨ q.mip = MIP_RETRY)) := by
    rw [hd]
    simp
  unfold do_work_same
  simp only []
  rw [if_neg hn]

/-- What `do_work`'s last section leaves of an idle record (MIP `DONE`,
`dmov` true): a move under way (MIP `MOVE`), or MIP `DONE` with `dmov` true
and either the drive fields untouched and `dval = ldvl`, or the
last-commanded copies equal to the drive fields. -/
theorem do_work_move_outcome (dir : ℚ) (t : motorRecord) (hm : t.mip = MIP_DONE)
    (hd : t.dmov = true) :
    ∃ v rv lv ld lr df rd mi dm rc pp cd m,
      (do_work_move dir false t).pmr =
        { t with val := v, rval := rv, lval := lv, ldvl := ld, lrvl := lr, diff := df,
                 rdif := rd, mip := mi, dmov := dm, rcnt := rc, pp := pp, cdir := cd,
                 mmap := m } ∧
      (mi = MIP_MOVE ∨
       (mi = MIP_DONE ∧ dm = true ∧
        ((v = t.val ∧ rv = t.rval ∧ lv = t.lval ∧ lr = t.lrvl ∧ ld = t.ldvl ∧ t.dval = t.ldvl) ∨
         (lv = v ∧ ld = t.dval ∧ lr = rv)))) := by
  obtain ⟨m1, h1⟩ := do_work_diff_frame t
  obtain ⟨m2, h2⟩ := do_work_post_frame dir (do_work_diff t)
  have hq : (do_work_post dir (do_work_diff t)).mip = MIP_DONE := by
    rw [h2, h1]
    exact hm
  have hqd : (do_work_post dir (do_work_diff t)).dmov = true := by
    rw [h2, h1]
    exact hd
  obtain ⟨lv, ld, lr, mi, dm, rc, pp, cd, m, e, hc⟩ :=
    do_work_dispatch_outcome (do_work_post dir (do_work_diff t)) hq
  unfold do_work_move
  simp only [Bool.false_eq_true, if_false]
  by_cases c0 : t.dval ≠ t.ldvl ∨ ¬ t.dmov = true
  · rw [if_pos c0]
    by_cases c1 : NINT ((do_work_diff t).dval / (do_work_diff t).mres) =
        NINT ((do_work_diff t).drbv / (do_work_diff t).mres)
    · rw [if_pos c1, do_work_same_outcome _ hqd, h2, h1]
      exact ⟨_, _, _, _, _, _, _, _, _, _, _, _, _, rfl, Or.inr ⟨hm, hd, Or.inr ⟨rfl, rfl, rfl⟩⟩⟩
    · rw [if_neg c1, e]
      rw [h2, h1] at hc ⊢
      refine ⟨_, _, _, _, _, _, _, _, _, _, _, _, _, rfl, ?_⟩
      rcases hc with hc | ⟨a1, a2, a3, a4, a5⟩
      · exact Or.inl hc
      · exact Or.inr ⟨a1, a2, Or.inr ⟨a3, a4, a5⟩⟩
  · rw [if_neg c0]
    have hdv : t.dval = t.ldvl := by
      by_contra hne
      exact c0 (Or.inl hne)
    exact ⟨_, _, _, _, _, _, _, _, _, _, _, _, _, rfl,
      Or.inr ⟨hm, hd, Or.inl ⟨rfl, rfl, rfl, rfl, rfl, hdv⟩⟩⟩

theorem do_work_tweak_calm (p : motorRecord) :
    (do_work_tweak p).twf = false ∧ (do_work_tweak p).twr = false ∧
    (do_work_tweak p).rlv = (do_work_tweak p).lrlv ∧
    ((do_work_tweak p).rval ≠ (do_work_tweak p).lrvl →
      (do_work_tweak p).dval = (do_work_tweak p).rval * (do_work_tweak p).mres) := by
  have h1 : (do_work_tweak_tw p).twf = false ∧ (do_work_tweak_tw p).twr = false := by
    unfold do_work_tweak_tw
    by_cases c : p.twf = true ∨ p.twr = true
    · rw [if_pos c]
      exact ⟨rfl, rfl⟩
    · rw [if_neg c]
      constructor
      · by_contra hne
        exact c (Or.inl (by simpa using hne))
      · by_contra hne
        exact c (Or.inr (by simpa using hne))
  have h2 : ∀ q : motorRecord, (do_work_tweak_rlv q).twf = q.twf ∧
      (do_work_tweak_rlv q).twr = q.twr ∧
      (do_work_tweak_rlv q).rlv = (do_work_tweak_rlv q).lrlv := by
    intro q
    unfold do_work_tweak_rlv
    by_cases c : q.rlv ≠ q.lrlv
    · rw [if_pos c]
      exact ⟨rfl, rfl, rfl⟩
    · rw [if_neg c]
      exact ⟨rfl, rfl, not_not.mp c⟩
  have h3 : ∀ q : motorRecord, (do_work_tweak_rval q).twf = q.twf ∧
      (do_work_tweak_rval q).twr = q.twr ∧ (do_work_tweak_rval q).rlv = q.rlv ∧
      (do_work_tweak_rval q).lrlv = q.lrlv ∧
      ((do_work_tweak_rval q).rval ≠ (do_work_tweak_rval q).lrvl →
        (do_work_tweak_rval q).dval = (do_work_tweak_rval q).rval * (do_work_tweak_rval q).mres) := by
    intro q
    unfold do_work_tweak_rval
    by_cases c : q.rval ≠ q.lrvl
    · rw [if_pos c]
      exact ⟨rfl, rfl, rfl, rfl, fun _ => rfl⟩
    · rw [if_neg c]
      exact ⟨rfl, rfl, rfl, rfl, fun h => absurd h c⟩
  obtain ⟨a1, a2⟩ := h1
  obtain ⟨b1, b2, b3⟩ := h2 (do_work_tweak_tw p)
  obtain ⟨c1, c2, c3, c4, c5⟩ := h3 (do_work_tweak_rlv (do_work_tweak_tw p))
  unfold do_work_tweak
  exact ⟨c1.trans (b1.trans a1), c2.trans (b2.trans a2), by rw [c3, c4]; exact b3, c5⟩

theorem collected_target (p : motorRecord) : collected (do_work_target p) := by
  obtain ⟨t1, t2, t3, t4⟩ := do_work_tweak_calm p
  obtain ⟨v, d, r, l, f1, f2, m0, e0⟩ := do_work_tweak_frame p
  have hdir : (do_work_tweak p).dir = p.dir := by rw [e0]
  obtain ⟨l, m, e⟩ := do_work_lvio_frame p.lvio
    (do_work_val_use (dirSign p.dir) (do_work_tweak p))
  unfold do_work_target
  rw [e]
  unfold do_work_val_use
  by_cases c : (do_work_tweak p).val ≠ (do_work_tweak p).lval
  · rw [if_pos c]
    refine ⟨t1, t2, t3, fun _ => ?_, fun h => absurd h c⟩
    show ((do_work_tweak p).val - (do_work_tweak p).off) / dirSign p.dir =
      ((do_work_tweak p).val - (do_work_tweak p).off) / dirSign (do_work_tweak p).dir
    rw [hdir]
  · rw [if_neg c]
    exact ⟨t1, t2, t3, fun h => absurd h c, fun _ => t4⟩

theorem target_of_collected (t : motorRecord) (h : collected t) :
    (do_work_target t).dval = t.dval := by
  obtain ⟨h1, h2, h3, h4, h5⟩ := h
  have e1 : do_work_tweak t = do_work_tweak_rval t := by
    unfold do_work_tweak do_work_tweak_tw
    rw [if_neg (by simp [h1, h2])]
    unfold do_work_tweak_rlv
    rw [if_neg (by simp [h3])]
  obtain ⟨l, m, e⟩ := do_work_lvio_frame t.lvio
    (do_work_val_use (dirSign t.dir) (do_work_tweak t))
  unfold do_work_target
  rw [e, e1]
  unfold do_work_val_use do_work_tweak_rval
  by_cases c : t.rval ≠ t.lrvl
  · rw [if_pos c]
    by_cases c2 : t.val ≠ t.lval
    · rw [if_pos c2]
      exact (h4 c2).symm
    · rw [if_neg c2]
      exact (h5 (not_not.mp c2) c).symm
  · rw [if_neg c]
    by_cases c2 : t.val ≠ t.lval
    · rw [if_pos c2]
      exact (h4 c2).symm
    · rw [if_neg c2]

theorem onlyTargetPending_of (s t : motorRecord) (ht : onlyTargetPending t)
    (e1 : s.spmg = t.spmg) (e2 : s.lspg = t.lspg) (e3 : s.stop = t.stop)
    (e4 : resMarks s = resMarks t) (e5 : s.set = t.set) (e6 : s.homf = t.homf)
    (e7 : s.homr = t.homr) (e8 : s.stup = t.stup) (e9 : s.omsl = t.omsl)
    (e10 : s.dol_type = t.dol_type) : onlyTargetPending s := by
  obtain ⟨h1, h2, h3, h4, h5, h6, h7, h8, h9, h10⟩ := ht
  have m1 : s.mmap.M_MRES = t.mmap.M_MRES := congrArg (fun x => x.1) e4
  have m2 : s.mmap.M_ERES = t.mmap.M_ERES := congrArg (fun x => x.2.1) e4
  have m3 : s.mmap.M_UEIP = t.mmap.M_UEIP := congrArg (fun x => x.2.2) e4
  unfold onlyTargetPending
  rw [e1, e2, e3, m1, m2, m3, e5, e6, e7, e8, e9, e10]
  exact ⟨h1, h2, h3, h4, h5, h6, h7, h8, h9, h10⟩

theorem do_work_rollback_done (t : motorRecord) (hm : t.mip = MIP_DONE) :
    ∃ m, do_work_rollback t =
      { t with val := t.lval, dval := t.ldvl, rval := t.lrvl, dmov := true, mmap := m } := by
  unfold do_work_rollback
  simp only []
  rw [if_pos hm]
  exact ⟨_, rfl⟩

/-- The record left by a first call of `do_work` on an idle record with only
a change of target pending: again only a change of target is pending, and
either a move is under way (MIP `MOVE`), or the record is idle with its
target collected and equal to the last-commanded one (or SPMG holds it). -/
theorem do_work_first_call (env : Env) (pmr : motorRecord) (h : onlyTargetPending pmr)
    (hm : pmr.mip = MIP_DONE) (hd : pmr.dmov = true) :
    onlyTargetPending (do_work env pmr).pmr ∧
    ((do_work env pmr).pmr.mip = MIP_MOVE ∨
     ((do_work env pmr).pmr.mip = MIP_DONE ∧ (do_work env pmr).pmr.dmov = true ∧
      (stopOrPause (do_work env pmr).pmr = true ∨
       (do_work_target (do_work env pmr).pmr).dval = (do_work env pmr).pmr.ldvl))) := by
  obtain ⟨v, d, r, l, f1, f2, lv, m, e, _, _, _⟩ := do_work_target_frame pmr
  have hT := onlyTargetPending_target pmr h
  have hTm : (do_work_target pmr).mip = MIP_DONE := by rw [e]; exact hm
  have hTd : (do_work_target pmr).dmov = true := by rw [e]; exact hd
  have hTs : stopOrPause (do_work_target pmr) = stopOrPause pmr := by rw [e]; rfl
  obtain ⟨k1, k2, k3, k4, k5⟩ := collected_target pmr
  rw [do_work_eq_target env pmr h (by rw [hm]; decide) (by rw [hm]; decide) (by rw [hm]; decide)
    (by rw [hm]; decide)]
  by_cases c1 : (do_work_target pmr).lvio = true
  · rw [if_pos c1]
    obtain ⟨m2, e2⟩ := do_work_rollback_done (do_work_target pmr) hTm
    have hcol : collected (do_work_rollback (do_work_target pmr)) := by
      rw [e2]
      exact ⟨k1, k2, k3, fun hne => absurd rfl hne, fun _ hne => absurd rfl hne⟩
    have hP : onlyTargetPending (do_work_rollback (do_work_target pmr)) :=
      onlyTargetPending_of _ _ hT (by rw [e2]) (by rw [e2]) (by rw [e2])
        (resMarks_rollback _) (by rw [e2]) (by rw [e2]) (by rw [e2]) (by rw [e2]) (by rw [e2])
        (by rw [e2])
    have hmR : (do_work_rollback (do_work_target pmr)).mip = MIP_DONE := by
      rw [e2]
      exact hTm
    have hdR : (do_work_rollback (do_work_target pmr)).dmov = true := by rw [e2]
    have htR : (do_work_target (do_work_rollback (do_work_target pmr))).dval =
        (do_work_rollback (do_work_target pmr)).ldvl := by
      rw [target_of_collected _ hcol, e2]
    exact ⟨hP, Or.inr ⟨hmR, hdR, Or.inr htR⟩⟩
  · rw [if_neg c1]
    by_cases c2 : stopOrPause pmr = true
    · rw [if_pos c2]
      exact ⟨hT, Or.inr ⟨hTm, hTd, Or.inl (hTs.trans c2)⟩⟩
    · rw [if_neg c2]
      obtain ⟨v', rv, lv', ld, lr, df, rd, mi, dm, rc, pp, cd, m3, e3, hc⟩ :=
        do_work_move_outcome (dirSign pmr.dir) (do_work_target pmr) hTm hTd
      have hP : onlyTargetPending (do_work_move (dirSign pmr.dir) false (do_work_target pmr)).pmr :=
        onlyTargetPending_of _ _ hT (by rw [e3]) (by rw [e3]) (by rw [e3])
          (resMarks_move _ _) (by rw [e3]) (by rw [e3]) (by rw [e3]) (by rw [e3]) (by rw [e3])
          (by rw [e3])
      refine ⟨hP, ?_⟩
      rcases hc with hc | ⟨hc1, hc2, hc3⟩
      · left
        rw [e3]
        exact hc
      · right
        have hcol : collected (do_work_move (dirSign pmr.dir) false (do_work_target pmr)).pmr := by
          rw [e3]
          rcases hc3 with ⟨a1, a2, a3, a4, a5, a6⟩ | ⟨a1, a2, a3⟩
          · refine ⟨k1, k2, k3, ?_, ?_⟩
            · show v' ≠ lv' → (do_work_target pmr).dval =
                (v' - (do_work_target pmr).off) / dirSign (do_work_target pmr).dir
              rw [a1, a3]
              exact k4
            · show v' = lv' → rv ≠ lr → (do_work_target pmr).dval =
                (rv : ℚ) * (do_work_target pmr).mres
              rw [a1, a2, a3, a4]
              exact k5
          · exact ⟨k1, k2, k3, fun hne => absurd a1.symm hne, fun _ hne => absurd a3.symm hne⟩
        refine ⟨by rw [e3]; exact hc1, by rw [e3]; exact hc2, Or.inr ?_⟩
        rw [target_of_collected _ hcol, e3]
        rcases hc3 with ⟨a1, a2, a3, a4, a5, a6⟩ | ⟨a1, a2, a3⟩
        · show (do_work_target pmr).dval = ld
          rw [a5]
          exact a6
        · exact a2.symm

theorem or_and_self_right (x b : ℕ) : (x ||| b) &&& b = b := by
  apply Nat.eq_of_testBit_eq
  intro i
  rw [Nat.testBit_and, Nat.testBit_or]
  cases x.testBit i <;> cases b.testBit i <;> rfl

theorem mipHas_clear_of_subset (x c b : ℕ) (h : (0xFFFF ^^^ c) &&& b = 0) :
    mipHas (mipClear x c) b = false := by
  unfold mipHas mipClear
  rw [Nat.and_assoc, h, Nat.and_zero]
  rfl

theorem mipHas_clear_of_disjoint (x c b : ℕ) (h : (0xFFFF ^^^ c) &&& b = b) :
    mipHas (mipClear x c) b = mipHas x b := by
  unfold mipHas mipClear
  rw [Nat.and_assoc, h]

theorem mipHas_or_self (x b : ℕ) (h : b ≠ 0) : mipHas (x ||| b) b = true := by
  unfold mipHas
  rw [or_and_self_right]
  simpa using h

theorem do_work_collect_jog_stop (env : Env) (dir : ℚ) (sp : Bool) (pmr : motorRecord)
    (hcl : ¬ (pmr.omsl = menuOmsl.closed_loop ∧ pmr.dol_type = LinkType.DB_LINK))
    (hhome : ¬ (¬ pmr.lvio = true ∧
      ((pmr.homf = true ∧ ¬ mipHas pmr.mip MIP_HOMF = true ∧ ¬ pmr.hls = true) ∨
       (pmr.homr = true ∧ ¬ mipHas pmr.mip MIP_HOMR = true ∧ ¬ pmr.lls = true))))
    (hreq : (pmr.mip &&& MIP_JOG_REQ) = 0)
    (hjog : mipHas pmr.mip MIP_JOGF = true ∨ mipHas pmr.mip MIP_JOGR = true) :
    do_work_collect env dir sp pmr =
      Flow.ret ⟨RTN_STATUS.OK,
        { pmr with pp := true,
                   mip := mipClear (pmr.mip ||| MIP_JOG_STOP) (MIP_JOGF ||| MIP_JOGR) },
        [stopAxis]⟩ := by
  have hreq' : mipHas pmr.mip MIP_JOG_REQ = false := by
    unfold mipHas
    rw [hreq]
    rfl
  have hnj : ¬ (¬ mipHas pmr.mip MIP_JOG = true ∧ sp = false ∧ ¬ pmr.lvio = true ∧
      mipHas pmr.mip MIP_JOG_REQ = true) := by
    rw [hreq']
    simp
  unfold do_work_collect
  rw [if_neg hcl, if_neg hhome, if_neg hnj, if_pos ⟨hreq, hjog⟩]

theorem mipHas_false_iff (x b : ℕ) : mipHas x b = false ↔ (x &&& b) = 0 := by
  unfold mipHas
  simp

/-- C11: when MIP holds `JOGF` or `JOGR` but not `JOG_REQ`, and no stop or
SPMG edge, resolution change, closed-loop link or home request applies,
`do_work` returns `OK` having sent the single transaction `STOP_AXIS`; MIP then
holds `JOG_STOP` and neither `JOGF` nor `JOGR`, `pp` is set, and `val`, `dval`
and `rval` are unchanged. -/
theorem C11_jog_release (env : Env) (pmr : motorRecord)
    (hjog : mipHas pmr.mip MIP_JOGF = true ∨ mipHas pmr.mip MIP_JOGR = true)
    (hreq : mipHas pmr.mip MIP_JOG_REQ = false)
    (hspmg : pmr.spmg = pmr.lspg) (hstop : pmr.stop = false)
    (hm1 : pmr.mmap.M_MRES = false) (hm2 : pmr.mmap.M_ERES = false)
    (hm3 : pmr.mmap.M_UEIP = false)
    (hcl : ¬ (pmr.omsl = menuOmsl.closed_loop ∧ pmr.dol_type = LinkType.DB_LINK))
    (hhome : ¬ homeRequested pmr) :
    (do_work env pmr).status = RTN_STATUS.OK ∧
    (do_work env pmr).eff = [Effect.transaction [⟨motor_cmnd.STOP_AXIS, []⟩]] ∧
    mipHas (do_work env pmr).pmr.mip MIP_JOG_STOP = true ∧
    mipHas (do_work env pmr).pmr.mip MIP_JOGF = false ∧
    mipHas (do_work env pmr).pmr.mip MIP_JOGR = false ∧
    (do_work env pmr).pmr.pp = true ∧
    (do_work env pmr).pmr.val = pmr.val ∧ (do_work env pmr).pmr.dval = pmr.dval ∧
    (do_work env pmr).pmr.rval = pmr.rval := by
  have hd : do_work env pmr = ⟨RTN_STATUS.OK,
      { pmr with pp := true,
                 mip := mipClear (pmr.mip ||| MIP_JOG_STOP) (MIP_JOGF ||| MIP_JOGR) },
      [stopAxis]⟩ := by
    unfold do_work
    simp only [do_work_spmg_quiet _ pmr hspmg hstop,
      do_work_resolution_quiet pmr hm1 hm2 hm3, Flow.next_nil_andThen]
    rw [do_work_collect_jog_stop env _ _ pmr hcl hhome
      ((mipHas_false_iff _ _).1 hreq) hjog]
    rfl
  rw [hd]
  refine ⟨rfl, rfl, ?_, ?_, ?_, rfl, rfl, rfl, rfl⟩
  · show mipHas (mipClear (pmr.mip ||| MIP_JOG_STOP) (MIP_JOGF ||| MIP_JOGR)) MIP_JOG_STOP = true
    rw [mipHas_clear_of_disjoint _ _ _ (by decide)]
    exact mipHas_or_self _ _ (by decide)
  · exact mipHas_clear_of_subset _ _ _ (by decide)
  · exact mipHas_clear_of_subset _ _ _ (by decide)

theorem C11_jog_release_witness :
    (do_work {} jogReleased).status = RTN_STATUS.OK ∧
    (do_work {} jogReleased).eff = [Effect.transaction [⟨motor_cmnd.STOP_AXIS, []⟩]] ∧
    mipHas (do_work {} jogReleased).pmr.mip MIP_JOG_STOP = true ∧
    mipHas (do_work {} jogReleased).pmr.mip MIP_JOGF = false ∧
    mipHas (do_work {} jogReleased).pmr.mip MIP_JOGR = false ∧
    (do_work {} jogReleased).pmr.pp = true ∧
    (do_work {} jogReleased).pmr.val = jogReleased.val ∧
    (do_work {} jogReleased).pmr.dval = jogReleased.dval ∧
    (do_work {} jogReleased).pmr.rval = jogReleased.rval :=
  C11_jog_release {} jogReleased (Or.inl (by decide)) (by decide) rfl rfl rfl rfl rfl
    (by decide) (by unfold homeRequested; decide)

theorem postProcess_snap_frame (p : motorRecord) :
    ∃ v d r df rd m, postProcess_snap p =
      { p with pp := false, val := v, dval := d, rval := r, diff := df, rdif := rd, mmap := m } := by
  unfold postProcess_snap
  split_ifs <;> exact ⟨_, _, _, _, _, _, rfl⟩

theorem postProcess_moved_backlash (s : motorRecord)
    (hjs : mipHas s.mip MIP_JOG_STOP = true) (hb : |s.bdst| > |s.mres|) :
    (postProcess_moved s).2 =
      [Effect.transaction
        [⟨motor_cmnd.SET_VEL_BASE, [s.vbas / |s.mres|]⟩,
         ⟨motor_cmnd.SET_VELOCITY,
          [if s.velo / |s.mres| ≤ s.vbas / |s.mres| then s.vbas / |s.mres| + 1
           else s.velo / |s.mres|]⟩,
         ⟨motor_cmnd.SET_ACCEL, [s.velo / |s.mres| / s.accl]⟩,
         if useRel s then ⟨motor_cmnd.MOVE_REL, [((s.dval - s.bdst) - s.drbv) / s.mres]⟩
         else ⟨motor_cmnd.MOVE_ABS, [(s.dval - s.bdst) / s.mres]⟩,
         ⟨motor_cmnd.GO, []⟩]] ∧
    (postProcess_moved s).1.mip = MIP_JOG_BL1 ∧ (postProcess_moved s).1.pp = true := by
  unfold postProcess_moved
  simp only []
  rw [if_pos hb, if_pos hjs]
  exact ⟨rfl, (by decide : mipClear (mipClear MIP_JOG_BL1 MIP_JOG_STOP) MIP_MOVE = MIP_JOG_BL1), rfl⟩

theorem postProcess_moved_skip (s : motorRecord) (hb : ¬ |s.bdst| > |s.mres|) :
    (postProcess_moved s).2 = [] ∧
    (postProcess_moved s).1.mip =
      (if (s.jogf = true ∧ ¬ s.hls = true) ∨ (s.jogr = true ∧ ¬ s.lls = true)
       then MIP_DONE ||| MIP_JOG_REQ else MIP_DONE) ∧
    (postProcess_moved s).1.pp = s.pp := by
  unfold postProcess_moved
  simp only []
  rw [if_neg hb]
  by_cases hj : (s.jogf = true ∧ ¬ s.hls = true) ∨ (s.jogr = true ∧ ¬ s.lls = true)
  · rw [if_pos hj, if_pos hj]
    exact ⟨rfl, (by decide : mipClear (mipClear (MIP_DONE ||| MIP_JOG_REQ) MIP_JOG_STOP) MIP_MOVE =
      MIP_DONE ||| MIP_JOG_REQ), rfl⟩
  · rw [if_neg hj, if_neg hj]
    exact ⟨rfl, (by decide : mipClear (mipClear MIP_DONE MIP_JOG_STOP) MIP_MOVE = MIP_DONE), rfl⟩

theorem postProcess_branch_moved (s : motorRecord)
    (hjs : mipHas s.mip MIP_JOG_STOP = true) (hl : mipHas s.mip MIP_LOAD_P = false)
    (hh : mipHas s.mip MIP_HOME = false) :
    postProcess_branch s = postProcess_moved s := by
  unfold postProcess_branch
  rw [hl, hh, hjs]
  simp

/-- C12: with `JOG_STOP` in MIP and no `LOAD_P` or `HOME` bit, `postProcess`
sends the backlash leg exactly when `|bdst| > |mres|`: one transaction
`SET_VEL_BASE, SET_VELOCITY, SET_ACCEL, MOVE_ABS` or `MOVE_REL`, `GO`, leaving
MIP equal to `JOG_BL1` and `pp` set; otherwise it makes no call and leaves MIP
`DONE`, or `DONE` with `JOG_REQ` when a jog button is down with its limit
switch off. -/
theorem C12_postProcess_jog_stop (pmr : motorRecord)
    (hjs : mipHas pmr.mip MIP_JOG_STOP = true) (hl : mipHas pmr.mip MIP_LOAD_P = false)
    (hh : mipHas pmr.mip MIP_HOME = false) :
    (|pmr.bdst| > |pmr.mres| →
      (∃ m x, (m = motor_cmnd.MOVE_ABS ∨ m = motor_cmnd.MOVE_REL) ∧
        (postProcess pmr).2 =
          [Effect.transaction
            [⟨motor_cmnd.SET_VEL_BASE, [pmr.vbas / |pmr.mres|]⟩,
             ⟨motor_cmnd.SET_VELOCITY,
              [if pmr.velo / |pmr.mres| ≤ pmr.vbas / |pmr.mres| then pmr.vbas / |pmr.mres| + 1
               else pmr.velo / |pmr.mres|]⟩,
             ⟨motor_cmnd.SET_ACCEL, [pmr.velo / |pmr.mres| / pmr.accl]⟩,
             ⟨m, [x]⟩, ⟨motor_cmnd.GO, []⟩]]) ∧
      (postProcess pmr).1.mip = MIP_JOG_BL1 ∧ (postProcess pmr).1.pp = true) ∧
    (¬ |pmr.bdst| > |pmr.mres| →
      (postProcess pmr).2 = [] ∧
      (postProcess pmr).1.mip =
        (if (pmr.jogf = true ∧ ¬ pmr.hls = true) ∨ (pmr.jogr = true ∧ ¬ pmr.lls = true)
         then MIP_DONE ||| MIP_JOG_REQ else MIP_DONE) ∧
      (postProcess pmr).1.pp = false) := by
  obtain ⟨v, d, r, df, rd, m, hs⟩ := postProcess_snap_frame pmr
  have hmip : (postProcess_snap pmr).mip = pmr.mip := by rw [hs]
  have hbdst : (postProcess_snap pmr).bdst = pmr.bdst := by rw [hs]
  have hmres : (postProcess_snap pmr).mres = pmr.mres := by rw [hs]
  have hvbas : (postProcess_snap pmr).vbas = pmr.vbas := by rw [hs]
  have hvelo : (postProcess_snap pmr).velo = pmr.velo := by rw [hs]
  have haccl : (postProcess_snap pmr).accl = pmr.accl := by rw [hs]
  have hjogf : (postProcess_snap pmr).jogf = pmr.jogf := by rw [hs]
  have hjogr : (postProcess_snap pmr).jogr = pmr.jogr := by rw [hs]
  have hhls : (postProcess_snap pmr).hls = pmr.hls := by rw [hs]
  have hlls : (postProcess_snap pmr).lls = pmr.lls := by rw [hs]
  have hpp : (postProcess_snap pmr).pp = false := by rw [hs]
  have hbr : postProcess_branch (postProcess_snap pmr) = postProcess_moved (postProcess_snap pmr) :=
    postProcess_branch_moved _ (by rw [hmip]; exact hjs) (by rw [hmip]; exact hl)
      (by rw [hmip]; exact hh)
  have hp1 : (postProcess pmr).2 = (postProcess_moved (postProcess_snap pmr)).2 := by
    unfold postProcess
    rw [hbr]
  have hp2 : (postProcess pmr).1.mip =
      mipClear (postProcess_moved (postProcess_snap pmr)).1.mip MIP_STOP := by
    unfold postProcess
    rw [hbr]
  have hp3 : (postProcess pmr).1.pp = (postProcess_moved (postProcess_snap pmr)).1.pp := by
    unfold postProcess
    rw [hbr]
  constructor
  · intro hb
    have hb2 : |(postProcess_snap pmr).bdst| > |(postProcess_snap pmr).mres| := by
      rw [hbdst, hmres]
      exact hb
    obtain ⟨e1, e2, e3⟩ := postProcess_moved_backlash (postProcess_snap pmr)
      (by rw [hmip]; exact hjs) hb2
    rw [hp1, hp2, hp3, e1, e2, e3, hmres, hvbas, hvelo, haccl]
    refine ⟨?_, by decide, rfl⟩
    by_cases hu : useRel (postProcess_snap pmr)
    · rw [if_pos hu]
      exact ⟨_, _, Or.inr rfl, rfl⟩
    · rw [if_neg hu]
      exact ⟨_, _, Or.inl rfl, rfl⟩
  · intro hb
    have hb2 : ¬ |(postProcess_snap pmr).bdst| > |(postProcess_snap pmr).mres| := by
      rw [hbdst, hmres]
      exact hb
    obtain ⟨e1, e2, e3⟩ := postProcess_moved_skip (postProcess_snap pmr) hb2
    rw [hp1, hp2, hp3, e1, e2, e3, hjogf, hjogr, hhls, hlls, hpp]
    refine ⟨rfl, ?_, rfl⟩
    by_cases hj : (pmr.jogf = true ∧ ¬ pmr.hls = true) ∨ (pmr.jogr = true ∧ ¬ pmr.lls = true)
    · rw [if_pos hj]
      decide
    · rw [if_neg hj]
      decide

theorem C12_postProcess_jog_stop_witness :
    (|jogStopped.bdst| > |jogStopped.mres| →
      (∃ m x, (m = motor_cmnd.MOVE_ABS ∨ m = motor_cmnd.MOVE_REL) ∧
        (postProcess jogStopped).2 =
          [Effect.transaction
            [⟨motor_cmnd.SET_VEL_BASE, [jogStopped.vbas / |jogStopped.mres|]⟩,
             ⟨motor_cmnd.SET_VELOCITY,
              [if jogStopped.velo / |jogStopped.mres| ≤ jogStopped.vbas / |jogStopped.mres|
               then jogStopped.vbas / |jogStopped.mres| + 1
               else jogStopped.velo / |jogStopped.mres|]⟩,
             ⟨motor_cmnd.SET_ACCEL, [jogStopped.velo / |jogStopped.mres| / jogStopped.accl]⟩,
             ⟨m, [x]⟩, ⟨motor_cmnd.GO, []⟩]]) ∧
      (postProcess jogStopped).1.mip = MIP_JOG_BL1 ∧ (postProcess jogStopped).1.pp = true) ∧
    (¬ |jogStopped.bdst| > |jogStopped.mres| →
      (postProcess jogStopped).2 = [] ∧
      (postProcess jogStopped).1.mip =
        (if (jogStopped.jogf = true ∧ ¬ jogStopped.hls = true) ∨
            (jogStopped.jogr = true ∧ ¬ jogStopped.lls = true)
         then MIP_DONE ||| MIP_JOG_REQ else MIP_DONE) ∧
      (postProcess jogStopped).1.pp = false) :=
  C12_postProcess_jog_stop jogStopped (by decide) (by decide) (by decide)

theorem and_two_pow_cases (x i : ℕ) : x &&& 2 ^ i = 0 ∨ x &&& 2 ^ i = 2 ^ i := by
  by_cases h : x.testBit i = true
  · right
    apply Nat.eq_of_testBit_eq
    intro j
    rw [Nat.testBit_and, Nat.testBit_two_pow]
    by_cases hij : i = j
    · subst hij
      simp [h]
    · simp [hij]
  · left
    apply Nat.eq_of_testBit_eq
    intro j
    rw [Nat.testBit_and, Nat.testBit_two_pow, Nat.zero_testBit]
    by_cases hij : i = j
    · subst hij
      simp [h]
    · simp [hij]

theorem and_jog_req_cases (x : ℕ) : x &&& MIP_JOG_REQ = MIP_DONE ∨ x &&& MIP_JOG_REQ = MIP_JOG_REQ :=
  and_two_pow_cases x 12

theorem mipHas_and_of_disjoint (x k b : ℕ) (h : k &&& b = 0) : mipHas (x &&& k) b = false := by
  unfold mipHas
  rw [Nat.and_assoc, h, Nat.and_zero]
  rfl

/-- C13: with `rtry = 0`, `|diff| > rdbd` and both limit switches off,
`maybeRetry` leaves `rcnt`, `dmov` and `miss` unchanged and sets MIP to the old
MIP masked with `JOG_REQ`: that is `DONE` or `JOG_REQ`, and `RETRY` is not in
it. -/
theorem C13_maybeRetry_disabled (pmr : motorRecord)
    (hr : pmr.rtry = 0) (hd : |pmr.diff| > pmr.rdbd)
    (hh : pmr.hls = false) (hl : pmr.lls = false) :
    (maybeRetry pmr).rcnt = pmr.rcnt ∧
    (maybeRetry pmr).mip = pmr.mip &&& MIP_JOG_REQ ∧
    ((maybeRetry pmr).mip = MIP_DONE ∨ (maybeRetry pmr).mip = MIP_JOG_REQ) ∧
    mipHas (maybeRetry pmr).mip MIP_RETRY = false ∧
    (maybeRetry pmr).dmov = pmr.dmov ∧ (maybeRetry pmr).miss = pmr.miss := by
  have hc : |pmr.diff| > pmr.rdbd ∧ ¬ (pmr.hls = true) ∧ ¬ (pmr.lls = true) := by
    simp [hd, hh, hl]
  have he : maybeRetry pmr = { pmr with mip := pmr.mip &&& MIP_JOG_REQ, mmap.M_MIP := true } := by
    unfold maybeRetry
    rw [if_pos hc, if_pos hr]
  rw [he]
  exact ⟨rfl, rfl, and_jog_req_cases _, mipHas_and_of_disjoint _ _ _ (by decide), rfl, rfl⟩

theorem C13_maybeRetry_disabled_witness :
    (maybeRetry retryDisabled).rcnt = retryDisabled.rcnt ∧
    (maybeRetry retryDisabled).mip = retryDisabled.mip &&& MIP_JOG_REQ ∧
    ((maybeRetry retryDisabled).mip = MIP_DONE ∨ (maybeRetry retryDisabled).mip = MIP_JOG_REQ) ∧
    mipHas (maybeRetry retryDisabled).mip MIP_RETRY = false ∧
    (maybeRetry retryDisabled).dmov = retryDisabled.dmov ∧
    (maybeRetry retryDisabled).miss = retryDisabled.miss :=
  C13_maybeRetry_disabled retryDisabled rfl
    (by unfold retryDisabled; norm_num) rfl rfl

/-- C16: with `|diff| ≤ rdbd`, `maybeRetry` sets MIP to the old MIP masked
with `JOG_REQ`, clears `miss`, leaves `rcnt` unchanged, and turns `spmg` from
`Move` into `Pause`, leaving every other `spmg` as it was. -/
theorem C16_maybeRetry_in_deadband (pmr : motorRecord) (hd : |pmr.diff| ≤ pmr.rdbd) :
    (maybeRetry pmr).mip = pmr.mip &&& MIP_JOG_REQ ∧
    ((maybeRetry pmr).mip = MIP_DONE ∨ (maybeRetry pmr).mip = MIP_JOG_REQ) ∧
    (maybeRetry pmr).miss = false ∧
    (maybeRetry pmr).rcnt = pmr.rcnt ∧
    (maybeRetry pmr).spmg = (if pmr.spmg = motorSPMG.Move then motorSPMG.Pause else pmr.spmg) := by
  have hc : ¬ (|pmr.diff| > pmr.rdbd ∧ ¬ (pmr.hls = true) ∧ ¬ (pmr.lls = true)) := by
    intro h
    exact absurd h.1 (not_lt.mpr hd)
  have hm : (maybeRetry pmr).mip = pmr.mip &&& MIP_JOG_REQ := by
    unfold maybeRetry
    rw [if_neg hc]
    simp only []
    split_ifs <;> rfl
  refine ⟨hm, ?_, ?_, ?_, ?_⟩
  · rw [hm]
    exact and_jog_req_cases _
  · unfold maybeRetry
    rw [if_neg hc]
    simp only []
    split_ifs with h1 h2 h2
    · rfl
    · rfl
    · simpa using h1
    · simpa using h1
  · unfold maybeRetry
    rw [if_neg hc]
    simp only []
    split_ifs <;> rfl
  · unfold maybeRetry
    rw [if_neg hc]
    simp only []
    split_ifs <;> rfl

theorem C16_maybeRetry_in_deadband_witness :
    (maybeRetry onTarget).mip = onTarget.mip &&& MIP_JOG_REQ ∧
    ((maybeRetry onTarget).mip = MIP_DONE ∨ (maybeRetry onTarget).mip = MIP_JOG_REQ) ∧
    (maybeRetry onTarget).miss = false ∧
    (maybeRetry onTarget).rcnt = onTarget.rcnt ∧
    (maybeRetry onTarget).spmg =
      (if onTarget.spmg = motorSPMG.Move then motorSPMG.Pause else onTarget.spmg) :=
  C16_maybeRetry_in_deadband onTarget (by unfold onTarget; norm_num [abs_of_pos])

theorem postProcess_branch_stop (s : motorRecord) (hm : s.mip = MIP_STOP) :
    postProcess_branch s = (s, []) := by
  have a1 : mipHas MIP_STOP MIP_LOAD_P = false := by decide
  have a2 : mipHas MIP_STOP MIP_HOME = false := by decide
  have a3 : mipHas MIP_STOP MIP_JOG_STOP = false := by decide
  have a4 : mipHas MIP_STOP MIP_MOVE = false := by decide
  have a5 : mipHas MIP_STOP MIP_JOG_BL1 = false := by decide
  have a6 : mipHas MIP_STOP MIP_JOG_BL2 = false := by decide
  have a7 : mipHas MIP_STOP MIP_MOVE_BL = false := by decide
  unfold postProcess_branch
  rw [hm]
  simp only [a1, a2, a3, a4, a5, a6, a7, Bool.false_eq_true, if_false, or_self]

theorem postProcess_snap_stop (pmr : motorRecord) (hm : pmr.mip = MIP_STOP)
    (ho : pmr.omsl ≠ menuOmsl.closed_loop) :
    postProcess_snap pmr =
      { pmr with
        pp := false,
        val := pmr.rbv, dval := pmr.drbv, mmap.M_VAL := true, mmap.M_DVAL := true,
        rval := NINT (pmr.drbv / pmr.mres), mmap.M_RVAL := true,
        diff := 0, mmap.M_DIFF := true, rdif := 0, mmap.M_RDIF := true } := by
  have a4 : mipHas MIP_STOP MIP_MOVE = false := by decide
  have a5 : mipHas MIP_STOP MIP_JOG_BL1 = false := by decide
  have a6 : mipHas MIP_STOP MIP_JOG_BL2 = false := by decide
  have a7 : mipHas MIP_STOP MIP_MOVE_BL = false := by decide
  unfold postProcess_snap
  rw [if_pos]
  rw [hm, a4, a5, a6, a7]
  exact ⟨ho, Bool.false_ne_true, Bool.false_ne_true, Bool.false_ne_true, Bool.false_ne_true⟩

/-- C15: with MIP equal to `STOP`, `omsl` not closed-loop and `mres ≠ 0`,
`postProcess` sets `val` to `rbv`, `dval` to `drbv`, `rval` to the nearest
integer of the new `dval / mres`, `diff` and `rdif` to 0, makes no call, clears
`pp` and leaves MIP `DONE`. -/
theorem C15_postProcess_stop (pmr : motorRecord) (hm : pmr.mip = MIP_STOP)
    (ho : pmr.omsl ≠ menuOmsl.closed_loop) (_hres : pmr.mres ≠ 0) :
    (postProcess pmr).1.val = pmr.rbv ∧ (postProcess pmr).1.dval = pmr.drbv ∧
    (postProcess pmr).1.rval = NINT ((postProcess pmr).1.dval / pmr.mres) ∧
    (postProcess pmr).1.diff = 0 ∧ (postProcess pmr).1.rdif = 0 ∧
    (postProcess pmr).2 = [] ∧ (postProcess pmr).1.pp = false ∧
    (postProcess pmr).1.mip = MIP_DONE := by
  have hb := postProcess_branch_stop (postProcess_snap pmr)
    (by rw [postProcess_snap_stop pmr hm ho]; exact hm)
  unfold postProcess
  rw [hb, postProcess_snap_stop pmr hm ho]
  refine ⟨rfl, rfl, rfl, rfl, rfl, rfl, rfl, ?_⟩
  show mipClear pmr.mip MIP_STOP = MIP_DONE
  rw [hm]
  decide

theorem C15_postProcess_stop_witness :
    (postProcess stopRequested).1.val = stopRequested.rbv ∧
    (postProcess stopRequested).1.dval = stopRequested.drbv ∧
    (postProcess stopRequested).1.rval =
      NINT ((postProcess stopRequested).1.dval / stopRequested.mres) ∧
    (postProcess stopRequested).1.diff = 0 ∧ (postProcess stopRequested).1.rdif = 0 ∧
    (postProcess stopRequested).2 = [] ∧ (postProcess stopRequested).1.pp = false ∧
    (postProcess stopRequested).1.mip = MIP_DONE :=
  C15_postProcess_stop stopRequested rfl (by decide) (by unfold stopRequested; norm_num)

theorem do_work_cancel_outcome (p : motorRecord) :
    ∃ hf hr m e, do_work_cancel p =
      Flow.ret ⟨RTN_STATUS.OK, { p with homf := hf, homr := hr, mip := MIP_STOP, mmap := m }, e⟩ ∧
      transactions e = [[⟨motor_cmnd.STOP_AXIS, []⟩]] := by
  unfold do_work_cancel
  by_cases h1 : mipHas p.mip MIP_HOMF = true
  · simp only [h1, if_true]
    exact ⟨_, _, _, _, rfl, rfl⟩
  · by_cases h2 : mipHas p.mip MIP_HOMR = true
    · simp only [h1, h2, if_true, if_false]
      exact ⟨_, _, _, _, rfl, rfl⟩
    · simp only [h1, h2, if_false]
      exact ⟨_, _, _, _, rfl, rfl⟩

theorem do_work_cancel_stops (p : motorRecord) : (do_work_cancel p).stops := by
  obtain ⟨hf, hr, m, e, h1, h2⟩ := do_work_cancel_outcome p
  rw [h1]
  exact ⟨rfl, h2⟩

theorem do_work_spmg_stops (sp : Bool) (p : motorRecord)
    (h : p.stop = true ∨ (p.spmg ≠ p.lspg ∧ sp = true)) : (do_work_spmg sp p).stops := by
  have h1 : p.spmg ≠ p.lspg ∨ p.stop ≠ false := by
    rcases h with h | h
    · right
      rw [h]
      exact Bool.noConfusion
    · exact Or.inl h.1
  have h2 : sp = true ∨ p.stop = true := by
    rcases h with h | h
    · exact Or.inr h
    · exact Or.inl h.2
  unfold do_work_spmg
  rw [if_pos h1]
  simp only []
  rw [if_pos h2]
  split_ifs
  all_goals
    first
    | exact do_work_cancel_stops _
    | exact ⟨rfl, rfl⟩

theorem do_work_spmg_stop_moving (sp : Bool) (p : motorRecord) (hmovn : p.movn = true)
    (h : p.stop = true ∨ (p.spmg ≠ p.lspg ∧ p.spmg = motorSPMG.Stop ∧ sp = true))
    (hm1 : p.mip ≠ MIP_DONE) (hm2 : p.mip ≠ MIP_STOP) (hm3 : p.mip ≠ MIP_RETRY) :
    ∃ l s hf hr m e, do_work_spmg sp p =
      Flow.ret ⟨RTN_STATUS.OK,
        { p with lspg := l, stop := s, pp := true, jogf := false, jogr := false,
                 homf := hf, homr := hr, mip := MIP_STOP, mmap := m }, e⟩ ∧
      transactions e = [[⟨motor_cmnd.STOP_AXIS, []⟩]] := by
  have h1 : p.spmg ≠ p.lspg ∨ p.stop ≠ false := by
    rcases h with h | h
    · right
      rw [h]
      exact Bool.noConfusion
    · exact Or.inl h.1
  have h2 : sp = true ∨ p.stop = true := by
    rcases h with h | h
    · exact Or.inr h
    · exact Or.inl h.2.2
  have h3 : p.spmg = motorSPMG.Stop ∨ p.stop = true := by
    rcases h with h | h
    · exact Or.inr h
    · exact Or.inl h.2.1
  have h4 : ¬ (p.mip = MIP_DONE ∨ p.mip = MIP_STOP ∨ p.mip = MIP_RETRY) := by
    intro hx
    rcases hx with hx | hx | hx
    · exact hm1 hx
    · exact hm2 hx
    · exact hm3 hx
  unfold do_work_spmg
  rw [if_pos h1]
  simp only []
  rw [if_pos h2]
  by_cases hs : p.spmg ≠ p.lspg
  · rw [if_pos hs]
    simp only []
    rw [if_pos h3, if_neg h4, if_pos hmovn]
    obtain ⟨hf, hr, m, e, hc, ht⟩ := do_work_cancel_outcome
      { p with lspg := p.spmg, pp := true, jogf := false, jogr := false }
    exact ⟨_, _, _, _, _, _, hc, ht⟩
  · rw [if_neg hs]
    simp only []
    rw [if_pos h3, if_neg h4, if_pos hmovn]
    obtain ⟨hf, hr, m, e, hc, ht⟩ := do_work_cancel_outcome
      { p with stop := false, pp := true, jogf := false, jogr := false }
    exact ⟨_, _, _, _, _, _, hc, ht⟩

theorem do_work_of_spmg_ret (env : Env) (pmr : motorRecord) (o : Outcome)
    (h : do_work_spmg (stopOrPause pmr) pmr = Flow.ret o) : do_work env pmr = o := by
  unfold stopOrPause at h
  unfold do_work
  simp only [h, Flow.ret_andThen]

/-- C14 (as stated) fails: with `movn` true and `stop` set but MIP equal to
`DONE`, `do_work` sends `STOP_AXIS` and returns with `pp` still false and MIP
still `DONE`, not `STOP`. -/
theorem C14_done_counterexample :
    stopWhileDone.movn = true ∧ stopWhileDone.stop = true ∧
    transactions (do_work {} stopWhileDone).eff = [[⟨motor_cmnd.STOP_AXIS, []⟩]] ∧
    (do_work {} stopWhileDone).pmr.pp = false ∧
    (do_work {} stopWhileDone).pmr.mip = MIP_DONE ∧
    (do_work {} stopWhileDone).pmr.mip ≠ MIP_STOP := by
  have h : do_work {} stopWhileDone =
      ⟨RTN_STATUS.OK, { stopWhileDone with stop := false }, [stopAxis]⟩ := by
    apply do_work_of_spmg_ret
    unfold do_work_spmg
    rfl
  rw [h]
  exact ⟨rfl, rfl, rfl, rfl, rfl, by decide⟩

/-- C14 (amended): with `movn` true, a stop requested (`stop` set, or `spmg`
newly changed to `Stop`) and MIP none of `DONE`, `STOP`, `RETRY`, `do_work`
sets `pp`, clears `jogf` and `jogr`, sends the single transaction `STOP_AXIS`,
sets MIP to exactly `STOP`, and leaves `val`, `dval` and `rval` unchanged. -/
theorem C14_stop_while_moving (env : Env) (pmr : motorRecord) (hmovn : pmr.movn = true)
    (hreq : pmr.stop = true ∨ (pmr.spmg ≠ pmr.lspg ∧ pmr.spmg = motorSPMG.Stop))
    (hm1 : pmr.mip ≠ MIP_DONE) (hm2 : pmr.mip ≠ MIP_STOP) (hm3 : pmr.mip ≠ MIP_RETRY) :
    (do_work env pmr).status = RTN_STATUS.OK ∧
    (do_work env pmr).pmr.pp = true ∧
    transactions (do_work env pmr).eff = [[⟨motor_cmnd.STOP_AXIS, []⟩]] ∧
    (do_work env pmr).pmr.mip = MIP_STOP ∧
    (do_work env pmr).pmr.jogf = false ∧ (do_work env pmr).pmr.jogr = false ∧
    (do_work env pmr).pmr.val = pmr.val ∧ (do_work env pmr).pmr.dval = pmr.dval ∧
    (do_work env pmr).pmr.rval = pmr.rval := by
  have hreq2 : pmr.stop = true ∨
      (pmr.spmg ≠ pmr.lspg ∧ pmr.spmg = motorSPMG.Stop ∧ stopOrPause pmr = true) := by
    rcases hreq with h | h
    · exact Or.inl h
    · refine Or.inr ⟨h.1, h.2, ?_⟩
      unfold stopOrPause
      rw [h.2]
      rfl
  obtain ⟨l, s, hf, hr, m, e, hc, ht⟩ :=
    do_work_spmg_stop_moving (stopOrPause pmr) pmr hmovn hreq2 hm1 hm2 hm3
  rw [do_work_of_spmg_ret env pmr _ hc]
  exact ⟨rfl, rfl, ht, rfl, rfl, rfl, rfl, rfl, rfl⟩

theorem C14_stop_while_moving_witness :
    (do_work {} stopPressed).status = RTN_STATUS.OK ∧
    (do_work {} stopPressed).pmr.pp = true ∧
    transactions (do_work {} stopPressed).eff = [[⟨motor_cmnd.STOP_AXIS, []⟩]] ∧
    (do_work {} stopPressed).pmr.mip = MIP_STOP ∧
    (do_work {} stopPressed).pmr.jogf = false ∧ (do_work {} stopPressed).pmr.jogr = false ∧
    (do_work {} stopPressed).pmr.val = stopPressed.val ∧
    (do_work {} stopPressed).pmr.dval = stopPressed.dval ∧
    (do_work {} stopPressed).pmr.rval = stopPressed.rval :=
  C14_stop_while_moving {} stopPressed rfl (Or.inl rfl) (by decide) (by decide) (by decide)

/-- C18: when `stop` is set, or `spmg` differs from `lspg` and is `Stop` or
`Pause`, `do_work` returns from its first section: its outcome is the outcome
of that section (no later section runs), the status is `OK`, and the one
transaction sent holds `STOP_AXIS` alone. -/
theorem C18_stop_returns (env : Env) (pmr : motorRecord)
    (h : pmr.stop = true ∨
      (pmr.spmg ≠ pmr.lspg ∧ (pmr.spmg = motorSPMG.Stop ∨ pmr.spmg = motorSPMG.Pause))) :
    ∃ o, do_work_spmg (stopOrPause pmr) pmr = Flow.ret o ∧ do_work env pmr = o ∧
      o.status = RTN_STATUS.OK ∧ transactions o.eff = [[⟨motor_cmnd.STOP_AXIS, []⟩]] := by
  have h2 : pmr.stop = true ∨ (pmr.spmg ≠ pmr.lspg ∧ stopOrPause pmr = true) := by
    rcases h with h | h
    · exact Or.inl h
    · refine Or.inr ⟨h.1, ?_⟩
      unfold stopOrPause
      exact decide_eq_true h.2
  have hs := do_work_spmg_stops (stopOrPause pmr) pmr h2
  cases hf : do_work_spmg (stopOrPause pmr) pmr with
  | ret o =>
    rw [hf] at hs
    exact ⟨o, rfl, do_work_of_spmg_ret env pmr o hf, hs.1, hs.2⟩
  | next q e =>
    rw [hf] at hs
    exact hs.elim

theorem C18_stop_returns_witness :
    ∃ o, do_work_spmg (stopOrPause pausePressed) pausePressed = Flow.ret o ∧
      do_work {} pausePressed = o ∧
      o.status = RTN_STATUS.OK ∧ transactions o.eff = [[⟨motor_cmnd.STOP_AXIS, []⟩]] :=
  C18_stop_returns {} pausePressed (Or.inr ⟨by decide, Or.inr rfl⟩)

theorem Flow.silent_andThen (f : Flow) (k : motorRecord → Flow) (hf : f.silent)
    (hk : ∀ p, (k p).silent) : (f.andThen k).silent := by
  cases f with
  | ret o => exact trivial
  | next p e =>
    have he : e = [] := hf
    subst he
    rw [Flow.next_nil_andThen]
    exact hk p

theorem do_work_cancel_silent (p : motorRecord) : (do_work_cancel p).silent := by
  unfold do_work_cancel
  exact trivial

theorem do_work_spmg_silent (sp : Bool) (p : motorRecord) : (do_work_spmg sp p).silent := by
  unfold do_work_spmg
  by_cases h1 : p.spmg ≠ p.lspg ∨ p.stop ≠ false
  · rw [if_pos h1]
    simp only []
    split_ifs
    all_goals
      first
      | exact do_work_cancel_silent _
      | exact trivial
      | exact rfl
  · rw [if_neg h1]
    exact rfl

theorem do_work_resolution_silent (p : motorRecord) : (do_work_resolution p).silent := by
  unfold do_work_resolution
  simp only []
  split_ifs
  all_goals
    first
    | exact trivial
    | exact rfl

theorem do_work_collect_silent (env : Env) (dir : ℚ) (sp : Bool) (p : motorRecord) :
    (do_work_collect env dir sp p).silent := by
  unfold do_work_collect
  split_ifs
  · cases env.dol with
    | none => exact trivial
    | some v => exact rfl
  all_goals
    first
    | exact trivial
    | exact rfl

theorem do_work_val_silent (dir : ℚ) (set : Bool) (p : motorRecord) :
    (do_work_val dir set p).silent := by
  unfold do_work_val
  simp only []
  split_ifs
  all_goals
    first
    | exact trivial
    | exact rfl

theorem do_work_before_limit_silent (env : Env) (pmr : motorRecord) :
    (do_work_before_limit env pmr).silent := by
  unfold do_work_before_limit
  exact Flow.silent_andThen _ _
    (Flow.silent_andThen _ _
      (Flow.silent_andThen _ _ (do_work_spmg_silent _ _) do_work_resolution_silent)
      (do_work_collect_silent _ _ _))
    (do_work_val_silent _ _)

theorem do_work_lvio_violated (old : Bool) (p : motorRecord) (hen : ¬ limitsDisabled p)
    (hv : limitViolated p) : (do_work_lvio old p).lvio = true := by
  unfold do_work_lvio
  simp only []
  rw [if_neg hen]
  have hd : decide (p.dval > p.dhlm ∨ p.dval > p.dhlm + p.bdst ∨
      p.dval < p.dllm ∨ p.dval < p.dllm + p.bdst) = true := decide_eq_true hv
  rw [hd]
  split_ifs <;> rfl

theorem do_work_rollback_frame (t : motorRecord) :
    ∃ dm m, do_work_rollback t =
      { t with val := t.lval, dval := t.ldvl, rval := t.lrvl, dmov := dm, mmap := m } ∧
      (t.mip = MIP_DONE → dm = true) := by
  unfold do_work_rollback
  simp only []
  by_cases hm : t.mip = MIP_DONE
  · rw [if_pos hm]
    exact ⟨_, _, rfl, fun _ => rfl⟩
  · rw [if_neg hm]
    exact ⟨_, _, rfl, fun h => absurd h hm⟩

theorem do_work_of_before_limit (env : Env) (pmr p : motorRecord)
    (h : do_work_before_limit env pmr = Flow.next p []) :
    do_work env pmr =
      match do_work_limit pmr.lvio (stopOrPause pmr) p with
      | Flow.ret o => o
      | Flow.next q eff =>
        { do_work_move (dirSign pmr.dir) pmr.set q with
          eff := eff ++ (do_work_move (dirSign pmr.dir) pmr.set q).eff } := by
  unfold do_work_before_limit stopOrPause at h
  unfold do_work stopOrPause
  simp only [h, Flow.next_nil_andThen]

theorem load_pos_keeps (p : motorRecord) :
    (load_pos p).1.lvio = p.lvio ∧ (load_pos p).1.dval = p.dval := by
  unfold load_pos set_userlimits
  simp only []
  split_ifs <;> exact ⟨rfl, rfl⟩

theorem do_work_same_keeps (q : motorRecord) :
    (do_work_same q).pmr.lvio = q.lvio ∧ (do_work_same q).pmr.dval = q.dval := by
  unfold do_work_same
  simp only []
  split_ifs <;> exact ⟨rfl, rfl⟩

theorem do_work_dispatch_keeps (q : motorRecord) :
    (do_work_dispatch q).pmr.lvio = q.lvio ∧ (do_work_dispatch q).pmr.dval = q.dval := by
  obtain ⟨c, m, e⟩ := do_work_rcnt_frame q
  obtain ⟨m4, e4⟩ := do_work_send_record_frame
    (moveLeg (decide (preferredDir (do_work_rcnt q))) (do_work_rcnt q)) (do_work_rcnt q)
  have hl : (do_work_rcnt q).lvio = q.lvio := by rw [e]
  have hd : (do_work_rcnt q).dval = q.dval := by rw [e]
  have hs : (do_work_send (decide (preferredDir (do_work_rcnt q))) (do_work_rcnt q)).pmr.lvio
      = q.lvio ∧
      (do_work_send (decide (preferredDir (do_work_rcnt q))) (do_work_rcnt q)).pmr.dval
      = q.dval := by
    show (do_work_send_record _ _).lvio = _ ∧ (do_work_send_record _ _).dval = _
    rw [e4]
    exact ⟨hl, hd⟩
  unfold do_work_dispatch
  simp only []
  split_ifs
  · exact ⟨hl, hd⟩
  · exact ⟨hl, hd⟩
  · exact hs
  · exact ⟨hl, hd⟩

theorem do_work_move_keeps (dir : ℚ) (set : Bool) (t : motorRecord) :
    (do_work_move dir set t).pmr.lvio = t.lvio ∧ (do_work_move dir set t).pmr.dval = t.dval := by
  obtain ⟨m1, h1⟩ := do_work_diff_frame t
  obtain ⟨m2, h2⟩ := do_work_post_frame dir (do_work_diff t)
  have a1 : (do_work_diff t).lvio = t.lvio := by rw [h1]
  have a2 : (do_work_diff t).dval = t.dval := by rw [h1]
  have b1 : (do_work_post dir (do_work_diff t)).lvio = t.lvio := by rw [h2, h1]
  have b2 : (do_work_post dir (do_work_diff t)).dval = t.dval := by rw [h2, h1]
  unfold do_work_move
  simp only []
  split_ifs
  · have h := load_pos_keeps (do_work_diff t)
    exact ⟨h.1.trans a1, h.2.trans a2⟩
  · have h := do_work_same_keeps (do_work_post dir (do_work_diff t))
    exact ⟨h.1.trans b1, h.2.trans b2⟩
  · have h := do_work_dispatch_keeps (do_work_post dir (do_work_diff t))
    exact ⟨h.1.trans b1, h.2.trans b2⟩
  · exact ⟨rfl, rfl⟩

theorem do_work_limit_clear (old sp : Bool) (p : motorRecord)
    (hl : (do_work_lvio old p).lvio = false) :
    (do_work_limit old sp p).record.lvio = false ∧
    (do_work_limit old sp p).record.val = p.val ∧
    (do_work_limit old sp p).record.dval = p.dval ∧
    (do_work_limit old sp p).record.rval = p.rval ∧
    transactions (do_work_limit old sp p).calls =
      (if sp = false ∧ p.stup = motorSTUP.ON then [[⟨motor_cmnd.GET_INFO, []⟩]] else []) := by
  obtain ⟨l, m, h⟩ := do_work_lvio_frame old p
  have hs : (do_work_lvio old p).stup = p.stup := by rw [h]
  have hv : (do_work_lvio old p).val = p.val := by rw [h]
  have hd : (do_work_lvio old p).dval = p.dval := by rw [h]
  have hr : (do_work_lvio old p).rval = p.rval := by rw [h]
  unfold do_work_limit
  simp only [hl, hs, Bool.false_eq_true, if_false]
  by_cases c1 : sp = true
  · rw [if_pos c1, if_neg (fun hx => Bool.noConfusion (c1.symm.trans hx.1))]
    exact ⟨hl, hv, hd, hr, rfl⟩
  · rw [if_neg c1]
    have c1f : sp = false := by
      cases sp
      · rfl
      · exact absurd rfl c1
    by_cases c2 : p.stup = motorSTUP.ON
    · rw [if_pos c2, if_pos ⟨c1f, c2⟩]
      refine ⟨?_, hv, hd, hr, rfl⟩
      first
      | exact hl
      | rfl
    · rw [if_neg c2, if_neg (fun hx => c2 hx.2)]
      exact ⟨hl, hv, hd, hr, rfl⟩

/-- C19: when `do_work` reaches the dial limit check with record `p` and the
software limits enabled, then, if the dial target lies beyond one of the four
bounds, `do_work` returns `OK` with `lvio` set, `val`, `dval`, `rval` restored
to `lval`, `ldvl`, `lrvl`, `dmov` true if MIP is `DONE`, and no call made; and
if it lies within all four, the limit check leaves `lvio` false and `val`,
`dval`, `rval` as they were, and `do_work` ends with `lvio` false and the same
`dval`. -/
theorem C19_limit_check (env : Env) (pmr p : motorRecord) (e : List Effect)
    (hreach : do_work_before_limit env pmr = Flow.next p e) (hen : ¬ limitsDisabled p) :
    (limitViolated p →
      (do_work env pmr).status = RTN_STATUS.OK ∧
      (do_work env pmr).pmr.lvio = true ∧
      (do_work env pmr).pmr.val = p.lval ∧ (do_work env pmr).pmr.dval = p.ldvl ∧
      (do_work env pmr).pmr.rval = p.lrvl ∧
      (p.mip = MIP_DONE → (do_work env pmr).pmr.dmov = true) ∧
      (do_work env pmr).eff = []) ∧
    (¬ limitViolated p →
      (do_work_limit pmr.lvio (stopOrPause pmr) p).record.lvio = false ∧
      (do_work_limit pmr.lvio (stopOrPause pmr) p).record.val = p.val ∧
      (do_work_limit pmr.lvio (stopOrPause pmr) p).record.dval = p.dval ∧
      (do_work_limit pmr.lvio (stopOrPause pmr) p).record.rval = p.rval ∧
      (do_work env pmr).pmr.lvio = false ∧ (do_work env pmr).pmr.dval = p.dval) := by
  have he : e = [] := by
    have h := do_work_before_limit_silent env pmr
    rw [hreach] at h
    exact h
  subst he
  have hdw := do_work_of_before_limit env pmr p hreach
  constructor
  · intro hv
    have hl := do_work_lvio_violated pmr.lvio p hen hv
    obtain ⟨l, m, hf⟩ := do_work_lvio_frame pmr.lvio p
    obtain ⟨dm, m2, hr, hdm⟩ := do_work_rollback_frame (do_work_lvio pmr.lvio p)
    have hlim : do_work_limit pmr.lvio (stopOrPause pmr) p =
        Flow.ret ⟨RTN_STATUS.OK, do_work_rollback (do_work_lvio pmr.lvio p), []⟩ := by
      unfold do_work_limit
      simp only [hl, if_true]
    rw [hdw, hlim]
    have hlv : (do_work_lvio pmr.lvio p).lval = p.lval := by rw [hf]
    have hld : (do_work_lvio pmr.lvio p).ldvl = p.ldvl := by rw [hf]
    have hlr : (do_work_lvio pmr.lvio p).lrvl = p.lrvl := by rw [hf]
    have hmip : (do_work_lvio pmr.lvio p).mip = p.mip := by rw [hf]
    refine ⟨rfl, ?_, ?_, ?_, ?_, ?_, rfl⟩
    · rw [hr]
      exact hl
    · rw [hr]
      exact hlv
    · rw [hr]
      exact hld
    · rw [hr]
      exact hlr
    · intro hm
      rw [hr]
      exact hdm (hmip.trans hm)
  · intro hv
    have hl : (do_work_lvio pmr.lvio p).lvio = false := by
      apply do_work_lvio_ok
      right
      unfold limitViolated at hv
      refine ⟨?_, ?_, ?_, ?_⟩
      · exact le_of_not_lt (fun hx => hv (Or.inl hx))
      · exact le_of_not_lt (fun hx => hv (Or.inr (Or.inl hx)))
      · exact le_of_not_lt (fun hx => hv (Or.inr (Or.inr (Or.inl hx))))
      · exact le_of_not_lt (fun hx => hv (Or.inr (Or.inr (Or.inr hx))))
    obtain ⟨c1, c2, c3, c4, _⟩ := do_work_limit_clear pmr.lvio (stopOrPause pmr) p hl
    refine ⟨c1, c2, c3, c4, ?_⟩
    rw [hdw]
    cases hlim : do_work_limit pmr.lvio (stopOrPause pmr) p with
    | ret o =>
      rw [hlim] at c1 c3
      exact ⟨c1, c3⟩
    | next q e2 =>
      rw [hlim] at c1 c3
      have hk := do_work_move_keeps (dirSign pmr.dir) pmr.set q
      exact ⟨hk.1.trans c1, hk.2.trans c3⟩

theorem do_work_before_limit_limitTrip :
    do_work_before_limit {} limitTrip = Flow.next limitTrip [] := by
  unfold do_work_before_limit
  rw [do_work_spmg_quiet _ limitTrip rfl rfl, Flow.next_nil_andThen,
    do_work_resolution_quiet limitTrip rfl rfl rfl, Flow.next_nil_andThen,
    do_work_collect_quiet {} _ _ limitTrip (by decide) rfl rfl rfl,
    do_work_tweak_quiet limitTrip rfl rfl rfl rfl, Flow.next_nil_andThen,
    do_work_val_quiet _ _ limitTrip rfl]

theorem C19_limit_check_witness :
    (limitViolated limitTrip →
      (do_work {} limitTrip).status = RTN_STATUS.OK ∧
      (do_work {} limitTrip).pmr.lvio = true ∧
      (do_work {} limitTrip).pmr.val = limitTrip.lval ∧
      (do_work {} limitTrip).pmr.dval = limitTrip.ldvl ∧
      (do_work {} limitTrip).pmr.rval = limitTrip.lrvl ∧
      (limitTrip.mip = MIP_DONE → (do_work {} limitTrip).pmr.dmov = true) ∧
      (do_work {} limitTrip).eff = []) ∧
    (¬ limitViolated limitTrip →
      (do_work_limit limitTrip.lvio (stopOrPause limitTrip) limitTrip).record.lvio = false ∧
      (do_work_limit limitTrip.lvio (stopOrPause limitTrip) limitTrip).record.val =
        limitTrip.val ∧
      (do_work_limit limitTrip.lvio (stopOrPause limitTrip) limitTrip).record.dval =
        limitTrip.dval ∧
      (do_work_limit limitTrip.lvio (stopOrPause limitTrip) limitTrip).record.rval =
        limitTrip.rval ∧
      (do_work {} limitTrip).pmr.lvio = false ∧
      (do_work {} limitTrip).pmr.dval = limitTrip.dval) :=
  C19_limit_check {} limitTrip limitTrip [] do_work_before_limit_limitTrip
    (by unfold limitsDisabled limitTrip; norm_num)

theorem mipHas_or_disjoint (x b c : ℕ) (h : b &&& c = 0) : mipHas (x ||| b) c = mipHas x c := by
  unfold mipHas
  rw [Nat.and_distrib_right, h, Nat.or_zero]

theorem mipHas_and_imp (x k b : ℕ) (h : mipHas (x &&& k) b = true) : mipHas x b = true := by
  unfold mipHas at h ⊢
  by_contra hc
  have h0 : x &&& b = 0 := by simpa using hc
  have h1 : (x &&& k) &&& b = 0 := by
    rw [Nat.and_assoc, Nat.and_comm k b, ← Nat.and_assoc, h0, Nat.zero_and]
  rw [h1] at h
  exact absurd h (by decide)

theorem delayExclusive_and (x k : ℕ) (h : delayExclusive x) : delayExclusive (x &&& k) := by
  unfold delayExclusive at h ⊢
  exact fun hc => h ⟨mipHas_and_imp _ _ _ hc.1, mipHas_and_imp _ _ _ hc.2⟩

theorem delayExclusive_clear (x c : ℕ) (h : delayExclusive x) : delayExclusive (mipClear x c) :=
  delayExclusive_and x _ h

theorem delayExclusive_or (x b : ℕ) (h : delayExclusive x)
    (h1 : b &&& MIP_DELAY_REQ = 0) (h2 : b &&& MIP_DELAY_ACK = 0) :
    delayExclusive (x ||| b) := by
  unfold delayExclusive at h ⊢
  rw [mipHas_or_disjoint _ _ _ h1, mipHas_or_disjoint _ _ _ h2]
  exact h

theorem delayExclusive_of_disjoint (x : ℕ) (h : x &&& MIP_DELAY_REQ = 0) : delayExclusive x := by
  unfold delayExclusive
  intro hc
  have := hc.1
  unfold mipHas at this
  rw [h] at this
  exact absurd this (by decide)

theorem callbackFunc_exclusive (pmr : motorRecord) (h : delayExclusive pmr.mip) :
    delayExclusive (callbackFunc pmr).1.mip := by
  unfold callbackFunc
  by_cases hr : mipHas pmr.mip MIP_DELAY_REQ = true
  · rw [if_pos hr]
    show delayExclusive (mipClear pmr.mip MIP_DELAY_REQ ||| MIP_DELAY_ACK)
    unfold delayExclusive
    intro hc
    have h1 : mipHas (mipClear pmr.mip MIP_DELAY_REQ ||| MIP_DELAY_ACK) MIP_DELAY_REQ = true := hc.1
    rw [mipHas_or_disjoint _ _ _ (by decide), mipHas_clear_of_subset _ _ _ (by decide)] at h1
    exact absurd h1 (by decide)
  · rw [if_neg hr]
    exact h

theorem maybeRetry_exclusive (pmr : motorRecord) : delayExclusive (maybeRetry pmr).mip := by
  have c1 : delayExclusive (pmr.mip &&& MIP_JOG_REQ) := by
    apply delayExclusive_of_disjoint
    rw [Nat.and_assoc]
    rw [show MIP_JOG_REQ &&& MIP_DELAY_REQ = 0 by decide, Nat.and_zero]
  have c2 : delayExclusive MIP_DONE := delayExclusive_of_disjoint _ (by decide)
  have c3 : delayExclusive MIP_RETRY := delayExclusive_of_disjoint _ (by decide)
  unfold maybeRetry
  simp only []
  split_ifs
  all_goals
    first
    | exact c1
    | exact c2
    | exact c3

theorem delayExclusive_DONE : delayExclusive MIP_DONE := delayExclusive_of_disjoint _ (by decide)

theorem delayExclusive_JOG_REQ : delayExclusive (MIP_DONE ||| MIP_JOG_REQ) :=
  delayExclusive_of_disjoint _ (by decide)

theorem postProcess_home_exclusive (s : motorRecord) (h : delayExclusive s.mip) :
    delayExclusive (postProcess_home s).1.mip := by
  unfold postProcess_home
  simp only []
  split_ifs
  all_goals
    first
    | exact h
    | exact delayExclusive_clear _ _ h

theorem postProcess_moved_exclusive (s : motorRecord) :
    delayExclusive (postProcess_moved s).1.mip := by
  have c1 : delayExclusive MIP_JOG_BL1 := delayExclusive_of_disjoint _ (by decide)
  have c2 : delayExclusive MIP_MOVE_BL := delayExclusive_of_disjoint _ (by decide)
  unfold postProcess_moved
  simp only []
  split_ifs
  all_goals
    first
    | exact delayExclusive_clear _ _ (delayExclusive_clear _ _ c1)
    | exact delayExclusive_clear _ _ (delayExclusive_clear _ _ c2)
    | exact delayExclusive_clear _ _ (delayExclusive_clear _ _ delayExclusive_JOG_REQ)
    | exact delayExclusive_clear _ _ (delayExclusive_clear _ _ delayExclusive_DONE)

theorem postProcess_done_exclusive (s : motorRecord) :
    delayExclusive (postProcess_done s).1.mip := by
  unfold postProcess_done
  simp only []
  split_ifs
  · exact delayExclusive_JOG_REQ
  · exact delayExclusive_DONE

theorem postProcess_branch_exclusive (s : motorRecord) (h : delayExclusive s.mip) :
    delayExclusive (postProcess_branch s).1.mip := by
  have c1 : delayExclusive MIP_JOG_BL2 := delayExclusive_of_disjoint _ (by decide)
  unfold postProcess_branch
  split_ifs
  · exact delayExclusive_DONE
  · exact postProcess_home_exclusive s h
  · exact postProcess_moved_exclusive s
  · exact c1
  · exact postProcess_done_exclusive s
  · exact h

theorem postProcess_exclusive (pmr : motorRecord) (h : delayExclusive pmr.mip) :
    delayExclusive (postProcess pmr).1.mip := by
  obtain ⟨v, d, r, df, rd, m, hs⟩ := postProcess_snap_frame pmr
  have hm : (postProcess_snap pmr).mip = pmr.mip := by rw [hs]
  have hb := postProcess_branch_exclusive (postProcess_snap pmr) (by rw [hm]; exact h)
  unfold postProcess
  exact delayExclusive_clear _ _ hb

theorem Flow.exclusive_andThen (f : Flow) (k : motorRecord → Flow) (hf : f.exclusive)
    (hk : ∀ p, delayExclusive p.mip → (k p).exclusive) : (f.andThen k).exclusive := by
  cases f with
  | ret o => exact hf
  | next p e =>
    have h := hk p hf
    cases hkp : k p with
    | ret o =>
      rw [Flow.andThen_next_ret p e k o hkp]
      rw [hkp] at h
      exact h
    | next q e2 =>
      rw [Flow.andThen_next_next p e k q e2 hkp]
      rw [hkp] at h
      exact h

theorem Flow.exclusive_ret (o : Outcome) (h : delayExclusive o.pmr.mip) :
    (Flow.ret o).exclusive := h

theorem Flow.exclusive_next (p : motorRecord) (e : List Effect) (h : delayExclusive p.mip) :
    (Flow.next p e).exclusive := h

theorem delayExclusive_STOP : delayExclusive MIP_STOP := delayExclusive_of_disjoint _ (by decide)

theorem do_work_cancel_exclusive (p : motorRecord) : (do_work_cancel p).exclusive := by
  unfold do_work_cancel
  exact delayExclusive_STOP

theorem do_work_spmg_exclusive (sp : Bool) (p : motorRecord) (h : delayExclusive p.mip) :
    (do_work_spmg sp p).exclusive := by
  have c1 : delayExclusive MIP_JOG_REQ := delayExclusive_of_disjoint _ (by decide)
  unfold do_work_spmg
  by_cases h1 : p.spmg ≠ p.lspg ∨ p.stop ≠ false
  · rw [if_pos h1]
    simp only []
    split_ifs
    all_goals
      first
      | exact do_work_cancel_exclusive _
      | exact Flow.exclusive_next _ _ h
      | exact Flow.exclusive_next _ _ c1
      | exact Flow.exclusive_next _ _ delayExclusive_DONE
      | exact Flow.exclusive_ret _ h
      | exact Flow.exclusive_ret _ delayExclusive_DONE
  · rw [if_neg h1]
    exact h

theorem enforceMinRetryDeadband_mip (q : motorRecord) :
    (enforceMinRetryDeadband q).1.mip = q.mip := by
  unfold enforceMinRetryDeadband
  simp only []
  split_ifs <;> rfl

theorem do_work_encoder_mip (q : motorRecord) : (do_work_encoder q).1.mip = q.mip := by
  unfold do_work_encoder
  simp only []
  split_ifs <;> rfl

theorem load_pos_mip (q : motorRecord) : (load_pos q).1.mip = MIP_LOAD_P := by
  unfold load_pos set_userlimits
  simp only []
  split_ifs <;> rfl

theorem delayExclusive_LOAD_P : delayExclusive MIP_LOAD_P :=
  delayExclusive_of_disjoint _ (by decide)

theorem do_work_resolution_exclusive (p : motorRecord) (h : delayExclusive p.mip) :
    (do_work_resolution p).exclusive := by
  unfold do_work_resolution
  by_cases h1 : p.mmap.M_MRES = true ∨ p.mmap.M_ERES = true ∨ p.mmap.M_UEIP = true
  · rw [if_pos h1]
    simp only []
    by_cases hs : (enforceMinRetryDeadband (do_work_encoder p).1).1.set = true
    · rw [if_pos hs]
      show delayExclusive (enforceMinRetryDeadband (do_work_encoder p).1).1.mip
      rw [enforceMinRetryDeadband_mip, do_work_encoder_mip]
      exact h
    · rw [if_neg hs]
      show delayExclusive (load_pos _).1.mip
      rw [load_pos_mip]
      exact delayExclusive_LOAD_P
  · rw [if_neg h1]
    exact h

theorem do_work_home_exclusive (sp : Bool) (p : motorRecord) (h : delayExclusive p.mip) :
    delayExclusive (do_work_home sp p).pmr.mip := by
  have c1 : delayExclusive MIP_HOMF := delayExclusive_of_disjoint _ (by decide)
  have c2 : delayExclusive MIP_HOMR := delayExclusive_of_disjoint _ (by decide)
  have c3 : delayExclusive (MIP_HOMF ||| MIP_STOP) := delayExclusive_of_disjoint _ (by decide)
  have c4 : delayExclusive (MIP_HOMR ||| MIP_STOP) := delayExclusive_of_disjoint _ (by decide)
  unfold do_work_home
  simp only []
  split_ifs
  all_goals
    first
    | exact h
    | exact c1
    | exact c2
    | exact c3
    | exact c4

theorem do_work_jog_exclusive (dir : ℚ) (p : motorRecord) (h : delayExclusive p.mip) :
    delayExclusive (do_work_jog dir p).pmr.mip := by
  have c1 : delayExclusive MIP_JOGF := delayExclusive_of_disjoint _ (by decide)
  have c2 : delayExclusive MIP_JOGR := delayExclusive_of_disjoint _ (by decide)
  have c3 : delayExclusive (MIP_JOGF ||| MIP_STOP) := delayExclusive_of_disjoint _ (by decide)
  have c4 : delayExclusive (MIP_JOGR ||| MIP_STOP) := delayExclusive_of_disjoint _ (by decide)
  unfold do_work_jog
  simp only []
  split_ifs
  all_goals
    first
    | exact h
    | exact c1
    | exact c2
    | exact c3
    | exact c4

theorem do_work_collect_exclusive (env : Env) (dir : ℚ) (sp : Bool) (p : motorRecord)
    (h : delayExclusive p.mip) : (do_work_collect env dir sp p).exclusive := by
  obtain ⟨v, d, r, l, f1, f2, m, ht⟩ := do_work_tweak_frame p
  have hm : delayExclusive (do_work_tweak p).mip := by
    rw [ht]
    exact h
  unfold do_work_collect
  split_ifs
  · cases env.dol with
    | none => exact h
    | some v => exact h
  · exact do_work_home_exclusive _ _ h
  · exact do_work_jog_exclusive _ _ h
  · exact delayExclusive_clear _ _ (delayExclusive_or _ _ h (by decide) (by decide))
  · exact h
  · exact hm

theorem do_work_val_exclusive (dir : ℚ) (set : Bool) (p : motorRecord)
    (h : delayExclusive p.mip) : (do_work_val dir set p).exclusive := by
  unfold do_work_val set_userlimits
  simp only []
  split_ifs
  all_goals
    first
    | exact h
    | exact delayExclusive_DONE

theorem do_work_limit_exclusive (old sp : Bool) (p : motorRecord)
    (h : delayExclusive p.mip) : (do_work_limit old sp p).exclusive := by
  obtain ⟨l, m, hf⟩ := do_work_lvio_frame old p
  obtain ⟨dm, m2, hr, _⟩ := do_work_rollback_frame (do_work_lvio old p)
  have hm : delayExclusive (do_work_lvio old p).mip := by
    rw [hf]
    exact h
  have hm2 : delayExclusive (do_work_rollback (do_work_lvio old p)).mip := by
    rw [hr]
    exact hm
  unfold do_work_limit
  simp only []
  split_ifs
  · exact hm2
  · exact hm
  · exact hm
  · exact hm

theorem delayExclusive_MOVE : delayExclusive MIP_MOVE := delayExclusive_of_disjoint _ (by decide)

theorem do_work_same_exclusive (q : motorRecord) (h : delayExclusive q.mip) :
    delayExclusive (do_work_same q).pmr.mip := by
  unfold do_work_same
  simp only []
  split_ifs
  all_goals
    first
    | exact h
    | exact delayExclusive_DONE

theorem do_work_dispatch_exclusive (q : motorRecord) (h : delayExclusive q.mip) :
    delayExclusive (do_work_dispatch q).pmr.mip := by
  obtain ⟨c, m, e⟩ := do_work_rcnt_frame q
  obtain ⟨m4, e4⟩ := do_work_send_record_frame
    (moveLeg (decide (preferredDir (do_work_rcnt q))) (do_work_rcnt q)) (do_work_rcnt q)
  have hl : delayExclusive (do_work_rcnt q).mip := by
    rw [e]
    exact h
  have hs : delayExclusive
      (do_work_send (decide (preferredDir (do_work_rcnt q))) (do_work_rcnt q)).pmr.mip := by
    show delayExclusive (do_work_send_record _ _).mip
    rw [e4]
    exact delayExclusive_MOVE
  unfold do_work_dispatch
  simp only []
  split_ifs
  · exact hl
  · exact hl
  · exact hs
  · exact hl

theorem do_work_move_exclusive (dir : ℚ) (set : Bool) (t : motorRecord)
    (h : delayExclusive t.mip) : delayExclusive (do_work_move dir set t).pmr.mip := by
  obtain ⟨m1, h1⟩ := do_work_diff_frame t
  obtain ⟨m2, h2⟩ := do_work_post_frame dir (do_work_diff t)
  have b1 : delayExclusive (do_work_post dir (do_work_diff t)).mip := by
    rw [h2, h1]
    exact h
  unfold do_work_move
  simp only []
  split_ifs
  · rw [load_pos_mip]
    exact delayExclusive_LOAD_P
  · exact do_work_same_exclusive _ b1
  · exact do_work_dispatch_exclusive _ b1
  · exact h

theorem do_work_exclusive (env : Env) (pmr : motorRecord) (h : delayExclusive pmr.mip) :
    delayExclusive (do_work env pmr).pmr.mip := by
  have hq : (((((do_work_spmg
      (decide (pmr.spmg = motorSPMG.Stop ∨ pmr.spmg = motorSPMG.Pause)) pmr).andThen
      do_work_resolution).andThen
      (do_work_collect env (dirSign pmr.dir)
        (decide (pmr.spmg = motorSPMG.Stop ∨ pmr.spmg = motorSPMG.Pause)))).andThen
      (do_work_val (dirSign pmr.dir) pmr.set)).andThen
      (do_work_limit pmr.lvio
        (decide (pmr.spmg = motorSPMG.Stop ∨ pmr.spmg = motorSPMG.Pause)))).exclusive := by
    apply Flow.exclusive_andThen
    · apply Flow.exclusive_andThen
      · apply Flow.exclusive_andThen
        · apply Flow.exclusive_andThen
          · exact do_work_spmg_exclusive _ pmr h
          · exact fun p hp => do_work_resolution_exclusive p hp
        · exact fun p hp => do_work_collect_exclusive env _ _ p hp
      · exact fun p hp => do_work_val_exclusive _ _ p hp
    · exact fun p hp => do_work_limit_exclusive _ _ p hp
  unfold do_work
  simp only []
  generalize ((((do_work_spmg
      (decide (pmr.spmg = motorSPMG.Stop ∨ pmr.spmg = motorSPMG.Pause)) pmr).andThen
      do_work_resolution).andThen
      (do_work_collect env (dirSign pmr.dir)
        (decide (pmr.spmg = motorSPMG.Stop ∨ pmr.spmg = motorSPMG.Pause)))).andThen
      (do_work_val (dirSign pmr.dir) pmr.set)).andThen
      (do_work_limit pmr.lvio
        (decide (pmr.spmg = motorSPMG.Stop ∨ pmr.spmg = motorSPMG.Pause))) = f at hq ⊢
  cases f with
  | ret o => exact hq
  | next p e => exact do_work_move_exclusive _ _ p hq

/-- C20 (as stated) fails for `process`: entered with `DELAY_ACK` alone in MIP
and the motor stopped, `process` executes `mip |= MIP_DELAY` and leaves with
both `DELAY_REQ` and `DELAY_ACK` set. -/
theorem C20_process_counterexample :
    mipHas delayAcked.mip MIP_DELAY_REQ = false ∧
    mipHas delayAcked.mip MIP_DELAY_ACK = true ∧
    (process motorDone delayAcked).pmr.mip = MIP_DELAY_REQ ||| MIP_DELAY_ACK ∧
    mipHas (process motorDone delayAcked).pmr.mip MIP_DELAY_REQ = true ∧
    mipHas (process motorDone delayAcked).pmr.mip MIP_DELAY_ACK = true := by
  decide

theorem delay_mask_testBit (i : ℕ) (h : i < 16) (h10 : i ≠ 10) :
    (0xFFFF ^^^ MIP_DELAY_REQ).testBit i = true := by
  interval_cases i <;> first | decide | exact absurd rfl h10

theorem delay_ack_testBit (i : ℕ) (h : i < 16) (h11 : i ≠ 11) :
    MIP_DELAY_ACK.testBit i = false := by
  interval_cases i <;> first | decide | exact absurd rfl h11

/-- C22: `callbackFunc` on a record without `DELAY_REQ` in MIP changes
nothing and makes no call; with `DELAY_REQ` set it makes the single call
`scanOnce`, changes no field but MIP, and in MIP clears `DELAY_REQ`, sets
`DELAY_ACK` and leaves each of the other fourteen bits as it was. -/
theorem C22_callbackFunc (pmr : motorRecord) :
    (mipHas pmr.mip MIP_DELAY_REQ = false → callbackFunc pmr = (pmr, [])) ∧
    (mipHas pmr.mip MIP_DELAY_REQ = true →
      (callbackFunc pmr).2 = [Effect.scan_once] ∧
      (callbackFunc pmr).1 = { pmr with mip := (callbackFunc pmr).1.mip } ∧
      mipHas (callbackFunc pmr).1.mip MIP_DELAY_REQ = false ∧
      mipHas (callbackFunc pmr).1.mip MIP_DELAY_ACK = true ∧
      ∀ i, i < 16 → i ≠ 10 → i ≠ 11 →
        (callbackFunc pmr).1.mip.testBit i = pmr.mip.testBit i) := by
  constructor
  · intro h
    unfold callbackFunc
    rw [h]
    rfl
  · intro h
    have hc : callbackFunc pmr =
        ({ pmr with mip := mipClear pmr.mip MIP_DELAY_REQ ||| MIP_DELAY_ACK },
         [Effect.scan_once]) := by
      unfold callbackFunc
      rw [if_pos h]
    rw [hc]
    refine ⟨rfl, rfl, ?_, ?_, ?_⟩
    · show mipHas (mipClear pmr.mip MIP_DELAY_REQ ||| MIP_DELAY_ACK) MIP_DELAY_REQ = false
      rw [mipHas_or_disjoint _ _ _ (by decide)]
      exact mipHas_clear_of_subset _ _ _ (by decide)
    · exact mipHas_or_self _ _ (by decide)
    · intro i hi h10 h11
      show (mipClear pmr.mip MIP_DELAY_REQ ||| MIP_DELAY_ACK).testBit i = pmr.mip.testBit i
      unfold mipClear
      rw [Nat.testBit_or, Nat.testBit_and, delay_mask_testBit i hi h10,
        delay_ack_testBit i hi h11, Bool.and_true, Bool.or_false]

theorem process_lvio_frame (old : Bool) (p : motorRecord) :
    ∃ l m st jf jr hf hr, process_lvio old p =
      { p with lvio := l, mmap := m, stop := st, jogf := jf, jogr := jr, homf := hf,
               homr := hr } ∧
      l = (if limitsDisabled p then false
           else if mipHas p.mip MIP_JOG = true then
             decide ((p.jogf = true ∧ p.drbv > p.dhlm - p.velo) ∨
                     (p.jogr = true ∧ p.drbv < p.dllm + p.velo))
           else if mipHas p.mip MIP_HOME = true then
             decide ((p.homf = true ∧ p.drbv > p.dhlm - p.velo) ∨
                     (p.homr = true ∧ p.drbv < p.dllm + p.velo))
           else decide (p.drbv > p.dhlm + |p.mres| ∨ p.drbv < p.dllm - |p.mres|)) := by
  unfold process_lvio
  simp only []
  by_cases h0 : limitsDisabled p
  · simp only [if_pos h0]
    split_ifs <;> exact ⟨_, _, _, _, _, _, _, rfl, rfl⟩
  · simp only [if_neg h0]
    by_cases h1 : mipHas p.mip MIP_JOG = true
    · simp only [if_pos h1]
      split_ifs <;> exact ⟨_, _, _, _, _, _, _, rfl, rfl⟩
    · simp only [if_neg h1]
      by_cases h2 : mipHas p.mip MIP_HOME = true
      · simp only [if_pos h2]
        split_ifs <;> exact ⟨_, _, _, _, _, _, _, rfl, rfl⟩
      · simp only [if_neg h2]
        split_ifs <;> exact ⟨_, _, _, _, _, _, _, rfl, rfl⟩

theorem process_lvio_lvio (old : Bool) (p : motorRecord) :
    (process_lvio old p).lvio =
      (if limitsDisabled p then false
       else if mipHas p.mip MIP_JOG = true then
         decide ((p.jogf = true ∧ p.drbv > p.dhlm - p.velo) ∨
                 (p.jogr = true ∧ p.drbv < p.dllm + p.velo))
       else if mipHas p.mip MIP_HOME = true then
         decide ((p.homf = true ∧ p.drbv > p.dhlm - p.velo) ∨
                 (p.homr = true ∧ p.drbv < p.dllm + p.velo))
       else decide (p.drbv > p.dhlm + |p.mres| ∨ p.drbv < p.dllm - |p.mres|)) := by
  obtain ⟨l, m, st, jf, jr, hf, hr, h, hl⟩ := process_lvio_frame old p
  rw [h]
  exact hl

/-- C24: in the software-limit check of `process`, with `dhlm = dllm = 0`
`lvio` becomes false whatever the position; otherwise, with no jog bit and no
home bit in MIP, `lvio` becomes true exactly when `drbv > dhlm + |mres|` or
`drbv < dllm - |mres|`. -/
theorem C24_process_lvio_general (old : Bool) (pmr : motorRecord) :
    (limitsDisabled pmr → (process_lvio old pmr).lvio = false) ∧
    (¬ limitsDisabled pmr → mipHas pmr.mip MIP_JOG = false →
      mipHas pmr.mip MIP_HOME = false →
      ((process_lvio old pmr).lvio = true ↔ readbackBeyondLimits pmr)) := by
  rw [process_lvio_lvio]
  constructor
  · intro h
    rw [if_pos h]
  · intro h hj hh
    rw [if_neg h, hj, hh]
    simp only [Bool.false_eq_true, if_false, decide_eq_true_eq]
    rfl

/-- C25 (as stated) fails: jogging forward at `drbv = 9.5` with limits ±10 and
`velo = 1`, the readback lies inside `[dllm - velo, dhlm + velo]`, yet the
check of `process` assigns `lvio = true`, because `9.5 > dhlm - velo`. -/
theorem C25_margin_counterexample :
    ¬ limitsDisabled jogNearLimit ∧ mipHas jogNearLimit.mip MIP_JOG = true ∧
    jogNearLimit.dllm - jogNearLimit.velo ≤ jogNearLimit.drbv ∧
    jogNearLimit.drbv ≤ jogNearLimit.dhlm + jogNearLimit.velo ∧
    (process_lvio false jogNearLimit).lvio = true := by
  have h0 : ¬ limitsDisabled jogNearLimit := by
    unfold limitsDisabled jogNearLimit
    norm_num
  have h1 : mipHas jogNearLimit.mip MIP_JOG = true := by decide
  refine ⟨h0, h1, ?_, ?_, ?_⟩
  · unfold jogNearLimit
    norm_num
  · unfold jogNearLimit
    norm_num
  · rw [process_lvio_lvio, if_neg h0, if_pos h1, decide_eq_true_eq]
    left
    unfold jogNearLimit
    norm_num

/-- C25 (amended): in the software-limit check of `process` with the limits
enabled, when MIP has a jog bit `lvio` becomes true exactly when `jogf` is set
and `drbv > dhlm - velo`, or `jogr` is set and `drbv < dllm + velo`; when MIP
has no jog bit but a home bit, the same holds with `homf` and `homr`. -/
theorem C25_process_lvio_jog_home (old : Bool) (pmr : motorRecord)
    (hen : ¬ limitsDisabled pmr) :
    (mipHas pmr.mip MIP_JOG = true →
      ((process_lvio old pmr).lvio = true ↔
        (pmr.jogf = true ∧ pmr.drbv > pmr.dhlm - pmr.velo) ∨
        (pmr.jogr = true ∧ pmr.drbv < pmr.dllm + pmr.velo))) ∧
    (mipHas pmr.mip MIP_JOG = false → mipHas pmr.mip MIP_HOME = true →
      ((process_lvio old pmr).lvio = true ↔
        (pmr.homf = true ∧ pmr.drbv > pmr.dhlm - pmr.velo) ∨
        (pmr.homr = true ∧ pmr.drbv < pmr.dllm + pmr.velo))) := by
  rw [process_lvio_lvio, if_neg hen]
  constructor
  · intro hj
    rw [if_pos hj, decide_eq_true_eq]
  · intro hj hh
    rw [hj, hh]
    simp only [Bool.false_eq_true, if_false, if_true, decide_eq_true_eq]

theorem C25_process_lvio_jog_home_witness :
    (mipHas jogNearLimit.mip MIP_JOG = true →
      ((process_lvio false jogNearLimit).lvio = true ↔
        (jogNearLimit.jogf = true ∧ jogNearLimit.drbv > jogNearLimit.dhlm - jogNearLimit.velo) ∨
        (jogNearLimit.jogr = true ∧
          jogNearLimit.drbv < jogNearLimit.dllm + jogNearLimit.velo))) ∧
    (mipHas jogNearLimit.mip MIP_JOG = false → mipHas jogNearLimit.mip MIP_HOME = true →
      ((process_lvio false jogNearLimit).lvio = true ↔
        (jogNearLimit.homf = true ∧ jogNearLimit.drbv > jogNearLimit.dhlm - jogNearLimit.velo) ∨
        (jogNearLimit.homr = true ∧
          jogNearLimit.drbv < jogNearLimit.dllm + jogNearLimit.velo))) :=
  C25_process_lvio_jog_home false jogNearLimit (by unfold limitsDisabled jogNearLimit; norm_num)

theorem dirSign_ne_zero (d : motorDIR) : dirSign d ≠ 0 := by
  unfold dirSign
  split_ifs <;> norm_num

/-- C28: after `special` has handled a write to `frac`, `0.1 ≤ frac ≤ 1.5`,
`frac` is the written value clamped into `[0.1, 1.5]`, no other field has
changed, and `frac` is posted exactly when the written value lay outside
`[0.1, 1.5]`. -/
theorem C28_special_frac (pmr : motorRecord) :
    1 / 10 ≤ (special_frac pmr).1.frac ∧ (special_frac pmr).1.frac ≤ 3 / 2 ∧
    (special_frac pmr).1.frac = max (1 / 10) (min pmr.frac (3 / 2)) ∧
    (special_frac pmr).1 = { pmr with frac := (special_frac pmr).1.frac } ∧
    (special_frac pmr).2 =
      (if pmr.frac < 1 / 10 ∨ pmr.frac > 3 / 2 then [Effect.post Fld.frac] else []) := by
  unfold special_frac
  simp only []
  by_cases h1 : pmr.frac < 1 / 10
  · have h2 : ¬ ((1 : ℚ) / 10 > 3 / 2) := by norm_num
    rw [if_pos h1]
    simp only []
    rw [if_neg h2, if_pos rfl, if_pos (Or.inl h1)]
    refine ⟨le_refl _, by norm_num, ?_, rfl, rfl⟩
    show (1 : ℚ) / 10 = _
    rw [min_eq_left (by linarith), max_eq_left (le_of_lt h1)]
  · rw [if_neg h1]
    simp only []
    by_cases h2 : pmr.frac > 3 / 2
    · rw [if_pos h2, if_pos rfl, if_pos (Or.inr h2)]
      refine ⟨by norm_num, le_refl _, ?_, rfl, rfl⟩
      show (3 : ℚ) / 2 = _
      rw [min_eq_right (le_of_lt h2), max_eq_right (by norm_num)]
    · have hno : ¬ (pmr.frac < 1 / 10 ∨ pmr.frac > 3 / 2) := by
        rintro (h | h)
        · exact h1 h
        · exact h2 h
      rw [if_neg h2, if_neg Bool.false_ne_true, if_neg hno]
      refine ⟨le_of_not_lt h1, le_of_not_lt h2, ?_, rfl, rfl⟩
      show pmr.frac = _
      rw [min_eq_left (le_of_not_lt h2), max_eq_right (le_of_not_lt h1)]

theorem do_work_eq_conclude (env : Env) (pmr : motorRecord) :
    do_work env pmr =
      (((((do_work_spmg (stopOrPause pmr) pmr).andThen do_work_resolution).andThen
        (do_work_collect env (dirSign pmr.dir) (stopOrPause pmr))).andThen
        (do_work_val (dirSign pmr.dir) pmr.set)).andThen
        (do_work_limit pmr.lvio (stopOrPause pmr))).conclude (dirSign pmr.dir) pmr.set := by
  have key : ∀ f : Flow, ∀ dir : ℚ, ∀ set : Bool,
      (match f with
        | Flow.ret o => o
        | Flow.next q eff =>
          let o := do_work_move dir set q
          { o with eff := eff ++ o.eff }) = f.conclude dir set := by
    intro f dir set
    cases f <;> rfl
  exact key _ _ _

/-- C29: in closed-loop mode with the desired value on a database link, and
no stop, SPMG edge or resolution change pending, a failed link read makes
`do_work` return `ERROR` with `udf` set, no call made and every other field
unchanged; a successful read of `v` makes it continue, from the
propagation of `.val` on, with `val = v` and `udf` cleared. -/
theorem C29_closed_loop_link (env : Env) (pmr : motorRecord)
    (hcl : pmr.omsl = menuOmsl.closed_loop ∧ pmr.dol_type = LinkType.DB_LINK)
    (hspmg : pmr.spmg = pmr.lspg) (hstop : pmr.stop = false)
    (hm1 : pmr.mmap.M_MRES = false) (hm2 : pmr.mmap.M_ERES = false)
    (hm3 : pmr.mmap.M_UEIP = false) :
    (env.dol = none →
      do_work env pmr = ⟨RTN_STATUS.ERROR, { pmr with udf := true }, []⟩) ∧
    (∀ v, env.dol = some v →
      do_work env pmr = do_work_after_collect pmr { pmr with val := v, udf := false }) := by
  have hsp : stopOrPause pmr =
      decide (pmr.spmg = motorSPMG.Stop ∨ pmr.spmg = motorSPMG.Pause) := rfl
  constructor
  · intro hl
    have hc : do_work_collect env (dirSign pmr.dir) (stopOrPause pmr) pmr =
        Flow.ret ⟨RTN_STATUS.ERROR, { pmr with udf := true }, []⟩ := by
      unfold do_work_collect
      rw [if_pos hcl, hl]
    rw [do_work_eq_conclude, do_work_spmg_quiet _ pmr hspmg hstop, Flow.next_nil_andThen,
      do_work_resolution_quiet pmr hm1 hm2 hm3, Flow.next_nil_andThen, hc, Flow.ret_andThen,
      Flow.ret_andThen]
    rfl
  · intro v hl
    have hc : do_work_collect env (dirSign pmr.dir) (stopOrPause pmr) pmr =
        Flow.next { pmr with val := v, udf := false } [] := by
      unfold do_work_collect
      rw [if_pos hcl, hl]
    rw [do_work_eq_conclude, do_work_spmg_quiet _ pmr hspmg hstop, Flow.next_nil_andThen,
      do_work_resolution_quiet pmr hm1 hm2 hm3, Flow.next_nil_andThen, hc,
      Flow.next_nil_andThen]
    rfl

theorem C29_closed_loop_link_witness :
    ((({} : Env).dol = none →
      do_work {} closedLoopLinked =
        ⟨RTN_STATUS.ERROR, { closedLoopLinked with udf := true }, []⟩) ∧
    (∀ v, ({} : Env).dol = some v →
      do_work {} closedLoopLinked =
        do_work_after_collect closedLoopLinked { closedLoopLinked with val := v, udf := false })) :=
  C29_closed_loop_link {} closedLoopLinked ⟨rfl, rfl⟩ rfl rfl rfl rfl rfl

theorem encRatioScale_post (eres mres : ℚ) (m : ℤ) :
    encRatioScale eres mres m ≤ 1 ∨
    (|((encRatioScale eres mres m : ℤ) : ℚ) / eres| ≤ 1000000 ∧
     |((encRatioScale eres mres m : ℤ) : ℚ) / mres| ≤ 1000000) := by
  induction m using encRatioScale.induct eres mres with
  | case1 m h ih =>
    rw [encRatioScale, dif_pos h]
    exact ih
  | case2 m h =>
    rw [encRatioScale, dif_neg h]
    by_cases h1 : m > 1
    · right
      constructor
      · by_contra hc
        exact h ⟨h1, Or.inl (lt_of_not_le hc)⟩
      · by_contra hc
        exact h ⟨h1, Or.inr (lt_of_not_le hc)⟩
    · left
      exact le_of_not_lt h1

theorem encRatioScale_pow (eres mres : ℚ) (k : ℕ) :
    1 ≤ encRatioScale eres mres (10 ^ k) ∧ encRatioScale eres mres (10 ^ k) ≤ 10 ^ k := by
  induction k with
  | zero =>
    rw [encRatioScale, dif_neg (by norm_num)]
    norm_num
  | succ k ih =>
    rw [encRatioScale]
    split_ifs with h
    · have hd : (10 : ℤ) ^ (k + 1) / 10 = 10 ^ k := by
        rw [pow_succ]
        exact Int.mul_ediv_cancel _ (by norm_num)
      rw [hd]
      refine ⟨ih.1, le_trans ih.2 ?_⟩
      rw [pow_succ]
      have : (0 : ℤ) < 10 ^ k := by positivity
      linarith
    · exact ⟨one_le_pow₀ (by norm_num), le_refl _⟩

theorem encRatioScale_tiny (eres mres : ℚ) (h : |1 / eres| > 1000000) (k : ℕ) :
    encRatioScale eres mres (10 ^ k) = 1 := by
  induction k with
  | zero =>
    rw [encRatioScale, dif_neg (by norm_num)]
    norm_num
  | succ k ih =>
    have h1 : (10 : ℤ) ^ (k + 1) > 1 := by
      have : (1 : ℤ) ≤ 10 ^ k := one_le_pow₀ (by norm_num)
      rw [pow_succ]
      linarith
    have h2 : |(((10 : ℤ) ^ (k + 1) : ℤ) : ℚ) / eres| > 1000000 := by
      have e : (((10 : ℤ) ^ (k + 1) : ℤ) : ℚ) / eres = (10 : ℚ) ^ (k + 1) * (1 / eres) := by
        push_cast
        ring
      rw [e, abs_mul]
      have h3 : (1 : ℚ) ≤ |(10 : ℚ) ^ (k + 1)| := by
        rw [abs_of_pos (by positivity)]
        exact one_le_pow₀ (by norm_num)
      have h4 : (0 : ℚ) ≤ |1 / eres| := abs_nonneg _
      nlinarith
    have hd : (10 : ℤ) ^ (k + 1) / 10 = 10 ^ k := by
      rw [pow_succ]
      exact Int.mul_ediv_cancel _ (by norm_num)
    rw [encRatioScale, dif_pos ⟨h1, Or.inl h2⟩, hd]
    exact ih

theorem do_work_encoder_ratio (p : motorRecord)
    (henc : p.msta.EA_PRESENT = true ∧ p.ueip = true) :
    (do_work_encoder p).2 =
      [|((encRatioScale (guardedEres p) (guardedMres p) 10000000 : ℤ) : ℚ) / guardedEres p|,
       |((encRatioScale (guardedEres p) (guardedMres p) 10000000 : ℤ) : ℚ) / guardedMres p|] := by
  unfold do_work_encoder guardedEres guardedMres
  simp only []
  split_ifs <;> rfl

theorem do_work_resolution_sends_ratio (p : motorRecord)
    (hmk : p.mmap.M_MRES = true ∨ p.mmap.M_ERES = true ∨ p.mmap.M_UEIP = true)
    (hea : p.msta.EA_PRESENT = true) :
    Effect.transaction [⟨motor_cmnd.SET_ENC_RATIO, (do_work_encoder p).2⟩] ∈
      (do_work_resolution p).calls := by
  have he : encRatioEffect p (do_work_encoder p).2 =
      [Effect.transaction [⟨motor_cmnd.SET_ENC_RATIO, (do_work_encoder p).2⟩]] := by
    unfold encRatioEffect
    rw [if_pos hea]
  unfold do_work_resolution
  rw [if_pos hmk]
  simp only []
  rw [he]
  split_ifs <;> simp [Flow.calls]

/-- C23 (as stated) fails: with `eres = 1e-7` and `mres = 1` the scale search
ends at `m = 1` and the first component of the ratio sent with
`SET_ENC_RATIO` is `1e7`, above `1e6`. -/
theorem C23_fine_encoder_counterexample :
    fineEncoder.msta.EA_PRESENT = true ∧ fineEncoder.ueip = true ∧
    fineEncoder.mmap.M_ERES = true ∧
    (do_work_encoder fineEncoder).2 = [10000000, 1] ∧
    Effect.transaction [⟨motor_cmnd.SET_ENC_RATIO, [10000000, 1]⟩] ∈
      (do_work_resolution fineEncoder).calls ∧
    ¬ ((10000000 : ℚ) ≤ 1000000) := by
  have hg1 : guardedMres fineEncoder = 1 := by
    unfold guardedMres fineEncoder
    norm_num
  have hg2 : guardedEres fineEncoder = 1 / 10000000 := by
    unfold guardedEres fineEncoder
    norm_num
  have hs : encRatioScale (1 / 10000000) 1 10000000 = 1 := by
    have h := encRatioScale_tiny (1 / 10000000) 1 (by norm_num) 7
    norm_num at h
    exact h
  have hr : (do_work_encoder fineEncoder).2 = [10000000, 1] := by
    rw [do_work_encoder_ratio fineEncoder ⟨rfl, rfl⟩, hg1, hg2, hs]
    norm_num
  have hmk : fineEncoder.mmap.M_MRES = true ∨ fineEncoder.mmap.M_ERES = true ∨
      fineEncoder.mmap.M_UEIP = true := Or.inr (Or.inl rfl)
  have hsend := do_work_resolution_sends_ratio fineEncoder hmk rfl
  rw [hr] at hsend
  exact ⟨rfl, rfl, rfl, hr, hsend, by norm_num⟩

/-- C23 (amended): in the resolution pass of `do_work` with an encoder present
and in use, the scale search ends with some `m`, `1 ≤ m ≤ 10^7`, the ratio
`|m / eres|, |m / mres|` (on the guarded resolutions) is sent with
`SET_ENC_RATIO`, and both components are at most `10^6` unless the search
ended at `m = 1`; they are at most `10^6` whenever `|mres|` and `|eres|` are
at least `10^-6`. -/
theorem C23_encoder_ratio (pmr : motorRecord)
    (henc : pmr.msta.EA_PRESENT = true ∧ pmr.ueip = true)
    (hmk : pmr.mmap.M_MRES = true ∨ pmr.mmap.M_ERES = true ∨ pmr.mmap.M_UEIP = true) :
    ∃ m : ℤ, 1 ≤ m ∧ m ≤ 10000000 ∧
      (do_work_encoder pmr).2 = [|(m : ℚ) / guardedEres pmr|, |(m : ℚ) / guardedMres pmr|] ∧
      Effect.transaction
        [⟨motor_cmnd.SET_ENC_RATIO, [|(m : ℚ) / guardedEres pmr|, |(m : ℚ) / guardedMres pmr|]⟩] ∈
        (do_work_resolution pmr).calls ∧
      (m = 1 ∨ (|(m : ℚ) / guardedEres pmr| ≤ 1000000 ∧ |(m : ℚ) / guardedMres pmr| ≤ 1000000)) ∧
      (1 / 1000000 ≤ |pmr.mres| → 1 / 1000000 ≤ |pmr.eres| →
        guardedEres pmr = pmr.eres ∧ guardedMres pmr = pmr.mres ∧
        |(m : ℚ) / pmr.eres| ≤ 1000000 ∧ |(m : ℚ) / pmr.mres| ≤ 1000000) := by
  have hp := encRatioScale_pow (guardedEres pmr) (guardedMres pmr) 7
  have hpost := encRatioScale_post (guardedEres pmr) (guardedMres pmr) 10000000
  have h7 : (10 : ℤ) ^ 7 = 10000000 := by norm_num
  rw [h7] at hp
  have hr := do_work_encoder_ratio pmr henc
  have hsend := do_work_resolution_sends_ratio pmr hmk henc.1
  rw [hr] at hsend
  have hcase : encRatioScale (guardedEres pmr) (guardedMres pmr) 10000000 = 1 ∨
      (|((encRatioScale (guardedEres pmr) (guardedMres pmr) 10000000 : ℤ) : ℚ) /
          guardedEres pmr| ≤ 1000000 ∧
       |((encRatioScale (guardedEres pmr) (guardedMres pmr) 10000000 : ℤ) : ℚ) /
          guardedMres pmr| ≤ 1000000) := by
    rcases hpost with h | h
    · exact Or.inl (le_antisymm h hp.1)
    · exact Or.inr h
  refine ⟨encRatioScale (guardedEres pmr) (guardedMres pmr) 10000000, hp.1, hp.2, hr, hsend,
    hcase, ?_⟩
  intro hm he
  have g1 : guardedMres pmr = pmr.mres := by
    unfold guardedMres
    rw [if_neg]
    intro hx
    have : (1 : ℚ) / 1000000000 < 1 / 1000000 := by norm_num
    linarith
  have hne : pmr.eres ≠ 0 := by
    intro hx
    rw [hx, abs_zero] at he
    norm_num at he
  have g2 : guardedEres pmr = pmr.eres := by
    unfold guardedEres
    rw [if_neg hne]
  have hmne : pmr.mres ≠ 0 := by
    intro hx
    rw [hx, abs_zero] at hm
    norm_num at hm
  refine ⟨g2, g1, ?_, ?_⟩
  · rcases hcase with h | h
    · rw [h]
      have hpos : (0 : ℚ) < |pmr.eres| := abs_pos.mpr hne
      rw [Int.cast_one, abs_div, abs_one, div_le_iff₀ hpos]
      have := mul_le_mul_of_nonneg_left he (by norm_num : (0 : ℚ) ≤ 1000000)
      linarith
    · rw [← g2]
      exact h.1
  · rcases hcase with h | h
    · rw [h]
      have hpos : (0 : ℚ) < |pmr.mres| := abs_pos.mpr hmne
      rw [Int.cast_one, abs_div, abs_one, div_le_iff₀ hpos]
      have := mul_le_mul_of_nonneg_left hm (by norm_num : (0 : ℚ) ≤ 1000000)
      linarith
    · rw [← g1]
      exact h.2

theorem C23_encoder_ratio_witness :
    ∃ m : ℤ, 1 ≤ m ∧ m ≤ 10000000 ∧
      (do_work_encoder coarseEncoder).2 =
        [|(m : ℚ) / guardedEres coarseEncoder|, |(m : ℚ) / guardedMres coarseEncoder|] ∧
      Effect.transaction
        [⟨motor_cmnd.SET_ENC_RATIO,
          [|(m : ℚ) / guardedEres coarseEncoder|, |(m : ℚ) / guardedMres coarseEncoder|]⟩] ∈
        (do_work_resolution coarseEncoder).calls ∧
      (m = 1 ∨ (|(m : ℚ) / guardedEres coarseEncoder| ≤ 1000000 ∧
        |(m : ℚ) / guardedMres coarseEncoder| ≤ 1000000)) ∧
      (1 / 1000000 ≤ |coarseEncoder.mres| → 1 / 1000000 ≤ |coarseEncoder.eres| →
        guardedEres coarseEncoder = coarseEncoder.eres ∧
        guardedMres coarseEncoder = coarseEncoder.mres ∧
        |(m : ℚ) / coarseEncoder.eres| ≤ 1000000 ∧ |(m : ℚ) / coarseEncoder.mres| ≤ 1000000) :=
  C23_encoder_ratio coarseEncoder ⟨rfl, rfl⟩ (Or.inl rfl)

theorem do_work_of_before_move (env : Env) (pmr q : motorRecord) (e : List Effect)
    (h : do_work_before_move env pmr = Flow.next q e) :
    do_work env pmr =
      { do_work_move (dirSign pmr.dir) pmr.set q with
        eff := e ++ (do_work_move (dirSign pmr.dir) pmr.set q).eff } := by
  unfold do_work_before_move at h
  rw [do_work_eq_conclude, h]
  rfl

theorem process_motor_info_diff (env : Env) (ic : Bool) (p : motorRecord) :
    (process_motor_info env ic p).diff =
      (process_motor_info env ic p).dval - (process_motor_info env ic p).drbv ∧
    (process_motor_info env ic p).rdif =
      NINT ((process_motor_info env ic p).diff / (process_motor_info env ic p).mres) := by
  unfold process_motor_info
  exact ⟨rfl, rfl⟩

theorem load_pos_keeps_diff (p : motorRecord) :
    (load_pos p).1.dval = p.dval ∧ (load_pos p).1.drbv = p.drbv ∧
    (load_pos p).1.mres = p.mres ∧ (load_pos p).1.diff = p.diff ∧
    (load_pos p).1.rdif = p.rdif := by
  unfold load_pos set_userlimits
  simp only []
  split_ifs <;> exact ⟨rfl, rfl, rfl, rfl, rfl⟩

theorem do_work_same_frame (q : motorRecord) :
    ∃ ld lv lr mi dm m, (do_work_same q).pmr =
      { q with ldvl := ld, lval := lv, lrvl := lr, mip := mi, dmov := dm, mmap := m } := by
  unfold do_work_same
  simp only []
  split_ifs <;> exact ⟨_, _, _, _, _, _, rfl⟩

theorem do_work_dispatch_frame (q : motorRecord) :
    ∃ lv ld lr mi dm rc pp cd m, (do_work_dispatch q).pmr =
      { q with lval := lv, ldvl := ld, lrvl := lr, mip := mi, dmov := dm, rcnt := rc,
               pp := pp, cdir := cd, mmap := m } := by
  obtain ⟨c, m, e⟩ := do_work_rcnt_frame q
  obtain ⟨m4, e4⟩ := do_work_send_record_frame
    (moveLeg (decide (preferredDir (do_work_rcnt q))) (do_work_rcnt q)) (do_work_rcnt q)
  have hs : (do_work_send (decide (preferredDir (do_work_rcnt q))) (do_work_rcnt q)).pmr =
      do_work_send_record (moveLeg (decide (preferredDir (do_work_rcnt q))) (do_work_rcnt q))
        (do_work_rcnt q) := rfl
  unfold do_work_dispatch
  simp only []
  split_ifs
  · rw [e]
    exact ⟨_, _, _, _, _, _, _, _, _, rfl⟩
  · rw [e]
    exact ⟨_, _, _, _, _, _, _, _, _, rfl⟩
  · rw [hs, e4, e]
    exact ⟨_, _, _, _, _, _, _, _, _, rfl⟩
  · rw [e]
    exact ⟨_, _, _, _, _, _, _, _, _, rfl⟩

theorem do_work_move_recomputes (dir : ℚ) (set : Bool) (t : motorRecord)
    (h : t.dval ≠ t.ldvl ∨ ¬ t.dmov = true) :
    (do_work_move dir set t).pmr.dval = t.dval ∧ (do_work_move dir set t).pmr.drbv = t.drbv ∧
    (do_work_move dir set t).pmr.mres = t.mres ∧
    (do_work_move dir set t).pmr.diff = t.dval - t.drbv ∧
    (do_work_move dir set t).pmr.rdif = NINT ((t.dval - t.drbv) / t.mres) := by
  obtain ⟨m1, h1⟩ := do_work_diff_frame t
  obtain ⟨m2, h2⟩ := do_work_post_frame dir (do_work_diff t)
  unfold do_work_move
  rw [if_pos h]
  simp only []
  split_ifs
  · obtain ⟨e1, e2, e3, e4, e5⟩ := load_pos_keeps_diff (do_work_diff t)
    rw [e1, e2, e3, e4, e5, h1]
    exact ⟨rfl, rfl, rfl, rfl, rfl⟩
  · obtain ⟨ld, lv, lr, mi, dm, m, e⟩ := do_work_same_frame (do_work_post dir (do_work_diff t))
    rw [e, h2, h1]
    exact ⟨rfl, rfl, rfl, rfl, rfl⟩
  · obtain ⟨lv, ld, lr, mi, dm, rc, pp, cd, m, e⟩ :=
      do_work_dispatch_frame (do_work_post dir (do_work_diff t))
    rw [e, h2, h1]
    exact ⟨rfl, rfl, rfl, rfl, rfl⟩

theorem backlashLeg_keeps (s : motorRecord) :
    (backlashLeg s).1.dval = s.dval ∧ (backlashLeg s).1.drbv = s.drbv ∧
    (backlashLeg s).1.mres = s.mres ∧ (backlashLeg s).1.diff = s.diff ∧
    (backlashLeg s).1.rdif = s.rdif := by
  unfold backlashLeg
  simp only []
  split_ifs <;> exact ⟨rfl, rfl, rfl, rfl, rfl⟩

theorem postProcess_home_keeps (s : motorRecord) :
    (postProcess_home s).1.dval = s.dval ∧ (postProcess_home s).1.drbv = s.drbv ∧
    (postProcess_home s).1.mres = s.mres ∧ (postProcess_home s).1.diff = s.diff ∧
    (postProcess_home s).1.rdif = s.rdif := by
  unfold postProcess_home
  simp only []
  split_ifs <;> exact ⟨rfl, rfl, rfl, rfl, rfl⟩

theorem postProcess_moved_keeps (s : motorRecord) :
    (postProcess_moved s).1.dval = s.dval ∧ (postProcess_moved s).1.drbv = s.drbv ∧
    (postProcess_moved s).1.mres = s.mres ∧ (postProcess_moved s).1.diff = s.diff ∧
    (postProcess_moved s).1.rdif = s.rdif := by
  have hb := backlashLeg_keeps { s with dmov := false, mmap.M_DMOV := false }
  unfold postProcess_moved
  simp only []
  split_ifs
  all_goals
    first
    | exact ⟨rfl, rfl, rfl, rfl, rfl⟩
    | exact hb

theorem postProcess_branch_keeps (s : motorRecord) :
    (postProcess_branch s).1.dval = s.dval ∧ (postProcess_branch s).1.drbv = s.drbv ∧
    (postProcess_branch s).1.mres = s.mres ∧ (postProcess_branch s).1.diff = s.diff ∧
    (postProcess_branch s).1.rdif = s.rdif := by
  have hb := backlashLeg_keeps { s with dmov := false, mmap.M_DMOV := false }
  unfold postProcess_branch
  split_ifs
  · exact ⟨rfl, rfl, rfl, rfl, rfl⟩
  · exact postProcess_home_keeps s
  · exact postProcess_moved_keeps s
  · exact hb
  · unfold postProcess_done
    simp only []
    split_ifs <;> exact ⟨rfl, rfl, rfl, rfl, rfl⟩
  · exact ⟨rfl, rfl, rfl, rfl, rfl⟩

theorem postProcess_snap_cases (p : motorRecord) :
    (postProcess_snap p).drbv = p.drbv ∧ (postProcess_snap p).mres = p.mres ∧
    (((postProcess_snap p).dval = p.drbv ∧ (postProcess_snap p).diff = 0 ∧
      (postProcess_snap p).rdif = 0) ∨
     ((postProcess_snap p).dval = p.dval ∧ (postProcess_snap p).diff = p.diff ∧
      (postProcess_snap p).rdif = p.rdif)) := by
  unfold postProcess_snap
  split_ifs
  · exact ⟨rfl, rfl, Or.inl ⟨rfl, rfl, rfl⟩⟩
  · exact ⟨rfl, rfl, Or.inr ⟨rfl, rfl, rfl⟩⟩

theorem postProcess_keeps (p : motorRecord) :
    (postProcess p).1.dval = (postProcess_snap p).dval ∧
    (postProcess p).1.drbv = (postProcess_snap p).drbv ∧
    (postProcess p).1.mres = (postProcess_snap p).mres ∧
    (postProcess p).1.diff = (postProcess_snap p).diff ∧
    (postProcess p).1.rdif = (postProcess_snap p).rdif := by
  have h := postProcess_branch_keeps (postProcess_snap p)
  unfold postProcess
  exact h

theorem NINT_zero : NINT 0 = 0 := by
  have h := NINT_intCast 0
  rw [Int.cast_zero] at h
  exact h

/-- C26 (as stated) fails for `do_work`: on a stop request with the motor at
rest, `do_work` sets `dval` to `drbv` and returns without recomputing `diff`
and `rdif`, which keep their old values. -/
theorem C26_stop_counterexample :
    stopShort.mres ≠ 0 ∧ (do_work {} stopShort).pmr.dval ≠ stopShort.dval ∧
    (do_work {} stopShort).pmr.dval = 5 ∧ (do_work {} stopShort).pmr.drbv = 5 ∧
    (do_work {} stopShort).pmr.diff = 5 ∧
    (do_work {} stopShort).pmr.diff ≠
      (do_work {} stopShort).pmr.dval - (do_work {} stopShort).pmr.drbv := by
  have h : ∃ o, do_work_spmg (stopOrPause stopShort) stopShort = Flow.ret o ∧
      o.pmr.dval = 5 ∧ o.pmr.drbv = 5 ∧ o.pmr.diff = 5 := by
    unfold do_work_spmg do_work_cancel
    exact ⟨_, rfl, rfl, rfl, rfl⟩
  obtain ⟨o, ho, h1, h2, h3⟩ := h
  rw [do_work_of_spmg_ret {} stopShort o ho, h1, h2, h3]
  refine ⟨?_, ?_, rfl, rfl, rfl, ?_⟩
  · unfold stopShort
    norm_num
  · unfold stopShort
    norm_num
  · norm_num

/-- C26 (amended): `process_motor_info` always returns with
`diff = dval - drbv` and `rdif = NINT(diff / mres)`; `postProcess` returns with
them whenever it has changed `dval` or `drbv`; `do_work` returns with them
whenever it runs its last section with `dval ≠ ldvl` or `dmov` false. -/
theorem C26_diff_consistent (env : Env) (ic : Bool) (pmr : motorRecord)
    (_hres : pmr.mres ≠ 0) :
    ((process_motor_info env ic pmr).diff =
        (process_motor_info env ic pmr).dval - (process_motor_info env ic pmr).drbv ∧
     (process_motor_info env ic pmr).rdif =
        NINT ((process_motor_info env ic pmr).diff / (process_motor_info env ic pmr).mres)) ∧
    (((postProcess pmr).1.dval ≠ pmr.dval ∨ (postProcess pmr).1.drbv ≠ pmr.drbv) →
      (postProcess pmr).1.diff = (postProcess pmr).1.dval - (postProcess pmr).1.drbv ∧
      (postProcess pmr).1.rdif = NINT ((postProcess pmr).1.diff / (postProcess pmr).1.mres)) ∧
    (∀ q e, do_work_before_move env pmr = Flow.next q e →
      (q.dval ≠ q.ldvl ∨ q.dmov = false) →
      (do_work env pmr).pmr.diff = (do_work env pmr).pmr.dval - (do_work env pmr).pmr.drbv ∧
      (do_work env pmr).pmr.rdif =
        NINT ((do_work env pmr).pmr.diff / (do_work env pmr).pmr.mres)) := by
  refine ⟨process_motor_info_diff env ic pmr, ?_, ?_⟩
  · intro hch
    obtain ⟨k1, k2, k3, k4, k5⟩ := postProcess_keeps pmr
    obtain ⟨s1, s2, s3⟩ := postProcess_snap_cases pmr
    rw [k1, k2] at hch
    rw [k1, k2, k3, k4, k5]
    rcases s3 with ⟨a, b, c⟩ | ⟨a, b, c⟩
    · rw [a, b, c, s1, sub_self, zero_div, NINT_zero]
      exact ⟨rfl, rfl⟩
    · rcases hch with h | h
      · exact absurd a h
      · exact absurd s1 h
  · intro q e hq hne
    have hne2 : q.dval ≠ q.ldvl ∨ ¬ q.dmov = true := by
      rcases hne with h | h
      · exact Or.inl h
      · right
        rw [h]
        exact Bool.false_ne_true
    obtain ⟨r1, r2, r3, r4, r5⟩ :=
      do_work_move_recomputes (dirSign pmr.dir) pmr.set q hne2
    rw [do_work_of_before_move env pmr q e hq]
    show (do_work_move _ _ q).pmr.diff = (do_work_move _ _ q).pmr.dval -
        (do_work_move _ _ q).pmr.drbv ∧
      (do_work_move _ _ q).pmr.rdif =
        NINT ((do_work_move _ _ q).pmr.diff / (do_work_move _ _ q).pmr.mres)
    rw [r1, r2, r3, r4, r5]
    exact ⟨rfl, rfl⟩

theorem C26_diff_consistent_witness :
    ((process_motor_info {} false stopShort).diff =
        (process_motor_info {} false stopShort).dval -
          (process_motor_info {} false stopShort).drbv ∧
     (process_motor_info {} false stopShort).rdif =
        NINT ((process_motor_info {} false stopShort).diff /
          (process_motor_info {} false stopShort).mres)) ∧
    (((postProcess stopShort).1.dval ≠ stopShort.dval ∨
        (postProcess stopShort).1.drbv ≠ stopShort.drbv) →
      (postProcess stopShort).1.diff =
        (postProcess stopShort).1.dval - (postProcess stopShort).1.drbv ∧
      (postProcess stopShort).1.rdif =
        NINT ((postProcess stopShort).1.diff / (postProcess stopShort).1.mres)) ∧
    (∀ q e, do_work_before_move {} stopShort = Flow.next q e →
      (q.dval ≠ q.ldvl ∨ q.dmov = false) →
      (do_work {} stopShort).pmr.diff =
        (do_work {} stopShort).pmr.dval - (do_work {} stopShort).pmr.drbv ∧
      (do_work {} stopShort).pmr.rdif =
        NINT ((do_work {} stopShort).pmr.diff / (do_work {} stopShort).pmr.mres)) :=
  C26_diff_consistent {} false stopShort (by unfold stopShort; norm_num)

theorem moveLeg_slew (pd : Bool) (q : motorRecord)
    (h : |q.bdst| < |q.mres| ∨ (pd = true ∧ q.bvel = q.velo ∧ q.bacc = q.accl)) :
    moveLeg pd q =
      ⟨q.velo / |q.mres|, q.velo / |q.mres| / q.accl,
       if useRel q then
         ((NINT (q.diff / q.mres) : ℚ) + (if q.diff / q.mres > 0 then 1 / 2 else -(1 / 2))) *
           q.frac
       else q.ldvl / q.mres + q.frac * (q.dval / q.mres - q.ldvl / q.mres),
       false⟩ := by
  unfold moveLeg
  simp only []
  rw [if_pos h]

theorem preferredDir_post (dir : ℚ) (p : motorRecord) :
    preferredDir (do_work_post dir p) ↔ preferredDir p := by
  obtain ⟨m, h⟩ := do_work_post_frame dir p
  rw [h]
  exact Iff.rfl

theorem do_work_move_slew (dir : ℚ) (q : motorRecord)
    (hne : q.dval ≠ q.ldvl ∨ ¬ q.dmov = true)
    (hnpos : NINT (q.dval / q.mres) ≠ NINT (q.drbv / q.mres))
    (hmip : q.mip = MIP_DONE ∨ q.mip = MIP_RETRY)
    (hnd : ¬ (|q.dval - q.drbv| < 19 / 20 * q.rdbd ∧ ¬ preferredDir (do_work_diff q)))
    (hdirect : |q.bdst| < |q.mres| ∨
      (preferredDir (do_work_diff q) ∧ q.bvel = q.velo ∧ q.bacc = q.accl)) :
    (do_work_move dir false q).eff =
      [Effect.transaction
        [⟨motor_cmnd.SET_VEL_BASE, [q.vbas / |q.mres|]⟩,
         ⟨motor_cmnd.SET_VELOCITY, [q.velo / |q.mres|]⟩,
         ⟨motor_cmnd.SET_ACCEL, [q.velo / |q.mres| / q.accl]⟩,
         ⟨if useRel q then motor_cmnd.MOVE_REL else motor_cmnd.MOVE_ABS, [directPosition q]⟩,
         ⟨motor_cmnd.GO, []⟩]] ∧
    (do_work_move dir false q).pmr.pp = q.pp ∧
    (do_work_move dir false q).pmr.mip = MIP_MOVE := by
  obtain ⟨m1, h1⟩ := do_work_diff_frame q
  obtain ⟨m2, h2⟩ := do_work_post_frame dir (do_work_diff q)
  obtain ⟨c, m, hq⟩ := do_work_prepared_frame dir q
  have hpd : preferredDir (do_work_post dir (do_work_diff q)) ↔ preferredDir (do_work_diff q) :=
    preferredDir_post dir _
  have hmipq : (do_work_post dir (do_work_diff q)).mip = MIP_DONE ∨
      (do_work_post dir (do_work_diff q)).mip = MIP_RETRY := by
    rw [h2, h1]
    exact hmip
  have hndq : ¬ (|(do_work_post dir (do_work_diff q)).diff| <
      19 / 20 * (do_work_post dir (do_work_diff q)).rdbd ∧
      ¬ preferredDir (do_work_post dir (do_work_diff q))) := by
    have d1 : (do_work_post dir (do_work_diff q)).diff = q.dval - q.drbv := by rw [h2, h1]
    have d2 : (do_work_post dir (do_work_diff q)).rdbd = q.rdbd := by rw [h2, h1]
    rw [hpd, d1, d2]
    exact hnd
  have e1 : (do_work_rcnt (do_work_post dir (do_work_diff q))).vbas = q.vbas := by rw [hq]
  have e2 : (do_work_rcnt (do_work_post dir (do_work_diff q))).mres = q.mres := by rw [hq]
  have e3 : (do_work_rcnt (do_work_post dir (do_work_diff q))).velo = q.velo := by rw [hq]
  have e4 : (do_work_rcnt (do_work_post dir (do_work_diff q))).accl = q.accl := by rw [hq]
  have e5 : (do_work_rcnt (do_work_post dir (do_work_diff q))).bdst = q.bdst := by rw [hq]
  have e6 : (do_work_rcnt (do_work_post dir (do_work_diff q))).bvel = q.bvel := by rw [hq]
  have e7 : (do_work_rcnt (do_work_post dir (do_work_diff q))).bacc = q.bacc := by rw [hq]
  have e8 : (do_work_rcnt (do_work_post dir (do_work_diff q))).pp = q.pp := by rw [hq]
  have e9 : (do_work_rcnt (do_work_post dir (do_work_diff q))).diff = q.dval - q.drbv := by
    rw [hq]
  have e10 : (do_work_rcnt (do_work_post dir (do_work_diff q))).frac = q.frac := by rw [hq]
  have e11 : (do_work_rcnt (do_work_post dir (do_work_diff q))).ldvl = q.ldvl := by rw [hq]
  have e12 : (do_work_rcnt (do_work_post dir (do_work_diff q))).dval = q.dval := by rw [hq]
  have hrel : useRel (do_work_rcnt (do_work_post dir (do_work_diff q))) ↔ useRel q := by
    rw [hq]
    exact Iff.rfl
  have hslew : |(do_work_rcnt (do_work_post dir (do_work_diff q))).bdst| <
      |(do_work_rcnt (do_work_post dir (do_work_diff q))).mres| ∨
      (decide (preferredDir (do_work_post dir (do_work_diff q))) = true ∧
       (do_work_rcnt (do_work_post dir (do_work_diff q))).bvel =
         (do_work_rcnt (do_work_post dir (do_work_diff q))).velo ∧
       (do_work_rcnt (do_work_post dir (do_work_diff q))).bacc =
         (do_work_rcnt (do_work_post dir (do_work_diff q))).accl) := by
    rw [e2, e3, e4, e5, e6, e7, decide_eq_true_eq, hpd]
    exact hdirect
  have hleg := moveLeg_slew (decide (preferredDir (do_work_post dir (do_work_diff q))))
    (do_work_rcnt (do_work_post dir (do_work_diff q))) hslew
  obtain ⟨m4, h4⟩ := do_work_send_record_frame
    (moveLeg (decide (preferredDir (do_work_post dir (do_work_diff q))))
      (do_work_rcnt (do_work_post dir (do_work_diff q))))
    (do_work_rcnt (do_work_post dir (do_work_diff q)))
  rw [do_work_move_go dir q hne hnpos, do_work_dispatch_send _ hmipq hndq]
  refine ⟨?_, ?_, ?_⟩
  · show [Effect.transaction (moveMsgs _ (moveLeg _ _))] = _
    rw [hleg]
    unfold moveMsgs directPosition
    simp only [e1, e2, e3, e4, e9, e10, e11, e12]
    by_cases hr : useRel q
    · rw [if_pos (hrel.mpr hr), if_pos (hrel.mpr hr), if_pos hr, if_pos hr]
    · rw [if_neg (fun hx => hr (hrel.mp hx)), if_neg (fun hx => hr (hrel.mp hx)), if_neg hr,
        if_neg hr]
  · rw [do_work_send_pp, hleg, e8]
    rfl
  · show (do_work_send_record _ _).mip = MIP_MOVE
    rw [h4]

/-- C30: when `do_work` (not in Set mode) reaches its last section with
record `q`, a move is due (`dval ≠ ldvl` or `dmov` false, raw target other
than raw readback, MIP `DONE` or `RETRY`, not held back by the deadband rule),
and either `|bdst| < |mres|` or the move is in the preferred direction with
`bvel = velo` and `bacc = accl`, then the one transaction it adds is
`SET_VEL_BASE, SET_VELOCITY, SET_ACCEL, MOVE_REL` or `MOVE_ABS`, `GO`, with the
slew velocity `velo / |mres|` and acceleration `(velo / |mres|) / accl`,
`MOVE_REL` exactly when an encoder or readback link is in use; `pp` is left as
it was and MIP becomes `MOVE`. -/
theorem C30_direct_move (env : Env) (pmr q : motorRecord) (e : List Effect)
    (hset : pmr.set = false)
    (hreach : do_work_before_move env pmr = Flow.next q e)
    (hne : q.dval ≠ q.ldvl ∨ q.dmov = false)
    (hnpos : NINT (q.dval / q.mres) ≠ NINT (q.drbv / q.mres))
    (hmip : q.mip = MIP_DONE ∨ q.mip = MIP_RETRY)
    (hnd : ¬ (|q.dval - q.drbv| < 19 / 20 * q.rdbd ∧ ¬ preferredDir (do_work_diff q)))
    (hdirect : |q.bdst| < |q.mres| ∨
      (preferredDir (do_work_diff q) ∧ q.bvel = q.velo ∧ q.bacc = q.accl)) :
    (do_work env pmr).eff =
      e ++ [Effect.transaction
        [⟨motor_cmnd.SET_VEL_BASE, [q.vbas / |q.mres|]⟩,
         ⟨motor_cmnd.SET_VELOCITY, [q.velo / |q.mres|]⟩,
         ⟨motor_cmnd.SET_ACCEL, [q.velo / |q.mres| / q.accl]⟩,
         ⟨if useRel q then motor_cmnd.MOVE_REL else motor_cmnd.MOVE_ABS, [directPosition q]⟩,
         ⟨motor_cmnd.GO, []⟩]] ∧
    (do_work env pmr).pmr.pp = q.pp ∧ (do_work env pmr).pmr.mip = MIP_MOVE := by
  have hne2 : q.dval ≠ q.ldvl ∨ ¬ q.dmov = true := by
    rcases hne with h | h
    · exact Or.inl h
    · right
      rw [h]
      exact Bool.false_ne_true
  obtain ⟨h1, h2, h3⟩ := do_work_move_slew (dirSign pmr.dir) q hne2 hnpos hmip hnd hdirect
  rw [do_work_of_before_move env pmr q e hreach, hset]
  refine ⟨?_, h2, h3⟩
  show e ++ (do_work_move (dirSign pmr.dir) false q).eff = _
  rw [h1]

theorem do_work_before_move_directMove :
    do_work_before_move {} directMove = Flow.next directMove [] := by
  have hl : do_work_lvio directMove.lvio directMove = directMove := by
    have hd : limitsDisabled directMove := ⟨rfl, rfl⟩
    unfold do_work_lvio
    simp only [if_pos hd]
    rfl
  have hlv : (do_work_lvio directMove.lvio directMove).lvio = false := by
    rw [hl]
    rfl
  have hsp : stopOrPause directMove = false := by decide
  unfold do_work_before_move
  rw [hsp, do_work_spmg_quiet _ directMove rfl rfl, Flow.next_nil_andThen,
    do_work_resolution_quiet directMove rfl rfl rfl, Flow.next_nil_andThen,
    do_work_collect_quiet {} _ _ directMove (by decide) rfl rfl rfl,
    do_work_tweak_quiet directMove rfl rfl rfl rfl, Flow.next_nil_andThen,
    do_work_val_quiet _ _ directMove rfl, Flow.next_nil_andThen,
    do_work_limit_pass _ _ directMove hlv rfl (by decide), hl]

theorem C30_direct_move_witness :
    (do_work {} directMove).eff =
      [] ++ [Effect.transaction
        [⟨motor_cmnd.SET_VEL_BASE, [directMove.vbas / |directMove.mres|]⟩,
         ⟨motor_cmnd.SET_VELOCITY, [directMove.velo / |directMove.mres|]⟩,
         ⟨motor_cmnd.SET_ACCEL, [directMove.velo / |directMove.mres| / directMove.accl]⟩,
         ⟨if useRel directMove then motor_cmnd.MOVE_REL else motor_cmnd.MOVE_ABS,
          [directPosition directMove]⟩,
         ⟨motor_cmnd.GO, []⟩]] ∧
    (do_work {} directMove).pmr.pp = directMove.pp ∧
    (do_work {} directMove).pmr.mip = MIP_MOVE :=
  C30_direct_move {} directMove directMove [] rfl do_work_before_move_directMove
    (Or.inl (by unfold directMove; norm_num))
    (by
      show NINT ((1 : ℚ) / (1 / 1000)) ≠ NINT ((0 : ℚ) / (1 / 1000))
      rw [NINT_1000, NINT_0]
      norm_num)
    (Or.inl rfl)
    (by
      intro h
      have h1 := h.1
      unfold directMove at h1
      norm_num [abs_of_pos] at h1)
    (Or.inl (by unfold directMove; norm_num [abs_of_pos]))

theorem MipClosed.clear {P : ℕ → Prop} (hP : MipClosed P) (x c : ℕ) (h : P x) :
    P (mipClear x c) := hP.mask x _ h

theorem maybeRetry_closed {P : ℕ → Prop} (hP : MipClosed P) (pmr : motorRecord)
    (h : P pmr.mip) : P (maybeRetry pmr).mip := by
  have c1 : P (pmr.mip &&& MIP_JOG_REQ) := hP.mask _ _ h
  unfold maybeRetry
  simp only []
  split_ifs
  all_goals
    first
    | exact c1
    | exact hP.done
    | exact hP.retry

theorem postProcess_home_closed {P : ℕ → Prop} (hP : MipClosed P) (s : motorRecord)
    (h : P s.mip) : P (postProcess_home s).1.mip := by
  unfold postProcess_home
  simp only []
  split_ifs
  all_goals
    first
    | exact h
    | exact hP.clear _ _ h

theorem postProcess_moved_closed {P : ℕ → Prop} (hP : MipClosed P) (s : motorRecord) :
    P (postProcess_moved s).1.mip := by
  unfold postProcess_moved
  simp only []
  split_ifs
  all_goals
    first
    | exact hP.clear _ _ (hP.clear _ _ hP.jog_bl1)
    | exact hP.clear _ _ (hP.clear _ _ hP.move_bl)
    | exact hP.clear _ _ (hP.clear _ _ hP.done_jog_req)
    | exact hP.clear _ _ (hP.clear _ _ hP.done)

theorem postProcess_done_closed {P : ℕ → Prop} (hP : MipClosed P) (s : motorRecord) :
    P (postProcess_done s).1.mip := by
  unfold postProcess_done
  simp only []
  split_ifs
  · exact hP.done_jog_req
  · exact hP.done

theorem postProcess_branch_closed {P : ℕ → Prop} (hP : MipClosed P) (s : motorRecord)
    (h : P s.mip) : P (postProcess_branch s).1.mip := by
  unfold postProcess_branch
  split_ifs
  · exact hP.done
  · exact postProcess_home_closed hP s h
  · exact postProcess_moved_closed hP s
  · exact hP.jog_bl2
  · exact postProcess_done_closed hP s
  · exact h

theorem postProcess_closed {P : ℕ → Prop} (hP : MipClosed P) (pmr : motorRecord)
    (h : P pmr.mip) : P (postProcess pmr).1.mip := by
  obtain ⟨v, d, r, df, rd, m, hs⟩ := postProcess_snap_frame pmr
  have hm : (postProcess_snap pmr).mip = pmr.mip := by rw [hs]
  have hb := postProcess_branch_closed hP (postProcess_snap pmr) (by rw [hm]; exact h)
  unfold postProcess
  exact hP.clear _ _ hb

theorem Flow.keeps_ret {P : ℕ → Prop} (o : Outcome) (h : P o.pmr.mip) :
    (Flow.ret o).keeps P := h

theorem Flow.keeps_next {P : ℕ → Prop} (p : motorRecord) (e : List Effect) (h : P p.mip) :
    (Flow.next p e).keeps P := h

theorem Flow.keeps_andThen {P : ℕ → Prop} (f : Flow) (k : motorRecord → Flow)
    (hf : f.keeps P) (hk : ∀ p, P p.mip → (k p).keeps P) : (f.andThen k).keeps P := by
  cases f with
  | ret o => exact hf
  | next p e =>
    have h := hk p hf
    cases hkp : k p with
    | ret o =>
      rw [Flow.andThen_next_ret p e k o hkp]
      rw [hkp] at h
      exact h
    | next q e2 =>
      rw [Flow.andThen_next_next p e k q e2 hkp]
      rw [hkp] at h
      exact h

theorem do_work_cancel_closed {P : ℕ → Prop} (hP : MipClosed P) (p : motorRecord) :
    (do_work_cancel p).keeps P := by
  unfold do_work_cancel
  exact hP.stop

theorem do_work_spmg_closed {P : ℕ → Prop} (hP : MipClosed P) (sp : Bool) (p : motorRecord)
    (h : P p.mip) : (do_work_spmg sp p).keeps P := by
  unfold do_work_spmg
  by_cases h1 : p.spmg ≠ p.lspg ∨ p.stop ≠ false
  · rw [if_pos h1]
    simp only []
    split_ifs
    all_goals
      first
      | exact do_work_cancel_closed hP _
      | exact Flow.keeps_next _ _ h
      | exact Flow.keeps_next _ _ hP.jog_req
      | exact Flow.keeps_next _ _ hP.done
      | exact Flow.keeps_ret _ h
      | exact Flow.keeps_ret _ hP.done
  · rw [if_neg h1]
    exact h

theorem do_work_resolution_closed {P : ℕ → Prop} (hP : MipClosed P) (p : motorRecord)
    (h : P p.mip) : (do_work_resolution p).keeps P := by
  unfold do_work_resolution
  by_cases h1 : p.mmap.M_MRES = true ∨ p.mmap.M_ERES = true ∨ p.mmap.M_UEIP = true
  · rw [if_pos h1]
    simp only []
    by_cases hs : (enforceMinRetryDeadband (do_work_encoder p).1).1.set = true
    · rw [if_pos hs]
      show P (enforceMinRetryDeadband (do_work_encoder p).1).1.mip
      rw [enforceMinRetryDeadband_mip, do_work_encoder_mip]
      exact h
    · rw [if_neg hs]
      show P (load_pos _).1.mip
      rw [load_pos_mip]
      exact hP.load_p
  · rw [if_neg h1]
    exact h

theorem do_work_home_closed {P : ℕ → Prop} (hP : MipClosed P) (sp : Bool) (p : motorRecord)
    (h : P p.mip) : P (do_work_home sp p).pmr.mip := by
  unfold do_work_home
  simp only []
  split_ifs
  all_goals
    first
    | exact h
    | exact hP.homf
    | exact hP.homr
    | exact hP.homf_stop
    | exact hP.homr_stop

theorem do_work_jog_closed {P : ℕ → Prop} (hP : MipClosed P) (dir : ℚ) (p : motorRecord)
    (h : P p.mip) : P (do_work_jog dir p).pmr.mip := by
  unfold do_work_jog
  simp only []
  split_ifs
  all_goals
    first
    | exact h
    | exact hP.jogf
    | exact hP.jogr
    | exact hP.jogf_stop
    | exact hP.jogr_stop

theorem do_work_collect_closed {P : ℕ → Prop} (hP : MipClosed P) (env : Env) (dir : ℚ)
    (sp : Bool) (p : motorRecord) (h : P p.mip) : (do_work_collect env dir sp p).keeps P := by
  obtain ⟨v, d, r, l, f1, f2, m, ht⟩ := do_work_tweak_frame p
  have hm : P (do_work_tweak p).mip := by
    rw [ht]
    exact h
  unfold do_work_collect
  split_ifs with c1 c2 c3 c4 c5
  · cases env.dol with
    | none => exact h
    | some v => exact h
  · exact do_work_home_closed hP _ _ h
  · exact do_work_jog_closed hP _ _ h
  · exact hP.jog_stop _ h c4.2
  · exact h
  · exact hm

theorem do_work_val_closed {P : ℕ → Prop} (hP : MipClosed P) (dir : ℚ) (set : Bool)
    (p : motorRecord) (h : P p.mip) : (do_work_val dir set p).keeps P := by
  unfold do_work_val set_userlimits
  simp only []
  split_ifs
  all_goals
    first
    | exact h
    | exact hP.done

theorem do_work_limit_closed {P : ℕ → Prop} (old sp : Bool) (p : motorRecord)
    (h : P p.mip) : (do_work_limit old sp p).keeps P := by
  obtain ⟨l, m, hf⟩ := do_work_lvio_frame old p
  obtain ⟨dm, m2, hr, _⟩ := do_work_rollback_frame (do_work_lvio old p)
  have hm : P (do_work_lvio old p).mip := by
    rw [hf]
    exact h
  have hm2 : P (do_work_rollback (do_work_lvio old p)).mip := by
    rw [hr]
    exact hm
  unfold do_work_limit
  simp only []
  split_ifs
  · exact hm2
  · exact hm
  · exact hm
  · exact hm

theorem do_work_same_closed {P : ℕ → Prop} (hP : MipClosed P) (q : motorRecord)
    (h : P q.mip) : P (do_work_same q).pmr.mip := by
  unfold do_work_same
  simp only []
  split_ifs
  all_goals
    first
    | exact h
    | exact hP.done

theorem do_work_dispatch_closed {P : ℕ → Prop} (hP : MipClosed P) (q : motorRecord)
    (h : P q.mip) : P (do_work_dispatch q).pmr.mip := by
  obtain ⟨c, m, e⟩ := do_work_rcnt_frame q
  obtain ⟨m4, e4⟩ := do_work_send_record_frame
    (moveLeg (decide (preferredDir (do_work_rcnt q))) (do_work_rcnt q)) (do_work_rcnt q)
  have hl : P (do_work_rcnt q).mip := by
    rw [e]
    exact h
  have hs : P (do_work_send (decide (preferredDir (do_work_rcnt q))) (do_work_rcnt q)).pmr.mip := by
    show P (do_work_send_record _ _).mip
    rw [e4]
    exact hP.move
  unfold do_work_dispatch
  simp only []
  split_ifs
  · exact hl
  · exact hl
  · exact hs
  · exact hl

theorem do_work_move_closed {P : ℕ → Prop} (hP : MipClosed P) (dir : ℚ) (set : Bool)
    (t : motorRecord) (h : P t.mip) : P (do_work_move dir set t).pmr.mip := by
  obtain ⟨m1, h1⟩ := do_work_diff_frame t
  obtain ⟨m2, h2⟩ := do_work_post_frame dir (do_work_diff t)
  have b1 : P (do_work_post dir (do_work_diff t)).mip := by
    rw [h2, h1]
    exact h
  unfold do_work_move
  simp only []
  split_ifs
  · rw [load_pos_mip]
    exact hP.load_p
  · exact do_work_same_closed hP _ b1
  · exact do_work_dispatch_closed hP _ b1
  · exact h

theorem do_work_closed {P : ℕ → Prop} (hP : MipClosed P) (env : Env) (pmr : motorRecord)
    (h : P pmr.mip) : P (do_work env pmr).pmr.mip := by
  have hq : (do_work_before_move env pmr).keeps P := by
    unfold do_work_before_move
    apply Flow.keeps_andThen
    · apply Flow.keeps_andThen
      · apply Flow.keeps_andThen
        · apply Flow.keeps_andThen
          · exact do_work_spmg_closed hP _ pmr h
          · exact fun p hp => do_work_resolution_closed hP p hp
        · exact fun p hp => do_work_collect_closed hP env _ _ p hp
      · exact fun p hp => do_work_val_closed hP _ _ p hp
    · exact fun p hp => do_work_limit_closed _ _ p hp
  cases hf : do_work_before_move env pmr with
  | ret o =>
    rw [hf] at hq
    have hd : do_work env pmr = o := by
      unfold do_work_before_move at hf
      rw [do_work_eq_conclude, hf]
      rfl
    rw [hd]
    exact hq
  | next q e =>
    rw [hf] at hq
    rw [do_work_of_before_move env pmr q e hf]
    exact do_work_move_closed hP _ _ q hq

theorem onePrimary_mask (x k : ℕ) (h : onePrimary x) : onePrimary (x &&& k) := by
  intro a ha b hb h1 h2
  exact h a ha b hb (mipHas_and_imp _ _ _ h1) (mipHas_and_imp _ _ _ h2)

theorem primary_off_jog_stop :
    ∀ a ∈ primaryFlags, a ≠ MIP_JOG_STOP → MIP_JOG_STOP &&& a = 0 := by
  decide

theorem primary_off_delay_ack : ∀ a ∈ primaryFlags, MIP_DELAY_ACK &&& a = 0 := by
  decide

theorem onePrimary_jog_stop (x : ℕ) (h : onePrimary x)
    (hj : mipHas x MIP_JOGF = true ∨ mipHas x MIP_JOGR = true) :
    onePrimary (mipClear (x ||| MIP_JOG_STOP) (MIP_JOGF ||| MIP_JOGR)) := by
  have key : ∀ a ∈ primaryFlags,
      mipHas (mipClear (x ||| MIP_JOG_STOP) (MIP_JOGF ||| MIP_JOGR)) a = true →
      a = MIP_JOG_STOP := by
    intro a ha h1
    by_contra hne
    have h2 : mipHas (x ||| MIP_JOG_STOP) a = true := mipHas_and_imp _ _ _ h1
    rw [mipHas_or_disjoint _ _ _ (primary_off_jog_stop a ha hne)] at h2
    rcases hj with hf | hr
    · have e : a = MIP_JOGF := h a ha MIP_JOGF (by decide) h2 hf
      rw [e, mipHas_clear_of_subset _ _ _ (by decide)] at h1
      exact absurd h1 Bool.false_ne_true
    · have e : a = MIP_JOGR := h a ha MIP_JOGR (by decide) h2 hr
      rw [e, mipHas_clear_of_subset _ _ _ (by decide)] at h1
      exact absurd h1 Bool.false_ne_true
  intro a ha b hb h1 h2
  rw [key a ha h1, key b hb h2]

theorem onePrimary_closed : MipClosed onePrimary where
  done := by unfold onePrimary; decide
  stop := by unfold onePrimary; decide
  jog_req := by unfold onePrimary; decide
  done_jog_req := by unfold onePrimary; decide
  homf := by unfold onePrimary; decide
  homr := by unfold onePrimary; decide
  homf_stop := by unfold onePrimary; decide
  homr_stop := by unfold onePrimary; decide
  jogf := by unfold onePrimary; decide
  jogr := by unfold onePrimary; decide
  jogf_stop := by unfold onePrimary; decide
  jogr_stop := by unfold onePrimary; decide
  load_p := by unfold onePrimary; decide
  move := by unfold onePrimary; decide
  move_bl := by unfold onePrimary; decide
  jog_bl1 := by unfold onePrimary; decide
  jog_bl2 := by unfold onePrimary; decide
  retry := by unfold onePrimary; decide
  mask := onePrimary_mask
  jog_stop := onePrimary_jog_stop

theorem callbackFunc_onePrimary (pmr : motorRecord) (h : onePrimary pmr.mip) :
    onePrimary (callbackFunc pmr).1.mip := by
  unfold callbackFunc
  by_cases hr : mipHas pmr.mip MIP_DELAY_REQ = true
  · rw [if_pos hr]
    show onePrimary (mipClear pmr.mip MIP_DELAY_REQ ||| MIP_DELAY_ACK)
    intro a ha b hb h1 h2
    rw [mipHas_or_disjoint _ _ _ (primary_off_delay_ack a ha)] at h1
    rw [mipHas_or_disjoint _ _ _ (primary_off_delay_ack b hb)] at h2
    exact h a ha b hb (mipHas_and_imp _ _ _ h1) (mipHas_and_imp _ _ _ h2)
  · rw [if_neg hr]
    exact h

/-- C21: `do_work`, `postProcess`, `maybeRetry`, `load_pos` and `callbackFunc`
keep at most one primary activity in MIP: from a record whose MIP holds at
most one of `JOGF, JOGR, JOG_BL1, JOG_BL2, JOG_STOP, HOMF, HOMR, MOVE, MOVE_BL,
RETRY, LOAD_P`, each of them leaves a record whose MIP holds at most one. -/
theorem C21_one_primary_activity (env : Env) (pmr : motorRecord)
    (h : onePrimary pmr.mip) :
    onePrimary (do_work env pmr).pmr.mip ∧ onePrimary (postProcess pmr).1.mip ∧
    onePrimary (maybeRetry pmr).mip ∧ onePrimary (load_pos pmr).1.mip ∧
    onePrimary (callbackFunc pmr).1.mip := by
  refine ⟨do_work_closed onePrimary_closed env pmr h,
    postProcess_closed onePrimary_closed pmr h,
    maybeRetry_closed onePrimary_closed pmr h, ?_, callbackFunc_onePrimary pmr h⟩
  rw [load_pos_mip]
  exact onePrimary_closed.load_p

theorem C21_one_primary_activity_witness :
    onePrimary (do_work {} movingRecord).pmr.mip ∧
    onePrimary (postProcess movingRecord).1.mip ∧
    onePrimary (maybeRetry movingRecord).mip ∧ onePrimary (load_pos movingRecord).1.mip ∧
    onePrimary (callbackFunc movingRecord).1.mip :=
  C21_one_primary_activity {} movingRecord (by unfold onePrimary; decide)

theorem do_work_cancel_flags (p : motorRecord) (P : Outcome → Prop)
    (h : ∀ o : Outcome, o.pmr.stop = p.stop → o.pmr.lspg = p.lspg → P o) :
    ∃ o, do_work_cancel p = Flow.ret o ∧ P o := by
  obtain ⟨hf, hr, m, e, hc, _⟩ := do_work_cancel_outcome p
  exact ⟨_, hc, h _ rfl rfl⟩

theorem do_work_spmg_stop_flag (sp : Bool) (p : motorRecord) (h : p.stop = true) :
    ∃ o, do_work_spmg sp p = Flow.ret o ∧
      ((p.spmg = p.lspg → o.pmr.stop = false) ∧
       (p.spmg ≠ p.lspg → o.pmr.stop = true ∧ o.pmr.lspg = p.spmg)) := by
  have h1 : p.spmg ≠ p.lspg ∨ p.stop ≠ false := by
    right
    rw [h]
    exact Bool.noConfusion
  have h2 : sp = true ∨ p.stop = true := Or.inr h
  have h3 : p.spmg = motorSPMG.Stop ∨ p.stop = true := Or.inr h
  unfold do_work_spmg
  rw [if_pos h1]
  simp only []
  rw [if_pos h2]
  by_cases hs : p.spmg ≠ p.lspg
  · rw [if_pos hs]
    simp only []
    rw [if_pos h3]
    by_cases h4 : p.mip = MIP_DONE ∨ p.mip = MIP_STOP ∨ p.mip = MIP_RETRY
    · rw [if_pos h4]
      refine ⟨_, rfl, fun hx => absurd hx hs, fun _ => ?_⟩
      simp only []
      split_ifs
      · exact ⟨h, rfl⟩
      · exact ⟨h, rfl⟩
    · rw [if_neg h4]
      by_cases hm : p.movn = true
      · rw [if_pos hm]
        apply do_work_cancel_flags
        intro o hst hl
        exact ⟨fun hx => absurd hx hs, fun _ => ⟨hst.trans h, hl⟩⟩
      · rw [if_neg hm]
        apply do_work_cancel_flags
        intro o hst hl
        exact ⟨fun hx => absurd hx hs, fun _ => ⟨hst.trans h, hl⟩⟩
  · rw [if_neg hs]
    simp only []
    rw [if_pos h3]
    by_cases h4 : p.mip = MIP_DONE ∨ p.mip = MIP_STOP ∨ p.mip = MIP_RETRY
    · rw [if_pos h4]
      refine ⟨_, rfl, fun _ => ?_, fun hx => absurd hx hs⟩
      simp only []
      split_ifs
      · rfl
      · rfl
    · rw [if_neg h4]
      by_cases hm : p.movn = true
      · rw [if_pos hm]
        apply do_work_cancel_flags
        intro o hst hl
        exact ⟨fun _ => hst, fun hx => absurd hx hs⟩
      · rw [if_neg hm]
        apply do_work_cancel_flags
        intro o hst hl
        exact ⟨fun _ => hst, fun hx => absurd hx hs⟩

theorem do_work_spmg_pause_edge (p : motorRecord) (hspmg : p.spmg = motorSPMG.Pause)
    (hedge : p.spmg ≠ p.lspg) (hstop : p.stop = false) :
    do_work_spmg (stopOrPause p) p = do_work_cancel { p with lspg := p.spmg } := by
  have h1 : p.spmg ≠ p.lspg ∨ p.stop ≠ false := Or.inl hedge
  have hsp : stopOrPause p = true := by
    unfold stopOrPause
    rw [hspmg]
    decide
  have h2 : stopOrPause p = true ∨ p.stop = true := Or.inl hsp
  have h3 : ¬ (p.spmg = motorSPMG.Stop ∨ p.stop = true) := by
    rw [hspmg, hstop]
    decide
  unfold do_work_spmg
  rw [if_pos h1]
  simp only []
  rw [if_pos h2, if_pos hedge]
  simp only []
  rw [if_neg h3]

/-- C32: on a device callback with the axis still moving, the direction
check of `process` sends `STOP_AXIS` and adds the stop flag to MIP exactly
when `ntm` is on, the sign of `rdif` differs from `cdir`, `|diff|` exceeds
`2 * (|bdst| + rdbd)` and MIP equals `RETRY` or equals `MOVE`; otherwise, in
particular for every other MIP value, it leaves the record alone and sends
nothing. -/
theorem C32_direction_reversal (p : motorRecord) (hmovn : p.movn = true) :
    ((process_callback p =
        Stage.work { p with mip := p.mip ||| MIP_STOP, mmap.M_MIP := true } [stopAxis]) ↔
      (p.ntm = true ∧ (if p.rdif < 0 then false else true) ≠ p.cdir ∧
        |p.diff| > 2 * (|p.bdst| + p.rdbd) ∧ (p.mip = MIP_RETRY ∨ p.mip = MIP_MOVE))) ∧
    (¬ (p.ntm = true ∧ (if p.rdif < 0 then false else true) ≠ p.cdir ∧
        |p.diff| > 2 * (|p.bdst| + p.rdbd) ∧ (p.mip = MIP_RETRY ∨ p.mip = MIP_MOVE)) →
      process_callback p = Stage.work p []) ∧
    (p.mip ≠ MIP_RETRY → p.mip ≠ MIP_MOVE → process_callback p = Stage.work p []) := by
  have hno : ¬ (p.ntm = true ∧ (if p.rdif < 0 then false else true) ≠ p.cdir ∧
        |p.diff| > 2 * (|p.bdst| + p.rdbd) ∧ (p.mip = MIP_RETRY ∨ p.mip = MIP_MOVE)) →
      process_callback p = Stage.work p [] := by
    intro hc
    unfold process_callback
    rw [if_pos hmovn]
    simp only []
    rw [if_neg hc]
  refine ⟨⟨?_, ?_⟩, hno, ?_⟩
  · intro h
    by_contra hc
    rw [hno hc] at h
    injection h with _ he
    exact List.noConfusion he
  · intro hc
    unfold process_callback
    rw [if_pos hmovn]
    simp only []
    rw [if_pos hc]
  · intro h1 h2
    apply hno
    rintro ⟨_, _, _, h | h⟩
    · exact h1 h
    · exact h2 h

theorem C32_direction_reversal_witness :
    reversing.movn = true ∧
    process_callback reversing =
      Stage.work { reversing with mip := reversing.mip ||| MIP_STOP, mmap.M_MIP := true }
        [stopAxis] := by
  refine ⟨rfl, (C32_direction_reversal reversing rfl).1.2 ⟨rfl, by decide, ?_, Or.inr rfl⟩⟩
  unfold reversing
  norm_num

/-- C33: after `postProcess` the last-commanded copies equal the desired
positions (`lval = val`, `ldvl = dval`, `lrvl = rval`) and the stop flag is
clear in MIP, for every record. -/
theorem C33_postProcess_snapshot (p : motorRecord) :
    (postProcess p).1.lval = (postProcess p).1.val ∧
    (postProcess p).1.ldvl = (postProcess p).1.dval ∧
    (postProcess p).1.lrvl = (postProcess p).1.rval ∧
    mipHas (postProcess p).1.mip MIP_STOP = false := by
  unfold postProcess
  exact ⟨rfl, rfl, rfl, mipHas_clear_of_subset _ _ _ (by decide)⟩

/-- C35: when `spmg` has just changed to `Pause` and the stop button is not
pressed, `do_work` leaves `val`, `dval` and `rval` as they were, sends
`STOP_AXIS` and sets MIP to the stop flag, whether or not the axis is
moving. -/
theorem C35_pause_keeps_target (env : Env) (pmr : motorRecord)
    (hspmg : pmr.spmg = motorSPMG.Pause) (hedge : pmr.spmg ≠ pmr.lspg)
    (hstop : pmr.stop = false) :
    (do_work env pmr).pmr.val = pmr.val ∧ (do_work env pmr).pmr.dval = pmr.dval ∧
    (do_work env pmr).pmr.rval = pmr.rval ∧ (do_work env pmr).pmr.mip = MIP_STOP ∧
    transactions (do_work env pmr).eff = [[⟨motor_cmnd.STOP_AXIS, []⟩]] := by
  obtain ⟨hf, hr, m, e, hc, ht⟩ := do_work_cancel_outcome { pmr with lspg := pmr.spmg }
  have h := do_work_of_spmg_ret env pmr _
    ((do_work_spmg_pause_edge pmr hspmg hedge hstop).trans hc)
  rw [h]
  exact ⟨rfl, rfl, rfl, rfl, ht⟩

theorem C35_pause_keeps_target_witness :
    pauseMoving.movn = false ∧ pauseMoving.drbv ≠ pauseMoving.dval ∧
    (do_work {} pauseMoving).pmr.val = pauseMoving.val ∧
    (do_work {} pauseMoving).pmr.dval = pauseMoving.dval ∧
    (do_work {} pauseMoving).pmr.rval = pauseMoving.rval ∧
    (do_work {} pauseMoving).pmr.mip = MIP_STOP ∧
    transactions (do_work {} pauseMoving).eff = [[⟨motor_cmnd.STOP_AXIS, []⟩]] :=
  ⟨rfl, by unfold pauseMoving; norm_num,
    C35_pause_keeps_target {} pauseMoving rfl (by decide) rfl⟩

/-- With the stop button pressed, `do_work` returns from its first section;
`stop` is clear on return when `spmg` equals `lspg` on entry, and when they
differ `stop` stays set while `lspg` takes the value of `spmg`. -/
theorem do_work_stop_flag (env : Env) (pmr : motorRecord) (hstop : pmr.stop = true) :
    (pmr.spmg = pmr.lspg → (do_work env pmr).pmr.stop = false) ∧
    (pmr.spmg ≠ pmr.lspg →
      (do_work env pmr).pmr.stop = true ∧ (do_work env pmr).pmr.lspg = pmr.spmg) := by
  obtain ⟨o, ho, h1, h2⟩ := do_work_spmg_stop_flag (stopOrPause pmr) pmr hstop
  rw [do_work_of_spmg_ret env pmr o ho]
  exact ⟨h1, h2⟩

/-- C36: with the stop button pressed in the pass in which `spmg` changes from
`Go` to `Stop`, `do_work` sends `STOP_AXIS` and returns with `stop` still set,
where the same press with `spmg` unchanged returns with `stop` clear. -/
theorem C36_stop_not_cleared :
    stopOnEdge.stop = true ∧ (do_work {} stopOnEdge).pmr.stop = true ∧
    transactions (do_work {} stopOnEdge).eff = [[⟨motor_cmnd.STOP_AXIS, []⟩]] ∧
    stopNoEdge.stop = true ∧ (do_work {} stopNoEdge).pmr.stop = false := by
  refine ⟨rfl, ((do_work_stop_flag {} stopOnEdge rfl).2 (by decide)).1, ?_, rfl,
    (do_work_stop_flag {} stopNoEdge rfl).1 rfl⟩
  obtain ⟨l, s, hf, hr, m, e, h, ht⟩ := do_work_spmg_stop_moving (stopOrPause stopOnEdge)
    stopOnEdge rfl (Or.inl rfl) (by decide) (by decide) (by decide)
  rw [do_work_of_spmg_ret {} stopOnEdge _ h]
  exact ht

theorem do_work_before_move_idle (env : Env) (pmr : motorRecord)
    (hspmg : pmr.spmg = motorSPMG.Go) (hlspg : pmr.lspg = motorSPMG.Go)
    (hstop : pmr.stop = false)
    (hm1 : pmr.mmap.M_MRES = false) (hm2 : pmr.mmap.M_ERES = false)
    (hm3 : pmr.mmap.M_UEIP = false)
    (hcl : ¬ (pmr.omsl = menuOmsl.closed_loop ∧ pmr.dol_type = LinkType.DB_LINK))
    (hmip : pmr.mip = MIP_DONE)
    (hhomf : pmr.homf = false) (hhomr : pmr.homr = false)
    (htwf : pmr.twf = false) (htwr : pmr.twr = false) (hrlv : pmr.rlv = pmr.lrlv)
    (hrval : pmr.rval = pmr.lrvl) (hval : pmr.val = pmr.lval)
    (hstup : pmr.stup ≠ motorSTUP.ON)
    (hlim : targetAllowed pmr) :
    do_work_before_move env pmr = Flow.next (do_work_lvio pmr.lvio pmr) [] := by
  have hsp : stopOrPause pmr = false := by
    unfold stopOrPause
    simp [hspmg]
  unfold do_work_before_move
  rw [hsp, do_work_spmg_quiet _ pmr (hspmg.trans hlspg.symm) hstop, Flow.next_nil_andThen,
    do_work_resolution_quiet pmr hm1 hm2 hm3, Flow.next_nil_andThen,
    do_work_collect_quiet env _ _ pmr hcl hmip hhomf hhomr,
    do_work_tweak_quiet pmr htwf htwr hrlv hrval, Flow.next_nil_andThen,
    do_work_val_quiet _ _ pmr hval, Flow.next_nil_andThen,
    do_work_limit_pass _ _ pmr (do_work_lvio_ok _ pmr hlim) rfl hstup]

theorem do_work_dispatch_hold (q : motorRecord)
    (hd : |q.diff| < 19 / 20 * q.rdbd ∧ ¬ preferredDir q) :
    do_work_dispatch q =
      if q.mip = MIP_DONE then
        ⟨RTN_STATUS.OK,
         { do_work_rcnt q with
           ldvl := (do_work_rcnt q).dval, lval := (do_work_rcnt q).val,
           lrvl := (do_work_rcnt q).rval, dmov := true, mmap.M_DMOV := true }, []⟩
      else ⟨RTN_STATUS.OK, do_work_rcnt q, []⟩ := by
  obtain ⟨c, m, h⟩ := do_work_rcnt_frame q
  have hdiff : (do_work_rcnt q).diff = q.diff := by rw [h]
  have hm : (do_work_rcnt q).mip = q.mip := by rw [h]
  have hp : decide (preferredDir (do_work_rcnt q)) = decide (preferredDir q) := by
    simp only [preferredDir_rcnt]
  unfold do_work_dispatch
  simp only [hdiff, hm, hp, decide_eq_false_iff_not]
  rw [if_pos hd]

theorem do_work_move_hold (dir : ℚ) (q : motorRecord)
    (hne : q.dval ≠ q.ldvl ∨ ¬ q.dmov = true)
    (hnpos : NINT (q.dval / q.mres) ≠ NINT (q.drbv / q.mres))
    (hslop : |q.dval - q.drbv| < 19 / 20 * q.rdbd)
    (hnp : ¬ preferredDir (do_work_diff q)) :
    (do_work_move dir false q).eff = [] ∧
    (do_work_move dir false q).pmr.mip = q.mip ∧
    (do_work_move dir false q).pmr.dval = q.dval ∧
    (do_work_move dir false q).pmr.val = q.dval * dir + q.off ∧
    (do_work_move dir false q).pmr.rval = NINT (q.dval / q.mres) ∧
    (q.mip = MIP_DONE →
      (do_work_move dir false q).pmr.dmov = true ∧
      (do_work_move dir false q).pmr.lval = (do_work_move dir false q).pmr.val ∧
      (do_work_move dir false q).pmr.ldvl = (do_work_move dir false q).pmr.dval ∧
      (do_work_move dir false q).pmr.lrvl = (do_work_move dir false q).pmr.rval) := by
  obtain ⟨m1, h1⟩ := do_work_diff_frame q
  obtain ⟨m2, h2⟩ := do_work_post_frame dir (do_work_diff q)
  obtain ⟨c, m, hq⟩ := do_work_prepared_frame dir q
  have d1 : (do_work_post dir (do_work_diff q)).diff = q.dval - q.drbv := by rw [h2, h1]
  have d2 : (do_work_post dir (do_work_diff q)).rdbd = q.rdbd := by rw [h2, h1]
  have d3 : (do_work_post dir (do_work_diff q)).mip = q.mip := by rw [h2, h1]
  have hd : |(do_work_post dir (do_work_diff q)).diff| <
      19 / 20 * (do_work_post dir (do_work_diff q)).rdbd ∧
      ¬ preferredDir (do_work_post dir (do_work_diff q)) := by
    rw [preferredDir_post, d1, d2]
    exact ⟨hslop, hnp⟩
  have e1 : (do_work_rcnt (do_work_post dir (do_work_diff q))).mip = q.mip := by rw [hq]
  have e2 : (do_work_rcnt (do_work_post dir (do_work_diff q))).dval = q.dval := by rw [hq]
  have e3 : (do_work_rcnt (do_work_post dir (do_work_diff q))).val = q.dval * dir + q.off := by
    rw [hq]
  have e4 : (do_work_rcnt (do_work_post dir (do_work_diff q))).rval =
      NINT (q.dval / q.mres) := by
    rw [hq]
  rw [do_work_move_go dir q hne hnpos, do_work_dispatch_hold _ hd, d3]
  by_cases hm : q.mip = MIP_DONE
  · rw [if_pos hm]
    exact ⟨rfl, e1, e2, e3, e4, fun _ => ⟨rfl, rfl, rfl, rfl⟩⟩
  · rw [if_neg hm]
    exact ⟨rfl, e1, e2, e3, e4, fun h => absurd h hm⟩

/-- C31: when `do_work` (not in Set mode) reaches its last section with
record `q`, with `dval ≠ ldvl` or `dmov` false, the raw target other than the
raw readback, `|dval - drbv| < 0.95 * rdbd` and the move not in the preferred
direction, it adds no call to those made before and leaves MIP as it is; with
MIP `DONE` it returns with `dmov` true and the last-commanded copies equal to
the new target (`lval = val`, `ldvl = dval`, `lrvl = rval`, where `dval` is
that of `q`, `val = dval * dir + off` and `rval` is `dval / mres` rounded). -/
theorem C31_deadband_hold (env : Env) (pmr q : motorRecord) (e : List Effect)
    (hset : pmr.set = false)
    (hreach : do_work_before_move env pmr = Flow.next q e)
    (hne : q.dval ≠ q.ldvl ∨ q.dmov = false)
    (hnpos : NINT (q.dval / q.mres) ≠ NINT (q.drbv / q.mres))
    (hslop : |q.dval - q.drbv| < 19 / 20 * q.rdbd)
    (hnp : ¬ preferredDir (do_work_diff q)) :
    (do_work env pmr).eff = e ∧
    (do_work env pmr).pmr.mip = q.mip ∧
    (do_work env pmr).pmr.dval = q.dval ∧
    (do_work env pmr).pmr.val = q.dval * dirSign pmr.dir + q.off ∧
    (do_work env pmr).pmr.rval = NINT (q.dval / q.mres) ∧
    (q.mip = MIP_DONE →
      (do_work env pmr).pmr.dmov = true ∧
      (do_work env pmr).pmr.lval = (do_work env pmr).pmr.val ∧
      (do_work env pmr).pmr.ldvl = (do_work env pmr).pmr.dval ∧
      (do_work env pmr).pmr.lrvl = (do_work env pmr).pmr.rval) := by
  have hne2 : q.dval ≠ q.ldvl ∨ ¬ q.dmov = true := by
    rcases hne with h | h
    · exact Or.inl h
    · right
      rw [h]
      exact Bool.false_ne_true
  obtain ⟨h1, h2, h3, h4, h5, h6⟩ :=
    do_work_move_hold (dirSign pmr.dir) q hne2 hnpos hslop hnp
  rw [do_work_of_before_move env pmr q e hreach, hset]
  refine ⟨?_, h2, h3, h4, h5, h6⟩
  show e ++ (do_work_move (dirSign pmr.dir) false q).eff = e
  rw [h1, List.append_nil]

theorem do_work_before_move_nearTarget :
    do_work_before_move {} nearTarget = Flow.next nearTarget [] := by
  have hl : do_work_lvio nearTarget.lvio nearTarget = nearTarget := by
    have hd : limitsDisabled nearTarget := ⟨rfl, rfl⟩
    unfold do_work_lvio
    simp only [if_pos hd]
    rfl
  have h := do_work_before_move_idle {} nearTarget rfl rfl rfl rfl rfl rfl
    (fun hc => menuOmsl.noConfusion hc.1) rfl rfl rfl rfl rfl rfl rfl rfl
    (fun hs => motorSTUP.noConfusion hs) (Or.inl ⟨rfl, rfl⟩)
  rw [hl] at h
  exact h

theorem nearTarget_facts :
    NINT (nearTarget.dval / nearTarget.mres) ≠ NINT (nearTarget.drbv / nearTarget.mres) ∧
    |nearTarget.dval - nearTarget.drbv| < 19 / 20 * nearTarget.rdbd ∧
    ¬ preferredDir (do_work_diff nearTarget) := by
  have n1 : nearTarget.dval / nearTarget.mres = ((2 : ℤ) : ℚ) := by
    unfold nearTarget
    norm_num
  have n2 : nearTarget.drbv / nearTarget.mres = ((0 : ℤ) : ℚ) := by
    unfold nearTarget
    norm_num
  refine ⟨?_, ?_, ?_⟩
  · rw [n1, n2, NINT_intCast, NINT_intCast]
    decide
  · unfold nearTarget
    norm_num [abs_of_pos]
  · obtain ⟨m1, h1⟩ := do_work_diff_frame nearTarget
    rw [h1]
    unfold preferredDir useRel nearTarget
    norm_num

theorem C31_deadband_hold_witness :
    (do_work {} nearTarget).eff = [] ∧
    (do_work {} nearTarget).pmr.mip = nearTarget.mip ∧
    (do_work {} nearTarget).pmr.dval = nearTarget.dval ∧
    (do_work {} nearTarget).pmr.val =
      nearTarget.dval * dirSign nearTarget.dir + nearTarget.off ∧
    (do_work {} nearTarget).pmr.rval = NINT (nearTarget.dval / nearTarget.mres) ∧
    (nearTarget.mip = MIP_DONE →
      (do_work {} nearTarget).pmr.dmov = true ∧
      (do_work {} nearTarget).pmr.lval = (do_work {} nearTarget).pmr.val ∧
      (do_work {} nearTarget).pmr.ldvl = (do_work {} nearTarget).pmr.dval ∧
      (do_work {} nearTarget).pmr.lrvl = (do_work {} nearTarget).pmr.rval) :=
  C31_deadband_hold {} nearTarget nearTarget [] rfl do_work_before_move_nearTarget
    (Or.inl (by unfold nearTarget; norm_num)) nearTarget_facts.1 nearTarget_facts.2.1
    nearTarget_facts.2.2

theorem load_pos_rval (p : motorRecord) :
    (load_pos p).1.rval = toLong (p.dval / p.mres) ∧
    (load_pos p).1.lrvl = toLong (p.dval / p.mres) := by
  unfold load_pos set_userlimits
  simp only []
  split_ifs <;> exact ⟨rfl, rfl⟩

theorem do_work_move_set (dir : ℚ) (q : motorRecord)
    (hne : q.dval ≠ q.ldvl ∨ ¬ q.dmov = true) :
    (do_work_move dir true q).pmr.rval = toLong (q.dval / q.mres) ∧
    (do_work_move dir true q).pmr.lrvl = toLong (q.dval / q.mres) := by
  obtain ⟨m1, h1⟩ := do_work_diff_frame q
  have a1 : (do_work_diff q).dval = q.dval := by rw [h1]
  have a2 : (do_work_diff q).mres = q.mres := by rw [h1]
  obtain ⟨e1, e2⟩ := load_pos_rval (do_work_diff q)
  rw [a1, a2] at e1 e2
  unfold do_work_move
  rw [if_pos hne]
  exact ⟨e1, e2⟩

theorem toLong_eight_fifths : toLong (8 / 5) = 1 := by
  unfold toLong
  rw [if_pos (by norm_num), Int.floor_eq_iff]
  constructor <;> norm_num

theorem NINT_eight_fifths : NINT (8 / 5) = 2 := by
  unfold NINT toLong
  rw [if_pos (by norm_num), if_pos (by norm_num), Int.floor_eq_iff]
  constructor <;> norm_num

/-- C34: at `dval = 0.0016` and `mres = 0.001` in Set mode, `load_pos` and
`do_work` leave `rval = lrvl = 1`, the quotient 1.6 cut toward zero, where the
conversion used for `rval` in the move path of `do_work` gives 2. -/
theorem C34_load_pos_truncates :
    loadBetweenSteps.mres ≠ 0 ∧
    (load_pos loadBetweenSteps).1.rval = 1 ∧ (load_pos loadBetweenSteps).1.lrvl = 1 ∧
    (do_work {} loadBetweenSteps).pmr.rval = 1 ∧
    NINT (loadBetweenSteps.dval / loadBetweenSteps.mres) = 2 ∧
    (do_work_post 1 loadBetweenSteps).rval = 2 := by
  have hq : loadBetweenSteps.dval / loadBetweenSteps.mres = 8 / 5 := by
    unfold loadBetweenSteps
    norm_num
  have hl : do_work_lvio loadBetweenSteps.lvio loadBetweenSteps = loadBetweenSteps := by
    have hd : limitsDisabled loadBetweenSteps := ⟨rfl, rfl⟩
    unfold do_work_lvio
    simp only [if_pos hd]
    rfl
  have hreach := do_work_before_move_idle {} loadBetweenSteps rfl rfl rfl rfl rfl rfl
    (fun hc => menuOmsl.noConfusion hc.1) rfl rfl rfl rfl rfl rfl rfl rfl
    (fun hs => motorSTUP.noConfusion hs) (Or.inl ⟨rfl, rfl⟩)
  rw [hl] at hreach
  have hne : loadBetweenSteps.dval ≠ loadBetweenSteps.ldvl ∨ ¬ loadBetweenSteps.dmov = true := by
    left
    unfold loadBetweenSteps
    norm_num
  obtain ⟨m2, h2⟩ := do_work_post_frame 1 loadBetweenSteps
  obtain ⟨e1, e2⟩ := load_pos_rval loadBetweenSteps
  refine ⟨?_, ?_, ?_, ?_, ?_, ?_⟩
  · unfold loadBetweenSteps
    norm_num
  · rw [e1, hq, toLong_eight_fifths]
  · rw [e2, hq, toLong_eight_fifths]
  · rw [do_work_of_before_move {} loadBetweenSteps loadBetweenSteps [] hreach]
    show (do_work_move (dirSign loadBetweenSteps.dir) true loadBetweenSteps).pmr.rval = 1
    rw [(do_work_move_set _ loadBetweenSteps hne).1, hq, toLong_eight_fifths]
  · rw [hq, NINT_eight_fifths]
  · rw [h2]
    show NINT (loadBetweenSteps.dval / loadBetweenSteps.mres) = 2
    rw [hq, NINT_eight_fifths]

theorem do_work_eq_jog (env : Env) (pmr : motorRecord)
    (hreq : mipHas pmr.mip MIP_JOG_REQ = true) (hnojog : mipHas pmr.mip MIP_JOG = false)
    (hspmg : pmr.spmg = motorSPMG.Go) (hlspg : pmr.lspg = motorSPMG.Go)
    (hstop : pmr.stop = false)
    (hm1 : pmr.mmap.M_MRES = false) (hm2 : pmr.mmap.M_ERES = false)
    (hm3 : pmr.mmap.M_UEIP = false)
    (hcl : ¬ (pmr.omsl = menuOmsl.closed_loop ∧ pmr.dol_type = LinkType.DB_LINK))
    (hhomf : pmr.homf = false) (hhomr : pmr.homr = false)
    (hlvio : pmr.lvio = false) :
    do_work env pmr = do_work_jog (dirSign pmr.dir) pmr := by
  have hsp : decide (pmr.spmg = motorSPMG.Stop ∨ pmr.spmg = motorSPMG.Pause) = false := by
    simp [hspmg]
  unfold do_work
  simp only [do_work_spmg_quiet _ pmr (hspmg.trans hlspg.symm) hstop,
    do_work_resolution_quiet pmr hm1 hm2 hm3, Flow.next_nil_andThen, hsp]
  rw [do_work_collect_jog env _ pmr hcl hhomf hhomr hreq hnojog hlvio]
  simp only [Flow.ret_andThen]

/-- The jog started by `do_work` on an axis that is not moving: the velocity
sent with `JOG` is `jvel * dir / mres`, negated for jog-reverse, and `cdir` is
set exactly when the forward button is down and `mres` is not negative, or the
reverse button and `mres` negative. -/
theorem do_work_jog_start (dir : ℚ) (p : motorRecord)
    (hguard : ¬ (¬ limitsDisabled p ∧
      ((p.jogf = true ∧ p.dval > p.dhlm - p.velo) ∨
       (p.jogr = true ∧ p.dval < p.dllm + p.velo))))
    (hmovn : p.movn = false) :
    (do_work_jog dir p).eff =
      [Effect.transaction
        [⟨motor_cmnd.SET_ACCEL, [p.jar / |p.mres|]⟩,
         ⟨motor_cmnd.JOG,
          [if p.jogf = true then p.jvel * dir / p.mres else -(p.jvel * dir / p.mres)]⟩]] ∧
    ((do_work_jog dir p).pmr.cdir = true ↔ (p.jogf = true ↔ ¬ p.mres < 0)) := by
  unfold do_work_jog
  rw [if_neg hguard]
  simp only [hmovn, Bool.false_eq_true, if_false]
  by_cases hj : p.jogf = true
  · by_cases hm : p.mres < 0
    · simp [hj, hm]
    · simp [hj, hm]
  · by_cases hm : p.mres < 0
    · simp [hj, hm]
    · simp [hj, hm]

/-- C39: with `dir = Neg`, `mres = 0.001`, `jvel = 2` and the jog-forward
button down on an axis at rest, `do_work` sends `JOG` with the negative raw
velocity -2000 and records `cdir = 1`. -/
theorem C39_jog_cdir_dir_neg :
    jogDirNeg.movn = false ∧ 0 < jogDirNeg.jvel ∧ jogDirNeg.jogf = true ∧
    jogDirNeg.jvel * dirSign jogDirNeg.dir / jogDirNeg.mres = -2000 ∧
    (do_work {} jogDirNeg).eff =
      [Effect.transaction [⟨motor_cmnd.SET_ACCEL, [4000]⟩, ⟨motor_cmnd.JOG, [-2000]⟩]] ∧
    (do_work {} jogDirNeg).pmr.cdir = true := by
  have hd : limitsDisabled jogDirNeg := ⟨rfl, rfl⟩
  have hv : jogDirNeg.jvel * dirSign jogDirNeg.dir / jogDirNeg.mres = -2000 := by
    have hs : dirSign jogDirNeg.dir = -1 := by
      unfold dirSign
      rw [if_neg (by decide)]
    rw [hs]
    unfold jogDirNeg
    norm_num
  have ha : jogDirNeg.jar / |jogDirNeg.mres| = 4000 := by
    unfold jogDirNeg
    norm_num [abs_of_pos]
  have hm : ¬ jogDirNeg.mres < 0 := by
    unfold jogDirNeg
    norm_num
  obtain ⟨h1, h2⟩ := do_work_jog_start (dirSign jogDirNeg.dir) jogDirNeg
    (fun h => h.1 hd) rfl
  rw [do_work_eq_jog {} jogDirNeg rfl rfl rfl rfl rfl rfl rfl rfl
    (fun hc => menuOmsl.noConfusion hc.1) rfl rfl rfl]
  refine ⟨rfl, ?_, rfl, hv, ?_, h2.mpr ⟨fun _ => hm, fun _ => rfl⟩⟩
  · unfold jogDirNeg
    norm_num
  · have hj : jogDirNeg.jogf = true := rfl
    rw [h1, ha, if_pos hj, hv]

theorem init_record_end_lvio (p : motorRecord) :
    ((init_record_end p).1.lvio = true ↔
      ¬ limitsDisabled p ∧ (p.drbv > p.dhlm + p.mres ∨ p.drbv < p.dllm - p.mres)) ∧
    (init_record_end p).1.drbv = p.drbv ∧ (init_record_end p).1.dhlm = p.dhlm ∧
    (init_record_end p).1.dllm = p.dllm ∧ (init_record_end p).1.mres = p.mres := by
  unfold init_record_end monitor init_record_lvio init_record_misc limitsDisabled
  simp only []
  by_cases hd : p.dhlm = p.dllm ∧ p.dllm = 0
  · rw [if_pos hd]
    refine ⟨⟨fun h => Bool.noConfusion h, fun h => absurd hd h.1⟩, rfl, rfl, rfl, rfl⟩
  · rw [if_neg hd]
    by_cases hv : p.drbv > p.dhlm + p.mres ∨ p.drbv < p.dllm - p.mres
    · rw [if_pos hv]
      exact ⟨⟨fun _ => ⟨hd, hv⟩, fun _ => rfl⟩, rfl, rfl, rfl, rfl⟩
    · rw [if_neg hv]
      exact ⟨⟨fun h => Bool.noConfusion h, fun h => absurd h.2 hv⟩, rfl, rfl, rfl, rfl⟩

/-- C38: with `mres = -0.001`, limits `dllm = -10`, `dhlm = 10` in use and the
dial readback at `drbv = 10`, inside `[dllm - |mres|, dhlm + |mres|]`, the end
of `init_record` leaves `lvio = 1`, where the limit test of `process` on the
same record gives `lvio = 0`. -/
theorem C38_init_record_signed_margin :
    ¬ limitsDisabled initNegativeRes ∧
    initNegativeRes.dllm - |initNegativeRes.mres| ≤ initNegativeRes.drbv ∧
    initNegativeRes.drbv ≤ initNegativeRes.dhlm + |initNegativeRes.mres| ∧
    (init_record_end initNegativeRes).1.lvio = true ∧
    (process_lvio false initNegativeRes).lvio = false := by
  have ha : |initNegativeRes.mres| = 1 / 1000 := by
    unfold initNegativeRes
    norm_num [abs_of_pos]
  have hd : ¬ limitsDisabled initNegativeRes := by
    unfold limitsDisabled initNegativeRes
    norm_num
  have hin : ¬ (initNegativeRes.drbv > initNegativeRes.dhlm + |initNegativeRes.mres| ∨
      initNegativeRes.drbv < initNegativeRes.dllm - |initNegativeRes.mres|) := by
    rw [ha]
    unfold initNegativeRes
    norm_num
  have hj : mipHas initNegativeRes.mip MIP_JOG = false := by decide
  have hh : mipHas initNegativeRes.mip MIP_HOME = false := by decide
  refine ⟨hd, ?_, ?_, ?_, ?_⟩
  · rw [ha]
    unfold initNegativeRes
    norm_num
  · rw [ha]
    unfold initNegativeRes
    norm_num
  · refine (init_record_end_lvio initNegativeRes).1.mpr ⟨hd, Or.inl ?_⟩
    unfold initNegativeRes
    norm_num
  · rw [process_lvio_lvio, if_neg hd, hj, hh]
    simp only [Bool.false_eq_true, if_false]
    exact decide_eq_false hin

theorem do_work_move_go_frame (dir : ℚ) (q : motorRecord)
    (hne : q.dval ≠ q.ldvl ∨ ¬ q.dmov = true)
    (hnpos : NINT (q.dval / q.mres) ≠ NINT (q.drbv / q.mres)) :
    ∃ v rv df rd lv ld lr mi dm rc pp cd m, (do_work_move dir false q).pmr =
      { q with val := v, rval := rv, diff := df, rdif := rd, lval := lv, ldvl := ld,
               lrvl := lr, mip := mi, dmov := dm, rcnt := rc, pp := pp, cdir := cd,
               mmap := m } := by
  obtain ⟨m1, h1⟩ := do_work_diff_frame q
  obtain ⟨m2, h2⟩ := do_work_post_frame dir (do_work_diff q)
  obtain ⟨lv, ld, lr, mi, dm, rc, pp, cd, m, hd⟩ :=
    do_work_dispatch_frame (do_work_post dir (do_work_diff q))
  rw [do_work_move_go dir q hne hnpos, hd, h2, h1]
  exact ⟨_, _, _, _, _, _, _, _, _, _, _, _, _, rfl⟩

theorem postProcess_branch_move (s : motorRecord) (hm : s.mip = MIP_MOVE) :
    postProcess_branch s = postProcess_moved s := by
  have h1 : mipHas MIP_MOVE MIP_LOAD_P = false := by decide
  have h2 : mipHas MIP_MOVE MIP_HOME = false := by decide
  have h3 : mipHas MIP_MOVE MIP_MOVE = true := by decide
  unfold postProcess_branch
  rw [hm, h1, h2, h3]
  simp

/-- With MIP equal to `MOVE`, no jog button down and `|bdst|` not above
`|mres|`, `postProcess` makes no call and leaves MIP `DONE`. -/
theorem postProcess_move_skip (s : motorRecord) (hm : s.mip = MIP_MOVE)
    (hb : ¬ |s.bdst| > |s.mres|) (hjf : s.jogf = false) (hjr : s.jogr = false) :
    (postProcess s).2 = [] ∧ (postProcess s).1.mip = MIP_DONE := by
  obtain ⟨v, d, r, df, rd, m, hs⟩ := postProcess_snap_frame s
  have a1 : (postProcess_snap s).mip = MIP_MOVE := by rw [hs]; exact hm
  have a2 : (postProcess_snap s).bdst = s.bdst := by rw [hs]
  have a3 : (postProcess_snap s).mres = s.mres := by rw [hs]
  have a4 : (postProcess_snap s).jogf = false := by rw [hs]; exact hjf
  have a5 : (postProcess_snap s).jogr = false := by rw [hs]; exact hjr
  have hb2 : ¬ |(postProcess_snap s).bdst| > |(postProcess_snap s).mres| := by
    rw [a2, a3]
    exact hb
  obtain ⟨k1, k2, _⟩ := postProcess_moved_skip (postProcess_snap s) hb2
  have hj : ¬ (((postProcess_snap s).jogf = true ∧ ¬ (postProcess_snap s).hls = true) ∨
      ((postProcess_snap s).jogr = true ∧ ¬ (postProcess_snap s).lls = true)) := by
    rw [a4, a5]
    simp
  rw [if_neg hj] at k2
  unfold postProcess
  rw [postProcess_branch_move _ a1]
  refine ⟨k1, ?_⟩
  show mipClear (postProcess_moved (postProcess_snap s)).1.mip MIP_STOP = MIP_DONE
  rw [k2]
  decide

/-- C40: with `|bdst| = |mres|` (both 0.001) and a move from dial 1 to dial 0
against the backlash direction, `do_work` sends one move to the backlash point
(raw -1, not the target raw 0) at slew speed and sets `pp` with MIP `MOVE`;
`postProcess` on the record it returns sends nothing and leaves MIP `DONE`. -/
theorem C40_backlash_one_step :
    |backlashOneStep.bdst| = |backlashOneStep.mres| ∧
    backlashOneStep.dval / backlashOneStep.mres = 0 ∧
    (do_work {} backlashOneStep).eff =
      [Effect.transaction
        [⟨motor_cmnd.SET_VEL_BASE, [0]⟩, ⟨motor_cmnd.SET_VELOCITY, [1000]⟩,
         ⟨motor_cmnd.SET_ACCEL, [1000]⟩, ⟨motor_cmnd.MOVE_ABS, [-1]⟩,
         ⟨motor_cmnd.GO, []⟩]] ∧
    (do_work {} backlashOneStep).pmr.pp = true ∧
    (do_work {} backlashOneStep).pmr.mip = MIP_MOVE ∧
    (do_work {} backlashOneStep).pmr.bdst = backlashOneStep.bdst ∧
    (do_work {} backlashOneStep).pmr.mres = backlashOneStep.mres ∧
    (postProcess (do_work {} backlashOneStep).pmr).2 = [] ∧
    (postProcess (do_work {} backlashOneStep).pmr).1.mip = MIP_DONE := by
  have hrel : ¬ useRel backlashOneStep := by
    unfold useRel backlashOneStep
    simp
  have a1 : |(1 / 1000 : ℚ)| = 1 / 1000 := abs_of_pos (by norm_num)
  have a3 : |((0 : ℚ) - 1)| = 1 := by norm_num
  have hl : do_work_lvio backlashOneStep.lvio backlashOneStep = backlashOneStep := by
    have hd : limitsDisabled backlashOneStep := ⟨rfl, rfl⟩
    unfold do_work_lvio
    simp only [if_pos hd]
    rfl
  have f1 : backlashOneStep.dval = 0 := rfl
  have f2 : backlashOneStep.ldvl = 1 := rfl
  have f3 : backlashOneStep.drbv = 1 := rfl
  have f4 : backlashOneStep.mres = 1 / 1000 := rfl
  have f5 : backlashOneStep.bdst = 1 / 1000 := rfl
  have f6 : backlashOneStep.mip = MIP_DONE := rfl
  have f8 : backlashOneStep.vbas = 0 := rfl
  have f9 : backlashOneStep.velo = 1 := rfl
  have f10 : backlashOneStep.accl = 1 := rfl
  have f11 : backlashOneStep.rdbd = 1 / 100 := rfl
  have f14 : backlashOneStep.pp = false := rfl
  have n1 : backlashOneStep.dval / backlashOneStep.mres = ((0 : ℤ) : ℚ) := by
    rw [f1, f4]
    norm_num
  have n2 : backlashOneStep.drbv / backlashOneStep.mres = ((1000 : ℤ) : ℚ) := by
    rw [f3, f4]
    norm_num
  have hnpos : NINT (backlashOneStep.dval / backlashOneStep.mres) ≠
      NINT (backlashOneStep.drbv / backlashOneStep.mres) := by
    rw [n1, n2, NINT_intCast, NINT_intCast]
    decide
  have hne : backlashOneStep.dval ≠ backlashOneStep.ldvl ∨ ¬ backlashOneStep.dmov = true := by
    left
    rw [f1, f2]
    norm_num
  have hpd : ¬ (backlashOneStep.dval > backlashOneStep.ldvl ↔ backlashOneStep.bdst > 0) := by
    rw [f1, f2, f5]
    norm_num
  have hfar : ¬ (|backlashOneStep.dval - backlashOneStep.drbv| <
      19 / 20 * backlashOneStep.rdbd) := by
    rw [f1, f3, f11, a3]
    norm_num
  obtain ⟨q, q1, q2, q3, q4, q5, q6, q7, q8, q9, q10, q11, q12, qrel, heff, hpp, hmip, _⟩ :=
    do_work_move_abs (dirSign backlashOneStep.dir) backlashOneStep hne hnpos (Or.inl f6) hrel
      (fun hh => hfar hh.1)
  have hleg := moveLeg_deferred false q
    (by
      rw [q5, q4, f5, f4, a1]
      norm_num)
    (by
      rw [q12, q11, q1, q2, q3, q4, q5, f1, f2, f3, f4, f5, f11, a3]
      norm_num [qrel])
    qrel
  simp only [hpd, decide_False] at heff hpp
  rw [hleg] at heff hpp
  obtain ⟨v, rv, df, rd, lv, ld, lr, mi, dm, rc, pp, cd, m, hfr⟩ :=
    do_work_move_go_frame (dirSign backlashOneStep.dir) backlashOneStep hne hnpos
  have g1 : (do_work_move (dirSign backlashOneStep.dir) false backlashOneStep).pmr.bdst =
      backlashOneStep.bdst := by rw [hfr]
  have g2 : (do_work_move (dirSign backlashOneStep.dir) false backlashOneStep).pmr.mres =
      backlashOneStep.mres := by rw [hfr]
  have g3 : (do_work_move (dirSign backlashOneStep.dir) false backlashOneStep).pmr.jogf =
      false := by rw [hfr]; rfl
  have g4 : (do_work_move (dirSign backlashOneStep.dir) false backlashOneStep).pmr.jogr =
      false := by rw [hfr]; rfl
  have hb : ¬ |(do_work_move (dirSign backlashOneStep.dir) false backlashOneStep).pmr.bdst| >
      |(do_work_move (dirSign backlashOneStep.dir) false backlashOneStep).pmr.mres| := by
    rw [g1, g2, f5, f4]
    norm_num
  obtain ⟨p1, p2⟩ := postProcess_move_skip _ hmip hb g3 g4
  have hreach := do_work_reach_move {} backlashOneStep rfl rfl rfl rfl rfl rfl
    (fun hc => menuOmsl.noConfusion hc.1) rfl rfl rfl rfl rfl
    rfl rfl rfl rfl (fun hs => motorSTUP.noConfusion hs) (Or.inl ⟨rfl, rfl⟩)
  rw [hl] at hreach
  rw [hreach]
  refine ⟨?_, ?_, ?_, ?_, hmip, g1, g2, p1, p2⟩
  · rw [f5, f4]
  · rw [f1, f4]
    norm_num
  · rw [heff]
    simp only [q1, q4, q5, q7, q9, f1, f4, f5, f8, f9, f10, a1]
    norm_num
  · rw [hpp]
    rfl

theorem check_speed_and_resolution_res_sane (p : motorRecord) :
    0 < (check_speed_and_resolution_res p).1.srev ∧
    (check_speed_and_resolution_res p).1.mres ≠ 0 ∧
    (check_speed_and_resolution_res p).1.urev =
      (check_speed_and_resolution_res p).1.mres * (check_speed_and_resolution_res p).1.srev := by
  unfold check_speed_and_resolution_res
  simp only []
  split_ifs <;> simp_all
  intro h
  linarith

theorem check_speed_and_resolution_max_keeps (u : ℚ) (p : motorRecord) :
    (check_speed_and_resolution_max u p).1.srev = p.srev ∧
    (check_speed_and_resolution_max u p).1.mres = p.mres ∧
    (check_speed_and_resolution_max u p).1.urev = p.urev ∧
    (check_speed_and_resolution_max u p).1.accl = p.accl ∧
    (check_speed_and_resolution_max u p).1.bacc = p.bacc := by
  unfold check_speed_and_resolution_max
  simp only []
  split_ifs <;> exact ⟨rfl, rfl, rfl, rfl, rfl⟩

theorem check_speed_and_resolution_base_keeps (u : ℚ) (p : motorRecord) :
    (check_speed_and_resolution_base u p).1.srev = p.srev ∧
    (check_speed_and_resolution_base u p).1.mres = p.mres ∧
    (check_speed_and_resolution_base u p).1.urev = p.urev ∧
    (check_speed_and_resolution_base u p).1.accl = p.accl ∧
    (check_speed_and_resolution_base u p).1.bacc = p.bacc := by
  unfold check_speed_and_resolution_base
  simp only []
  split_ifs <;> exact ⟨rfl, rfl, rfl, rfl, rfl⟩

theorem check_speed_and_resolution_slew_keeps (u : ℚ) (p : motorRecord) :
    (check_speed_and_resolution_slew u p).1.srev = p.srev ∧
    (check_speed_and_resolution_slew u p).1.mres = p.mres ∧
    (check_speed_and_resolution_slew u p).1.urev = p.urev ∧
    (check_speed_and_resolution_slew u p).1.accl = p.accl ∧
    (check_speed_and_resolution_slew u p).1.bacc = p.bacc := by
  unfold check_speed_and_resolution_slew
  simp only []
  split_ifs <;> exact ⟨rfl, rfl, rfl, rfl, rfl⟩

theorem check_speed_and_resolution_back_keeps (u : ℚ) (p : motorRecord) :
    (check_speed_and_resolution_back u p).1.srev = p.srev ∧
    (check_speed_and_resolution_back u p).1.mres = p.mres ∧
    (check_speed_and_resolution_back u p).1.urev = p.urev ∧
    (check_speed_and_resolution_back u p).1.accl = p.accl ∧
    (check_speed_and_resolution_back u p).1.bacc = p.bacc := by
  unfold check_speed_and_resolution_back
  simp only []
  split_ifs <;> exact ⟨rfl, rfl, rfl, rfl, rfl⟩

theorem check_speed_and_resolution_accl_sane (p : motorRecord) :
    (check_speed_and_resolution_accl p).srev = p.srev ∧
    (check_speed_and_resolution_accl p).mres = p.mres ∧
    (check_speed_and_resolution_accl p).urev = p.urev ∧
    (check_speed_and_resolution_accl p).accl ≠ 0 ∧
    (check_speed_and_resolution_accl p).bacc ≠ 0 := by
  have h10 : (1 / 10 : ℚ) ≠ 0 := by norm_num
  unfold check_speed_and_resolution_accl
  simp only []
  by_cases ha : p.accl = 0
  · rw [if_pos ha]
    by_cases hb : p.bacc = 0
    · rw [if_pos hb]
      exact ⟨rfl, rfl, rfl, h10, h10⟩
    · rw [if_neg hb]
      exact ⟨rfl, rfl, rfl, h10, hb⟩
  · rw [if_neg ha]
    by_cases hb : p.bacc = 0
    · rw [if_pos hb]
      exact ⟨rfl, rfl, rfl, ha, h10⟩
    · rw [if_neg hb]
      exact ⟨rfl, rfl, rfl, ha, hb⟩

theorem check_speed_and_resolution_jog_keeps (p : motorRecord) :
    (check_speed_and_resolution_jog p).1.srev = p.srev ∧
    (check_speed_and_resolution_jog p).1.mres = p.mres ∧
    (check_speed_and_resolution_jog p).1.urev = p.urev ∧
    (check_speed_and_resolution_jog p).1.accl = p.accl ∧
    (check_speed_and_resolution_jog p).1.bacc = p.bacc := by
  unfold check_speed_and_resolution_jog
  simp only []
  split_ifs <;> exact ⟨rfl, rfl, rfl, rfl, rfl⟩

/-- C37: after `check_speed_and_resolution`, for every record, `srev > 0`,
`mres ≠ 0`, `urev = mres * srev`, `accl ≠ 0` and `bacc ≠ 0`. -/
theorem C37_check_speed_and_resolution (p : motorRecord) :
    0 < (check_speed_and_resolution p).1.srev ∧
    (check_speed_and_resolution p).1.mres ≠ 0 ∧
    (check_speed_and_resolution p).1.urev =
      (check_speed_and_resolution p).1.mres * (check_speed_and_resolution p).1.srev ∧
    (check_speed_and_resolution p).1.accl ≠ 0 ∧
    (check_speed_and_resolution p).1.bacc ≠ 0 := by
  obtain ⟨r1, r2, r3⟩ := check_speed_and_resolution_res_sane p
  obtain ⟨a1, a2, a3, _, _⟩ := check_speed_and_resolution_max_keeps
    (check_speed_and_resolution_res p).2 (check_speed_and_resolution_res p).1
  obtain ⟨b1, b2, b3, _, _⟩ := check_speed_and_resolution_base_keeps
    (check_speed_and_resolution_res p).2
    (check_speed_and_resolution_max (check_speed_and_resolution_res p).2
      (check_speed_and_resolution_res p).1).1
  obtain ⟨c1, c2, c3, _, _⟩ := check_speed_and_resolution_slew_keeps
    (check_speed_and_resolution_res p).2
    (check_speed_and_resolution_base (check_speed_and_resolution_res p).2
      (check_speed_and_resolution_max (check_speed_and_resolution_res p).2
        (check_speed_and_resolution_res p).1).1).1
  obtain ⟨d1, d2, d3, _, _⟩ := check_speed_and_resolution_back_keeps
    (check_speed_and_resolution_res p).2
    (check_speed_and_resolution_slew (check_speed_and_resolution_res p).2
      (check_speed_and_resolution_base (check_speed_and_resolution_res p).2
        (check_speed_and_resolution_max (check_speed_and_resolution_res p).2
          (check_speed_and_resolution_res p).1).1).1).1
  obtain ⟨e1, e2, e3, e4, e5⟩ := check_speed_and_resolution_accl_sane
    (check_speed_and_resolution_back (check_speed_and_resolution_res p).2
      (check_speed_and_resolution_slew (check_speed_and_resolution_res p).2
        (check_speed_and_resolution_base (check_speed_and_resolution_res p).2
          (check_speed_and_resolution_max (check_speed_and_resolution_res p).2
            (check_speed_and_resolution_res p).1).1).1).1).1
  obtain ⟨f1, f2, f3, f4, f5⟩ := check_speed_and_resolution_jog_keeps
    (check_speed_and_resolution_accl
      (check_speed_and_resolution_back (check_speed_and_resolution_res p).2
        (check_speed_and_resolution_slew (check_speed_and_resolution_res p).2
          (check_speed_and_resolution_base (check_speed_and_resolution_res p).2
            (check_speed_and_resolution_max (check_speed_and_resolution_res p).2
              (check_speed_and_resolution_res p).1).1).1).1).1)
  have hs := f1.trans (e1.trans (d1.trans (c1.trans (b1.trans a1))))
  have hm := f2.trans (e2.trans (d2.trans (c2.trans (b2.trans a2))))
  have hu := f3.trans (e3.trans (d3.trans (c3.trans (b3.trans a3))))
  unfold check_speed_and_resolution
  simp only []
  rw [hs, hm, hu, f4, f5]
  exact ⟨r1, r2, r3, e4, e5⟩

theorem roundHalfEven_intCast (n : ℤ) : roundHalfEven (n : ℚ) = n := by
  unfold roundHalfEven
  rw [Int.floor_intCast, sub_self, if_pos (by norm_num)]

theorem roundHalfEven_near (x : ℚ) (n : ℤ) (h1 : (n : ℚ) - 1 / 2 < x)
    (h2 : x < (n : ℚ) + 1 / 2) : roundHalfEven x = n := by
  unfold roundHalfEven
  by_cases hx : (n : ℚ) ≤ x
  · have hf : ⌊x⌋ = n := by
      rw [Int.floor_eq_iff]
      constructor
      · exact hx
      · linarith
    rw [hf, if_pos (by linarith)]
  · have hx2 : x < n := lt_of_not_le hx
    have hf : ⌊x⌋ = n - 1 := by
      rw [Int.floor_eq_iff]
      push_cast
      constructor <;> linarith
    have hc : ((n - 1 : ℤ) : ℚ) = (n : ℚ) - 1 := by push_cast; ring
    rw [hf, hc, if_neg (by linarith), if_pos (by linarith)]
    ring

theorem roundToPrecision_of_log (p : ℕ) (x : ℚ) (e : ℤ) (hx : x ≠ 0)
    (h1 : (2 : ℚ) ^ e ≤ |x|) (h2 : |x| < (2 : ℚ) ^ (e + 1)) :
    roundToPrecision p x =
      (roundHalfEven (x / 2 ^ (e - ((p : ℤ) - 1))) : ℚ) * 2 ^ (e - ((p : ℤ) - 1)) := by
  have hpos : 0 < |x| := abs_pos.mpr hx
  have hl : Int.log 2 |x| = e := by
    apply le_antisymm
    · have h := (Int.lt_zpow_iff_log_lt (by norm_num : 1 < 2) hpos).mp (by exact_mod_cast h2)
      omega
    · exact (Int.zpow_le_iff_le_log (by norm_num : 1 < 2) hpos).mp (by exact_mod_cast h1)
  unfold roundToPrecision
  rw [if_neg hx, hl]

theorem roundHalfEven_tie_odd (x : ℚ) (n : ℤ) (h : x = (n : ℚ) + 1 / 2) (ho : n % 2 = 1) :
    roundHalfEven x = n + 1 := by
  have hf : ⌊x⌋ = n := by
    rw [Int.floor_eq_iff, h]
    constructor <;> linarith
  unfold roundHalfEven
  rw [hf, h, if_neg (by linarith), if_neg (by linarith), if_neg (by omega)]

theorem toDouble_of_log (x : ℚ) (e n : ℤ) (hx : x ≠ 0)
    (h1 : (2 : ℚ) ^ e ≤ |x|) (h2 : |x| < (2 : ℚ) ^ (e + 1))
    (hr : roundHalfEven (x / 2 ^ (e - 52)) = n) :
    toDouble x = (n : ℚ) * 2 ^ (e - 52) := by
  unfold toDouble
  rw [roundToPrecision_of_log 53 x e hx h1 h2]
  have hp : e - (((53 : ℕ) : ℤ) - 1) = e - 52 := by norm_num
  rw [hp, hr]

theorem toDouble_one : toDouble 1 = 1 := by
  rw [toDouble_of_log 1 0 (2 ^ 52) (by norm_num) (by norm_num) (by norm_num)
    (roundHalfEven_near _ _ (by norm_num) (by norm_num))]
  norm_num

theorem toDouble_two : toDouble 2 = 2 := by
  rw [toDouble_of_log 2 1 (2 ^ 52) (by norm_num) (by norm_num) (by norm_num)
    (roundHalfEven_near _ _ (by norm_num) (by norm_num))]
  norm_num

theorem toDouble_doubleFifth : toDouble doubleFifth = doubleFifth := by
  have ha : |doubleFifth| = doubleFifth := abs_of_pos (by unfold doubleFifth; norm_num)
  rw [toDouble_of_log doubleFifth (-3) 7205759403792794 (by unfold doubleFifth; norm_num)
    (by rw [ha]; unfold doubleFifth; norm_num) (by rw [ha]; unfold doubleFifth; norm_num)
    (roundHalfEven_near _ _ (by unfold doubleFifth; norm_num)
      (by unfold doubleFifth; norm_num))]
  unfold doubleFifth
  norm_num

theorem toDouble_doubleTenth : toDouble doubleTenth = doubleTenth := by
  have ha : |doubleTenth| = doubleTenth := abs_of_pos (by unfold doubleTenth; norm_num)
  rw [toDouble_of_log doubleTenth (-4) 7205759403792794 (by unfold doubleTenth; norm_num)
    (by rw [ha]; unfold doubleTenth; norm_num) (by rw [ha]; unfold doubleTenth; norm_num)
    (roundHalfEven_near _ _ (by unfold doubleTenth; norm_num)
      (by unfold doubleTenth; norm_num))]
  unfold doubleTenth
  norm_num

theorem toDouble_sum :
    toDouble (doubleFifth + doubleTenth) = 1351079888211149 / 4503599627370496 := by
  have hs : doubleFifth + doubleTenth = 10808639105689191 / 36028797018963968 := by
    unfold doubleFifth doubleTenth
    norm_num
  have ha : |(10808639105689191 / 36028797018963968 : ℚ)| =
      10808639105689191 / 36028797018963968 := abs_of_pos (by norm_num)
  rw [hs, toDouble_of_log _ (-2) (5404319552844595 + 1) (by norm_num)
    (by rw [ha]; norm_num) (by rw [ha]; norm_num)
    (roundHalfEven_tie_odd _ 5404319552844595 (by norm_num) (by norm_num))]
  norm_num

theorem toDouble_difference :
    toDouble (1351079888211149 / 4503599627370496 - doubleTenth) =
      7205759403792795 / 36028797018963968 := by
  have hs : (1351079888211149 / 4503599627370496 - doubleTenth : ℚ) =
      7205759403792795 / 36028797018963968 := by
    unfold doubleTenth
    norm_num
  have ha : |(7205759403792795 / 36028797018963968 : ℚ)| =
      7205759403792795 / 36028797018963968 := abs_of_pos (by norm_num)
  rw [hs, toDouble_of_log _ (-3) 7205759403792795 (by norm_num)
    (by rw [ha]; norm_num) (by rw [ha]; norm_num)
    (roundHalfEven_near _ _ (by norm_num) (by norm_num))]
  norm_num

theorem toDouble_result :
    toDouble (7205759403792795 / 36028797018963968) =
      7205759403792795 / 36028797018963968 := by
  have ha : |(7205759403792795 / 36028797018963968 : ℚ)| =
      7205759403792795 / 36028797018963968 := abs_of_pos (by norm_num)
  rw [toDouble_of_log _ (-3) 7205759403792795 (by norm_num)
    (by rw [ha]; norm_num) (by rw [ha]; norm_num)
    (roundHalfEven_near _ _ (by norm_num) (by norm_num))]
  norm_num

/-- C27 as stated fails in the `double` arithmetic of `do_work`: with
`off` the `double` nearest 0.1, `dir = +1` and `dval` the `double` nearest
0.2, `val = dval * dir + off` is rounded up (a tie) to 0.30000000000000004, and
`(val - off) / dir` then gives 0.20000000000000004, one unit in the last place
above `dval`. -/
theorem C27_rounding_counterexample :
    toDouble doubleFifth = doubleFifth ∧ toDouble doubleTenth = doubleTenth ∧
    do_work_val_of_dval doubleTenth (dirSign motorDIR.Pos) doubleFifth =
      1351079888211149 / 4503599627370496 ∧
    do_work_dval_of_val doubleTenth (dirSign motorDIR.Pos)
      (do_work_val_of_dval doubleTenth (dirSign motorDIR.Pos) doubleFifth) =
      7205759403792795 / 36028797018963968 ∧
    do_work_dval_of_val doubleTenth (dirSign motorDIR.Pos)
      (do_work_val_of_dval doubleTenth (dirSign motorDIR.Pos) doubleFifth) ≠ doubleFifth := by
  have hd : dirSign motorDIR.Pos = 1 := by
    unfold dirSign
    rw [if_pos rfl]
  have hv : do_work_val_of_dval doubleTenth (dirSign motorDIR.Pos) doubleFifth =
      1351079888211149 / 4503599627370496 := by
    unfold do_work_val_of_dval
    rw [hd, mul_one, toDouble_doubleFifth, toDouble_sum]
  have hb : do_work_dval_of_val doubleTenth (dirSign motorDIR.Pos)
      (1351079888211149 / 4503599627370496) = 7205759403792795 / 36028797018963968 := by
    unfold do_work_dval_of_val
    rw [hd, toDouble_difference, div_one, toDouble_result]
  refine ⟨toDouble_doubleFifth, toDouble_doubleTenth, hv, ?_, ?_⟩
  · rw [hv, hb]
  · rw [hv, hb]
    unfold doubleFifth
    norm_num

/-- C27 (amended): as functions of exact numbers the two coordinate
conversions are inverse to each other for every offset, direction and value,
`userToDial` being the value `do_work` stores in `dval` when it propagates a
changed `val` and `dialToUser` the value it stores in `val` when it recomputes
`val` from `dval`; in `double` arithmetic the round trip returns the value it
started from whenever that value is a `double` and neither the product, the
sum, the difference nor the quotient on the way is rounded. -/
theorem C27_user_dial_roundtrip (d : motorDIR) (off x : ℚ) (p : motorRecord) :
    userToDial off (dirSign d) (dialToUser off (dirSign d) x) = x ∧
    dialToUser off (dirSign d) (userToDial off (dirSign d) x) = x ∧
    (p.val ≠ p.lval →
      (do_work_val (dirSign d) false p).record.dval = userToDial p.off (dirSign d) p.val) ∧
    (do_work_post (dirSign d) p).val = dialToUser p.off (dirSign d) p.dval ∧
    (toDouble x = x → toDouble (x * dirSign d) = x * dirSign d →
      toDouble (x * dirSign d + off) = x * dirSign d + off →
      do_work_dval_of_val off (dirSign d) (do_work_val_of_dval off (dirSign d) x) = x) ∧
    (toDouble x = x → toDouble (x - off) = x - off →
      toDouble ((x - off) / dirSign d) = (x - off) / dirSign d →
      do_work_val_of_dval off (dirSign d) (do_work_dval_of_val off (dirSign d) x) = x) := by
  have hd := dirSign_ne_zero d
  refine ⟨?_, ?_, ?_, ?_, ?_, ?_⟩
  · unfold userToDial dialToUser
    field_simp
  · unfold userToDial dialToUser
    field_simp
  · intro h
    rw [do_work_val_eq_use]
    show (do_work_val_use (dirSign d) p).dval = _
    unfold do_work_val_use
    rw [if_pos h]
    rfl
  · obtain ⟨m, h⟩ := do_work_post_frame (dirSign d) p
    rw [h]
    rfl
  · intro h1 h2 h3
    have e1 : x * dirSign d + off - off = x * dirSign d := by ring
    have e2 : x * dirSign d / dirSign d = x := by field_simp
    unfold do_work_dval_of_val do_work_val_of_dval
    rw [h2, h3, e1, h2, e2, h1]
  · intro h1 h2 h3
    have e1 : (x - off) / dirSign d * dirSign d = x - off := by field_simp
    have e2 : x - off + off = x := by ring
    unfold do_work_dval_of_val do_work_val_of_dval
    rw [h2, h3, e1, h2, e2, h1]

theorem C27_user_dial_roundtrip_witness :
    toDouble 1 = 1 ∧ toDouble (1 * dirSign motorDIR.Pos + 1) = 1 * dirSign motorDIR.Pos + 1 ∧
    do_work_dval_of_val 1 (dirSign motorDIR.Pos)
      (do_work_val_of_dval 1 (dirSign motorDIR.Pos) 1) = 1 := by
  have hd : dirSign motorDIR.Pos = 1 := by
    unfold dirSign
    rw [if_pos rfl]
  have h2 : toDouble (1 * dirSign motorDIR.Pos) = 1 * dirSign motorDIR.Pos := by
    rw [hd, mul_one, toDouble_one]
  have h3 : toDouble (1 * dirSign motorDIR.Pos + 1) = 1 * dirSign motorDIR.Pos + 1 := by
    rw [hd, mul_one]
    norm_num
    exact toDouble_two
  exact ⟨toDouble_one, h3,
    (C27_user_dial_roundtrip motorDIR.Pos 1 1 {}).2.2.2.2.1 toDouble_one h2 h3⟩

theorem ackClear_closed : MipClosed (fun x => mipHas x MIP_DELAY_ACK = false) where
  done := by decide
  stop := by decide
  jog_req := by decide
  done_jog_req := by decide
  homf := by decide
  homr := by decide
  homf_stop := by decide
  homr_stop := by decide
  jogf := by decide
  jogr := by decide
  jogf_stop := by decide
  jogr_stop := by decide
  load_p := by decide
  move := by decide
  move_bl := by decide
  jog_bl1 := by decide
  jog_bl2 := by decide
  retry := by decide
  mask := by
    intro x k h
    cases hc : mipHas (x &&& k) MIP_DELAY_ACK
    · rfl
    · rw [mipHas_and_imp _ _ _ hc] at h
      exact absurd h (by decide)
  jog_stop := by
    intro x h _
    show mipHas ((x ||| MIP_JOG_STOP) &&& _) MIP_DELAY_ACK = false
    cases hc : mipHas ((x ||| MIP_JOG_STOP) &&& (0xFFFF ^^^ (MIP_JOGF ||| MIP_JOGR))) MIP_DELAY_ACK
    · rfl
    · have h2 := mipHas_and_imp _ _ _ hc
      rw [mipHas_or_disjoint _ _ _ (by decide)] at h2
      rw [h2] at h
      exact absurd h (by decide)

theorem process_motor_info_mip (env : Env) (ic : Bool) (p : motorRecord) :
    (process_motor_info env ic p).mip = p.mip := by
  have h1 : ∀ o q : motorRecord, (process_motor_info_position o q).mip = q.mip := by
    intro o q
    unfold process_motor_info_position
    simp only []
    split_ifs <;> rfl
  have h2 : ∀ o q : motorRecord, (process_motor_info_status o q).mip = q.mip := by
    intro o q
    unfold process_motor_info_status
    rfl
  have h3 : ∀ q : motorRecord, (process_motor_info_link env ic q).mip = q.mip := by
    intro q
    unfold process_motor_info_link
    split_ifs
    · cases env.rdbl with
      | none => rfl
      | some v =>
        simp only []
        split_ifs <;> rfl
    · rfl
  unfold process_motor_info
  show (process_motor_info_link env ic _).mip = _
  rw [h3, h2, h1]

theorem process_exit_keeps (r : ProcessReason) (s : ℤ) (p : motorRecord) (e : List Effect) :
    (process_exit r s p e).pmr.mip = p.mip ∧ (process_exit r s p e).pmr.dmov = p.dmov ∧
    ∀ x ∈ e, x ∈ (process_exit r s p e).eff := by
  unfold process_exit alarm_sub monitor
  simp only []
  split_ifs <;> refine ⟨rfl, rfl, fun x hx => ?_⟩ <;> simp [hx]

theorem process_settle_delay (entry : ℕ) (q : motorRecord) (e : List Effect)
    (h : delayExclusive q.mip)
    (ha : mipHas q.mip MIP_DELAY_ACK = true → mipHas entry MIP_DELAY_ACK = true) :
    (process_settle q e).delayOk entry := by
  unfold process_settle
  by_cases c1 : q.dmov = true ∧ ¬ (q.rhls = true ∨ q.rlls = true)
  · rw [if_pos c1]
    simp only []
    by_cases c2 : mipHas q.mip MIP_DELAY_ACK = true ∨ q.dly ≤ 0
    · rw [if_pos c2]
      by_cases c3 : mipHas q.mip MIP_DELAY_ACK = true ∧ ¬ mipHas q.mip MIP_DELAY_REQ = true
      · rw [if_pos c3]
        exact Or.inr ⟨ha c3.1, rfl, by simp⟩
      · rw [if_neg c3]
        by_cases c4 : q.stup ≠ motorSTUP.ON
        · rw [if_pos c4]
          exact maybeRetry_exclusive _
        · rw [if_neg c4]
          exact h
    · rw [if_neg c2]
      by_cases c5 : q.mmap.M_DMOV = true ∧ ¬ mipHas q.mip MIP_DELAY_REQ = true
      · rw [if_pos c5]
        left
        show delayExclusive (q.mip ||| MIP_DELAY_REQ)
        unfold delayExclusive
        rintro ⟨_, hk⟩
        rw [mipHas_or_disjoint _ _ _ (by decide)] at hk
        exact c2 (Or.inl hk)
      · rw [if_neg c5]
        exact h
  · rw [if_neg c1]
    exact h

theorem process_callback_delay (q : motorRecord) (h : delayExclusive q.mip) :
    (process_callback q).delayOk q.mip := by
  have hdone : delayExclusive MIP_DONE := delayExclusive_DONE
  unfold process_callback
  by_cases c1 : q.movn = true
  · rw [if_pos c1]
    simp only []
    split_ifs <;>
      first
      | exact delayExclusive_or _ _ h (by decide) (by decide)
      | exact h
  · rw [if_neg c1]
    by_cases c2 : q.stup ≠ motorSTUP.BUSY
    · rw [if_pos c2]
      simp only []
      by_cases c3 : q.dmov ≠ true
      · rw [if_pos c3]
        by_cases c4 : q.mip ≠ MIP_DONE ∧ (q.rhls = true ∨ q.rlls = true)
        · rw [if_pos c4]
          exact Or.inl hdone
        · rw [if_neg c4]
          by_cases c5 : q.pp = true
          · rw [if_pos c5]
            by_cases c6 : q.val ≠ q.lval
            · rw [if_pos c6]
              exact hdone
            · rw [if_neg c6]
              apply process_settle_delay
              · exact postProcess_exclusive _ h
              · intro hk
                cases hq : mipHas q.mip MIP_DELAY_ACK
                · have := postProcess_closed ackClear_closed
                    { q with dmov := true, mmap.M_DMOV := true } hq
                  rw [this] at hk
                  exact absurd hk (by decide)
                · rfl
          · rw [if_neg c5]
            exact process_settle_delay _ _ _ h (fun hk => hk)
      · rw [if_neg c3]
        by_cases c4 : q.mip ≠ MIP_DONE ∧ (q.rhls = true ∨ q.rlls = true)
        · rw [if_pos c4]
          exact Or.inl hdone
        · rw [if_neg c4]
          by_cases c5 : q.pp = true
          · rw [if_pos c5]
            by_cases c6 : q.val ≠ q.lval
            · rw [if_pos c6]
              exact hdone
            · rw [if_neg c6]
              apply process_settle_delay
              · exact postProcess_exclusive _ h
              · intro hk
                cases hq : mipHas q.mip MIP_DELAY_ACK
                · have := postProcess_closed ackClear_closed q hq
                  rw [this] at hk
                  exact absurd hk (by decide)
                · rfl
          · rw [if_neg c5]
            exact process_settle_delay _ _ _ h (fun hk => hk)
    · rw [if_neg c2]
      exact h

theorem process_lvio_mip (old : Bool) (p : motorRecord) : (process_lvio old p).mip = p.mip := by
  obtain ⟨l, m, st, jf, jr, hf, hr, hl, _⟩ := process_lvio_frame old p
  rw [hl]

theorem process_stage_delay (env : Env) (pmr q : motorRecord) (c : Bool)
    (h : delayExclusive pmr.mip) (hq : q.mip = pmr.mip) :
    Stage.delayOk pmr.mip
      (if c = true then process_callback (process_motor_info env false q)
       else Stage.work q []) := by
  cases c
  · show delayExclusive q.mip
    rw [hq]
    exact h
  · have hm : (process_motor_info env false q).mip = pmr.mip := by
      rw [process_motor_info_mip, hq]
    have hk := process_callback_delay (process_motor_info env false q) (by rw [hm]; exact h)
    rw [hm] at hk
    exact hk

theorem process_delay (env : Env) (pmr : motorRecord) (h : delayExclusive pmr.mip) :
    delayExclusive (process env pmr).pmr.mip ∨
    (mipHas pmr.mip MIP_DELAY_ACK = true ∧ (process env pmr).pmr.dmov = false ∧
      getInfo ∈ (process env pmr).eff) := by
  unfold process
  by_cases hp : pmr.pact = true
  · rw [if_pos hp]
    exact Or.inl h
  · rw [if_neg hp]
    simp only []
    split
    · rename_i r e heq
      have hd : Stage.delayOk pmr.mip (Stage.exit r e) := by
        rw [← heq]
        apply process_stage_delay _ _ _ _ h
        split_ifs <;> rfl
      have key := fun rs => process_exit_keeps rs OK r (Effect.update_values :: e)
      rcases hd with hd | ⟨a1, a2, a3⟩
      · left
        rw [(key _).1]
        exact hd
      · right
        refine ⟨a1, ?_, ?_⟩
        · rw [(key _).2.1]
          exact a2
        · exact (key _).2.2 _ (List.mem_cons_of_mem _ a3)
    · rename_i r e heq
      have hd : Stage.delayOk pmr.mip (Stage.work r e) := by
        rw [← heq]
        apply process_stage_delay _ _ _ _ h
        split_ifs <;> rfl
      have hm : (process_lvio pmr.lvio r).mip = r.mip := process_lvio_mip _ _
      left
      have hx : delayExclusive (process_lvio pmr.lvio r).mip := by
        rw [hm]
        exact hd
      rw [(process_exit_keeps _ _ _ _).1]
      split_ifs <;>
        first
        | exact do_work_exclusive env _ hx
        | exact hx

/-- C20 (amended): `callbackFunc`, `do_work`, `postProcess` and `maybeRetry`
keep `DELAY_REQ` and `DELAY_ACK` from being both set: from a record in which
they are not both set, each of the four leaves a record in which they are not
both set.  So does `process`, unless it was entered with `DELAY_ACK` set and
leaves through the wait for the readback update, with `dmov` cleared and
`GET_INFO` sent. -/
theorem C20_delay_bits_exclusive (env : Env) (pmr : motorRecord)
    (h : ¬ (mipHas pmr.mip MIP_DELAY_REQ = true ∧ mipHas pmr.mip MIP_DELAY_ACK = true)) :
    ¬ (mipHas (callbackFunc pmr).1.mip MIP_DELAY_REQ = true ∧
       mipHas (callbackFunc pmr).1.mip MIP_DELAY_ACK = true) ∧
    ¬ (mipHas (do_work env pmr).pmr.mip MIP_DELAY_REQ = true ∧
       mipHas (do_work env pmr).pmr.mip MIP_DELAY_ACK = true) ∧
    ¬ (mipHas (postProcess pmr).1.mip MIP_DELAY_REQ = true ∧
       mipHas (postProcess pmr).1.mip MIP_DELAY_ACK = true) ∧
    ¬ (mipHas (maybeRetry pmr).mip MIP_DELAY_REQ = true ∧
       mipHas (maybeRetry pmr).mip MIP_DELAY_ACK = true) ∧
    (¬ (mipHas (process env pmr).pmr.mip MIP_DELAY_REQ = true ∧
        mipHas (process env pmr).pmr.mip MIP_DELAY_ACK = true) ∨
     (mipHas pmr.mip MIP_DELAY_ACK = true ∧ mipHas pmr.mip MIP_DELAY_REQ = false ∧
      (process env pmr).pmr.dmov = false ∧ getInfo ∈ (process env pmr).eff)) := by
  have h0 : delayExclusive pmr.mip := by
    unfold delayExclusive
    exact h
  have h1 := callbackFunc_exclusive pmr h0
  have h2 := do_work_exclusive env pmr h0
  have h3 := postProcess_exclusive pmr h0
  have h4 := maybeRetry_exclusive pmr
  have h5 := process_delay env pmr h0
  unfold delayExclusive at h1 h2 h3 h4 h5
  refine ⟨h1, h2, h3, h4, ?_⟩
  rcases h5 with h5 | ⟨a1, a2, a3⟩
  · exact Or.inl h5
  · right
    refine ⟨a1, ?_, a2, a3⟩
    cases hr : mipHas pmr.mip MIP_DELAY_REQ
    · rfl
    · exact absurd ⟨hr, a1⟩ h

theorem C20_delay_bits_exclusive_witness :
    ¬ (mipHas (callbackFunc delayRequested).1.mip MIP_DELAY_REQ = true ∧
       mipHas (callbackFunc delayRequested).1.mip MIP_DELAY_ACK = true) ∧
    ¬ (mipHas (do_work {} delayRequested).pmr.mip MIP_DELAY_REQ = true ∧
       mipHas (do_work {} delayRequested).pmr.mip MIP_DELAY_ACK = true) ∧
    ¬ (mipHas (postProcess delayRequested).1.mip MIP_DELAY_REQ = true ∧
       mipHas (postProcess delayRequested).1.mip MIP_DELAY_ACK = true) ∧
    ¬ (mipHas (maybeRetry delayRequested).mip MIP_DELAY_REQ = true ∧
       mipHas (maybeRetry delayRequested).mip MIP_DELAY_ACK = true) ∧
    (¬ (mipHas (process {} delayRequested).pmr.mip MIP_DELAY_REQ = true ∧
        mipHas (process {} delayRequested).pmr.mip MIP_DELAY_ACK = true) ∨
     (mipHas delayRequested.mip MIP_DELAY_ACK = true ∧
      mipHas delayRequested.mip MIP_DELAY_REQ = false ∧
      (process {} delayRequested).pmr.dmov = false ∧
      getInfo ∈ (process {} delayRequested).eff)) :=
  C20_delay_bits_exclusive {} delayRequested (by decide)

theorem resMarks_clear (p : motorRecord) (h : resMarks p = (false, false, false)) :
    p.mmap.M_MRES = false ∧ p.mmap.M_ERES = false ∧ p.mmap.M_UEIP = false :=
  ⟨congrArg (fun x => x.1) h, congrArg (fun x => x.2.1) h, congrArg (fun x => x.2.2) h⟩

theorem do_work_spmg_ret (env : Env) (s : motorRecord) (o : Outcome)
    (h : do_work_spmg (stopOrPause s) s = Flow.ret o) : do_work env s = o := by
  unfold stopOrPause at h
  unfold do_work
  simp only [h, Flow.ret_andThen]

theorem do_work_collect_ret (env : Env) (s p : motorRecord) (o : Outcome)
    (h1 : do_work_spmg (stopOrPause s) s = Flow.next p [])
    (hm : resMarks p = (false, false, false))
    (hc : do_work_collect env (dirSign s.dir) (stopOrPause s) p = Flow.ret o) :
    do_work env s = o := by
  obtain ⟨m1, m2, m3⟩ := resMarks_clear p hm
  unfold stopOrPause at h1 hc
  unfold do_work
  simp only [h1, Flow.next_nil_andThen, do_work_resolution_quiet p m1 m2 m3, hc, Flow.ret_andThen]

theorem do_work_collect_next (env : Env) (s p u : motorRecord)
    (h1 : do_work_spmg (stopOrPause s) s = Flow.next p [])
    (hm : resMarks p = (false, false, false))
    (hc : do_work_collect env (dirSign s.dir) (stopOrPause s) p = Flow.next u []) :
    do_work env s = do_work_after_collect s u := by
  obtain ⟨m1, m2, m3⟩ := resMarks_clear p hm
  have key : ∀ (f : Flow) (dir : ℚ) (set : Bool),
      (match f with
        | Flow.ret o => o
        | Flow.next q eff =>
          let o := do_work_move dir set q
          { o with eff := eff ++ o.eff }) = f.conclude dir set := by
    intro f dir set
    cases f <;> rfl
  unfold stopOrPause at h1 hc
  unfold do_work do_work_after_collect stopOrPause
  simp only [h1, Flow.next_nil_andThen, do_work_resolution_quiet p m1 m2 m3, hc]
  exact key _ _ _

/-- The cases of the third section of `do_work` when no jog can start
(`stop_or_pause` is set or `JOG_REQ` is clear). -/
theorem do_work_collect_cases (env : Env) (dir : ℚ) (sp : Bool) (p : motorRecord)
    (hstart : ¬ closedLoopDol p → ¬ homeRequested p →
      sp = true ∨ mipHas p.mip MIP_JOG_REQ = false) (P : Flow → Prop)
    (h1 : closedLoopDol p → env.dol = none →
      P (Flow.ret ⟨RTN_STATUS.ERROR, { p with udf := true }, []⟩))
    (h2 : closedLoopDol p → ∀ v, env.dol = some v →
      P (Flow.next { p with val := v, udf := false } []))
    (h3 : ¬ closedLoopDol p → homeRequested p → P (Flow.ret (do_work_home sp p)))
    (h4 : ¬ closedLoopDol p → ¬ homeRequested p → jogReleasedGuard p →
      P (Flow.ret ⟨RTN_STATUS.OK,
        { p with pp := true,
                 mip := mipClear (p.mip ||| MIP_JOG_STOP) (MIP_JOGF ||| MIP_JOGR) },
        [stopAxis]⟩))
    (h5 : ¬ closedLoopDol p → ¬ homeRequested p → ¬ jogReleasedGuard p →
      mipHas p.mip (MIP_JOG_STOP ||| MIP_JOG_BL1 ||| MIP_JOG_BL2) = true →
      P (Flow.ret ⟨RTN_STATUS.OK, p, []⟩))
    (h6 : ¬ closedLoopDol p → ¬ homeRequested p → ¬ jogReleasedGuard p →
      mipHas p.mip (MIP_JOG_STOP ||| MIP_JOG_BL1 ||| MIP_JOG_BL2) = false →
      P (Flow.next (do_work_tweak p) [])) :
    P (do_work_collect env dir sp p) := by
  unfold do_work_collect
  by_cases c1 : closedLoopDol p
  · have c1' : p.omsl = menuOmsl.closed_loop ∧ p.dol_type = LinkType.DB_LINK := c1
    rw [if_pos c1']
    cases hd : env.dol with
    | none => exact h1 c1 hd
    | some v => exact h2 c1 v hd
  · have c1' : ¬ (p.omsl = menuOmsl.closed_loop ∧ p.dol_type = LinkType.DB_LINK) := c1
    rw [if_neg c1']
    by_cases c2 : homeRequested p
    · have c2' : ¬ p.lvio = true ∧
          ((p.homf = true ∧ ¬ mipHas p.mip MIP_HOMF = true ∧ ¬ p.hls = true) ∨
           (p.homr = true ∧ ¬ mipHas p.mip MIP_HOMR = true ∧ ¬ p.lls = true)) := c2
      rw [if_pos c2']
      exact h3 c1 c2
    · have c2' : ¬ (¬ p.lvio = true ∧
          ((p.homf = true ∧ ¬ mipHas p.mip MIP_HOMF = true ∧ ¬ p.hls = true) ∨
           (p.homr = true ∧ ¬ mipHas p.mip MIP_HOMR = true ∧ ¬ p.lls = true))) := c2
      rw [if_neg c2']
      have c3 : ¬ (¬ mipHas p.mip MIP_JOG = true ∧ sp = false ∧ ¬ p.lvio = true ∧
          mipHas p.mip MIP_JOG_REQ = true) := by
        rintro ⟨_, a, _, b⟩
        rcases hstart c1 c2 with hs | hs
        · rw [hs] at a
          exact Bool.noConfusion a
        · rw [hs] at b
          exact Bool.noConfusion b
      rw [if_neg c3]
      by_cases c4 : jogReleasedGuard p
      · have c4' : (p.mip &&& MIP_JOG_REQ) = 0 ∧
            (mipHas p.mip MIP_JOGF = true ∨ mipHas p.mip MIP_JOGR = true) := c4
        rw [if_pos c4']
        exact h4 c1 c2 c4
      · have c4' : ¬ ((p.mip &&& MIP_JOG_REQ) = 0 ∧
            (mipHas p.mip MIP_JOGF = true ∨ mipHas p.mip MIP_JOGR = true)) := c4
        rw [if_neg c4']
        by_cases c5 : mipHas p.mip (MIP_JOG_STOP ||| MIP_JOG_BL1 ||| MIP_JOG_BL2) = true
        · rw [if_pos c5]
          exact h5 c1 c2 c4 c5
        · rw [if_neg c5]
          exact h6 c1 c2 c4 (by simpa using c5)

/-- The cases of `do_work` in Use mode after the collection of `.val`
changes: roll-back on a limit violation, the stop/pause return, the
status-update request, the last section. -/
theorem do_work_after_collect_cases (s u : motorRecord) (hset : s.set = false)
    (P : Outcome → Prop)
    (h1 : (do_work_lvio s.lvio (do_work_val_use (dirSign s.dir) u)).lvio = true →
      P ⟨RTN_STATUS.OK,
         do_work_rollback (do_work_lvio s.lvio (do_work_val_use (dirSign s.dir) u)), []⟩)
    (h2 : (do_work_lvio s.lvio (do_work_val_use (dirSign s.dir) u)).lvio = false →
      stopOrPause s = true →
      P ⟨RTN_STATUS.OK, do_work_lvio s.lvio (do_work_val_use (dirSign s.dir) u), []⟩)
    (h3 : (do_work_lvio s.lvio (do_work_val_use (dirSign s.dir) u)).lvio = false →
      stopOrPause s = false → u.stup = motorSTUP.ON →
      P { do_work_move (dirSign s.dir) false
            { do_work_lvio s.lvio (do_work_val_use (dirSign s.dir) u) with
              stup := motorSTUP.BUSY, nmap.M_STUP := true } with
          eff := [getInfo] ++ (do_work_move (dirSign s.dir) false
            { do_work_lvio s.lvio (do_work_val_use (dirSign s.dir) u) with
              stup := motorSTUP.BUSY, nmap.M_STUP := true }).eff })
    (h4 : (do_work_lvio s.lvio (do_work_val_use (dirSign s.dir) u)).lvio = false →
      stopOrPause s = false → u.stup ≠ motorSTUP.ON →
      P (do_work_move (dirSign s.dir) false
        (do_work_lvio s.lvio (do_work_val_use (dirSign s.dir) u)))) :
    P (do_work_after_collect s u) := by
  obtain ⟨l, m, e⟩ := do_work_lvio_frame s.lvio (do_work_val_use (dirSign s.dir) u)
  obtain ⟨d, m2, e2, _, _, _⟩ := do_work_val_use_frame (dirSign s.dir) u
  have hstup : (do_work_lvio s.lvio (do_work_val_use (dirSign s.dir) u)).stup = u.stup := by
    rw [e, e2]
  unfold do_work_after_collect
  rw [hset, do_work_val_eq_use, Flow.next_nil_andThen]
  unfold do_work_limit
  simp only []
  by_cases c1 : (do_work_lvio s.lvio (do_work_val_use (dirSign s.dir) u)).lvio = true
  · rw [if_pos c1]
    exact h1 c1
  · rw [if_neg c1]
    have c1' : (do_work_lvio s.lvio (do_work_val_use (dirSign s.dir) u)).lvio = false := by
      simpa using c1
    by_cases c2 : stopOrPause s = true
    · rw [if_pos c2]
      exact h2 c1' c2
    · rw [if_neg c2]
      have c2' : stopOrPause s = false := by simpa using c2
      by_cases c3 : (do_work_lvio s.lvio (do_work_val_use (dirSign s.dir) u)).stup =
          motorSTUP.ON
      · rw [if_pos c3]
        exact h3 c1' c2' (hstup ▸ c3)
      · rw [if_neg c3]
        have h := h4 c1' c2' (hstup ▸ c3)
        unfold Flow.conclude
        simpa using h

theorem do_work_lvio_value (old : Bool) (p : motorRecord) :
    (do_work_lvio old p).lvio = true ↔ ¬ limitsDisabled p ∧ limitViolated p := by
  unfold do_work_lvio limitViolated
  simp only []
  by_cases h : limitsDisabled p
  · simp only [if_pos h]
    split_ifs <;> simp [h]
  · simp only [if_neg h]
    split_ifs <;> simp [h]

theorem do_work_dispatch_cases (q : motorRecord) (hr : q.mip ≠ MIP_RETRY) :
    ∃ lv ld lr mi dm rc pp cd m,
      (do_work_dispatch q).pmr =
        { q with lval := lv, ldvl := ld, lrvl := lr, mip := mi, dmov := dm, rcnt := rc,
                 pp := pp, cdir := cd, mmap := m } ∧
      (mi = MIP_MOVE ∨ (mi = q.mip ∧ q.mip ≠ MIP_DONE) ∨
       (mi = q.mip ∧ dm = true ∧ lv = q.val ∧ ld = q.dval ∧ lr = q.rval)) := by
  by_cases hm : q.mip = MIP_DONE
  · obtain ⟨lv, ld, lr, mi, dm, rc, pp, cd, m, e, hc⟩ := do_work_dispatch_outcome q hm
    refine ⟨lv, ld, lr, mi, dm, rc, pp, cd, m, e, ?_⟩
    rcases hc with hc | ⟨a1, a2, a3, a4, a5⟩
    · exact Or.inl hc
    · exact Or.inr (Or.inr ⟨a1.trans hm.symm, a2, a3, a4, a5⟩)
  · obtain ⟨c, m, e⟩ := do_work_rcnt_frame q
    have hmr : (do_work_rcnt q).mip = q.mip := by rw [e]
    have h1 : ¬ (do_work_rcnt q).mip = MIP_DONE := by
      rw [hmr]
      exact hm
    have h2 : ¬ ((do_work_rcnt q).mip = MIP_DONE ∨ (do_work_rcnt q).mip = MIP_RETRY) := by
      rw [hmr]
      rintro (h | h)
      · exact hm h
      · exact hr h
    unfold do_work_dispatch
    simp only []
    rw [if_neg h1, if_neg h2]
    simp only [ite_self]
    rw [e]
    exact ⟨_, _, _, _, _, _, _, _, _, rfl, Or.inr (Or.inl ⟨rfl, hm⟩)⟩

/-- What the last section of `do_work` leaves of a done-moving record whose
MIP is not `RETRY`: a move under way (MIP `MOVE`); or MIP unchanged and not
`DONE`; or nothing changed, with `dval = ldvl`; or the last-commanded copies
equal to the drive fields, with `dmov` true. -/
theorem do_work_move_cases (dir : ℚ) (t : motorRecord) (hd : t.dmov = true)
    (hr : t.mip ≠ MIP_RETRY) :
    ∃ v rv lv ld lr df rd mi dm rc pp cd m,
      (do_work_move dir false t).pmr =
        { t with val := v, rval := rv, lval := lv, ldvl := ld, lrvl := lr, diff := df,
                 rdif := rd, mip := mi, dmov := dm, rcnt := rc, pp := pp, cdir := cd,
                 mmap := m } ∧
      (mi = MIP_MOVE ∨ (mi = t.mip ∧ t.mip ≠ MIP_DONE) ∨
       (mi = t.mip ∧ dm = true ∧ v = t.val ∧ rv = t.rval ∧ lv = t.lval ∧ lr = t.lrvl ∧
        ld = t.ldvl ∧ t.dval = t.ldvl) ∨
       (mi = t.mip ∧ dm = true ∧ t.dval ≠ t.ldvl ∧ lv = v ∧ ld = t.dval ∧ lr = rv)) := by
  obtain ⟨m1, h1⟩ := do_work_diff_frame t
  obtain ⟨m2, h2⟩ := do_work_post_frame dir (do_work_diff t)
  have hq : (do_work_post dir (do_work_diff t)).mip = t.mip := by rw [h2, h1]
  have hqd : (do_work_post dir (do_work_diff t)).dmov = true := by
    rw [h2, h1]
    exact hd
  obtain ⟨lv, ld, lr, mi, dm, rc, pp, cd, m, e, hc⟩ :=
    do_work_dispatch_cases (do_work_post dir (do_work_diff t)) (by rw [hq]; exact hr)
  unfold do_work_move
  simp only [Bool.false_eq_true, if_false]
  by_cases c0 : t.dval ≠ t.ldvl ∨ ¬ t.dmov = true
  · have hne : t.dval ≠ t.ldvl := by
      rcases c0 with c | c
      · exact c
      · exact absurd hd c
    rw [if_pos c0]
    by_cases c1 : NINT ((do_work_diff t).dval / (do_work_diff t).mres) =
        NINT ((do_work_diff t).drbv / (do_work_diff t).mres)
    · rw [if_pos c1, do_work_same_outcome _ hqd, h2, h1]
      exact ⟨_, _, _, _, _, _, _, _, _, _, _, _, _, rfl,
        Or.inr (Or.inr (Or.inr ⟨rfl, hd, hne, rfl, rfl, rfl⟩))⟩
    · rw [if_neg c1, e]
      rw [h2, h1] at hc ⊢
      refine ⟨_, _, _, _, _, _, _, _, _, _, _, _, _, rfl, ?_⟩
      rcases hc with hc | ⟨a1, a2⟩ | ⟨a1, a2, a3, a4, a5⟩
      · exact Or.inl hc
      · exact Or.inr (Or.inl ⟨a1, a2⟩)
      · exact Or.inr (Or.inr (Or.inr ⟨a1, a2, hne, a3, a4, a5⟩))
  · rw [if_neg c0]
    have hdv : t.dval = t.ldvl := by
      by_contra hne
      exact c0 (Or.inl hne)
    exact ⟨_, _, _, _, _, _, _, _, _, _, _, _, _, rfl,
      Or.inr (Or.inr (Or.inl ⟨rfl, hd, rfl, rfl, rfl, rfl, rfl, hdv⟩))⟩

theorem do_work_dispatch_idle (q : motorRecord) (h1 : q.mip ≠ MIP_DONE)
    (h2 : q.mip ≠ MIP_RETRY) : (do_work_dispatch q).eff = [] := by
  obtain ⟨c, m, e⟩ := do_work_rcnt_frame q
  have hmr : (do_work_rcnt q).mip = q.mip := by rw [e]
  have hn1 : ¬ (do_work_rcnt q).mip = MIP_DONE := by
    rw [hmr]
    exact h1
  have hn2 : ¬ ((do_work_rcnt q).mip = MIP_DONE ∨ (do_work_rcnt q).mip = MIP_RETRY) := by
    rw [hmr]
    rintro (h | h)
    · exact h1 h
    · exact h2 h
  unfold do_work_dispatch
  simp only []
  rw [if_neg hn1, if_neg hn2]
  split_ifs <;> rfl

/-- With MIP neither `DONE` nor `RETRY` the last section of `do_work` sends
nothing. -/
theorem do_work_move_idle (dir : ℚ) (p : motorRecord) (h1 : p.mip ≠ MIP_DONE)
    (h2 : p.mip ≠ MIP_RETRY) : (do_work_move dir false p).eff = [] := by
  obtain ⟨m1, e1⟩ := do_work_diff_frame p
  obtain ⟨m2, e2⟩ := do_work_post_frame dir (do_work_diff p)
  have hq : (do_work_post dir (do_work_diff p)).mip = p.mip := by rw [e2, e1]
  unfold do_work_move
  simp only [Bool.false_eq_true, if_false]
  split_ifs
  · rfl
  · exact do_work_dispatch_idle _ (by rw [hq]; exact h1) (by rw [hq]; exact h2)
  · rfl

theorem do_work_after_collect_paused (s u : motorRecord) (hset : s.set = false)
    (hsp : stopOrPause s = true) : (do_work_after_collect s u).eff = [] := by
  apply do_work_after_collect_cases s u hset (fun o => o.eff = [])
  · intro _
    rfl
  · intro _ _
    rfl
  · intro _ h _
    rw [hsp] at h
    exact Bool.noConfusion h
  · intro _ h _
    rw [hsp] at h
    exact Bool.noConfusion h

theorem do_work_after_collect_silent (s u : motorRecord) (hset : s.set = false)
    (h : (do_work_lvio s.lvio (do_work_val_use (dirSign s.dir) u)).lvio = true ∨
      stopOrPause s = true ∨
      (u.stup ≠ motorSTUP.ON ∧
        ((u.mip ≠ MIP_DONE ∧ u.mip ≠ MIP_RETRY) ∨
         (u.dmov = true ∧ (do_work_val_use (dirSign s.dir) u).dval = u.ldvl)))) :
    (do_work_after_collect s u).eff = [] := by
  obtain ⟨l, m, e⟩ := do_work_lvio_frame s.lvio (do_work_val_use (dirSign s.dir) u)
  obtain ⟨d, m2, e2, _, _, _⟩ := do_work_val_use_frame (dirSign s.dir) u
  apply do_work_after_collect_cases s u hset (fun o => o.eff = [])
  · intro _
    rfl
  · intro _ _
    rfl
  · intro c1 c2 c3
    rcases h with h | h | h
    · rw [c1] at h
      exact Bool.noConfusion h
    · rw [c2] at h
      exact Bool.noConfusion h
    · exact absurd c3 h.1
  · intro c1 c2 c3
    rcases h with h | h | ⟨_, h | h⟩
    · rw [c1] at h
      exact Bool.noConfusion h
    · rw [c2] at h
      exact Bool.noConfusion h
    · apply do_work_move_idle
      · rw [e, e2]
        exact h.1
      · rw [e, e2]
        exact h.2
    · have a1 : (do_work_lvio s.lvio (do_work_val_use (dirSign s.dir) u)).dval =
          (do_work_lvio s.lvio (do_work_val_use (dirSign s.dir) u)).ldvl := by
        rw [e]
        show (do_work_val_use (dirSign s.dir) u).dval = (do_work_val_use (dirSign s.dir) u).ldvl
        rw [h.2, e2]
      have a2 : (do_work_lvio s.lvio (do_work_val_use (dirSign s.dir) u)).dmov = true := by
        rw [e, e2]
        exact h.1
      rw [do_work_move_quiet _ _ _ a1 a2]

theorem handedOn_frame (env : Env) (s u : motorRecord) (h : handedOn env s u) :
    ∃ v d r l f1 f2 b m, u =
      { s with val := v, dval := d, rlv := r, lrlv := l, twf := f1, twr := f2, udf := b,
               mmap := m } ∧
      m.M_MRES = s.mmap.M_MRES ∧ m.M_ERES = s.mmap.M_ERES ∧ m.M_UEIP = s.mmap.M_UEIP := by
  rcases h with ⟨_, v, _, e⟩ | ⟨_, e⟩
  · exact ⟨v, _, _, _, _, _, false, _, e, rfl, rfl, rfl⟩
  · obtain ⟨v, d, r, l, f1, f2, m, e1, a1, a2, a3⟩ := do_work_tweak_frame_marks s
    rw [e, e1]
    exact ⟨_, _, _, _, _, _, _, _, rfl, a1, a2, a3⟩

/-- A second-call pattern: on a rested record with no jog
request, no home request and no jog to stop, `do_work` sends nothing when the
target handed on violates a limit, or no status update is requested and
either MIP is neither `DONE` nor `RETRY` or the record is done moving with
its target at the last-commanded position. -/
theorem do_work_calm (env : Env) (s : motorRecord) (hr : rested s)
    (hreq : mipHas s.mip MIP_JOG_REQ = false)
    (hg : closedLoopDol s ∨ (¬ homeRequested s ∧ ¬ jogReleasedGuard s))
    (ht : ∀ u, handedOn env s u →
      (do_work_lvio s.lvio (do_work_val_use (dirSign s.dir) u)).lvio = true ∨
      (s.stup ≠ motorSTUP.ON ∧
        ((s.mip ≠ MIP_DONE ∧ s.mip ≠ MIP_RETRY) ∨
         (s.dmov = true ∧ (do_work_val_use (dirSign s.dir) u).dval = s.ldvl)))) :
    (do_work env s).eff = [] := by
  obtain ⟨r1, r2, r3, r4⟩ := hr
  have hs1 := do_work_spmg_quiet (stopOrPause s) s r1 r2
  have tail : ∀ u, handedOn env s u → (do_work_after_collect s u).eff = [] := by
    intro u hu
    obtain ⟨v, d, r, l, f1, f2, b, m, e, _, _, _⟩ := handedOn_frame env s u hu
    apply do_work_after_collect_silent s u r4
    rcases ht u hu with h | ⟨h1, h2⟩
    · exact Or.inl h
    · right
      right
      refine ⟨by rw [e]; exact h1, ?_⟩
      rcases h2 with h2 | h2
      · left
        rw [e]
        exact h2
      · right
        rw [e]
        rw [e] at h2
        exact h2
  have key := do_work_collect_cases env (dirSign s.dir) (stopOrPause s) s
    (fun _ _ => Or.inr hreq)
    (fun f => do_work_collect env (dirSign s.dir) (stopOrPause s) s = f →
      (do_work env s).eff = [])
    (fun _ _ hc => by rw [do_work_collect_ret env s s _ hs1 r3 hc])
    (fun hl v hd hc => by
      rw [do_work_collect_next env s s _ hs1 r3 hc]
      exact tail _ (Or.inl ⟨hl, v, hd, rfl⟩))
    (fun hl hh _ => by
      rcases hg with hg | hg
      · exact absurd hg hl
      · exact absurd hh hg.1)
    (fun hl _ hj _ => by
      rcases hg with hg | hg
      · exact absurd hg hl
      · exact absurd hj hg.2)
    (fun _ _ _ _ hc => by rw [do_work_collect_ret env s s _ hs1 r3 hc])
    (fun hl _ _ _ hc => by
      rw [do_work_collect_next env s s _ hs1 r3 hc]
      exact tail _ (Or.inr ⟨hl, rfl⟩))
  exact key rfl

/-- A second-call pattern: on a rested record with SPMG at Stop or Pause,
`do_work` sends nothing unless it has a jog to stop. -/
theorem do_work_calm_paused (env : Env) (s : motorRecord) (hr : rested s)
    (hsp : stopOrPause s = true)
    (hg : closedLoopDol s ∨ homeRequested s ∨ ¬ jogReleasedGuard s) :
    (do_work env s).eff = [] := by
  obtain ⟨r1, r2, r3, r4⟩ := hr
  have hs1 := do_work_spmg_quiet (stopOrPause s) s r1 r2
  have hhome : (do_work_home (stopOrPause s) s).eff = [] := by
    unfold do_work_home
    rw [if_pos hsp]
  have key := do_work_collect_cases env (dirSign s.dir) (stopOrPause s) s
    (fun _ _ => Or.inl hsp)
    (fun f => do_work_collect env (dirSign s.dir) (stopOrPause s) s = f →
      (do_work env s).eff = [])
    (fun _ _ hc => by rw [do_work_collect_ret env s s _ hs1 r3 hc])
    (fun _ v _ hc => by
      rw [do_work_collect_next env s s _ hs1 r3 hc]
      exact do_work_after_collect_paused s _ r4 hsp)
    (fun _ _ hc => by
      rw [do_work_collect_ret env s s _ hs1 r3 hc]
      exact hhome)
    (fun hl hh hj _ => by
      rcases hg with hg | hg | hg
      · exact absurd hg hl
      · exact absurd hg hh
      · exact absurd hj hg)
    (fun _ _ _ _ hc => by rw [do_work_collect_ret env s s _ hs1 r3 hc])
    (fun _ _ _ _ hc => by
      rw [do_work_collect_next env s s _ hs1 r3 hc]
      exact do_work_after_collect_paused s _ r4 hsp)
  exact key rfl

/-- A second-call pattern: a rested record whose jog has been stopped (one of
`JOG_STOP`, `JOG_BL1`, `JOG_BL2` in MIP) and that has no home request and no
jog to start or stop: `do_work` returns at once. -/
theorem do_work_calm_jog (env : Env) (s : motorRecord) (hr : rested s)
    (hstart : stopOrPause s = true ∨ mipHas s.mip MIP_JOG_REQ = false)
    (hl : ¬ closedLoopDol s) (hh : ¬ homeRequested s) (hj : ¬ jogReleasedGuard s)
    (hb : mipHas s.mip (MIP_JOG_STOP ||| MIP_JOG_BL1 ||| MIP_JOG_BL2) = true) :
    (do_work env s).eff = [] := by
  obtain ⟨r1, r2, r3, r4⟩ := hr
  have hs1 := do_work_spmg_quiet (stopOrPause s) s r1 r2
  have key := do_work_collect_cases env (dirSign s.dir) (stopOrPause s) s
    (fun _ _ => hstart)
    (fun f => do_work_collect env (dirSign s.dir) (stopOrPause s) s = f →
      (do_work env s).eff = [])
    (fun h _ _ => absurd h hl)
    (fun h _ _ _ => absurd h hl)
    (fun _ h _ => absurd h hh)
    (fun _ _ h _ => absurd h hj)
    (fun _ _ _ _ hc => by rw [do_work_collect_ret env s s _ hs1 r3 hc])
    (fun _ _ _ h _ => by
      rw [hb] at h
      exact Bool.noConfusion h)
  exact key rfl

/-- A second-call pattern: a rested record in closed-loop mode whose link read
fails: `do_work` returns `ERROR` at once. -/
theorem do_work_calm_link (env : Env) (s : motorRecord) (hr : rested s)
    (hl : closedLoopDol s) (hd : env.dol = none) : (do_work env s).eff = [] := by
  obtain ⟨r1, r2, r3, r4⟩ := hr
  have hs1 := do_work_spmg_quiet (stopOrPause s) s r1 r2
  have key := do_work_collect_cases env (dirSign s.dir) (stopOrPause s) s
    (fun h _ => absurd hl h)
    (fun f => do_work_collect env (dirSign s.dir) (stopOrPause s) s = f →
      (do_work env s).eff = [])
    (fun _ _ hc => by rw [do_work_collect_ret env s s _ hs1 r3 hc])
    (fun _ v hv _ => by
      rw [hd] at hv
      exact Option.noConfusion hv)
    (fun h _ _ => absurd hl h)
    (fun h _ _ _ => absurd hl h)
    (fun h _ _ _ _ => absurd hl h)
    (fun h _ _ _ _ => absurd hl h)
  exact key rfl

theorem setup_fields (s t : motorRecord) (h : setup s = setup t) :
    s.spmg = t.spmg ∧ s.lspg = t.lspg ∧ s.stop = t.stop ∧ resMarks s = resMarks t ∧
    s.set = t.set ∧ s.omsl = t.omsl ∧ s.dol_type = t.dol_type ∧ s.dir = t.dir ∧
    s.off = t.off ∧ s.mres = t.mres ∧ s.hls = t.hls ∧ s.lls = t.lls ∧ s.homf = t.homf ∧
    s.homr = t.homr ∧ s.dhlm = t.dhlm ∧ s.dllm = t.dllm ∧ s.bdst = t.bdst := by
  unfold setup at h
  simp only [Prod.mk.injEq] at h
  exact h

theorem rested_of_setup (s t : motorRecord) (h : setup s = setup t) (ht : rested t) :
    rested s := by
  obtain ⟨a1, a2, a3, a4, a5, _⟩ := setup_fields s t h
  obtain ⟨r1, r2, r3, r4⟩ := ht
  exact ⟨by rw [a1, a2]; exact r1, a3.trans r2, a4.trans r3, a5.trans r4⟩

theorem stopOrPause_of_setup (s t : motorRecord) (h : setup s = setup t) :
    stopOrPause s = stopOrPause t := by
  obtain ⟨a1, _⟩ := setup_fields s t h
  unfold stopOrPause
  rw [a1]

theorem closedLoopDol_of_setup (s t : motorRecord) (h : setup s = setup t) :
    closedLoopDol s ↔ closedLoopDol t := by
  obtain ⟨_, _, _, _, _, a6, a7, _⟩ := setup_fields s t h
  unfold closedLoopDol
  rw [a6, a7]

theorem noHomeButton_of_setup (s t : motorRecord) (h : setup s = setup t)
    (ht : noHomeButton t) : noHomeButton s := by
  obtain ⟨_, _, _, _, _, _, _, _, _, _, a11, a12, a13, a14, _⟩ := setup_fields s t h
  unfold noHomeButton
  rw [a11, a12, a13, a14]
  exact ht

theorem homeRequested_of_noHomeButton (s : motorRecord) (h : noHomeButton s) :
    ¬ homeRequested s := by
  rintro ⟨_, ⟨a, _, b⟩ | ⟨a, _, b⟩⟩
  · exact b (h.1 a)
  · exact b (h.2 a)

theorem jogReleasedGuard_congr (s t : motorRecord) (h : s.mip = t.mip) :
    jogReleasedGuard s ↔ jogReleasedGuard t := by
  unfold jogReleasedGuard
  rw [h]

theorem setup_tweak (p : motorRecord) : setup (do_work_tweak p) = setup p := by
  obtain ⟨v, d, r, l, f1, f2, m, e, a1, a2, a3⟩ := do_work_tweak_frame_marks p
  have hm : resMarks (do_work_tweak p) = resMarks p := by
    rw [e]
    unfold resMarks
    simp only [a1, a2, a3]
  unfold setup
  rw [hm, e]

theorem setup_val_use (dir : ℚ) (p : motorRecord) :
    setup (do_work_val_use dir p) = setup p := by
  obtain ⟨d, m, e, a1, a2, a3⟩ := do_work_val_use_frame dir p
  have hm : resMarks (do_work_val_use dir p) = resMarks p := by
    rw [e]
    unfold resMarks
    simp only [a1, a2, a3]
  unfold setup
  rw [hm, e]

theorem setup_lvio (old : Bool) (p : motorRecord) :
    setup (do_work_lvio old p) = setup p := by
  obtain ⟨l, m, e, a1, a2, a3⟩ := do_work_lvio_frame_marks old p
  have hm : resMarks (do_work_lvio old p) = resMarks p := by
    rw [e]
    unfold resMarks
    simp only [a1, a2, a3]
  unfold setup
  rw [hm, e]

theorem do_work_rollback_shape (t : motorRecord) :
    ∃ dm m, do_work_rollback t =
      { t with val := t.lval, dval := t.ldvl, rval := t.lrvl, dmov := dm, mmap := m } ∧
      (dm = true ∨ (dm = t.dmov ∧ t.mip ≠ MIP_DONE)) := by
  unfold do_work_rollback
  simp only []
  by_cases h : t.mip = MIP_DONE
  · rw [if_pos h]
    exact ⟨_, _, rfl, Or.inl rfl⟩
  · rw [if_neg h]
    exact ⟨_, _, rfl, Or.inr ⟨rfl, h⟩⟩

theorem setup_rollback (p : motorRecord) : setup (do_work_rollback p) = setup p := by
  obtain ⟨dm, m, e, _⟩ := do_work_rollback_shape p
  have hm := resMarks_rollback p
  unfold setup
  rw [hm, e]

theorem setup_handedOn (env : Env) (s u : motorRecord) (h : handedOn env s u) :
    setup u = setup s := by
  rcases h with ⟨_, v, _, e⟩ | ⟨_, e⟩
  · rw [e]
    rfl
  · rw [e]
    exact setup_tweak s

theorem mipHas_of_testBit (x b i : ℕ) (h1 : x.testBit i = true) (h2 : b.testBit i = true) :
    mipHas x b = true := by
  unfold mipHas
  have h : (x &&& b).testBit i = true := by
    rw [Nat.testBit_and, h1, h2]
    rfl
  have hne : x &&& b ≠ 0 := by
    intro h0
    rw [h0, Nat.zero_testBit] at h
    exact Bool.noConfusion h
  simpa using hne

/-- The MIP value left by the "stop jogging" block: `JOG_STOP` is set, `JOGF`
and `JOGR` are clear, and `JOG_REQ`, `HOMF`, `HOMR` are as before. -/
theorem mip_jog_stop (m : ℕ) :
    mipHas (mipClear (m ||| MIP_JOG_STOP) (MIP_JOGF ||| MIP_JOGR))
      (MIP_JOG_STOP ||| MIP_JOG_BL1 ||| MIP_JOG_BL2) = true ∧
    mipHas (mipClear (m ||| MIP_JOG_STOP) (MIP_JOGF ||| MIP_JOGR)) MIP_JOGF = false ∧
    mipHas (mipClear (m ||| MIP_JOG_STOP) (MIP_JOGF ||| MIP_JOGR)) MIP_JOGR = false ∧
    mipHas (mipClear (m ||| MIP_JOG_STOP) (MIP_JOGF ||| MIP_JOGR)) MIP_JOG_REQ =
      mipHas m MIP_JOG_REQ := by
  refine ⟨?_, ?_, ?_, ?_⟩
  · apply mipHas_of_testBit _ _ 13
    · unfold mipClear
      rw [Nat.testBit_and, Nat.testBit_or]
      have h1 : MIP_JOG_STOP.testBit 13 = true := by decide
      have h2 : (0xFFFF ^^^ (MIP_JOGF ||| MIP_JOGR)).testBit 13 = true := by decide
      rw [h1, h2]
      simp
    · decide
  · exact mipHas_clear_of_subset _ _ _ (by decide)
  · exact mipHas_clear_of_subset _ _ _ (by decide)
  · rw [mipHas_clear_of_disjoint _ _ _ (by decide), mipHas_or_disjoint _ _ _ (by decide)]

theorem do_work_val_use_dval (dir : ℚ) (r : motorRecord) :
    (do_work_val_use dir r).dval = if r.val ≠ r.lval then (r.val - r.off) / dir else r.dval := by
  unfold do_work_val_use
  split_ifs <;> rfl

theorem do_work_lvio_dval (old : Bool) (p : motorRecord) :
    (do_work_lvio old p).dval = p.dval := by
  obtain ⟨l, m, e⟩ := do_work_lvio_frame old p
  rw [e]

/-- Whether `do_work` records a limit violation depends on the dial target,
the dial limits and the backlash distance only. -/
theorem do_work_lvio_congr (old1 old2 : Bool) (a b : motorRecord) (h1 : a.dval = b.dval)
    (h2 : a.dhlm = b.dhlm) (h3 : a.dllm = b.dllm) (h4 : a.bdst = b.bdst)
    (h : (do_work_lvio old1 a).lvio = true) : (do_work_lvio old2 b).lvio = true := by
  rw [do_work_lvio_value] at h ⊢
  unfold limitsDisabled limitViolated at h ⊢
  rw [← h1, ← h2, ← h3, ← h4]
  exact h

/-- Re-collection on a record whose target has been collected: with no
tweak or relative move pending and `dval` what a changed `val` or `rval` asks
for, the tweak and `.val` sections leave `dval` as it is. -/
theorem recollect_tweak (t : motorRecord) (h : collected t) :
    (do_work_val_use (dirSign t.dir) (do_work_tweak t)).dval = t.dval := by
  have h1 := target_of_collected t h
  unfold do_work_target at h1
  rw [do_work_lvio_dval] at h1
  exact h1

/-- The second call after the last section of `do_work` has run on `t`: on a
rested, done-moving record with its target collected, no jog request, no home
request, no jog to stop and no status-update request, the record left by the
last section makes the next `do_work` send nothing. -/
theorem second_after_move (env : Env) (dir : ℚ) (t : motorRecord) (hdir : dirSign t.dir = dir)
    (hr : rested t) (hd : t.dmov = true) (hm : t.mip ≠ MIP_RETRY)
    (hreq : mipHas t.mip MIP_JOG_REQ = false) (hstup : t.stup ≠ motorSTUP.ON)
    (hg : closedLoopDol t ∨ (noHomeButton t ∧ ¬ jogReleasedGuard t))
    (hlink : closedLoopDol t → ∀ v, env.dol = some v →
      (v ≠ t.lval → t.dval = (v - t.off) / dirSign t.dir) ∧ (v = t.lval → t.dval = t.ldvl))
    (hcol : ¬ closedLoopDol t → collected t) :
    (do_work env (do_work_move dir false t).pmr).eff = [] := by
  subst hdir
  obtain ⟨v, rv, lv, ld, lr, df, rd, mi, dm, rc, pp, cd, m, e, hc⟩ :=
    do_work_move_cases (dirSign t.dir) t hd hm
  have hmarks := resMarks_move (dirSign t.dir) t
  have hsetup : setup (do_work_move (dirSign t.dir) false t).pmr = setup t := by
    unfold setup
    rw [hmarks, e]
  have hr1 := rested_of_setup _ _ hsetup hr
  have hcl := closedLoopDol_of_setup _ _ hsetup
  have hmi : mi = MIP_MOVE ∨ mi = t.mip := by
    rcases hc with h | ⟨h, _⟩ | ⟨h, _⟩ | ⟨h, _⟩
    · exact Or.inl h
    · exact Or.inr h
    · exact Or.inr h
    · exact Or.inr h
  have e_mip : (do_work_move (dirSign t.dir) false t).pmr.mip = mi := by rw [e]
  have e_stup : (do_work_move (dirSign t.dir) false t).pmr.stup = t.stup := by rw [e]
  have e_dir : (do_work_move (dirSign t.dir) false t).pmr.dir = t.dir := by rw [e]
  have e_ldvl : (do_work_move (dirSign t.dir) false t).pmr.ldvl = ld := by rw [e]
  have e_dmov : (do_work_move (dirSign t.dir) false t).pmr.dmov = dm := by rw [e]
  apply do_work_calm env _ hr1
  · rw [e_mip]
    rcases hmi with h | h
    · rw [h]
      decide
    · rw [h]
      exact hreq
  · by_cases c : closedLoopDol t
    · exact Or.inl (hcl.mpr c)
    · right
      rcases hg with hg | ⟨g1, g2⟩
      · exact absurd hg c
      · refine ⟨homeRequested_of_noHomeButton _ (noHomeButton_of_setup _ _ hsetup g1), ?_⟩
        rcases hmi with h | h
        · unfold jogReleasedGuard
          rw [e_mip, h]
          decide
        · rw [jogReleasedGuard_congr _ t (e_mip.trans h)]
          exact g2
  · intro u hu
    right
    refine ⟨by rw [e_stup]; exact hstup, ?_⟩
    rcases hc with h | ⟨h1, h2⟩ | ⟨h1, h2, h3, h4, h5, h6, h7, h8⟩ | ⟨h1, h2, h3, h4, h5, h6⟩
    · left
      rw [e_mip, h]
      exact ⟨by decide, by decide⟩
    · left
      rw [e_mip, h1]
      exact ⟨h2, hm⟩
    · right
      refine ⟨by rw [e_dmov]; exact h2, ?_⟩
      rw [e_ldvl, e_dir, h7]
      subst h3 h4 h5 h6
      rcases hu with ⟨hl, v', hv, eu⟩ | ⟨hl, eu⟩
      · have hlt := hcl.mp hl
        obtain ⟨k1, k2⟩ := hlink hlt v' hv
        rw [eu, do_work_val_use_dval, e]
        show (if v' ≠ t.lval then (v' - t.off) / dirSign t.dir else t.dval) = t.ldvl
        by_cases c : v' ≠ t.lval
        · rw [if_pos c, ← k1 c]
          exact h8
        · rw [if_neg c]
          exact h8
      · have hlt : ¬ closedLoopDol t := fun c => hl (hcl.mpr c)
        have hcs : collected (do_work_move (dirSign t.dir) false t).pmr := by
          rw [e]
          exact hcol hlt
        have := recollect_tweak _ hcs
        rw [e_dir] at this
        rw [eu, this, e]
        exact h8
    · right
      refine ⟨by rw [e_dmov]; exact h2, ?_⟩
      rw [e_ldvl, e_dir, h5]
      subst h4 h6
      rcases hu with ⟨hl, v', hv, eu⟩ | ⟨hl, eu⟩
      · have hlt := hcl.mp hl
        obtain ⟨k1, k2⟩ := hlink hlt v' hv
        rw [eu, do_work_val_use_dval, e]
        show (if v' ≠ lv then (v' - t.off) / dirSign t.dir else t.dval) = t.dval
        by_cases c : v' ≠ lv
        · rw [if_pos c]
          by_cases c2 : v' = t.lval
          · exact absurd (k2 c2) h3
          · exact (k1 c2).symm
        · rw [if_neg c]
      · have hlt : ¬ closedLoopDol t := fun c => hl (hcl.mpr c)
        obtain ⟨c1, c2, c3, _, _⟩ := hcol hlt
        have hcs : collected (do_work_move (dirSign t.dir) false t).pmr := by
          rw [e]
          exact ⟨c1, c2, c3, fun hne => absurd rfl hne, fun _ hne => absurd rfl hne⟩
        have := recollect_tweak _ hcs
        rw [e_dir] at this
        rw [eu, this, e]

/-- The second call after a roll-back: the record left by the limit-violation
return of `do_work` makes the next `do_work` send nothing, when no status
update is requested. -/
theorem second_after_rollback (env : Env) (t : motorRecord) (hr : rested t)
    (hd : t.dmov = true) (hreq : mipHas t.mip MIP_JOG_REQ = false)
    (hstup : t.stup ≠ motorSTUP.ON)
    (hg : closedLoopDol t ∨ (noHomeButton t ∧ ¬ jogReleasedGuard t))
    (hviol : ∀ (old : Bool) (b : motorRecord), b.dval = t.dval → b.dhlm = t.dhlm →
      b.dllm = t.dllm → b.bdst = t.bdst → (do_work_lvio old b).lvio = true)
    (hlink : closedLoopDol t → ∀ v, env.dol = some v → v ≠ t.lval →
      t.dval = (v - t.off) / dirSign t.dir)
    (htw : ¬ closedLoopDol t → t.twf = false ∧ t.twr = false ∧ t.rlv = t.lrlv) :
    (do_work env (do_work_rollback t)).eff = [] := by
  obtain ⟨dm, m, e, hdm⟩ := do_work_rollback_shape t
  have hdm' : dm = true := by
    rcases hdm with h | ⟨h, _⟩
    · exact h
    · exact h.trans hd
  have hsetup := setup_rollback t
  have hr1 := rested_of_setup _ _ hsetup hr
  have hcl := closedLoopDol_of_setup _ _ hsetup
  have e_mip : (do_work_rollback t).mip = t.mip := by rw [e]
  have e_stup : (do_work_rollback t).stup = t.stup := by rw [e]
  have e_dir : (do_work_rollback t).dir = t.dir := by rw [e]
  have e_ldvl : (do_work_rollback t).ldvl = t.ldvl := by rw [e]
  have e_dmov : (do_work_rollback t).dmov = true := by rw [e, ← hdm']
  apply do_work_calm env _ hr1
  · rw [e_mip]
    exact hreq
  · by_cases c : closedLoopDol t
    · exact Or.inl (hcl.mpr c)
    · right
      rcases hg with hg | ⟨g1, g2⟩
      · exact absurd hg c
      · refine ⟨homeRequested_of_noHomeButton _ (noHomeButton_of_setup _ _ hsetup g1), ?_⟩
        rw [jogReleasedGuard_congr _ t e_mip]
        exact g2
  · intro u hu
    rcases hu with ⟨hl, v', hv, eu⟩ | ⟨hl, eu⟩
    · have hlt := hcl.mp hl
      by_cases c : v' ≠ t.lval
      · left
        obtain ⟨d2, m2, e2, _, _, _⟩ :=
          do_work_val_use_frame (dirSign (do_work_rollback t).dir) u
        apply hviol
        · rw [do_work_val_use_dval, eu, e_dir, e]
          show (if v' ≠ t.lval then (v' - t.off) / dirSign t.dir else t.ldvl) = t.dval
          rw [if_pos c]
          exact (hlink hlt v' hv c).symm
        · rw [e2, eu, e]
        · rw [e2, eu, e]
        · rw [e2, eu, e]
      · right
        refine ⟨by rw [e_stup]; exact hstup, Or.inr ⟨e_dmov, ?_⟩⟩
        rw [do_work_val_use_dval, eu, e_ldvl, e]
        show (if v' ≠ t.lval then (v' - t.off) / dirSign t.dir else t.ldvl) = t.ldvl
        rw [if_neg c]
    · right
      refine ⟨by rw [e_stup]; exact hstup, Or.inr ⟨e_dmov, ?_⟩⟩
      have hlt : ¬ closedLoopDol t := fun c => hl (hcl.mpr c)
      obtain ⟨c1, c2, c3⟩ := htw hlt
      have hcs : collected (do_work_rollback t) := by
        rw [e]
        exact ⟨c1, c2, c3, fun hne => absurd rfl hne, fun _ hne => absurd rfl hne⟩
      have := recollect_tweak _ hcs
      rw [eu, this, e]

theorem handedOn_fields (env : Env) (p u : motorRecord) (hu : handedOn env p u) (old : Bool)
    (dir : ℚ) :
    (do_work_lvio old (do_work_val_use dir u)).mip = p.mip ∧
    (do_work_lvio old (do_work_val_use dir u)).dmov = p.dmov ∧
    (do_work_lvio old (do_work_val_use dir u)).stup = p.stup ∧
    (do_work_lvio old (do_work_val_use dir u)).lval = p.lval ∧
    (do_work_lvio old (do_work_val_use dir u)).ldvl = p.ldvl ∧
    (do_work_lvio old (do_work_val_use dir u)).off = p.off ∧
    (do_work_lvio old (do_work_val_use dir u)).dir = p.dir ∧ u.stup = p.stup := by
  obtain ⟨v, d, r, l, f1, f2, b, m, e1, _, _, _⟩ := handedOn_frame env p u hu
  obtain ⟨d2, m2, e2, _, _, _⟩ := do_work_val_use_frame dir u
  obtain ⟨l3, m3, e3⟩ := do_work_lvio_frame old (do_work_val_use dir u)
  rw [e3, e2, e1]
  exact ⟨rfl, rfl, rfl, rfl, rfl, rfl, rfl, rfl⟩

/-- Second call, tail of the target family: after the limit test and the
last section of a first call on a rested, done-moving record. -/
theorem second_call_target_tail (env : Env) (p u : motorRecord) (hr : rested p)
    (hsp : stopOrPause p = false) (hd : p.dmov = true)
    (hreq : mipHas p.mip MIP_JOG_REQ = false) (hm : p.mip ≠ MIP_RETRY)
    (hnb : closedLoopDol p ∨ (noHomeButton p ∧ ¬ jogReleasedGuard p))
    (hL : closedLoopDol p → p.dval = p.ldvl)
    (hS : p.stup = motorSTUP.ON → (do_work env p).pmr.lvio = false)
    (hu : handedOn env p u) (hfirst : do_work env p = do_work_after_collect p u) :
    (do_work env (do_work env p).pmr).eff = [] := by
  obtain ⟨f1, f2, f3, f4, f5, f6, f7, f8⟩ := handedOn_fields env p u hu p.lvio (dirSign p.dir)
  have hsetup : setup (do_work_lvio p.lvio (do_work_val_use (dirSign p.dir) u)) = setup p :=
    (setup_lvio _ _).trans ((setup_val_use _ _).trans (setup_handedOn env p u hu))
  have hrq := rested_of_setup _ _ hsetup hr
  have hclq := closedLoopDol_of_setup _ _ hsetup
  have hdq : (do_work_lvio p.lvio (do_work_val_use (dirSign p.dir) u)).dmov = true :=
    f2.trans hd
  have hreqq : mipHas (do_work_lvio p.lvio (do_work_val_use (dirSign p.dir) u)).mip
      MIP_JOG_REQ = false := by
    rw [f1]
    exact hreq
  have hmq : (do_work_lvio p.lvio (do_work_val_use (dirSign p.dir) u)).mip ≠ MIP_RETRY := by
    rw [f1]
    exact hm
  have hgq : closedLoopDol (do_work_lvio p.lvio (do_work_val_use (dirSign p.dir) u)) ∨
      (noHomeButton (do_work_lvio p.lvio (do_work_val_use (dirSign p.dir) u)) ∧
       ¬ jogReleasedGuard (do_work_lvio p.lvio (do_work_val_use (dirSign p.dir) u))) := by
    rcases hnb with h | ⟨h1, h2⟩
    · exact Or.inl (hclq.mpr h)
    · right
      refine ⟨noHomeButton_of_setup _ _ hsetup h1, ?_⟩
      rw [jogReleasedGuard_congr _ p f1]
      exact h2
  have hlinkq : closedLoopDol (do_work_lvio p.lvio (do_work_val_use (dirSign p.dir) u)) →
      ∀ v, env.dol = some v →
      (v ≠ (do_work_lvio p.lvio (do_work_val_use (dirSign p.dir) u)).lval →
        (do_work_lvio p.lvio (do_work_val_use (dirSign p.dir) u)).dval =
          (v - (do_work_lvio p.lvio (do_work_val_use (dirSign p.dir) u)).off) /
            dirSign (do_work_lvio p.lvio (do_work_val_use (dirSign p.dir) u)).dir) ∧
      (v = (do_work_lvio p.lvio (do_work_val_use (dirSign p.dir) u)).lval →
        (do_work_lvio p.lvio (do_work_val_use (dirSign p.dir) u)).dval =
          (do_work_lvio p.lvio (do_work_val_use (dirSign p.dir) u)).ldvl) := by
    intro hl v hv
    rw [f4, f5, f6, f7, do_work_lvio_dval, do_work_val_use_dval]
    rcases hu with ⟨hlp, v0, hv0, eu⟩ | ⟨hlp, _⟩
    · have hvv : v0 = v := by
        rw [hv0] at hv
        exact Option.some.inj hv
      subst hvv
      rw [eu]
      show (v0 ≠ p.lval →
          (if v0 ≠ p.lval then (v0 - p.off) / dirSign p.dir else p.dval) =
            (v0 - p.off) / dirSign p.dir) ∧
        (v0 = p.lval →
          (if v0 ≠ p.lval then (v0 - p.off) / dirSign p.dir else p.dval) = p.ldvl)
      constructor
      · intro c
        rw [if_pos c]
      · intro c
        rw [if_neg (not_not.mpr c)]
        exact hL hlp
    · exact absurd (hclq.mp hl) hlp
  have hcolq : ¬ closedLoopDol (do_work_lvio p.lvio (do_work_val_use (dirSign p.dir) u)) →
      collected (do_work_lvio p.lvio (do_work_val_use (dirSign p.dir) u)) := by
    intro hl
    rcases hu with ⟨hlp, _⟩ | ⟨_, eu⟩
    · exact absurd (hclq.mpr hlp) hl
    · rw [eu]
      exact collected_target p
  have key := do_work_after_collect_cases p u hr.2.2.2
    (fun o => do_work env p = o → (do_work env o.pmr).eff = [])
    (fun hl heq => by
      have hst : p.stup ≠ motorSTUP.ON := by
        intro hon
        have h := hS hon
        rw [heq] at h
        obtain ⟨dm, m, e, _⟩ :=
          do_work_rollback_shape (do_work_lvio p.lvio (do_work_val_use (dirSign p.dir) u))
        have h' : (do_work_rollback
            (do_work_lvio p.lvio (do_work_val_use (dirSign p.dir) u))).lvio = false := h
        rw [e] at h'
        have hlq : (do_work_lvio p.lvio (do_work_val_use (dirSign p.dir) u)).lvio = false := h'
        rw [hl] at hlq
        exact Bool.noConfusion hlq
      obtain ⟨l3, m3, e3⟩ := do_work_lvio_frame p.lvio (do_work_val_use (dirSign p.dir) u)
      exact second_after_rollback env _ hrq hdq hreqq (by rw [f3]; exact hst) hgq
        (fun old b b1 b2 b3 b4 =>
          do_work_lvio_congr p.lvio old (do_work_val_use (dirSign p.dir) u) b
            (by rw [b1, do_work_lvio_dval]) (by rw [b2, e3]) (by rw [b3, e3]) (by rw [b4, e3])
            hl)
        (fun hl' v hv c => (hlinkq hl' v hv).1 c)
        (fun hl' => by
          obtain ⟨c1, c2, c3, _, _⟩ := hcolq hl'
          exact ⟨c1, c2, c3⟩))
    (fun _ h _ => by
      rw [hsp] at h
      exact Bool.noConfusion h)
    (fun _ _ _ _ =>
      second_after_move env (dirSign p.dir)
        { do_work_lvio p.lvio (do_work_val_use (dirSign p.dir) u) with
          stup := motorSTUP.BUSY, nmap.M_STUP := true }
        (congrArg dirSign f7) hrq hdq hmq hreqq (fun h => motorSTUP.noConfusion h) hgq hlinkq
        hcolq)
    (fun _ _ hst _ =>
      second_after_move env (dirSign p.dir)
        (do_work_lvio p.lvio (do_work_val_use (dirSign p.dir) u))
        (congrArg dirSign f7) hrq hdq hmq hreqq (by rw [f3, ← f8]; exact hst) hgq hlinkq
        hcolq)
  rw [hfirst]
  exact key hfirst

theorem rested_jog_stop (p : motorRecord) (hr : rested p) (m : ℕ) :
    rested { p with pp := true, mip := m } := hr

theorem noHomeButton_jog_stop (p : motorRecord) (h : noHomeButton p) (m : ℕ) :
    noHomeButton { p with pp := true, mip := m } := h

/-- Second call, target family: on a rested, done-moving record outside
Stop/Pause with no jog request, MIP other than `RETRY`, no home request, a
closed-loop link only with `dval = ldvl`, and a status-update request only
when the first call records no limit violation, the second of two successive
calls of `do_work` sends nothing. -/
theorem second_call_target (env : Env) (p : motorRecord) (hr : rested p)
    (hsp : stopOrPause p = false) (hd : p.dmov = true)
    (hreq : mipHas p.mip MIP_JOG_REQ = false) (hm : p.mip ≠ MIP_RETRY)
    (hnb : closedLoopDol p ∨ noHomeButton p)
    (hL : closedLoopDol p → p.dval = p.ldvl)
    (hS : p.stup = motorSTUP.ON → (do_work env p).pmr.lvio = false) :
    (do_work env (do_work env p).pmr).eff = [] := by
  have hs1 := do_work_spmg_quiet (stopOrPause p) p hr.1 hr.2.1
  have r3 := hr.2.2.1
  have key := do_work_collect_cases env (dirSign p.dir) (stopOrPause p) p
    (fun _ _ => Or.inr hreq)
    (fun f => do_work_collect env (dirSign p.dir) (stopOrPause p) p = f →
      (do_work env (do_work env p).pmr).eff = [])
    (fun hl hdol hc => by
      rw [do_work_collect_ret env p p _ hs1 r3 hc]
      exact do_work_calm_link env _ (show rested { p with udf := true } from hr) hl hdol)
    (fun hl v hv hc =>
      second_call_target_tail env p _ hr hsp hd hreq hm (Or.inl hl) hL hS
        (Or.inl ⟨hl, v, hv, rfl⟩) (do_work_collect_next env p p _ hs1 r3 hc))
    (fun hl hh _ => by
      rcases hnb with h | h
      · exact absurd h hl
      · exact absurd hh (homeRequested_of_noHomeButton p h))
    (fun hl hh _ hc => by
      rw [do_work_collect_ret env p p _ hs1 r3 hc]
      obtain ⟨b1, b2, b3, b4⟩ := mip_jog_stop p.mip
      have hnbp : noHomeButton p := by
        rcases hnb with h | h
        · exact absurd h hl
        · exact h
      exact do_work_calm_jog env _
        (rested_jog_stop p hr _) (Or.inr (b4.trans hreq)) hl
        (homeRequested_of_noHomeButton _ (noHomeButton_jog_stop p hnbp _))
        (by
          rintro ⟨_, h | h⟩
          · have h' : mipHas (mipClear (p.mip ||| MIP_JOG_STOP) (MIP_JOGF ||| MIP_JOGR))
                MIP_JOGF = true := h
            rw [b2] at h'
            exact Bool.noConfusion h'
          · have h' : mipHas (mipClear (p.mip ||| MIP_JOG_STOP) (MIP_JOGF ||| MIP_JOGR))
                MIP_JOGR = true := h
            rw [b3] at h'
            exact Bool.noConfusion h')
        b1)
    (fun hl hh hj hb hc => by
      rw [do_work_collect_ret env p p _ hs1 r3 hc]
      exact do_work_calm_jog env p hr (Or.inr hreq) hl hh hj hb)
    (fun hl hh hj _ hc => by
      have hnbp : noHomeButton p := by
        rcases hnb with h | h
        · exact absurd h hl
        · exact h
      exact second_call_target_tail env p _ hr hsp hd hreq hm (Or.inr ⟨hnbp, hj⟩) hL hS
        (Or.inr ⟨hl, rfl⟩) (do_work_collect_next env p p _ hs1 r3 hc))
  exact key rfl

/-- The record left by a home search started by `do_work`: MIP is `HOMF` or
`HOMR`, with `STOP` added when the motor was moving; the marks `MRES`,
`ERES`, `UEIP` are as before when the motor was moving or `eres` is not
zero. -/
theorem do_work_home_start (p : motorRecord)
    (hlim : limitsDisabled p ∨
      ¬ ((p.homf = true ∧ p.dval > p.dhlm - p.velo) ∨
         (p.homr = true ∧ p.dval < p.dllm + p.velo))) :
    ∃ mi dm rc er mm, (do_work_home false p).pmr =
      { p with mip := mi, pp := true, eres := er, dmov := dm, rcnt := rc, mmap := mm } ∧
      (mi = (if p.homf = true then MIP_HOMF else MIP_HOMR) ∨
       mi = (if p.homf = true then MIP_HOMF else MIP_HOMR) ||| MIP_STOP) ∧
      (p.movn = true ∨ p.eres ≠ 0 →
        mm.M_MRES = p.mmap.M_MRES ∧ mm.M_ERES = p.mmap.M_ERES ∧ mm.M_UEIP = p.mmap.M_UEIP) := by
  have hnb : ¬ (¬ limitsDisabled p ∧
      ((p.homf = true ∧ p.dval > p.dhlm - p.velo) ∨
       (p.homr = true ∧ p.dval < p.dllm + p.velo))) := by
    rintro ⟨a, b⟩
    rcases hlim with h | h
    · exact a h
    · exact h b
  unfold do_work_home
  rw [if_neg (by decide), if_neg hnb]
  simp only []
  by_cases hmv : p.movn = true
  · rw [if_pos hmv]
    exact ⟨_, _, _, _, _, rfl, Or.inr rfl, fun _ => ⟨rfl, rfl, rfl⟩⟩
  · rw [if_neg hmv]
    by_cases he : p.eres = 0
    · rw [if_pos he]
      refine ⟨_, _, _, _, _, rfl, Or.inl rfl, ?_⟩
      rintro (h | h)
      · exact absurd h hmv
      · exact absurd he h
    · rw [if_neg he]
      exact ⟨_, _, _, _, _, rfl, Or.inl rfl, fun _ => ⟨rfl, rfl, rfl⟩⟩

/-- Second call, home family: on a rested record outside Stop/Pause with no
closed-loop link, no limit violation recorded, exactly one home button
asserted (its limit switch off, its search not in MIP, the soft limit not in
the way), `eres` nonzero or the motor moving, and no status-update request,
the second of two successive calls of `do_work` sends nothing. -/
theorem second_call_home (env : Env) (p : motorRecord) (hr : rested p)
    (hsp : stopOrPause p = false) (hl : ¬ closedLoopDol p) (hlvio : p.lvio = false)
    (hb : (p.homf = true ∧ p.homr = false ∧ p.hls = false ∧ mipHas p.mip MIP_HOMF = false) ∨
          (p.homr = true ∧ p.homf = false ∧ p.lls = false ∧ mipHas p.mip MIP_HOMR = false))
    (hlim : limitsDisabled p ∨
      ¬ ((p.homf = true ∧ p.dval > p.dhlm - p.velo) ∨
         (p.homr = true ∧ p.dval < p.dllm + p.velo)))
    (he : p.movn = true ∨ p.eres ≠ 0) (hstup : p.stup ≠ motorSTUP.ON) :
    (do_work env (do_work env p).pmr).eff = [] := by
  have hs1 := do_work_spmg_quiet (stopOrPause p) p hr.1 hr.2.1
  have r3 := hr.2.2.1
  have hh : homeRequested p := by
    refine ⟨by rw [hlvio]; exact Bool.noConfusion, ?_⟩
    rcases hb with ⟨a, _, b, c⟩ | ⟨a, _, b, c⟩
    · exact Or.inl ⟨a, by rw [c]; exact Bool.noConfusion, by rw [b]; exact Bool.noConfusion⟩
    · exact Or.inr ⟨a, by rw [c]; exact Bool.noConfusion, by rw [b]; exact Bool.noConfusion⟩
  have hc : do_work_collect env (dirSign p.dir) (stopOrPause p) p =
      Flow.ret (do_work_home (stopOrPause p) p) :=
    do_work_collect_cases env (dirSign p.dir) (stopOrPause p) p
      (fun _ h => absurd hh h)
      (fun f => f = Flow.ret (do_work_home (stopOrPause p) p))
      (fun h _ => absurd h hl) (fun h _ _ => absurd h hl) (fun _ _ => rfl)
      (fun _ h _ => absurd hh h) (fun _ h _ _ => absurd hh h) (fun _ h _ _ => absurd hh h)
  rw [do_work_collect_ret env p p _ hs1 r3 hc, hsp]
  obtain ⟨mi, dm, rc, er, mm, e, hmi, hmm⟩ := do_work_home_start p hlim
  obtain ⟨k1, k2, k3⟩ := hmm he
  have hmarks : resMarks (do_work_home false p).pmr = resMarks p := by
    rw [e]
    unfold resMarks
    simp only [k1, k2, k3]
  have hsetup : setup (do_work_home false p).pmr = setup p := by
    unfold setup
    rw [hmarks, e]
  have hr1 := rested_of_setup _ _ hsetup hr
  have e_mip : (do_work_home false p).pmr.mip = mi := by rw [e]
  have e_stup : (do_work_home false p).pmr.stup = p.stup := by rw [e]
  have e_lvio : (do_work_home false p).pmr.lvio = p.lvio := by rw [e]
  have e_homf : (do_work_home false p).pmr.homf = p.homf := by rw [e]
  have e_homr : (do_work_home false p).pmr.homr = p.homr := by rw [e]
  have hbits : mipHas mi MIP_JOG_REQ = false ∧ mipHas mi MIP_JOGF = false ∧
      mipHas mi MIP_JOGR = false ∧ mi ≠ MIP_DONE ∧ mi ≠ MIP_RETRY ∧
      (p.homf = true → mipHas mi MIP_HOMF = true) ∧
      (p.homf = false → mipHas mi MIP_HOMR = true) := by
    by_cases c : p.homf = true
    · rw [if_pos c] at hmi
      rcases hmi with h | h
      · rw [h]
        exact ⟨by decide, by decide, by decide, by decide, by decide, fun _ => by decide,
          fun c2 => by rw [c] at c2; exact Bool.noConfusion c2⟩
      · rw [h]
        exact ⟨by decide, by decide, by decide, by decide, by decide, fun _ => by decide,
          fun c2 => by rw [c] at c2; exact Bool.noConfusion c2⟩
    · rw [if_neg c] at hmi
      rcases hmi with h | h
      · rw [h]
        exact ⟨by decide, by decide, by decide, by decide, by decide, fun c2 => absurd c2 c,
          fun _ => by decide⟩
      · rw [h]
        exact ⟨by decide, by decide, by decide, by decide, by decide, fun c2 => absurd c2 c,
          fun _ => by decide⟩
  obtain ⟨b1, b2, b3, b4, b5, b6, b7⟩ := hbits
  apply do_work_calm env _ hr1
  · rw [e_mip]
    exact b1
  · right
    constructor
    · rintro ⟨_, ⟨a, b, _⟩ | ⟨a, b, _⟩⟩
      · rw [e_homf] at a
        rw [e_mip] at b
        exact b (b6 a)
      · rw [e_homr] at a
        rw [e_mip] at b
        rcases hb with ⟨_, c, _, _⟩ | ⟨_, c, _, _⟩
        · rw [c] at a
          exact Bool.noConfusion a
        · exact b (b7 c)
    · rintro ⟨_, h | h⟩
      · rw [e_mip, b2] at h
        exact Bool.noConfusion h
      · rw [e_mip, b3] at h
        exact Bool.noConfusion h
  · intro u _
    right
    refine ⟨by rw [e_stup]; exact hstup, Or.inl ⟨by rw [e_mip]; exact b4, by rw [e_mip]; exact b5⟩⟩

/-- Second call, Stop/Pause family, tail: the record left by the limit test
of a first call with SPMG at Stop or Pause. -/
theorem second_call_paused_tail (env : Env) (p u : motorRecord) (hr : rested p)
    (hsp : stopOrPause p = true) (hu : handedOn env p u)
    (hg : closedLoopDol p ∨ ¬ jogReleasedGuard p) :
    (do_work env (do_work_after_collect p u).pmr).eff = [] := by
  obtain ⟨f1, _⟩ := handedOn_fields env p u hu p.lvio (dirSign p.dir)
  have hsetup : setup (do_work_lvio p.lvio (do_work_val_use (dirSign p.dir) u)) = setup p :=
    (setup_lvio _ _).trans ((setup_val_use _ _).trans (setup_handedOn env p u hu))
  have hgq : ∀ s : motorRecord, setup s = setup p → s.mip = p.mip →
      (do_work env s).eff = [] := by
    intro s hs hmip
    apply do_work_calm_paused env s (rested_of_setup _ _ hs hr)
      ((stopOrPause_of_setup _ _ hs).trans hsp)
    rcases hg with h | h
    · exact Or.inl ((closedLoopDol_of_setup _ _ hs).mpr h)
    · right
      right
      rw [jogReleasedGuard_congr s p hmip]
      exact h
  apply do_work_after_collect_cases p u hr.2.2.2 (fun o => (do_work env o.pmr).eff = [])
  · intro _
    obtain ⟨dm, m, e, _⟩ :=
      do_work_rollback_shape (do_work_lvio p.lvio (do_work_val_use (dirSign p.dir) u))
    exact hgq _ ((setup_rollback _).trans hsetup) (by rw [e]; exact f1)
  · intro _ _
    exact hgq _ hsetup f1
  · intro _ h _
    rw [hsp] at h
    exact Bool.noConfusion h
  · intro _ h _
    rw [hsp] at h
    exact Bool.noConfusion h

/-- Second call, Stop/Pause family: on a rested record with SPMG at Stop or
Pause, the second of two successive calls of `do_work` sends nothing. -/
theorem second_call_paused (env : Env) (p : motorRecord) (hr : rested p)
    (hsp : stopOrPause p = true) :
    (do_work env (do_work env p).pmr).eff = [] := by
  have hs1 := do_work_spmg_quiet (stopOrPause p) p hr.1 hr.2.1
  have r3 := hr.2.2.1
  have key := do_work_collect_cases env (dirSign p.dir) (stopOrPause p) p
    (fun _ _ => Or.inl hsp)
    (fun f => do_work_collect env (dirSign p.dir) (stopOrPause p) p = f →
      (do_work env (do_work env p).pmr).eff = [])
    (fun hl hdol hc => by
      rw [do_work_collect_ret env p p _ hs1 r3 hc]
      exact do_work_calm_link env _ (show rested { p with udf := true } from hr) hl hdol)
    (fun hl v hv hc => by
      rw [do_work_collect_next env p p _ hs1 r3 hc]
      exact second_call_paused_tail env p _ hr hsp (Or.inl ⟨hl, v, hv, rfl⟩) (Or.inl hl))
    (fun hl hh hc => by
      rw [do_work_collect_ret env p p _ hs1 r3 hc]
      have e : do_work_home (stopOrPause p) p =
          ⟨RTN_STATUS.OK, { p with dmov := false, mmap.M_DMOV := true }, []⟩ := by
        unfold do_work_home
        rw [if_pos hsp]
      rw [e]
      exact do_work_calm_paused env _
        (show rested { p with dmov := false, mmap.M_DMOV := true } from hr) hsp
        (Or.inr (Or.inl hh)))
    (fun hl hh _ hc => by
      rw [do_work_collect_ret env p p _ hs1 r3 hc]
      obtain ⟨_, b2, b3, _⟩ := mip_jog_stop p.mip
      exact do_work_calm_paused env _ (rested_jog_stop p hr _) hsp
        (Or.inr (Or.inr (by
          rintro ⟨_, h | h⟩
          · have h' : mipHas (mipClear (p.mip ||| MIP_JOG_STOP) (MIP_JOGF ||| MIP_JOGR))
                MIP_JOGF = true := h
            rw [b2] at h'
            exact Bool.noConfusion h'
          · have h' : mipHas (mipClear (p.mip ||| MIP_JOG_STOP) (MIP_JOGF ||| MIP_JOGR))
                MIP_JOGR = true := h
            rw [b3] at h'
            exact Bool.noConfusion h'))))
    (fun _ _ hj _ hc => by
      rw [do_work_collect_ret env p p _ hs1 r3 hc]
      exact do_work_calm_paused env p hr hsp (Or.inr (Or.inr hj)))
    (fun hl _ hj _ hc => by
      rw [do_work_collect_next env p p _ hs1 r3 hc]
      exact second_call_paused_tail env p _ hr hsp (Or.inr ⟨hl, rfl⟩) (Or.inr hj))
  exact key rfl

theorem do_work_cancel_shape (p : motorRecord) :
    ∃ hf hr mm e, do_work_cancel p =
      Flow.ret ⟨RTN_STATUS.OK, { p with homf := hf, homr := hr, mip := MIP_STOP, mmap := mm }, e⟩ ∧
      (hf = true → p.homf = true) ∧ (hr = true → p.homr = true) ∧
      mm.M_MRES = p.mmap.M_MRES ∧ mm.M_ERES = p.mmap.M_ERES ∧ mm.M_UEIP = p.mmap.M_UEIP := by
  unfold do_work_cancel
  simp only []
  split_ifs
  · exact ⟨_, _, _, _, rfl, fun h => Bool.noConfusion h, fun h => h, rfl, rfl, rfl⟩
  · exact ⟨_, _, _, _, rfl, fun h => h, fun h => Bool.noConfusion h, rfl, rfl, rfl⟩
  · exact ⟨_, _, _, _, rfl, fun h => h, fun h => h, rfl, rfl, rfl⟩

/-- The first section of `do_work` outside Stop/Pause with no stop request:
it falls through with `lspg` brought up to `spmg` and MIP unchanged, reset to
`DONE`, or set to `JOG_REQ` (a change to Go with a jog button down). -/
theorem do_work_spmg_pass (s : motorRecord) (hsp : stopOrPause s = false)
    (hstop : s.stop = false) :
    ∃ m c mm, do_work_spmg (stopOrPause s) s =
      Flow.next { s with lspg := s.spmg, mip := m, rcnt := c, mmap := mm } [] ∧
      mm.M_MRES = s.mmap.M_MRES ∧ mm.M_ERES = s.mmap.M_ERES ∧ mm.M_UEIP = s.mmap.M_UEIP ∧
      (m = s.mip ∨ m = MIP_DONE ∨
       (m = MIP_JOG_REQ ∧ s.spmg ≠ s.lspg ∧ s.spmg = motorSPMG.Go ∧
        ((s.jogf = true ∧ ¬ s.hls = true) ∨ (s.jogr = true ∧ ¬ s.lls = true)))) := by
  rw [hsp]
  unfold do_work_spmg
  by_cases edge : s.spmg ≠ s.lspg
  · rw [if_pos (Or.inl edge)]
    simp only [if_pos edge, hstop]
    rw [if_neg (by simp)]
    by_cases hgo : s.spmg = motorSPMG.Go
    · rw [if_pos hgo]
      by_cases hj : (s.jogf = true ∧ ¬ s.hls = true) ∨ (s.jogr = true ∧ ¬ s.lls = true)
      · rw [if_pos hj]
        exact ⟨_, _, _, rfl, rfl, rfl, rfl, Or.inr (Or.inr ⟨rfl, edge, hgo, hj⟩)⟩
      · rw [if_neg hj]
        by_cases hm : s.mip = MIP_STOP
        · rw [if_pos hm]
          exact ⟨_, _, _, rfl, rfl, rfl, rfl, Or.inr (Or.inl rfl)⟩
        · rw [if_neg hm]
          exact ⟨_, _, _, rfl, rfl, rfl, rfl, Or.inl rfl⟩
    · rw [if_neg hgo]
      exact ⟨_, _, _, rfl, rfl, rfl, rfl, Or.inr (Or.inl rfl)⟩
  · have heq : s.spmg = s.lspg := not_not.mp edge
    have h0 : ¬ (s.spmg ≠ s.lspg ∨ s.stop ≠ false) := by
      rintro (h | h)
      · exact edge h
      · exact h hstop
    rw [if_neg h0]
    have e0 : ∀ l, l = s.lspg →
        ({ s with lspg := l, mip := s.mip, rcnt := s.rcnt, mmap := s.mmap } : motorRecord) =
          s := by
      intro l hl
      subst hl
      rfl
    have e := e0 s.spmg heq
    exact ⟨s.mip, s.rcnt, s.mmap, by rw [e], rfl, rfl, rfl, Or.inl rfl⟩

/-- The first section of `do_work` with a stop request or a change of SPMG to
Stop or Pause (not both a stop request and a change of SPMG): it returns with
the request consumed and MIP `STOP`, or MIP `DONE` when MIP was `DONE` or
`RETRY`. -/
theorem do_work_spmg_halt (s : motorRecord) (h1 : s.stop = true ∨ s.spmg ≠ s.lspg)
    (h2 : stopOrPause s = true ∨ s.stop = true) (h3 : ¬ (s.stop = true ∧ s.spmg ≠ s.lspg)) :
    ∃ o, do_work_spmg (stopOrPause s) s = Flow.ret o ∧
      ((∃ dm mm, o.pmr =
          { s with lspg := s.spmg, stop := false, mip := MIP_DONE, dmov := dm, mmap := mm } ∧
          mm.M_MRES = s.mmap.M_MRES ∧ mm.M_ERES = s.mmap.M_ERES ∧
          mm.M_UEIP = s.mmap.M_UEIP ∧
          (s.mip = MIP_DONE ∨ s.mip = MIP_RETRY) ∧ (dm = true ∨ dm = s.dmov)) ∨
       (∃ v lv d ld r lr hf hr pp jf jr mm, o.pmr =
          { s with lspg := s.spmg, stop := false, val := v, lval := lv, dval := d,
                   ldvl := ld, rval := r, lrvl := lr, homf := hf, homr := hr,
                   mip := MIP_STOP, pp := pp, jogf := jf, jogr := jr, mmap := mm } ∧
          mm.M_MRES = s.mmap.M_MRES ∧ mm.M_ERES = s.mmap.M_ERES ∧
          mm.M_UEIP = s.mmap.M_UEIP ∧
          (hf = true → s.homf = true) ∧ (hr = true → s.homr = true))) := by
  have hcond : s.spmg ≠ s.lspg ∨ s.stop ≠ false := by
    rcases h1 with h | h
    · right
      rw [h]
      exact Bool.noConfusion
    · exact Or.inl h
  have hp : (if s.spmg ≠ s.lspg then ({ s with lspg := s.spmg } : motorRecord)
      else { s with stop := false }) = { s with lspg := s.spmg, stop := false } := by
    by_cases edge : s.spmg ≠ s.lspg
    · rw [if_pos edge]
      have hs : s.stop = false := by
        by_contra hne
        exact h3 ⟨by simpa using hne, edge⟩
      have e : ({ s with lspg := s.spmg } : motorRecord) =
          { s with lspg := s.spmg, stop := s.stop } := rfl
      rw [e, hs]
    · rw [if_neg edge]
      have heq : s.spmg = s.lspg := not_not.mp edge
      have e : ({ s with stop := false } : motorRecord) =
          { s with lspg := s.lspg, stop := false } := rfl
      rw [e, heq]
  have hgo : stopOrPause s = true ∨ s.stop = true := h2
  unfold do_work_spmg
  rw [if_pos hcond]
  simp only [hp]
  rw [if_pos hgo]
  by_cases c1 : s.spmg = motorSPMG.Stop ∨ s.stop = true
  · rw [if_pos c1]
    by_cases c2 : s.mip = MIP_DONE ∨ s.mip = MIP_STOP ∨ s.mip = MIP_RETRY
    · rw [if_pos c2]
      by_cases c3 : s.mip = MIP_RETRY
      · rw [if_pos c3]
        exact ⟨_, rfl, Or.inl ⟨_, _, rfl, rfl, rfl, rfl, Or.inr c3, Or.inl rfl⟩⟩
      · rw [if_neg c3]
        rcases c2 with c2 | c2 | c2
        · refine ⟨_, rfl, Or.inl ⟨s.dmov, s.mmap, ?_, rfl, rfl, rfl, Or.inl c2, Or.inr rfl⟩⟩
          show ({ s with lspg := s.spmg, stop := false } : motorRecord) =
            { s with lspg := s.spmg, stop := false, mip := MIP_DONE, dmov := s.dmov,
                     mmap := s.mmap }
          rw [← c2]
        · refine ⟨_, rfl, Or.inr ⟨s.val, s.lval, s.dval, s.ldvl, s.rval, s.lrvl, s.homf,
            s.homr, s.pp, s.jogf, s.jogr, s.mmap, ?_, rfl, rfl, rfl, fun h => h, fun h => h⟩⟩
          show ({ s with lspg := s.spmg, stop := false } : motorRecord) =
            { s with lspg := s.spmg, stop := false, val := s.val, lval := s.lval,
                     dval := s.dval, ldvl := s.ldvl, rval := s.rval, lrvl := s.lrvl,
                     homf := s.homf, homr := s.homr, mip := MIP_STOP, pp := s.pp,
                     jogf := s.jogf, jogr := s.jogr, mmap := s.mmap }
          rw [← c2]
        · exact absurd c2 c3
    · rw [if_neg c2]
      by_cases c4 : s.movn = true
      · rw [if_pos c4]
        obtain ⟨hf, hr, mm, e, ec, k1, k2, k3, k4, k5⟩ := do_work_cancel_shape
          { s with lspg := s.spmg, stop := false, pp := true, jogf := false, jogr := false }
        rw [ec]
        exact ⟨_, rfl, Or.inr ⟨_, _, _, _, _, _, _, _, _, _, _, _, rfl, k3, k4, k5, k1, k2⟩⟩
      · rw [if_neg c4]
        obtain ⟨hf, hr, mm, e, ec, k1, k2, k3, k4, k5⟩ := do_work_cancel_shape
          { s with lspg := s.spmg, stop := false,
                   val := s.rbv, lval := s.rbv, mmap.M_VAL := true,
                   dval := s.drbv, ldvl := s.drbv, mmap.M_DVAL := true,
                   rval := NINT (s.drbv / s.mres), lrvl := NINT (s.drbv / s.mres),
                   mmap.M_RVAL := true }
        rw [ec]
        exact ⟨_, rfl, Or.inr ⟨_, _, _, _, _, _, _, _, _, _, _, _, rfl, k3, k4, k5, k1, k2⟩⟩
  · rw [if_neg c1]
    obtain ⟨hf, hr, mm, e, ec, k1, k2, k3, k4, k5⟩ := do_work_cancel_shape
      { s with lspg := s.spmg, stop := false }
    rw [ec]
    exact ⟨_, rfl, Or.inr ⟨_, _, _, _, _, _, _, _, _, _, _, _, rfl, k3, k4, k5, k1, k2⟩⟩

/-- When the first section of `do_work` falls through to a rested record, the
call does what a call on that record does. -/
theorem do_work_pass_eq (env : Env) (s p : motorRecord)
    (hs1 : do_work_spmg (stopOrPause s) s = Flow.next p [])
    (h1 : p.spmg = p.lspg) (h2 : p.stop = false) (e1 : p.spmg = s.spmg) (e2 : p.dir = s.dir)
    (e3 : p.set = s.set) (e4 : p.lvio = s.lvio) : do_work env s = do_work env p := by
  have hp := do_work_spmg_quiet (stopOrPause s) p h1 h2
  unfold stopOrPause at hs1 hp
  unfold do_work
  simp only [hs1, hp, e1, e2, e3, e4]

/-- Second call after a first call that consumed a stop request or a change
of SPMG to Stop or Pause. -/
theorem second_call_halt (env : Env) (s : motorRecord) (hd : s.dmov = true)
    (hset : s.set = false) (hmarks : resMarks s = (false, false, false))
    (h1 : s.stop = true ∨ s.spmg ≠ s.lspg)
    (h2 : stopOrPause s = true ∨ s.stop = true) (h3 : ¬ (s.stop = true ∧ s.spmg ≠ s.lspg))
    (h : stopOrPause s = true ∨
      ((closedLoopDol s ∨ noHomeButton s) ∧ s.stup ≠ motorSTUP.ON ∧
       (s.mip = MIP_DONE ∨ s.mip = MIP_RETRY → ¬ closedLoopDol s ∧ targetIdle s))) :
    (do_work env (do_work env s).pmr).eff = [] := by
  obtain ⟨m1, m2, m3⟩ := resMarks_clear s hmarks
  obtain ⟨o, ho, hcase⟩ := do_work_spmg_halt s h1 h2 h3
  rw [do_work_spmg_ret env s o ho]
  rcases hcase with ⟨dm, mm, e, k1, k2, k3, hmip, hdm⟩ | 
      ⟨v, lv, d, ld, r, lr, hf, hr, pp, jf, jr, mm, e, k1, k2, k3, hhf, hhr⟩
  · have hdm' : dm = true := by
      rcases hdm with h | h
      · exact h
      · exact h.trans hd
    have hr1 : rested o.pmr := by
      rw [e]
      refine ⟨rfl, rfl, ?_, hset⟩
      unfold resMarks
      simp only [k1, k2, k3, m1, m2, m3]
    have e_sp : stopOrPause o.pmr = stopOrPause s := by rw [e]; rfl
    have e_mip : o.pmr.mip = MIP_DONE := by rw [e]
    have hj : ¬ jogReleasedGuard o.pmr := by
      unfold jogReleasedGuard
      rw [e_mip]
      decide
    rcases h with h | ⟨hb, hst, hidle⟩
    · exact do_work_calm_paused env _ hr1 (e_sp.trans h) (Or.inr (Or.inr hj))
    · obtain ⟨hl, t1, t2, t3, t4, t5, t6⟩ := hidle hmip
      have hnb : noHomeButton s := by
        rcases hb with h | h
        · exact absurd h hl
        · exact h
      have hl1 : ¬ closedLoopDol o.pmr := by
        rw [e]
        exact hl
      apply do_work_calm env _ hr1
      · rw [e_mip]
        decide
      · right
        refine ⟨homeRequested_of_noHomeButton _ ?_, hj⟩
        rw [e]
        exact hnb
      · intro u hu
        right
        refine ⟨by rw [e]; exact hst, Or.inr ⟨by rw [e]; exact hdm', ?_⟩⟩
        rcases hu with ⟨hl', _⟩ | ⟨_, eu⟩
        · exact absurd hl' hl1
        · have htw : do_work_tweak o.pmr = o.pmr :=
            do_work_tweak_quiet _ (by rw [e]; exact t1) (by rw [e]; exact t2)
              (by rw [e]; exact t3) (by rw [e]; exact t4)
          rw [eu, htw, do_work_val_use_dval, e]
          show (if s.val ≠ s.lval then (s.val - s.off) / dirSign s.dir else s.dval) = s.ldvl
          rw [if_neg (not_not.mpr t5)]
          exact t6
  · have hr1 : rested o.pmr := by
      rw [e]
      refine ⟨rfl, rfl, ?_, hset⟩
      unfold resMarks
      simp only [k1, k2, k3, m1, m2, m3]
    have e_sp : stopOrPause o.pmr = stopOrPause s := by rw [e]; rfl
    have e_mip : o.pmr.mip = MIP_STOP := by rw [e]
    have hj : ¬ jogReleasedGuard o.pmr := by
      unfold jogReleasedGuard
      rw [e_mip]
      decide
    rcases h with h | ⟨hb, hst, _⟩
    · exact do_work_calm_paused env _ hr1 (e_sp.trans h) (Or.inr (Or.inr hj))
    · apply do_work_calm env _ hr1
      · rw [e_mip]
        decide
      · rcases hb with hb | hb
        · left
          rw [e]
          exact hb
        · right
          refine ⟨?_, hj⟩
          rw [e]
          rintro ⟨_, ⟨a, _, b⟩ | ⟨a, _, b⟩⟩
          · exact b (hb.1 (hhf a))
          · exact b (hb.2 (hhr a))
      · intro u _
        right
        refine ⟨by rw [e]; exact hst, Or.inl ⟨by rw [e_mip]; decide, by rw [e_mip]; decide⟩⟩

/-- C4 (as amended): for a done-moving record in Use mode with none of the
marks `MRES`, `ERES`, `UEIP` set and not both a stop request and a change of
SPMG pending, the second of two successive calls of `do_work` sends no
command when SPMG is Stop or Pause, or the record is in one of the three
cases `stopCase` (the stop button alone), `homeCase` (one accepted home
request) and `targetCase` (a change of SPMG to Go or Move, a change of
target, a status-update request, or nothing). -/
theorem C4_second_call_silent (env : Env) (pmr : motorRecord)
    (hd : pmr.dmov = true) (hset : pmr.set = false)
    (hmarks : pmr.mmap.M_MRES = false ∧ pmr.mmap.M_ERES = false ∧ pmr.mmap.M_UEIP = false)
    (hboth : ¬ (pmr.stop = true ∧ pmr.spmg ≠ pmr.lspg))
    (h : stopOrPause pmr = true ∨ stopCase pmr ∨ homeCase pmr ∨ targetCase env pmr) :
    transactions (do_work env (do_work env pmr).pmr).eff = [] := by
  have hm : resMarks pmr = (false, false, false) := by
    unfold resMarks
    rw [hmarks.1, hmarks.2.1, hmarks.2.2]
  have pass : stopOrPause pmr = false → pmr.stop = false →
      (∀ p : motorRecord, (∃ m c mm, p =
          { pmr with lspg := pmr.spmg, mip := m, rcnt := c, mmap := mm } ∧
          (m = pmr.mip ∨ m = MIP_DONE ∨
           (m = MIP_JOG_REQ ∧ pmr.spmg ≠ pmr.lspg ∧ pmr.spmg = motorSPMG.Go ∧
            ((pmr.jogf = true ∧ ¬ pmr.hls = true) ∨ (pmr.jogr = true ∧ ¬ pmr.lls = true))))) →
        rested p → do_work env p = do_work env pmr →
        (do_work env (do_work env p).pmr).eff = []) →
      (do_work env (do_work env pmr).pmr).eff = [] := by
    intro hsp hstop hk
    obtain ⟨m, c, mm, hs1, k1, k2, k3, hmi⟩ := do_work_spmg_pass pmr hsp hstop
    have hrp : rested { pmr with lspg := pmr.spmg, mip := m, rcnt := c, mmap := mm } := by
      refine ⟨rfl, hstop, ?_, hset⟩
      unfold resMarks
      simp only [k1, k2, k3, hmarks.1, hmarks.2.1, hmarks.2.2]
    have heq := do_work_pass_eq env pmr _ hs1 rfl hstop rfl rfl rfl rfl
    rw [heq]
    exact hk _ ⟨m, c, mm, rfl, hmi⟩ hrp heq.symm
  have main : (do_work env (do_work env pmr).pmr).eff = [] := by
    by_cases hsp : stopOrPause pmr = true
    · by_cases hA : pmr.stop = true ∨ pmr.spmg ≠ pmr.lspg
      · exact second_call_halt env pmr hd hset hm hA (Or.inl hsp) hboth (Or.inl hsp)
      · have hr : rested pmr := by
          refine ⟨?_, ?_, hm, hset⟩
          · by_contra hne
            exact hA (Or.inr hne)
          · by_contra hne
            exact hA (Or.inl (by simpa using hne))
        exact second_call_paused env pmr hr hsp
    · have hsp' : stopOrPause pmr = false := by simpa using hsp
      rcases h with h | ⟨hstop, hb, hst, hidle⟩ | ⟨hstop, hl, hlvio, hb, hlim, he, hst⟩ |
          ⟨hstop, hreq, hedge, hmip, hnb, hL, hS⟩
      · exact absurd h hsp
      · exact second_call_halt env pmr hd hset hm (Or.inl hstop) (Or.inr hstop) hboth
          (Or.inr ⟨hb, hst, hidle⟩)
      · apply pass hsp' hstop
        rintro p ⟨m, c, mm, e, hmi⟩ hrp _
        have hbits : mipHas m MIP_HOMF = mipHas pmr.mip MIP_HOMF ∨ mipHas m MIP_HOMF = false :=
          by
          rcases hmi with h | h | ⟨h, _⟩
          · exact Or.inl (by rw [h])
          · exact Or.inr (by rw [h]; decide)
          · exact Or.inr (by rw [h]; decide)
        have hbits2 : mipHas m MIP_HOMR = mipHas pmr.mip MIP_HOMR ∨ mipHas m MIP_HOMR = false :=
          by
          rcases hmi with h | h | ⟨h, _⟩
          · exact Or.inl (by rw [h])
          · exact Or.inr (by rw [h]; decide)
          · exact Or.inr (by rw [h]; decide)
        subst e
        apply second_call_home env _ hrp hsp' hl hlvio _ hlim he hst
        rcases hb with ⟨a, b, c', d⟩ | ⟨a, b, c', d⟩
        · left
          refine ⟨a, b, c', ?_⟩
          rcases hbits with h | h
          · exact h.trans d
          · exact h
        · right
          refine ⟨a, b, c', ?_⟩
          rcases hbits2 with h | h
          · exact h.trans d
          · exact h
      · apply pass hsp' hstop
        rintro p ⟨m, c, mm, e, hmi⟩ hrp heq
        have hm2 : mipHas m MIP_JOG_REQ = false ∧ m ≠ MIP_RETRY := by
          rcases hmi with h | h | ⟨_, h1, h2, h3⟩
          · rw [h]
            exact ⟨hreq, hmip⟩
          · rw [h]
            exact ⟨by decide, by decide⟩
          · exfalso
            apply hedge
            refine ⟨h1, h2, ?_⟩
            rcases h3 with ⟨a, b⟩ | ⟨a, b⟩
            · exact Or.inl ⟨a, by simpa using b⟩
            · exact Or.inr ⟨a, by simpa using b⟩
        subst e
        refine second_call_target env _ hrp hsp' hd hm2.1 hm2.2 hnb hL ?_
        intro hon
        rw [heq]
        exact hS hon
  rw [main]
  rfl

theorem C4_second_call_silent_witness :
    (targetCase {} scenarioB ∧
      transactions (do_work {} (do_work {} scenarioB).pmr).eff = []) ∧
    (homeCase homeForward ∧
      transactions (do_work {} (do_work {} homeForward).pmr).eff = []) ∧
    (stopCase stopIdle ∧
      transactions (do_work {} (do_work {} stopIdle).pmr).eff = []) ∧
    (stopOrPause pausedTarget = true ∧
      transactions (do_work {} (do_work {} pausedTarget).pmr).eff = []) := by
  have h1 : targetCase {} scenarioB :=
    ⟨rfl, by decide, fun h => h.1 rfl, by decide,
      Or.inr ⟨fun h => Bool.noConfusion h, fun h => Bool.noConfusion h⟩,
      fun h => menuOmsl.noConfusion h.1, fun h => motorSTUP.noConfusion h⟩
  have h2 : homeCase homeForward :=
    ⟨rfl, fun h => menuOmsl.noConfusion h.1, rfl, Or.inl ⟨rfl, rfl, rfl, by decide⟩,
      Or.inl ⟨rfl, rfl⟩, Or.inr (by unfold homeForward; norm_num),
      fun h => motorSTUP.noConfusion h⟩
  have h3 : stopCase stopIdle :=
    ⟨rfl, Or.inr ⟨fun h => Bool.noConfusion h, fun h => Bool.noConfusion h⟩,
      fun h => motorSTUP.noConfusion h,
      fun _ => ⟨fun h => menuOmsl.noConfusion h.1, rfl, rfl, rfl, rfl, rfl, rfl⟩⟩
  have h4 : stopOrPause pausedTarget = true := by decide
  exact ⟨⟨h1, C4_second_call_silent {} scenarioB rfl rfl ⟨rfl, rfl, rfl⟩
      (fun h => Bool.noConfusion h.1) (Or.inr (Or.inr (Or.inr h1)))⟩,
    ⟨h2, C4_second_call_silent {} homeForward rfl rfl ⟨rfl, rfl, rfl⟩
      (fun h => Bool.noConfusion h.1) (Or.inr (Or.inr (Or.inl h2)))⟩,
    ⟨h3, C4_second_call_silent {} stopIdle rfl rfl ⟨rfl, rfl, rfl⟩
      (fun h => h.2 rfl) (Or.inr (Or.inl h3))⟩,
    ⟨h4, C4_second_call_silent {} pausedTarget rfl rfl ⟨rfl, rfl, rfl⟩
      (fun h => Bool.noConfusion h.1) (Or.inl h4)⟩⟩

/-- C4 (counterexample): done-moving records on which the second of two
successive calls of `do_work`, with no field written in between, sends a
command.  (1) A queued jog: the first call starts it, the second stops it.
(2) A marked resolution change and (3) Set mode with a new dial value: the
position is loaded twice.  (4) Stop button with a change of SPMG:
`STOP_AXIS` twice.  Stop button with (5) a new target, (6) a home request,
(7) a status-update request: the second call acts on what the first left
pending.  (8) Home request with a status-update request.  (9) Both home
buttons.  (10) Home request behind a recorded limit violation.  (11) Home
request refused at the soft limit, with a new target.  (12) Home request with
`eres = 0`: the first call marks `ERES`.  (13) Status-update request with a
target beyond the limit.  (14) MIP `RETRY` with a held target.  (15)
Closed-loop link with a directly written dial value.  (16) Change of SPMG to Go
with a jog button down.  (17) Stop button in closed-loop mode with a new link
value. -/
theorem C4_repeat_counterexample :
    (jogQueued.dmov = true ∧
      (do_work {} (do_work {} jogQueued).pmr).eff = [stopAxis]) ∧
    (ueipChanged.dmov = true ∧
      (do_work {} (do_work {} ueipChanged).pmr).eff =
        [Effect.transaction [⟨motor_cmnd.LOAD_POS, [0]⟩], getInfo]) ∧
    (setNewDial.dmov = true ∧
      (do_work {} (do_work {} setNewDial).pmr).eff =
        [Effect.transaction [⟨motor_cmnd.LOAD_POS, [1]⟩], getInfo]) ∧
    (stopAndSwitch.dmov = true ∧
      (do_work {} (do_work {} stopAndSwitch).pmr).eff = [stopAxis]) ∧
    (stopAndTarget.dmov = true ∧
      emitsMove (do_work {} (do_work {} stopAndTarget).pmr).eff = true) ∧
    (stopAndHome.dmov = true ∧
      (do_work {} (do_work {} stopAndHome).pmr).eff =
        [Effect.transaction
          [⟨motor_cmnd.SET_VEL_BASE, [0]⟩, ⟨motor_cmnd.SET_VELOCITY, [0]⟩,
           ⟨motor_cmnd.HOME_FOR, [0]⟩, ⟨motor_cmnd.GO, []⟩]]) ∧
    (stopAndStatus.dmov = true ∧
      (do_work {} (do_work {} stopAndStatus).pmr).eff = [getInfo]) ∧
    (homeAndStatus.dmov = true ∧
      (do_work {} (do_work {} homeAndStatus).pmr).eff = [getInfo]) ∧
    (homeBoth.dmov = true ∧
      (do_work {} (do_work {} homeBoth).pmr).eff =
        [Effect.transaction
          [⟨motor_cmnd.SET_VEL_BASE, [0]⟩, ⟨motor_cmnd.SET_VELOCITY, [0]⟩,
           ⟨motor_cmnd.HOME_FOR, [0]⟩, ⟨motor_cmnd.GO, []⟩]]) ∧
    (homeAfterViolation.dmov = true ∧
      (do_work {} (do_work {} homeAfterViolation).pmr).eff =
        [Effect.transaction
          [⟨motor_cmnd.SET_VEL_BASE, [0]⟩, ⟨motor_cmnd.SET_VELOCITY, [0]⟩,
           ⟨motor_cmnd.HOME_FOR, [0]⟩, ⟨motor_cmnd.GO, []⟩]]) ∧
    (homeAtLimit.dmov = true ∧
      emitsMove (do_work {} (do_work {} homeAtLimit).pmr).eff = true) ∧
    (homeZeroEres.dmov = true ∧
      transactions (do_work {} (do_work {} homeZeroEres).pmr).eff =
        [[⟨motor_cmnd.LOAD_POS, [0]⟩], [⟨motor_cmnd.GET_INFO, []⟩]]) ∧
    (statusBeyondLimit.dmov = true ∧
      (do_work {} (do_work {} statusBeyondLimit).pmr).eff = [getInfo]) ∧
    (retryHeld.dmov = true ∧ (do_work {} retryHeld).eff = [] ∧
      emitsMove (do_work {} (do_work {} retryHeld).pmr).eff = true) ∧
    (linkAndDial.dmov = true ∧ (do_work { dol := some 0 } linkAndDial).eff = [] ∧
      emitsMove
        (do_work { dol := some 0 } (do_work { dol := some 0 } linkAndDial).pmr).eff = true) ∧
    (goWithJog.dmov = true ∧
      (do_work {} (do_work {} goWithJog).pmr).eff = [stopAxis]) ∧
    (stopAndLink.dmov = true ∧
      (do_work { dol := some 1 } stopAndLink).eff = [stopAxis] ∧
      emitsMove
        (do_work { dol := some 1 } (do_work { dol := some 1 } stopAndLink).pmr).eff = true) := by
  refine ⟨⟨rfl, ?_⟩, ⟨rfl, ?_⟩, ⟨rfl, ?_⟩, ⟨rfl, ?_⟩, ⟨rfl, ?_⟩, ⟨rfl, ?_⟩, ⟨rfl, ?_⟩,
    ⟨rfl, ?_⟩, ⟨rfl, ?_⟩, ⟨rfl, ?_⟩, ⟨rfl, ?_⟩, ⟨rfl, ?_⟩, ⟨rfl, ?_⟩, ⟨rfl, ?_, ?_⟩,
    ⟨rfl, ?_, ?_⟩, ⟨rfl, ?_⟩, ⟨rfl, ?_, ?_⟩⟩
  all_goals decide!

end Motor
